import Mathlib

/-! # rich-core: the coredump reducer

A shallow embedding of the reducer path of `src/core-reducer` (the classes
`RawElfWriter`, `ElfCoreReader` and `Reducer`) together with machine-checked
statements about the reduced core it emits.

Conventions of the embedding

* The build is parameterised by `WordSize` (`__WORDSIZE` in `defines.h`).
  `ADDRESS` and `size_t` values are natural numbers; every C operation that can
  wrap is followed by an explicit `% wordMod ws`.
* Raw memory is made of `Byte`s.  Memory that is only read (the mapped core,
  C strings, records handed to the writer) is a `List Byte` that starts at the
  pointer; a read past its end yields `0` (the tail of a file mapping is
  zero filled).  The writer's `malloc`ed buffer is a function from the absolute
  buffer offset to the byte stored there.
* Multi-byte words are little endian (ARM and i386, the two register layouts
  the reducer knows).
* The ELF header and the program-header table at the start of the writer's
  buffer are kept in their typed view (`Ehdr`, `List Phdr`), exactly as the
  C++ code accesses them through `elfHeader` and `programHeaders`.
-/

namespace RichCore

/-! ## ELF primitives (`defines.h`) -/

/-- Build-time word size: the two branches of `#if __WORDSIZE == 32` in `defines.h`. -/
inductive WordSize where
  | w32 : WordSize
  | w64 : WordSize
deriving DecidableEq, Repr

/-- One byte of raw memory. -/
abbrev Byte := UInt8

/-- The value of `sizeof(ADDRESS)`: `uint32_t` or `uint64_t`. -/
def sizeofADDRESS : WordSize → Nat
  | .w32 => 4
  | .w64 => 8

/-- Number of values of an `ADDRESS` (and of a `size_t`, which has the same width). -/
def wordMod (ws : WordSize) : Nat := 2 ^ (8 * sizeofADDRESS ws)

/-- The value of `sizeof(Ehdr)`: `Elf32_Ehdr` or `Elf64_Ehdr`. -/
def sizeofEhdr : WordSize → Nat
  | .w32 => 52
  | .w64 => 64

/-- The value of `sizeof(Phdr)`: `Elf32_Phdr` or `Elf64_Phdr`. -/
def sizeofPhdr : WordSize → Nat
  | .w32 => 32
  | .w64 => 56

/-- The value of `sizeof(Elf_Dyn)`. -/
def sizeofDyn : WordSize → Nat
  | .w32 => 8
  | .w64 => 16

/-- The value of `sizeof(Elf_SWord)`: `Elf32_Sword` or `Elf64_Sxword`. -/
def sizeofSWord : WordSize → Nat
  | .w32 => 4
  | .w64 => 8

/-- The value of `sizeof(Nhdr)`: three 32-bit words in both ELF classes. -/
def sizeofNhdr : Nat := 12

/-- The macro `LM_NAME` of `defines.h`. -/
def LM_NAME : WordSize → Nat
  | .w32 => 4
  | .w64 => 8

/-- The macro `R_DEBUG_STRUCT_SIZE` of `rawelfwriter.cpp`. -/
def R_DEBUG_STRUCT_SIZE : WordSize → Nat
  | .w32 => 20
  | .w64 => 40

/-- The macro `LM_BUFFER_DATA_SIZE` of `rawelfwriter.cpp`. -/
def LM_BUFFER_DATA_SIZE : Nat := 512

/-- The macro `STACK_ADDITION` of `reducer.cpp`. -/
def STACK_ADDITION : Nat := 128

/-- The macro `PREDEFINED_HEAP_ADDRESS` of `reducer.cpp`. -/
def PREDEFINED_HEAP_ADDRESS : Nat := 4

/-- The value of `INT_MAX` (`int` is 32 bits wide in both builds). -/
def INT_MAX : Int := 2147483647

def PT_NULL : Nat := 0
def PT_LOAD : Nat := 1
def PT_NOTE : Nat := 4
def PT_PHDR : Nat := 6
def PF_W : Nat := 2
def PF_R : Nat := 4
def DT_NULL : Nat := 0
def DT_DEBUG : Nat := 21
def NT_PRSTATUS : Nat := 1
def NT_PRPSINFO : Nat := 3
def NT_AUXV : Nat := 6
def AT_NULL : Nat := 0
def AT_PHDR : Nat := 3

/-- A program header (`Elf32_Phdr` / `Elf64_Phdr`), field by field. -/
structure Phdr where
  p_type : Nat
  p_offset : Nat
  p_vaddr : Nat
  p_paddr : Nat
  p_filesz : Nat
  p_memsz : Nat
  p_flags : Nat
  p_align : Nat
deriving DecidableEq, Repr

/-- The all-zero program header left by `memset(programHeaders, 0, ...)`. -/
def zeroPhdr : Phdr :=
  { p_type := 0, p_offset := 0, p_vaddr := 0, p_paddr := 0,
    p_filesz := 0, p_memsz := 0, p_flags := 0, p_align := 0 }

/-- An ELF file header (`Elf32_Ehdr` / `Elf64_Ehdr`), field by field. -/
structure Ehdr where
  e_ident : List Byte
  e_type : Nat
  e_machine : Nat
  e_version : Nat
  e_entry : Nat
  e_phoff : Nat
  e_shoff : Nat
  e_flags : Nat
  e_ehsize : Nat
  e_phentsize : Nat
  e_phnum : Nat
  e_shentsize : Nat
  e_shnum : Nat
  e_shstrndx : Nat
deriving DecidableEq, Repr

/-- An ELF header whose bytes are all zero. -/
def zeroEhdr : Ehdr :=
  { e_ident := List.replicate 16 0, e_type := 0, e_machine := 0, e_version := 0,
    e_entry := 0, e_phoff := 0, e_shoff := 0, e_flags := 0, e_ehsize := 0,
    e_phentsize := 0, e_phnum := 0, e_shentsize := 0, e_shnum := 0, e_shstrndx := 0 }

/-- The struct `LinkMap` of `rawelfwriter.cpp`: five `ADDRESS` words. -/
structure LinkMap where
  addressOffset : Nat
  nameOffset : Nat
  ldOffset : Nat
  nextLinkMapStruct : Nat
  previousLinkMapStruct : Nat
deriving DecidableEq, Repr

/-- The value of `sizeof(LinkMap)`. -/
def sizeofLinkMap (ws : WordSize) : Nat := 5 * sizeofADDRESS ws

/-! ## Raw memory -/

/-- Little-endian bytes of the low `n` bytes of `v`. -/
def encodeLE : Nat → Nat → List Byte
  | 0, _ => []
  | n + 1, v => UInt8.ofNat (v % 256) :: encodeLE n (v / 256)

/-- Value of a little-endian byte string. -/
def decodeLE : List Byte → Nat
  | [] => 0
  | b :: bs => b.toNat + 256 * decodeLE bs

/-- The `n` bytes found at `src + off`; bytes past the end of `src` read as `0`. -/
def readBytes (src : List Byte) (off n : Nat) : List Byte :=
  (List.range n).map (fun i => src.getD (off + i) 0)

/-- The `ADDRESS` stored at `src + off`. -/
def readWord (ws : WordSize) (src : List Byte) (off : Nat) : Nat :=
  decodeLE (readBytes src off (sizeofADDRESS ws))

/-- The 32-bit word stored at `src + off`. -/
def readU32 (src : List Byte) (off : Nat) : Nat :=
  decodeLE (readBytes src off 4)

/-- The call `memcpy(buffer + dst, src, n)` on the writer's buffer. -/
def memcpy (mem : Nat → Byte) (dst : Nat) (src : List Byte) (n : Nat) : Nat → Byte :=
  fun i => if dst ≤ i ∧ i < dst + n then src.getD (i - dst) 0 else mem i

/-- The call `memcpy(buffer + dst, src, n)` for a destination that pointer
arithmetic may have carried round the address space: byte `k` of the copy goes
to the offset `(dst + k) % 2^w` of the buffer. -/
def memcpyWrapped (ws : WordSize) (mem : Nat → Byte) (dst : Nat) (src : List Byte) (n : Nat) :
    Nat → Byte :=
  fun i =>
    if i < wordMod ws ∧ (i + wordMod ws - dst % wordMod ws) % wordMod ws < n
    then src.getD ((i + wordMod ws - dst % wordMod ws) % wordMod ws) 0 else mem i

/-- The `n` bytes stored in the buffer from offset `off` on. -/
def bufferBytes (mem : Nat → Byte) (off n : Nat) : List Byte :=
  (List.range n).map (fun i => mem (off + i))

/-- The `ADDRESS` stored in the buffer at offset `off`. -/
def bufferWord (ws : WordSize) (mem : Nat → Byte) (off : Nat) : Nat :=
  decodeLE (bufferBytes mem off (sizeofADDRESS ws))

/-- The C string that starts at a pointer: the bytes before the first NUL. -/
def cstring (s : List Byte) : List Byte :=
  s.takeWhile (fun b => b != 0)

/-- The value of `strlen(s)`. -/
def strlen (s : List Byte) : Nat :=
  (cstring s).length

/-- The five words of a `LinkMap` in memory order. -/
def encodeLinkMap (ws : WordSize) (lm : LinkMap) : List Byte :=
  encodeLE (sizeofADDRESS ws) lm.addressOffset ++
  encodeLE (sizeofADDRESS ws) lm.nameOffset ++
  encodeLE (sizeofADDRESS ws) lm.ldOffset ++
  encodeLE (sizeofADDRESS ws) lm.nextLinkMapStruct ++
  encodeLE (sizeofADDRESS ws) lm.previousLinkMapStruct

/-- The `LinkMap` found at `src + off` (the cast `(LinkMap *)linkMapStart`). -/
def readLinkMap (ws : WordSize) (src : List Byte) (off : Nat) : LinkMap :=
  { addressOffset := readWord ws src off
    nameOffset := readWord ws src (off + sizeofADDRESS ws)
    ldOffset := readWord ws src (off + 2 * sizeofADDRESS ws)
    nextLinkMapStruct := readWord ws src (off + 3 * sizeofADDRESS ws)
    previousLinkMapStruct := readWord ws src (off + 4 * sizeofADDRESS ws) }

/-- The `LinkMap` stored in the writer's buffer at offset `off`. -/
def bufferLinkMap (ws : WordSize) (mem : Nat → Byte) (off : Nat) : LinkMap :=
  { addressOffset := bufferWord ws mem off
    nameOffset := bufferWord ws mem (off + sizeofADDRESS ws)
    ldOffset := bufferWord ws mem (off + 2 * sizeofADDRESS ws)
    nextLinkMapStruct := bufferWord ws mem (off + 3 * sizeofADDRESS ws)
    previousLinkMapStruct := bufferWord ws mem (off + 4 * sizeofADDRESS ws) }

/-! ## ElfCoreReader (`elfcorereader.cpp`) -/

/-- The state of an `ElfCoreReader` after a successful `initalize`.

`file` is the raw image returned by `elf_rawfile`, `elfHeader` the typed view of
its first bytes and `programHeaders i` the typed view of
`((Phdr *)((char *)elfHeader + e_phoff))[i]`.  The view is total: an index at or
past `e_phnum` yields whatever the image holds after the table. -/
structure ElfCoreReader where
  file : List Byte
  elfHeader : Ehdr
  programHeaders : Nat → Phdr

namespace ElfCoreReader

/-- The member `fileSize`, taken from `fstat`. -/
def fileSize (c : ElfCoreReader) : Nat := c.file.length

/-- The accessor `elfFileHeader()`. -/
def elfFileHeader (c : ElfCoreReader) : Ehdr := c.elfHeader

/-- The `while (first <= last)` loop of `getSegmentByAddress`; `first`, `last` and
`mid` are C `int`s.  Every iteration shrinks `last - first`, so `e_phnum + 2`
rounds of fuel are never used up. -/
def getSegmentByAddressLoop (ws : WordSize) (c : ElfCoreReader) (toMatch : Nat) :
    Nat → Int → Int → Option Phdr
  | 0, _, _ => none
  | fuel + 1, first, last =>
    if first ≤ last then
      let mid : Int := (first + last) / 2
      let ph := c.programHeaders mid.toNat
      if toMatch < ph.p_vaddr then
        getSegmentByAddressLoop ws c toMatch fuel first (mid - 1)
      else if (ph.p_vaddr + ph.p_filesz) % wordMod ws ≤ toMatch then
        getSegmentByAddressLoop ws c toMatch fuel (mid + 1) last
      else
        some ph
    else
      none

/-- The method `ElfCoreReader::getSegmentByAddress`. -/
def getSegmentByAddress (ws : WordSize) (c : ElfCoreReader) (toMatch : Nat) : Option Phdr :=
  getSegmentByAddressLoop ws c toMatch (c.elfHeader.e_phnum + 2) 0 c.elfHeader.e_phnum

/-- The method `ElfCoreReader::getSegmentByType`. -/
def getSegmentByType (c : ElfCoreReader) (toMatch : Nat) : Option Phdr :=
  ((List.range c.elfHeader.e_phnum).map c.programHeaders).find? (fun ph => ph.p_type == toMatch)

/-- The method `ElfCoreReader::getSegmentByIndex`. -/
def getSegmentByIndex (c : ElfCoreReader) (index : Nat) : Option Phdr :=
  if index < c.elfHeader.e_phnum then some (c.programHeaders index) else none

/-- The method `ElfCoreReader::getDataByOffset`: the memory from `elfHeader + offset` on. -/
def getDataByOffset (c : ElfCoreReader) (offset : Nat) : Option (List Byte) :=
  if offset < c.fileSize then some (c.file.drop offset) else none

end ElfCoreReader

/-! ## RawElfWriter (`rawelfwriter.cpp`) -/

/-- What the operating system answers to the writer. -/
structure Env where
  openFd : Int
  mallocOk : Bool
  writeOk : Bool

/-- The members of `RawElfWriter`.

`bufferAllocated` is `buffer != NULL` and `buffer` the contents of the allocation
by absolute offset; `programHeadersSet` is `programHeaders != NULL`, and
`elfHeader` / `programHeaders` are the typed views of the first
`sizeof(Ehdr) + numProgramHeaders * sizeof(Phdr)` bytes of the buffer. -/
structure RawElfWriter where
  bufferAllocated : Bool
  buffer : Nat → Byte
  fd : Int
  elfHeader : Ehdr
  programHeadersSet : Bool
  programHeaders : List Phdr
  currentBufferSize : Nat
  offset : Nat
  numProgramHeaders : Nat
  currentProgramHeader : Nat
  previousLinkAddress : Nat
  currentLinkMapSize : Nat
  linkMapHeadAddress : Nat
  isBufferSorted : Bool

/-- The bytes handed to `::write(fd, buffer, offset)`: `size` bytes, of which the
ELF header and the program-header table are given in their typed view and the
rest by `bytes` (absolute file offsets). -/
structure ElfFile where
  elfHeader : Ehdr
  programHeaders : List Phdr
  bytes : Nat → Byte
  size : Nat

/-- The function `compareProgramHeaders`, the `qsort` callback. -/
def compareProgramHeaders (first second : Phdr) : Int :=
  if first.p_vaddr < second.p_vaddr then -1
  else if first.p_vaddr > second.p_vaddr then 1
  else 0

/-- The libc call `qsort(table, n, sizeof(Phdr), compareProgramHeaders)`, as a
sort of the table under the callback. -/
def qsort (table : List Phdr) : List Phdr :=
  table.insertionSort (fun a b => compareProgramHeaders a b ≤ 0)

/-- Assignment to fields of `programHeaders[i]`. -/
def updateSlot (table : List Phdr) (i : Nat) (f : Phdr → Phdr) : List Phdr :=
  match table[i]? with
  | some ph => table.set i (f ph)
  | none => table

namespace RawElfWriter

/-- The constructor `RawElfWriter::RawElfWriter()`. -/
def new : RawElfWriter :=
  { bufferAllocated := false, buffer := fun _ => 0, fd := -1, elfHeader := zeroEhdr,
    programHeadersSet := false, programHeaders := [], currentBufferSize := 0, offset := 0,
    numProgramHeaders := 0, currentProgramHeader := 0, previousLinkAddress := 0,
    currentLinkMapSize := 0, linkMapHeadAddress := 0, isBufferSorted := false }

/-- The method `RawElfWriter::initalize`. -/
def initalize (ws : WordSize) (env : Env) (w : RawElfWriter) (fileName : Option String)
    (numberOfSegments initalSizeOfData : Nat) : Bool × RawElfWriter :=
  match fileName with
  | none => (false, w)
  | some _ =>
    if env.openFd < 0 then (false, { w with fd := env.openFd })
    else
      let size := (sizeofEhdr ws + numberOfSegments * sizeofPhdr ws + initalSizeOfData) % wordMod ws
      if !env.mallocOk then (false, { w with fd := env.openFd, currentBufferSize := size })
      else
        (true, { w with fd := env.openFd, currentBufferSize := size, bufferAllocated := true,
                        numProgramHeaders := numberOfSegments,
                        offset := (w.offset + sizeofEhdr ws) % wordMod ws })

/-- The method `RawElfWriter::copyElfHeader`. -/
def copyElfHeader (ws : WordSize) (w : RawElfWriter) (headerToCopy : Option Ehdr) : RawElfWriter :=
  match headerToCopy with
  | none => w
  | some h =>
    { w with elfHeader := { h with e_shnum := 0, e_shstrndx := 0, e_shoff := 0,
                                   e_phnum := w.numProgramHeaders % 65536,
                                   e_phoff := sizeofEhdr ws }
             programHeadersSet := true
             programHeaders := List.replicate w.numProgramHeaders zeroPhdr
             offset := (w.offset + sizeofPhdr ws * w.numProgramHeaders) % wordMod ws }

/-- The method `RawElfWriter::reallocate` (`realloc` keeps the contents; it is
taken to succeed). -/
def reallocate (ws : WordSize) (w : RawElfWriter) (amountRequired : Nat) : RawElfWriter :=
  { w with currentBufferSize := (w.currentBufferSize + amountRequired) % wordMod ws }

/-- The method `RawElfWriter::copySegment`; the result is the offset of
`writePointer` in the buffer, or `none` for `NULL`.  The guard adds
`overwriteOffset` and `overwriteSize` as `size_t`, and the target
`writePointer + overwriteOffset` is pointer arithmetic, so both are taken
modulo the word: a target that wraps lies before `writePointer`, and a copy
that runs past the last address goes on at the start of the buffer.  The header
table and the ELF header are kept as typed values next to the byte buffer. -/
def copySegment (ws : WordSize) (w : RawElfWriter) (headerToCopy : Option Phdr)
    (data : Option (List Byte)) (overwriteData : Option (List Byte))
    (overwriteOffset overwriteSize : Nat) : Option Nat × RawElfWriter :=
  match headerToCopy, data with
  | some h, some d =>
    if w.currentProgramHeader ≥ w.numProgramHeaders then (none, w)
    else
      let w1 := if (w.offset + h.p_filesz) % wordMod ws > w.currentBufferSize
                then w.reallocate ws h.p_filesz else w
      let table := w1.programHeaders.set w1.currentProgramHeader { h with p_offset := w1.offset }
      let writePointer := w1.offset
      let copied := memcpy w1.buffer writePointer d h.p_filesz
      let patched :=
        match overwriteData with
        | some o =>
          if (overwriteOffset + overwriteSize) % wordMod ws < h.p_filesz
          then memcpyWrapped ws copied (writePointer + overwriteOffset) o overwriteSize
          else copied
        | none => copied
      (some writePointer,
       { w1 with programHeaders := table, buffer := patched,
                 offset := (w1.offset + h.p_filesz) % wordMod ws,
                 currentProgramHeader := w1.currentProgramHeader + 1 })
  | _, _ => (none, w)

/-- The method `RawElfWriter::startLinkMapSegment`. -/
def startLinkMapSegment (w : RawElfWriter) (heapAddress : Nat) : RawElfWriter :=
  let table := updateSlot w.programHeaders w.currentProgramHeader
    (fun ph => { ph with p_type := PT_LOAD, p_vaddr := heapAddress, p_flags := PF_R ||| PF_W,
                         p_offset := w.offset, p_align := 1 })
  { w with programHeaders := table }

/-- The method `RawElfWriter::addR_DebugStruct`; returns the `ADDRESS` found in the
second word of the record handed in. -/
def addR_DebugStruct (ws : WordSize) (w : RawElfWriter) (rDebugStart : Option (List Byte)) :
    Nat × RawElfWriter :=
  match rDebugStart with
  | none => (0, w)
  | some rd =>
    let w1 := if (R_DEBUG_STRUCT_SIZE ws + w.offset) % wordMod ws > w.currentBufferSize
              then w.reallocate ws ((R_DEBUG_STRUCT_SIZE ws + w.offset + LM_BUFFER_DATA_SIZE) % wordMod ws)
              else w
    let writePointer := w1.offset
    let copied := memcpy w1.buffer writePointer rd (R_DEBUG_STRUCT_SIZE ws)
    let head := ((w1.programHeaders.getD w1.currentProgramHeader zeroPhdr).p_vaddr
                  + R_DEBUG_STRUCT_SIZE ws) % wordMod ws
    let forged := memcpy copied (writePointer + sizeofADDRESS ws)
                    (encodeLE (sizeofADDRESS ws) head) (sizeofADDRESS ws)
    (readWord ws rd (sizeofADDRESS ws),
     { w1 with buffer := forged, offset := (w1.offset + R_DEBUG_STRUCT_SIZE ws) % wordMod ws,
               linkMapHeadAddress := head })

/-- The method `RawElfWriter::createR_DebugStruct`. -/
def createR_DebugStruct (ws : WordSize) (w : RawElfWriter) : Nat × RawElfWriter :=
  w.addR_DebugStruct ws (some (List.replicate (R_DEBUG_STRUCT_SIZE ws) 0))

/-- The method `RawElfWriter::addLinkMapSegment`; returns
`LM_To_Copy->nextLinkMapStruct`. -/
def addLinkMapSegment (ws : WordSize) (w : RawElfWriter) (linkMapStart : Option LinkMap)
    (stringStart : Option (List Byte)) : Nat × RawElfWriter :=
  match linkMapStart with
  | none => (0, w)
  | some toCopy =>
    let stringSize :=
      match stringStart with
      | some s => (1 + strlen s) % wordMod ws
      | none => 1
    let w1 := if (sizeofLinkMap ws + stringSize + w.offset) % wordMod ws > w.currentBufferSize
              then w.reallocate ws
                     ((sizeofLinkMap ws + stringSize + w.offset + LM_BUFFER_DATA_SIZE) % wordMod ws)
              else w
    let written : LinkMap :=
      { addressOffset := toCopy.addressOffset
        nameOffset := (w1.linkMapHeadAddress + w1.currentLinkMapSize + sizeofLinkMap ws) % wordMod ws
        ldOffset := toCopy.ldOffset
        nextLinkMapStruct :=
          if toCopy.nextLinkMapStruct ≠ 0 then
            (w1.linkMapHeadAddress + w1.currentLinkMapSize + sizeofLinkMap ws + stringSize)
              % wordMod ws
          else 0
        previousLinkMapStruct := w1.previousLinkAddress }
    let withRecord := memcpy w1.buffer w1.offset (encodeLinkMap ws written) (sizeofLinkMap ws)
    let offset1 := (w1.offset + sizeofLinkMap ws) % wordMod ws
    let withName := memcpy withRecord offset1 (cstring (stringStart.getD [])) (stringSize - 1)
    let withNul := memcpy withName (offset1 + (stringSize - 1)) [0] 1
    (toCopy.nextLinkMapStruct,
     { w1 with buffer := withNul
               offset := (offset1 + stringSize) % wordMod ws
               previousLinkAddress := (w1.linkMapHeadAddress + w1.currentLinkMapSize) % wordMod ws
               currentLinkMapSize := (w1.currentLinkMapSize + (sizeofLinkMap ws + stringSize))
                                       % wordMod ws })

/-- The method `RawElfWriter::createAndAddLinkMapSegment`. -/
def createAndAddLinkMapSegment (ws : WordSize) (w : RawElfWriter) (memoryAddress : Nat)
    (stringStart : Option (List Byte)) (isLast isFirst : Bool) : Nat × RawElfWriter :=
  let link : LinkMap :=
    { addressOffset := memoryAddress, nameOffset := 0, ldOffset := 0,
      nextLinkMapStruct := if !isLast then 1 else 0,
      previousLinkMapStruct := if !isFirst then 1 else 0 }
  w.addLinkMapSegment ws (some link) stringStart

/-- The method `RawElfWriter::finalizeLinkMapSegment`. -/
def finalizeLinkMapSegment (ws : WordSize) (w : RawElfWriter) : RawElfWriter :=
  let table := updateSlot w.programHeaders w.currentProgramHeader
    (fun ph => { ph with p_filesz := (w.offset + wordMod ws - ph.p_offset) % wordMod ws,
                         p_memsz := (w.offset + wordMod ws - ph.p_offset) % wordMod ws })
  { w with programHeaders := table }

/-- The method `RawElfWriter::sortBuffer`. -/
def sortBuffer (w : RawElfWriter) : RawElfWriter :=
  if w.isBufferSorted || !w.bufferAllocated || !w.programHeadersSet then w
  else
    { w with programHeaders := qsort (w.programHeaders.take w.numProgramHeaders)
                                 ++ w.programHeaders.drop w.numProgramHeaders
             isBufferSorted := true }

/-- The method `RawElfWriter::write`: the result, the writer afterwards, and the
file contents when `::write` stored them. -/
def write (env : Env) (w : RawElfWriter) : Bool × RawElfWriter × Option ElfFile :=
  if w.bufferAllocated then
    let w1 := if !w.isBufferSorted then w.sortBuffer else w
    if !env.writeOk then (false, w1, none)
    else
      (true, { w1 with bufferAllocated := false },
       some { elfHeader := w1.elfHeader, programHeaders := w1.programHeaders,
              bytes := w1.buffer, size := w1.offset })
  else (true, w, none)

end RawElfWriter

/-- A call a client can make on an initialised writer. -/
inductive WriterOp where
  | copySegment (headerToCopy : Option Phdr) (data overwriteData : Option (List Byte))
      (overwriteOffset overwriteSize : Nat) : WriterOp
  | startLinkMapSegment (heapAddress : Nat) : WriterOp
  | createR_DebugStruct : WriterOp
  | addR_DebugStruct (rDebugStart : Option (List Byte)) : WriterOp
  | createAndAddLinkMapSegment (memoryAddress : Nat) (stringStart : Option (List Byte))
      (isLast isFirst : Bool) : WriterOp
  | addLinkMapSegment (linkMapStart : Option LinkMap) (stringStart : Option (List Byte)) : WriterOp
  | finalizeLinkMapSegment : WriterOp

/-- The writer after one call. -/
def applyOp (ws : WordSize) (w : RawElfWriter) : WriterOp → RawElfWriter
  | .copySegment h d o oo os => (w.copySegment ws h d o oo os).2
  | .startLinkMapSegment heap => w.startLinkMapSegment heap
  | .createR_DebugStruct => (w.createR_DebugStruct ws).2
  | .addR_DebugStruct rd => (w.addR_DebugStruct ws rd).2
  | .createAndAddLinkMapSegment a s l f => (w.createAndAddLinkMapSegment ws a s l f).2
  | .addLinkMapSegment lm s => (w.addLinkMapSegment ws lm s).2
  | .finalizeLinkMapSegment => w.finalizeLinkMapSegment ws

/-- The writer after a sequence of calls. -/
def applyOps (ws : WordSize) (w : RawElfWriter) (ops : List WriterOp) : RawElfWriter :=
  ops.foldl (applyOp ws) w

/-! ## Reducer (`reducer.cpp`) -/

/-- The macro `align_power(address, alignSize)`, evaluated in `ADDRESS` arithmetic. -/
def align_power (ws : WordSize) (address alignSize : Nat) : Nat :=
  ((address + 2 ^ alignSize + wordMod ws - 1) % wordMod ws)
    &&& (((wordMod ws - 1) * 2 ^ alignSize) % wordMod ws)

/-- A C `int` read from a 32-bit word (two's complement). -/
def toInt32 (v : Nat) : Int :=
  if v % 4294967296 < 2147483648 then (v % 4294967296 : Nat)
  else (v % 4294967296 : Nat) - 4294967296

/-- Conversion of an integer value to a C `int`: the low 32 bits, two's complement. -/
def wrapInt32 (x : Int) : Int :=
  toInt32 (x % 4294967296).toNat

/-- Conversion of a C `int` to `size_t`. -/
def intToSize (ws : WordSize) (x : Int) : Nat :=
  (x % (wordMod ws : Int)).toNat

/-- Offsets inside the `<sys/procfs.h>` records that `getNotes` reads, and the
register index `ESP_OFFSET` chosen by `ARM_REGS`. -/
structure NoteLayout where
  pr_pid : Nat
  pr_reg : Nat
  ESP_OFFSET : Nat
  pr_psargs : Nat

/-- The record `ProcInterface::SharedObject`. -/
structure SharedObject where
  addr : Nat
  name : List Byte

/-- A maps file, given by the list `ProcInterface::getSharedObjects` reads from it. -/
abbrev MapsFile := List SharedObject

/-- What `Reducer::initalize` asks the `ElfBinaryReader` of the executable:
`getSegmentByType(PT_PHDR)`, `sh_addr` and `sh_size` of
`getSectionByType(SHT_DYNAMIC)`, and `sh_addr` of `getSectionByName(".interp")`
with the buffer `elf_getdata` returns for it. -/
structure BinaryFacts where
  ptPhdr : Option Phdr
  dynamicSection : Option (Nat × Nat)
  interpSection : Option (Nat × Option (List Byte))

/-- The members of `Reducer`.  `wantedHeaders` holds the headers the pointers
refer to; `executableName` is the file offset of `pr_psargs`. -/
structure Reducer where
  coreReader : ElfCoreReader
  coreWriter : Option RawElfWriter
  dynamicAddressFromExecutable : Nat
  dynamicSectionSizeFromExecutable : Nat
  interpAddress : Nat
  interpreter : Option (List Byte)
  output : Option String
  heapAddress : Nat
  processId : Int
  executableName : Option Nat
  phdrAddr : Nat
  stackPointerAddresses : List Nat
  wantedHeaders : List Phdr
  dynamiclyCreatedHeaders : List Phdr

namespace Reducer

/-- The constructor `Reducer::Reducer(output, heap)`, with the core reader that
`initalize` opens. -/
def new (core : ElfCoreReader) (output : Option String) (heap : Nat) : Reducer :=
  { coreReader := core, coreWriter := none, dynamicAddressFromExecutable := 0,
    dynamicSectionSizeFromExecutable := 0, interpAddress := 0, interpreter := none,
    output := output, heapAddress := heap, processId := INT_MAX, executableName := none,
    phdrAddr := 0, stackPointerAddresses := [], wantedHeaders := [],
    dynamiclyCreatedHeaders := [] }

/-- The inner `while (aux->a_type != AT_NULL)` loop of `getNotes`: the `a_val` of
the first `AT_PHDR` entry, if one comes before `AT_NULL`. -/
def auxvScan (ws : WordSize) (file : List Byte) : Nat → Nat → Option Nat
  | 0, _ => none
  | fuel + 1, aux =>
    if readWord ws file aux = AT_NULL then none
    else if readWord ws file aux = AT_PHDR then some (readWord ws file (aux + sizeofADDRESS ws))
    else auxvScan ws file fuel (aux + 2 * sizeofADDRESS ws)

/-- The `while (current < end)` loop of `getNotes`; `current` and `end` are file
offsets.  Every round advances `current` by at least `sizeof(Nhdr)`. -/
def getNotesLoop (ws : WordSize) (lay : NoteLayout) (file : List Byte) (endPos : Nat) :
    Nat → Nat → Reducer → Reducer
  | 0, _, r => r
  | fuel + 1, current, r =>
    if current < endPos then
      let n_namesz := readU32 file current
      let n_descsz := readU32 file (current + 4)
      let n_type := readU32 file (current + 8)
      let desc := current + sizeofNhdr + align_power ws n_namesz 2
      let r1 : Reducer :=
        if n_type = NT_PRSTATUS then
          let pid := toInt32 (readU32 file (desc + lay.pr_pid))
          { r with stackPointerAddresses := r.stackPointerAddresses ++
                     [readWord ws file (desc + lay.pr_reg + lay.ESP_OFFSET * sizeofADDRESS ws)]
                   processId := if pid < r.processId then pid else r.processId }
        else if n_type = NT_PRPSINFO then
          { r with executableName := some (desc + lay.pr_psargs) }
        else if n_type = NT_AUXV then
          match auxvScan ws file (file.length + 1) desc with
          | some v => { r with phdrAddr := v }
          | none => r
        else r
      getNotesLoop ws lay file endPos fuel (desc + align_power ws n_descsz 2) r1
    else r

/-- The method `Reducer::getNotes`. -/
def getNotes (ws : WordSize) (lay : NoteLayout) (r : Reducer) : Bool × Reducer :=
  match r.coreReader.getSegmentByType PT_NOTE with
  | none => (false, r)
  | some noteSegment =>
    let r1 := { r with wantedHeaders := r.wantedHeaders ++ [noteSegment] }
    let r2 := getNotesLoop ws lay r.coreReader.file (noteSegment.p_offset + noteSegment.p_filesz)
                noteSegment.p_filesz noteSegment.p_offset r1
    if r2.executableName.isNone || r2.processId = INT_MAX then (false, r2) else (true, r2)

/-- The method `Reducer::initalize`, from the opened core (`none` when
`ElfCoreReader::initalize` fails) and the facts read from the executable (`none`
when `ElfBinaryReader::initalize` fails).  The result is `none` when
`getSegmentByType(PT_PHDR)` yields no header (it returns `NULL`, or reads on past
the table without coming back) and `phdr->p_vaddr` cannot be read. -/
def initalize (ws : WordSize) (lay : NoteLayout) (core : Option ElfCoreReader)
    (binary : Option BinaryFacts) (output : Option String) (heap : Nat) :
    Option (Bool × Option Reducer) :=
  match core with
  | none => some (false, none)
  | some c =>
    match getNotes ws lay (Reducer.new c output heap) with
    | (false, r) => some (false, some r)
    | (true, r) =>
      match binary with
      | none => some (false, some r)
      | some b =>
        match b.ptPhdr with
        | none => none
        | some phdr =>
          let loadBias := (r.phdrAddr + wordMod ws - phdr.p_vaddr) % wordMod ws
          match b.dynamicSection with
          | none => some (true, some r)
          | some (sh_addr, sh_size) =>
            let r1 := { r with dynamicAddressFromExecutable := (sh_addr + loadBias) % wordMod ws
                               dynamicSectionSizeFromExecutable := sh_size }
            match b.interpSection with
            | none => some (true, some r1)
            | some (interpAddr, data) =>
              some (true, some { r1 with interpAddress := (interpAddr + loadBias) % wordMod ws
                                         interpreter := data.map cstring })

/-- The method `Reducer::checkHeapAddress`; `ifaceHeap` is the value
`ProcInterface::heapAddress()` returns. -/
def checkHeapAddress (r : Reducer) (ifaceHeap : Nat) : Reducer :=
  if r.heapAddress ≠ 0 then r
  else if ifaceHeap ≠ 0 then { r with heapAddress := ifaceHeap }
  else { r with heapAddress := PREDEFINED_HEAP_ADDRESS }

/-- The body of the loop of `getStacks` once `coreSegment` is found: the header
`toStore` built for the stack pointer `sp`. -/
def narrowedStackHeader (ws : WordSize) (sp : Nat) (coreSegment : Phdr) : Phdr :=
  let vaddr :=
    if (sp + wordMod ws - STACK_ADDITION) % wordMod ws > coreSegment.p_vaddr
    then (sp + wordMod ws - STACK_ADDITION) % wordMod ws
    else coreSegment.p_vaddr
  let filesz := ((coreSegment.p_vaddr + coreSegment.p_filesz) % wordMod ws + wordMod ws - vaddr)
                  % wordMod ws
  { coreSegment with
      p_vaddr := vaddr
      p_filesz := filesz
      p_memsz := filesz
      p_offset := (coreSegment.p_offset + (vaddr + wordMod ws - coreSegment.p_vaddr) % wordMod ws)
                    % wordMod ws }

/-- One round of the loop of `getStacks`. -/
def getStacksStep (ws : WordSize) (r : Reducer) (sp : Nat) : Reducer :=
  match r.coreReader.getSegmentByAddress ws sp with
  | none => r
  | some coreSegment =>
    let toStore := narrowedStackHeader ws sp coreSegment
    { r with wantedHeaders := r.wantedHeaders ++ [toStore]
             dynamiclyCreatedHeaders := r.dynamiclyCreatedHeaders ++ [toStore] }

/-- The method `Reducer::getStacks`. -/
def getStacks (ws : WordSize) (r : Reducer) : Reducer :=
  r.stackPointerAddresses.foldl (getStacksStep ws) r

/-- The method `Reducer::getBufferAtAddress`, as a file offset. -/
def getBufferAtAddress (ws : WordSize) (r : Reducer) (start : Nat) : Option Nat :=
  match r.coreReader.getSegmentByAddress ws start with
  | none => none
  | some coreSegment =>
    some (coreSegment.p_offset + (start + wordMod ws - coreSegment.p_vaddr) % wordMod ws)

/-- The method `Reducer::copyInitalSegmentsToOutput`. -/
def copyInitalSegmentsToOutput (ws : WordSize) (env : Env) (r : Reducer) (stacksOnly : Bool) :
    Reducer :=
  let fileSize : Int := r.wantedHeaders.foldl (fun acc ph => wrapInt32 (acc + ph.p_filesz)) 0
  let additionalHeaders := if !stacksOnly then 2 else 0
  match RawElfWriter.new.initalize ws env r.output (r.wantedHeaders.length + additionalHeaders)
          (intToSize ws fileSize) with
  | (false, w) => { r with coreWriter := some w }
  | (true, w) =>
    let w1 := w.copyElfHeader ws (some r.coreReader.elfFileHeader)
    let w2 := r.wantedHeaders.foldl
      (fun w ph => (w.copySegment ws (some ph) (r.coreReader.getDataByOffset ph.p_offset)
                      none 0 0).2) w1
    { r with coreWriter := some w2 }

/-- The bytes of the array `dyn` built by `generateDynamicSectionInformation`:
`count` entries with `d_tag = 0` and `d_un.d_val = heapAddress`. -/
def syntheticDynEntries (ws : WordSize) (heapAddress : Nat) : Nat → List Byte
  | 0 => []
  | count + 1 =>
    List.replicate (sizeofSWord ws) 0 ++ encodeLE (sizeofADDRESS ws) heapAddress
      ++ syntheticDynEntries ws heapAddress count

/-- The method `Reducer::generateDynamicSectionInformation`, on a reducer whose
writer is `w`.  The result is `none` when the `int size` is negative and
`new Elf_Dyn[size]` throws. -/
def generateDynamicSectionInformation (ws : WordSize) (r : Reducer) (w : RawElfWriter) :
    Option RawElfWriter :=
  let newHeader : Phdr :=
    { p_align := 1, p_flags := PF_R, p_memsz := r.dynamicSectionSizeFromExecutable,
      p_filesz := r.dynamicSectionSizeFromExecutable, p_vaddr := r.dynamicAddressFromExecutable,
      p_offset := 0, p_type := PT_LOAD, p_paddr := 0 }
  let size : Int := wrapInt32 (newHeader.p_filesz / sizeofDyn ws : Nat)
  if size < 0 then none
  else
    let dyn := syntheticDynEntries ws r.heapAddress (size - 1).toNat
    some (w.copySegment ws (some newHeader) (some dyn) none 0 0).2

/-- The `while (start)` loop of `copyLinkMapToOutputFile`.  The result is `none`
when the fuel runs out, and when `linkMapBuffer` is `NULL` and
`linkMapBuffer + LM_NAME` is dereferenced. -/
def copyLinkMapLoop (ws : WordSize) (r : Reducer) : Nat → RawElfWriter → Nat → Option RawElfWriter
  | 0, w, start => if start = 0 then some w else none
  | fuel + 1, w, start =>
    if start = 0 then some w
    else
      match r.getBufferAtAddress ws start with
      | none => none
      | some linkMapBuffer =>
        let stringAddress := readWord ws r.coreReader.file (linkMapBuffer + LM_NAME ws)
        let stringBuffer : Option (List Byte) :=
          match r.getBufferAtAddress ws stringAddress with
          | some off => some (r.coreReader.file.drop off)
          | none => if stringAddress = r.interpAddress then r.interpreter else none
        let res := w.addLinkMapSegment ws (some (readLinkMap ws r.coreReader.file linkMapBuffer))
                     stringBuffer
        copyLinkMapLoop ws r fuel res.2 res.1

/-- The method `Reducer::copyLinkMapToOutputFile`.  The result is `none` when the
loop does not return, and when the writer was never initialised and
`startLinkMapSegment` writes through its `NULL` table. -/
def copyLinkMapToOutputFile (ws : WordSize) (fuel : Nat) (r : Reducer) (start : Nat) :
    Option Reducer :=
  if start = 0 then some r
  else
    match r.coreWriter with
    | none => some r
    | some w =>
      if !w.programHeadersSet then none
      else
        let w1 := w.startLinkMapSegment r.heapAddress
        let r_debugBuffer := (r.getBufferAtAddress ws start).map (fun off => r.coreReader.file.drop off)
        let res := w1.addR_DebugStruct ws r_debugBuffer
        match copyLinkMapLoop ws r fuel res.2 res.1 with
        | none => none
        | some w2 => some { r with coreWriter := some (w2.finalizeLinkMapSegment ws) }

/-- The `for` loop of `createLinkMapInOutputFile` over the shared objects. -/
def addSharedObjects (ws : WordSize) (w : RawElfWriter) : List SharedObject → RawElfWriter
  | [] => w
  | so :: rest =>
    addSharedObjects ws (w.createAndAddLinkMapSegment ws so.addr (some so.name) rest.isEmpty false).2 rest

/-- The method `Reducer::createLinkMapInOutputFile`.  The result is `none` when
the writer was never initialised and `startLinkMapSegment` writes through its
`NULL` table. -/
def createLinkMapInOutputFile (ws : WordSize) (r : Reducer) (start : Nat)
    (mapsFile : Option MapsFile) : Option Reducer :=
  match mapsFile with
  | none => some r
  | some soList =>
    if start = 0 then some r
    else
      match r.coreWriter with
      | none => some r
      | some w =>
        if soList.length ≤ 0 then some r
        else if !w.programHeadersSet then none
        else
          let w1 := w.startLinkMapSegment r.heapAddress
          let w2 := (w1.createR_DebugStruct ws).2
          let w3 := (w2.createAndAddLinkMapSegment ws 0 none false true).2
          let w4 := addSharedObjects ws w3 soList
          some { r with coreWriter := some (w4.finalizeLinkMapSegment ws) }

/-- The search of `copyDynamicSectionInformation` for `DT_DEBUG`: `current` is the
file offset of the entry looked at and `offset` the local of that name.  The
result is the file offset of the `DT_DEBUG` entry found before `DT_NULL` and the
value of `offset` there. -/
def findDtDebug (ws : WordSize) (file : List Byte) : Nat → Nat → Nat → Option (Nat × Nat)
  | 0, _, _ => none
  | fuel + 1, current, offset =>
    if readWord ws file current = DT_NULL then none
    else if readWord ws file current = DT_DEBUG then some (current, offset)
    else findDtDebug ws file fuel (current + sizeofDyn ws) ((offset + sizeofDyn ws) % wordMod ws)

/-- The method `Reducer::copyDynamicSectionInformation`.  The result is `none`
when a callee does not return, and when `coreWriter` is `NULL`. -/
def copyDynamicSectionInformation (ws : WordSize) (fuel : Nat) (r : Reducer)
    (mapsFile : Option MapsFile) : Option Reducer :=
  match r.coreReader.getSegmentByAddress ws r.dynamicAddressFromExecutable with
  | none =>
    match mapsFile with
    | none => some r
    | some _ =>
      match r.coreWriter with
      | none => none
      | some w =>
        match generateDynamicSectionInformation ws r w with
        | none => none
        | some w1 =>
          createLinkMapInOutputFile ws { r with coreWriter := some w1 } r.heapAddress mapsFile
  | some coreSegment =>
    let delta := (r.dynamicAddressFromExecutable + wordMod ws - coreSegment.p_vaddr) % wordMod ws
    match findDtDebug ws r.coreReader.file (r.coreReader.file.length + 1)
            (coreSegment.p_offset + delta) delta with
    | none => some r
    | some (current, offset) =>
      match r.coreWriter with
      | none => none
      | some w =>
        let w1 := (w.copySegment ws (some coreSegment)
                    (r.coreReader.getDataByOffset coreSegment.p_offset)
                    (some (encodeLE (sizeofADDRESS ws) r.heapAddress))
                    ((offset + sizeofSWord ws) % wordMod ws) (sizeofADDRESS ws)).2
        let d_ptr := readWord ws r.coreReader.file (current + sizeofSWord ws)
        match mapsFile with
        | some _ => createLinkMapInOutputFile ws { r with coreWriter := some w1 } d_ptr mapsFile
        | none => copyLinkMapToOutputFile ws fuel { r with coreWriter := some w1 } d_ptr

/-- The method `Reducer::run`.  `fuel` bounds the walk of the original link map;
the result is `none` when the run does not come back, and holds the reducer
afterwards and the file `coreWriter->write()` stored otherwise. -/
def run (ws : WordSize) (env : Env) (ifaceHeap fuel : Nat) (r : Reducer) (stacksOnly : Bool)
    (mapsFile : Option MapsFile) : Option (Reducer × Option ElfFile) :=
  let r1 := r.checkHeapAddress ifaceHeap
  let r2 := r1.getStacks ws
  let r3 := r2.copyInitalSegmentsToOutput ws env stacksOnly
  let r4 := if !stacksOnly then copyDynamicSectionInformation ws fuel r3 mapsFile else some r3
  match r4 with
  | none => none
  | some r5 =>
    match r5.coreWriter with
    | none => some (r5, none)
    | some w =>
      let res := w.write env
      some ({ r5 with coreWriter := some res.2.1 }, res.2.2)

end Reducer

/-! ## Calling discipline and invariants of the writer -/

/-- Number of bytes by which a call advances the write cursor when it succeeds. -/
def WriterOp.appended (ws : WordSize) : WriterOp → Nat
  | .copySegment (some h) (some _) _ _ _ => h.p_filesz
  | .copySegment _ _ _ _ _ => 0
  | .startLinkMapSegment _ => 0
  | .createR_DebugStruct => R_DEBUG_STRUCT_SIZE ws
  | .addR_DebugStruct (some _) => R_DEBUG_STRUCT_SIZE ws
  | .addR_DebugStruct none => 0
  | .createAndAddLinkMapSegment _ s _ _ => sizeofLinkMap ws + strlen (s.getD []) + 1
  | .addLinkMapSegment (some _) s => sizeofLinkMap ws + strlen (s.getD []) + 1
  | .addLinkMapSegment none _ => 0
  | .finalizeLinkMapSegment => 0

/-- Whether a call is made at a point where the `Reducer` makes it: segments are
copied outside a link-map segment, a link-map segment is started on a free slot
of the table, filled, and finalised. -/
def WriterOp.allowed (inLinkMap : Bool) (w : RawElfWriter) : WriterOp → Bool
  | .copySegment _ _ _ _ _ => !inLinkMap
  | .startLinkMapSegment _ => !inLinkMap && decide (w.currentProgramHeader < w.numProgramHeaders)
  | _ => inLinkMap

/-- Whether a link-map segment is open after a call. -/
def WriterOp.opens (inLinkMap : Bool) : WriterOp → Bool
  | .startLinkMapSegment _ => true
  | .finalizeLinkMapSegment => false
  | _ => inLinkMap

/-- The calling discipline of the `Reducer` on a sequence of calls, with the
write cursor never wrapping round `size_t`; `inLinkMap` tells whether a
link-map segment is open at the start. -/
def sessionOk (ws : WordSize) : Bool → RawElfWriter → List WriterOp → Bool
  | inLinkMap, _, [] => !inLinkMap
  | inLinkMap, w, op :: ops =>
    decide (w.offset + op.appended ws < wordMod ws) && op.allowed inLinkMap w &&
      sessionOk ws (op.opens inLinkMap) (applyOp ws w op) ops

/-- The table and flags of a writer between `copyElfHeader` and `write`. -/
def TableReady (n : Nat) (w : RawElfWriter) : Prop :=
  w.bufferAllocated = true ∧ w.programHeadersSet = true ∧ w.isBufferSorted = false ∧
    w.programHeaders.length = n ∧ w.numProgramHeaders = n

/-- Every header of the table lies below the write cursor; the header of an open
link-map segment starts below it. -/
def OffsetsBelowCursor (ws : WordSize) (inLinkMap : Bool) (w : RawElfWriter) : Prop :=
  w.offset < wordMod ws ∧
  ∀ i ph, w.programHeaders[i]? = some ph →
    (if inLinkMap = true ∧ i = w.currentProgramHeader then ph.p_offset ≤ w.offset
     else ph.p_offset + ph.p_filesz ≤ w.offset)

/-- The value of `stringSize` in `addLinkMapSegment`. -/
def stringSizeOf (ws : WordSize) (s : Option (List Byte)) : Nat :=
  match s with
  | some s => (1 + strlen s) % wordMod ws
  | none => 1

/-- The record `LM_Writer` that `addLinkMapSegment` stores. -/
def writtenLinkMap (ws : WordSize) (w : RawElfWriter) (toCopy : LinkMap)
    (s : Option (List Byte)) : LinkMap :=
  { addressOffset := toCopy.addressOffset
    nameOffset := (w.linkMapHeadAddress + w.currentLinkMapSize + sizeofLinkMap ws) % wordMod ws
    ldOffset := toCopy.ldOffset
    nextLinkMapStruct :=
      if toCopy.nextLinkMapStruct ≠ 0 then
        (w.linkMapHeadAddress + w.currentLinkMapSize + sizeofLinkMap ws + stringSizeOf ws s)
          % wordMod ws
      else 0
    previousLinkMapStruct := w.previousLinkAddress }

/-! ## Concrete inputs used to exercise the statements -/

/-- An operating system that opens the output file and performs every request. -/
def exampleEnv : Env := { openFd := 3, mallocOk := true, writeOk := true }

/-- A loadable segment at `vaddr` with `filesz` bytes in the file. -/
def exampleLoad (vaddr filesz : Nat) : Phdr :=
  { p_type := PT_LOAD, p_offset := 4096, p_vaddr := vaddr, p_paddr := 0, p_filesz := filesz,
    p_memsz := filesz, p_flags := PF_R ||| PF_W, p_align := 4096 }

/-- A session of the writer: two segments copied out of address order, then a
link-map segment with an empty head record and one shared object. -/
def exampleOps : List WriterOp :=
  [ .copySegment (some (exampleLoad 3217028096 4)) (some [1, 2, 3, 4]) none 0 0,
    .copySegment (some (exampleLoad 134512640 2)) (some [5, 6]) none 0 0,
    .startLinkMapSegment 4,
    .createR_DebugStruct,
    .createAndAddLinkMapSegment 0 none false true,
    .createAndAddLinkMapSegment 1073741824 (some [108, 105, 98, 99, 46, 115, 111]) true false,
    .finalizeLinkMapSegment ]

/-- The i386 layout of `<sys/procfs.h>`: `pr_pid` at byte 24 and `pr_reg` at byte
72 of `elf_prstatus`, `pr_psargs` at byte 44 of `elf_prpsinfo`, and
`ESP_OFFSET` 15. -/
def i386Layout : NoteLayout := { pr_pid := 24, pr_reg := 72, ESP_OFFSET := 15, pr_psargs := 44 }

/-- A 32-bit note named `CORE` with the given type and descriptor. -/
def exampleNote (type : Nat) (desc : List Byte) : List Byte :=
  encodeLE 4 5 ++ encodeLE 4 desc.length ++ encodeLE 4 type ++ [67, 79, 82, 69, 0, 0, 0, 0] ++ desc

/-- A 144-byte i386 `elf_prstatus` with the given `pr_pid` and stack pointer. -/
def examplePrstatus (pid sp : Nat) : List Byte :=
  List.replicate 24 0 ++ encodeLE 4 pid ++ List.replicate 44 0 ++ List.replicate 60 0
    ++ encodeLE 4 sp ++ List.replicate 8 0

/-- The notes of a 32-bit core: one `NT_PRSTATUS` per thread `(pid, sp)`, one
`NT_PRPSINFO`, and an `NT_AUXV` with `AT_PHDR = 0x08048034`. -/
def exampleNotes (threads : List (Nat × Nat)) : List Byte :=
  threads.foldr (fun t rest => exampleNote NT_PRSTATUS (examplePrstatus t.1 t.2) ++ rest)
    (exampleNote NT_PRPSINFO (List.replicate 124 0) ++
      exampleNote NT_AUXV (encodeLE 4 AT_PHDR ++ encodeLE 4 134512692 ++ List.replicate 8 0))

/-- A 32-bit core: ELF header, a table made of `PT_NOTE` and `loads`, the notes
of `threads`, then `data`. -/
def exampleCore (threads : List (Nat × Nat)) (loads : List Phdr) (data : List Byte) :
    ElfCoreReader :=
  let noteOffset := 52 + 32 * (1 + loads.length)
  let note : Phdr :=
    { p_type := PT_NOTE, p_offset := noteOffset, p_vaddr := 0, p_paddr := 0,
      p_filesz := (exampleNotes threads).length, p_memsz := 0, p_flags := 0, p_align := 0 }
  { file := List.replicate noteOffset 0 ++ exampleNotes threads ++ data
    elfHeader := { zeroEhdr with e_phnum := 1 + loads.length, e_phoff := 52 }
    programHeaders := fun i => (note :: loads).getD i zeroPhdr }

/-- An executable with a `PT_PHDR` segment and neither `.dynamic` nor `.interp`. -/
def exampleStaticBinary : BinaryFacts :=
  { ptPhdr := some { zeroPhdr with p_type := PT_PHDR, p_vaddr := 134512692 },
    dynamicSection := none, interpSection := none }

/-- The reducer after `initalize` on a 32-bit core and an executable. -/
def exampleReducer (core : ElfCoreReader) (binary : BinaryFacts) : Reducer :=
  ((Reducer.initalize .w32 i386Layout (some core) (some binary) (some "core.reduced") 0).bind
    (fun res => res.2)).getD (Reducer.new core none 0)

/-- A core whose only thread has the stack pointer `16`. -/
def lowStackPointerCore : ElfCoreReader :=
  exampleCore [(4242, 16)] [{ exampleLoad 3213774848 8 with p_offset := 460 }]
    [1, 2, 3, 4, 5, 6, 7, 8]

/-! ## The link-map segment -/

/-- The two arguments of one `addLinkMapSegment` call: the record to copy and the
name string (`none` for `NULL`). -/
abbrev LinkMapItem := LinkMap × Option (List Byte)

/-- Number of bytes one call appends: the record, the name and its NUL. -/
def recordSize (ws : WordSize) (item : LinkMapItem) : Nat :=
  sizeofLinkMap ws + strlen (item.2.getD []) + 1

/-- Number of bytes a sequence of calls appends. -/
def recordsSize (ws : WordSize) (items : List LinkMapItem) : Nat :=
  (items.map (recordSize ws)).sum

/-- The writer after `addLinkMapSegment` has been called on each item in turn. -/
def addLinkMapSegments (ws : WordSize) (w : RawElfWriter) (items : List LinkMapItem) :
    RawElfWriter :=
  items.foldl (fun v item => (v.addLinkMapSegment ws (some item.1) item.2).2) w

/-- The records handed over form a chain: `nextLinkMapStruct` is zero in the last
one and in no other. -/
def ChainShaped : List LinkMapItem → Prop
  | [] => True
  | [item] => item.1.nextLinkMapStruct = 0
  | item :: next :: rest => item.1.nextLinkMapStruct ≠ 0 ∧ ChainShaped (next :: rest)

/-- The walk a debugger makes over the segment `seg` of the reduced core, from
the pointer `p`: each pointer must leave room for a record inside
`[p_vaddr, p_vaddr + p_filesz)`; the walk stops at the record whose `next` is
zero.  The result lists the pointers followed. -/
def walkLinkMap (ws : WordSize) (mem : Nat → Byte) (seg : Phdr) : Nat → Nat → Option (List Nat)
  | 0, _ => none
  | fuel + 1, p =>
    if seg.p_vaddr ≤ p ∧ p + sizeofLinkMap ws ≤ seg.p_vaddr + seg.p_filesz then
      let next := (bufferLinkMap ws mem (seg.p_offset + (p - seg.p_vaddr))).nextLinkMapStruct
      if next = 0 then some [p]
      else (walkLinkMap ws mem seg fuel next).map (fun rest => p :: rest)
    else none

/-- The base addresses `first`, `first + size of record 0`, ... of the records
written for `items`. -/
def recordBases (ws : WordSize) (first : Nat) : List LinkMapItem → List Nat
  | [] => []
  | item :: rest => first :: recordBases ws (first + recordSize ws item) rest

/-- The calls that build a link-map segment: `startLinkMapSegment`,
`addR_DebugStruct` on the record `rDebug`, `addLinkMapSegment` on each item and
`finalizeLinkMapSegment`. -/
def buildLinkMapSegment (ws : WordSize) (w : RawElfWriter) (heapAddress : Nat)
    (rDebug : List Byte) (items : List LinkMapItem) : RawElfWriter :=
  (addLinkMapSegments ws ((w.startLinkMapSegment heapAddress).addR_DebugStruct ws
    (some rDebug)).2 items).finalizeLinkMapSegment ws

/-- The header `startLinkMapSegment` and `finalizeLinkMapSegment` leave in the
slot that held `slot`, for a segment of `size` bytes written from `offset` on. -/
def linkMapHeader (slot : Phdr) (heapAddress offset size : Nat) : Phdr :=
  { slot with p_type := PT_LOAD, p_vaddr := heapAddress, p_flags := PF_R ||| PF_W,
              p_offset := offset, p_align := 1, p_filesz := size, p_memsz := size }

/-- The records `copyLinkMapLoop` consumes from the original chain that starts at
`start`, with the name string found for each: what the loop reads, without the
writer.  The result is `none` where the loop does not return. -/
def originalChain (ws : WordSize) (r : Reducer) : Nat → Nat → Option (List LinkMapItem)
  | 0, start => if start = 0 then some [] else none
  | fuel + 1, start =>
    if start = 0 then some []
    else
      match r.getBufferAtAddress ws start with
      | none => none
      | some linkMapBuffer =>
        let toCopy := readLinkMap ws r.coreReader.file linkMapBuffer
        let stringBuffer : Option (List Byte) :=
          match r.getBufferAtAddress ws toCopy.nameOffset with
          | some off => some (r.coreReader.file.drop off)
          | none => if toCopy.nameOffset = r.interpAddress then r.interpreter else none
        (originalChain ws r fuel toCopy.nextLinkMapStruct).map (fun rest => (toCopy, stringBuffer) :: rest)

/-- The records `createAndAddLinkMapSegment` builds for the shared objects of a
maps file. -/
def sharedObjectItems : List SharedObject → List LinkMapItem
  | [] => []
  | so :: rest =>
    ({ addressOffset := so.addr, nameOffset := 0, ldOffset := 0,
       nextLinkMapStruct := if !rest.isEmpty then 1 else 0,
       previousLinkMapStruct := 1 }, some so.name) :: sharedObjectItems rest

/-- The records `createLinkMapInOutputFile` hands to the writer: the empty head
record, then one record per shared object. -/
def syntheticItems (soList : List SharedObject) : List LinkMapItem :=
  ({ addressOffset := 0, nameOffset := 0, ldOffset := 0, nextLinkMapStruct := 1,
     previousLinkMapStruct := 0 }, none) :: sharedObjectItems soList

/-- The data segment of the example dynamic executable, loaded at `0x08049000`:
a dynamic array `[DT_NEEDED, DT_DEBUG -> 0x08049018, DT_NULL]`, the `r_debug`
record at `0x08049018` whose `r_map` is `rMap`, two `link_map` records at
`0x0804902c` and `0x08049040`, and their names `""` and `"libc.so"`. -/
def exampleDataSegment (rMap : Nat) : List Byte :=
  encodeLE 4 1 ++ encodeLE 4 1 ++
  encodeLE 4 DT_DEBUG ++ encodeLE 4 134516760 ++
  encodeLE 4 DT_NULL ++ encodeLE 4 0 ++
  encodeLE 4 1 ++ encodeLE 4 rMap ++ encodeLE 4 0 ++ encodeLE 4 0 ++ encodeLE 4 0 ++
  encodeLE 4 0 ++ encodeLE 4 134516820 ++ encodeLE 4 134516736 ++ encodeLE 4 134516800
    ++ encodeLE 4 0 ++
  encodeLE 4 1073741824 ++ encodeLE 4 134516821 ++ encodeLE 4 0 ++ encodeLE 4 0
    ++ encodeLE 4 134516780 ++
  [0] ++ [108, 105, 98, 99, 46, 115, 111, 0] ++ [0, 0, 0]

/-- A 32-bit core of a dynamic executable with one thread: the data segment at
`0x08049000` and a 256-byte stack mapping at `0xbf8df000` holding `sp = 0xbf8df0a0`. -/
def exampleDynamicCore (rMap : Nat) : ElfCoreReader :=
  exampleCore [(4242, 3213750432)]
    [ { exampleLoad 134516736 96 with p_offset := 492 },
      { exampleLoad 3213750272 256 with p_offset := 588 } ]
    (exampleDataSegment rMap ++ List.replicate 256 7)

/-- The dynamic executable of `exampleDynamicCore`: `PT_PHDR` at `0x08048034`,
`.dynamic` at `0x08049000` (24 bytes), `.interp` at `0x08048154`. -/
def exampleDynamicBinary : BinaryFacts :=
  { ptPhdr := some { zeroPhdr with p_type := PT_PHDR, p_vaddr := 134512692 },
    dynamicSection := some (134516736, 24),
    interpSection := some (134512980, some [47, 108, 100, 46, 115, 111, 0]) }

/-- The reducer of `exampleDynamicCore` at the point where
`copyDynamicSectionInformation` is entered in a default-mode run. -/
def exampleDynamicReducer (rMap : Nat) : Reducer :=
  (((exampleReducer (exampleDynamicCore rMap) exampleDynamicBinary).checkHeapAddress 0).getStacks
    .w32).copyInitalSegmentsToOutput .w32 exampleEnv false

/-- The writer of `exampleDynamicReducer`, with the note and the stack copied and
two header slots free. -/
def exampleLinkMapWriter (rMap : Nat) : RawElfWriter :=
  (exampleDynamicReducer rMap).coreWriter.getD RawElfWriter.new

/-- The shared objects of a maps file with one line for `libc.so` and one for
`libm.so`. -/
def exampleSharedObjects : List SharedObject :=
  [ { addr := 1073741824, name := [108, 105, 98, 99, 46, 115, 111] },
    { addr := 1075838976, name := [108, 105, 98, 109, 46, 115, 111] } ]

/-- The records the example core's original chain holds, as `copyLinkMapLoop`
consumes them. -/
def exampleOriginalItems : List LinkMapItem :=
  (originalChain .w32 (exampleDynamicReducer 134516780) 16 134516780).getD []

/-- The core of `exampleDynamicCore` with the file data of the data segment cut
after the `DT_DEBUG` entry (`p_filesz = 16`): the `d_un` field of that entry is
the last word of the segment's file data. -/
def exampleTruncatedCore : ElfCoreReader :=
  exampleCore [(4242, 3213750432)]
    [ { exampleLoad 134516736 16 with p_offset := 492 },
      { exampleLoad 3213750272 256 with p_offset := 588 } ]
    (exampleDataSegment 134516780 ++ List.replicate 256 7)

/-- The reducer of `exampleDynamicReducer` after `copyDynamicSectionInformation`
in copy mode. -/
def exampleCopyModeResult : Reducer :=
  (Reducer.copyDynamicSectionInformation .w32 16 (exampleDynamicReducer 134516780) none).getD
    (exampleDynamicReducer 134516780)

/-! ## Header counts -/

/-- The stack pointers of the `NT_PRSTATUS` notes that lie between the file
offsets `current` and `endPos`, in file order, one per note.  A note is a
12-byte header followed by the name and the descriptor, each rounded up to 4
bytes. -/
def prstatusStackPointers (ws : WordSize) (lay : NoteLayout) (file : List Byte) (endPos : Nat) :
    Nat → Nat → List Nat
  | 0, _ => []
  | fuel + 1, current =>
    if current < endPos then
      let desc := current + sizeofNhdr + align_power ws (readU32 file current) 2
      let rest := prstatusStackPointers ws lay file endPos fuel
                    (desc + align_power ws (readU32 file (current + 4)) 2)
      if readU32 file (current + 8) = NT_PRSTATUS then
        readWord ws file (desc + lay.pr_reg + lay.ESP_OFFSET * sizeofADDRESS ws) :: rest
      else rest
    else []

/-- The stack pointers of the `NT_PRSTATUS` notes of a core: its length is the
number of `NT_PRSTATUS` notes in the `PT_NOTE` segment. -/
def corePrstatusStackPointers (ws : WordSize) (lay : NoteLayout) (core : ElfCoreReader) :
    List Nat :=
  match core.getSegmentByType PT_NOTE with
  | none => []
  | some noteSegment =>
    prstatusStackPointers ws lay core.file (noteSegment.p_offset + noteSegment.p_filesz)
      noteSegment.p_filesz noteSegment.p_offset

/-- The stack pointers among `sps` for which `getSegmentByAddress` finds a segment
of the core. -/
def locatedStackPointers (ws : WordSize) (core : ElfCoreReader) (sps : List Nat) : List Nat :=
  sps.filter (fun sp => (core.getSegmentByAddress ws sp).isSome)

/-- Number of header slots `copyInitalSegmentsToOutput` asks the writer for. -/
def reservedHeaders (wanted : Nat) (stacksOnly : Bool) : Nat :=
  wanted + (if !stacksOnly then 2 else 0)

/-- The header count of a writer is fixed: its table is ready with `n` slots,
`e_phnum` holds `n` in 16 bits, and at most `n` slots have been filled by
`copySegment`. -/
def HeaderSlots (n : Nat) (w : RawElfWriter) : Prop :=
  TableReady n w ∧ w.elfHeader.e_phnum = n % 65536 ∧ w.currentProgramHeader ≤ n

/-- A 32-bit core with two threads and one 256-byte stack mapping at
`0xbf8df000`: the first stack pointer lies in it, the second, `0xb0000000`, lies
in no segment. -/
def unmappedStackCore : ElfCoreReader :=
  exampleCore [(4242, 3213750432), (4243, 2952790016)]
    [{ exampleLoad 3213750272 256 with p_offset := 624 }] (List.replicate 256 7)

/-- A 32-bit core of a statically linked executable with one thread, whose stack
pointer `0xbf8df0a0` lies in the 256-byte mapping at `0xbf8df000`. -/
def exampleStaticCore : ElfCoreReader :=
  exampleCore [(4242, 3213750432)]
    [{ exampleLoad 3213750272 256 with p_offset := 460 }] (List.replicate 256 7)


/-! ## Inputs for the lookups of the core reader -/

/-- A 32-bit core whose header counts one program header, a 4096-byte mapping at
`0x1000`; the 32 bytes that follow the table in the image read as the header of
a 4096-byte mapping at `0x3000`. -/
def overrunCore : ElfCoreReader :=
  { file := List.replicate 116 0 ++ List.replicate 4096 7
    elfHeader := { zeroEhdr with e_phnum := 1, e_phoff := 52 }
    programHeaders := fun i =>
      [{ exampleLoad 4096 4096 with p_offset := 116 },
       { exampleLoad 12288 4096 with p_offset := 116 }].getD i zeroPhdr }

/-- The image of `overrunCore` with `e_phnum = 0`: an empty table, followed in
the image by bytes that read as the header of the mapping at `0x1000`. -/
def emptyTableCore : ElfCoreReader :=
  { overrunCore with elfHeader := { zeroEhdr with e_phnum := 0, e_phoff := 52 } }

/-- A 32-bit core whose two `PT_LOAD` headers are in address order with the
`PT_NOTE` header, at address 0, between them. -/
def noteBetweenCore : ElfCoreReader :=
  { file := List.replicate 148 0 ++ List.replicate 256 1 ++ List.replicate 8192 7
    elfHeader := { zeroEhdr with e_phnum := 3, e_phoff := 52 }
    programHeaders := fun i =>
      [{ exampleLoad 4096 4096 with p_offset := 404 },
       { zeroPhdr with p_type := PT_NOTE, p_offset := 148, p_filesz := 256 },
       { exampleLoad 12288 4096 with p_offset := 4500 }].getD i zeroPhdr }

/-- A 32-bit core with three `PT_LOAD` headers in address order, the first of
which, 16384 bytes at `0x1000`, overlaps the second, 256 bytes at `0x2000`. -/
def overlappingLoadsCore : ElfCoreReader :=
  { file := List.replicate 148 0 ++ List.replicate 16384 7
    elfHeader := { zeroEhdr with e_phnum := 3, e_phoff := 52 }
    programHeaders := fun i =>
      [{ exampleLoad 4096 16384 with p_offset := 148 },
       { exampleLoad 8192 256 with p_offset := 4244 },
       { exampleLoad 24576 256 with p_offset := 148 }].getD i zeroPhdr }

/-! ## ElfBinaryReader (`elfbinaryreader.cpp`) -/

def SHT_PROGBITS : Nat := 1
def SHT_STRTAB : Nat := 3
def SHT_DYNAMIC : Nat := 6

/-- The fields of a section header (`Elf32_Shdr`, `Elf64_Shdr`) the lookups read. -/
structure Shdr where
  sh_name : Nat
  sh_type : Nat
  sh_addr : Nat
  sh_size : Nat
deriving DecidableEq, Repr

/-- The struct `CurrentSectionData`.  An `Elf_Scn *` is given by the index of the
section it points to (the field `section` is named `scn` here); `none` is
`NULL`. -/
structure CurrentSectionData where
  sectionHeader : Option Shdr
  scn : Option Nat
  index : Nat
deriving DecidableEq, Repr

/-- The state of an `ElfBinaryReader` after a successful `initalize`, with what
libelf answers for the file: `sections` lists, for the sections `elf_nextscn`
yields in turn (section-table order, from index 1 on), the header
`elf32_getshdr` returns (`none` for `NULL`); `strptr` is
`elf_strptr(file, sectionHeaderStringIndex, ·)`; `phnum` is the count
`elf_getphnum` stores (`none` when it fails); `phdrOk` tells whether
`elf32_getphdr` returns a table, and `programHeaders i` is the typed view of
the memory at `phdr + i`, also past the table. -/
structure ElfBinaryReader where
  current : CurrentSectionData
  sections : List (Option Shdr)
  strptr : Nat → Option (List Byte)
  phnum : Option Nat
  phdrOk : Bool
  programHeaders : Nat → Phdr

/-- What a lookup matches on: the argument `toMatch` of `getSection` together with
the callback chosen by `getSectionByAddress`, `getSectionByType` or
`getSectionByName`. -/
inductive SectionQuery where
  | byAddress (address : Nat) : SectionQuery
  | byType (type : Nat) : SectionQuery
  | byName (name : List Byte) : SectionQuery

/-- The callbacks `ElfBinaryReader::byAddress`, `byType` and `byName`; `name` is
the memory at the pointer handed to `getSectionByName`. -/
def SectionQuery.callback (ws : WordSize) (strptr : Nat → Option (List Byte)) :
    SectionQuery → Shdr → Bool
  | .byAddress address, sectionHeader =>
    decide (sectionHeader.sh_addr ≤ address) &&
      decide (address < (sectionHeader.sh_addr + sectionHeader.sh_size) % wordMod ws)
  | .byType type, sectionHeader => decide (sectionHeader.sh_type = type)
  | .byName name, sectionHeader =>
    match strptr sectionHeader.sh_name with
    | none => false
    | some sectionName => decide (cstring sectionName = cstring name)

namespace ElfBinaryReader

/-- The `while ((section = elf_nextscn(file, section)) != NULL)` loop of
`getSection`, over the sections not yet visited; `index` is `elf_ndxscn` of the
first of them.  `setCurrent` fails on a section without header. -/
def scanSections (ws : WordSize) (q : SectionQuery) :
    ElfBinaryReader → List (Option Shdr) → Nat → Option CurrentSectionData × ElfBinaryReader
  | b, [], _ => (none, b)
  | b, none :: _, _ => (none, b)
  | b, some sectionHeader :: rest, index =>
    let b1 := { b with current := { sectionHeader := some sectionHeader, scn := some index,
                                     index := index } }
    if q.callback ws b.strptr sectionHeader then (some b1.current, b1)
    else scanSections ws q b1 rest (index + 1)

/-- The method `ElfBinaryReader::getSection`: the contents of `current` when
`&current` is returned, and the reader afterwards. -/
def getSection (ws : WordSize) (b : ElfBinaryReader) (q : SectionQuery) :
    Option CurrentSectionData × ElfBinaryReader :=
  match b.current.scn, b.current.sectionHeader with
  | some _, some sectionHeader =>
    if q.callback ws b.strptr sectionHeader then (some b.current, b)
    else scanSections ws q b b.sections 1
  | _, _ => scanSections ws q b b.sections 1

/-- The method `ElfBinaryReader::getSectionByAddress`. -/
def getSectionByAddress (ws : WordSize) (b : ElfBinaryReader) (address : Nat) :
    Option CurrentSectionData × ElfBinaryReader :=
  b.getSection ws (.byAddress address)

/-- The method `ElfBinaryReader::getSectionByType`. -/
def getSectionByType (ws : WordSize) (b : ElfBinaryReader) (type : Nat) :
    Option CurrentSectionData × ElfBinaryReader :=
  b.getSection ws (.byType type)

/-- The method `ElfBinaryReader::getSectionByName`. -/
def getSectionByName (ws : WordSize) (b : ElfBinaryReader) (name : Option (List Byte)) :
    Option CurrentSectionData × ElfBinaryReader :=
  match name with
  | none => (none, b)
  | some name => b.getSection ws (.byName name)

/-- The `while (phdr)` loop of `getSegmentByType`: `index` is the distance of
`phdr` from the start of the table.  `phdr` is never `NULL`, so the loop ends
only by returning a header; the result is `none` when the fuel runs out. -/
def getSegmentByTypeLoop (b : ElfBinaryReader) (type : Nat) : Nat → Nat → Option Nat
  | 0, _ => none
  | fuel + 1, index =>
    if (b.programHeaders index).p_type = type then some index
    else getSegmentByTypeLoop b type fuel (index + 1)

/-- The method `ElfBinaryReader::getSegmentByType`.  The result is `none` when the
call does not return within `fuel` rounds, `some none` for `NULL`, and
`some (some i)` for the pointer `phdr + i`. -/
def getSegmentByType (b : ElfBinaryReader) (type fuel : Nat) : Option (Option Nat) :=
  match b.phnum with
  | none => some none
  | some _ =>
    if !b.phdrOk then some none
    else (getSegmentByTypeLoop b type fuel 0).map some

end ElfBinaryReader

/-- The first section, in the order `elf_nextscn` yields them, that a query
matches, with its index. -/
def firstMatchingSection (ws : WordSize) (strptr : Nat → Option (List Byte)) (q : SectionQuery) :
    List Shdr → Nat → Option (Nat × Shdr)
  | [], _ => none
  | sectionHeader :: rest, index =>
    if q.callback ws strptr sectionHeader then some (index, sectionHeader)
    else firstMatchingSection ws strptr q rest (index + 1)

/-- The bytes of an ASCII string. -/
def asciiBytes (s : String) : List Byte :=
  s.toList.map (fun ch => UInt8.ofNat ch.toNat)

/-- An `ElfBinaryReader` just initialised on a small dynamic executable with the
sections `.interp`, `.text`, `.dynamic` and `.shstrtab` (indices 1 to 4) and the
program headers `PT_PHDR`, `PT_LOAD`; the memory after the table reads as
zeros. -/
def exampleBinaryReader : ElfBinaryReader :=
  { current := { sectionHeader := none, scn := none, index := 0 }
    sections :=
      [ some { sh_name := 1, sh_type := SHT_PROGBITS, sh_addr := 134512980, sh_size := 19 },
        some { sh_name := 9, sh_type := SHT_PROGBITS, sh_addr := 134513152, sh_size := 256 },
        some { sh_name := 15, sh_type := SHT_DYNAMIC, sh_addr := 134516736, sh_size := 24 },
        some { sh_name := 24, sh_type := SHT_STRTAB, sh_addr := 0, sh_size := 34 } ]
    strptr := fun off =>
      ([(0, ""), (1, ".interp"), (9, ".text"), (15, ".dynamic"), (24, ".shstrtab")].lookup off).map
        asciiBytes
    phnum := some 2
    phdrOk := true
    programHeaders := fun i =>
      [{ zeroPhdr with p_type := PT_PHDR, p_vaddr := 134512692 },
       exampleLoad 134512640 4096].getD i zeroPhdr }

/-- An `ElfBinaryReader` on a statically linked executable: two `PT_LOAD` program
headers and no `PT_PHDR`; the memory after the table reads as zeros. -/
def staticBinaryReader : ElfBinaryReader :=
  { exampleBinaryReader with
    phnum := some 2
    programHeaders := fun i =>
      [exampleLoad 134512640 4096, exampleLoad 134520832 4096].getD i zeroPhdr }

/-- The reader of `staticBinaryReader` when the memory two headers past the table
holds a word `6` where a header has its `p_type`. -/
def staticBinaryReaderStale : ElfBinaryReader :=
  { staticBinaryReader with
    programHeaders := fun i =>
      [exampleLoad 134512640 4096, exampleLoad 134520832 4096, zeroPhdr,
       { zeroPhdr with p_type := PT_PHDR, p_vaddr := 4096 }].getD i zeroPhdr }

/-! ## Inputs and invariant for runs on an executable without `.dynamic` -/

/-- Every header of the writer's table is a zeroed slot or a copy of one of the
headers `wanted`, with its own `p_offset`. -/
def CopiedFrom (wanted : List Phdr) (table : List Phdr) : Prop :=
  ∀ ph, ph ∈ table → ph = zeroPhdr ∨ ∃ h, h ∈ wanted ∧ ph = { h with p_offset := ph.p_offset }

/-- A 32-bit core of a statically linked executable with one thread, whose table
lists the `PT_NOTE` header last, after a 16-byte data mapping at `0x08049000` and
the stack mapping: the lookup of address 0 finds no segment. -/
def noteLastCore : ElfCoreReader :=
  { file := List.replicate 148 0 ++ exampleNotes [(4242, 3213750432)] ++ List.replicate 16 5
              ++ List.replicate 256 7
    elfHeader := { zeroEhdr with e_phnum := 3, e_phoff := 52 }
    programHeaders := fun i =>
      [{ exampleLoad 134516736 16 with p_offset := 492 },
       { exampleLoad 3213750272 256 with p_offset := 508 },
       { zeroPhdr with p_type := PT_NOTE, p_offset := 148,
                       p_filesz := (exampleNotes [(4242, 3213750432)]).length }].getD i zeroPhdr }

/-- The header is the `PT_NOTE` header of the core, or the narrowed header
`getStacks` builds for the stack pointer of one of its `NT_PRSTATUS` notes. -/
def NoteOrStack (ws : WordSize) (lay : NoteLayout) (core : ElfCoreReader) (h : Phdr) : Prop :=
  core.getSegmentByType PT_NOTE = some h ∨
  ∃ sp S, sp ∈ corePrstatusStackPointers ws lay core ∧
    core.getSegmentByAddress ws sp = some S ∧ h = Reducer.narrowedStackHeader ws sp S


/-! ## The synthetic dynamic segment -/

/-- The extent of the array `dyn` of `generateDynamicSectionInformation`: the
number of bytes `new Elf_Dyn[size]` allocates, where
`int size = newHeader.p_filesz / sizeof(Elf_Dyn)`. -/
def Reducer.dynArrayBytes (ws : WordSize) (r : Reducer) : Nat :=
  (wrapInt32 (r.dynamicSectionSizeFromExecutable / sizeofDyn ws : Nat)).toNat * sizeofDyn ws

/-- The number of bytes of `dyn` that `memset(dyn, 0, newHeader.p_filesz)` writes
and that `copySegment` then reads with
`memcpy(writePointer, data, headerToCopy->p_filesz)`. -/
def Reducer.dynBytesAccessed (r : Reducer) : Nat :=
  r.dynamicSectionSizeFromExecutable

/-- The header `generateDynamicSectionInformation` hands to `copySegment`. -/
def syntheticDynHeader (r : Reducer) : Phdr :=
  { p_align := 1, p_flags := PF_R, p_memsz := r.dynamicSectionSizeFromExecutable,
    p_filesz := r.dynamicSectionSizeFromExecutable, p_vaddr := r.dynamicAddressFromExecutable,
    p_offset := 0, p_type := PT_LOAD, p_paddr := 0 }

/-- The dynamic executable of the examples with a `.dynamic` section of 12 bytes,
one entry and a half. -/
def oddDynamicBinary : BinaryFacts :=
  { exampleDynamicBinary with dynamicSection := some (134516736, 12) }

/-- The reducer of the static example core and `oddDynamicBinary` at the point
where `copyDynamicSectionInformation` is entered in a default-mode run. -/
def oddDynamicReducer : Reducer :=
  (((exampleReducer exampleStaticCore oddDynamicBinary).checkHeapAddress 0).getStacks
    .w32).copyInitalSegmentsToOutput .w32 exampleEnv false

/-- The core of `exampleDynamicCore` with a dynamic array `[DT_NEEDED, DT_NULL]`
that holds no `DT_DEBUG` entry. -/
def noDebugDynamicCore : ElfCoreReader :=
  exampleCore [(4242, 3213750432)]
    [ { exampleLoad 134516736 96 with p_offset := 492 },
      { exampleLoad 3213750272 256 with p_offset := 588 } ]
    (encodeLE 4 1 ++ encodeLE 4 1 ++ List.replicate 88 0 ++ List.replicate 256 7)

/-- The reducer of the static example core paired with the dynamic example
executable, at the point where `copyDynamicSectionInformation` is entered: the
core holds no segment at the executable's dynamic address. -/
def missingDynamicReducer : Reducer :=
  (((exampleReducer exampleStaticCore exampleDynamicBinary).checkHeapAddress 0).getStacks
    .w32).copyInitalSegmentsToOutput .w32 exampleEnv false

/-! ## The notes of a core -/

/-- The notes that lie between the file offsets `current` and `endPos`, in file
order: the `n_type` of each and the file offset of its descriptor.  A note is a
12-byte header followed by the name and the descriptor, each rounded up to 4
bytes. -/
def noteWalk (ws : WordSize) (file : List Byte) (endPos : Nat) : Nat → Nat → List (Nat × Nat)
  | 0, _ => []
  | fuel + 1, current =>
    if current < endPos then
      let desc := current + sizeofNhdr + align_power ws (readU32 file current) 2
      (readU32 file (current + 8), desc) ::
        noteWalk ws file endPos fuel (desc + align_power ws (readU32 file (current + 4)) 2)
    else []

/-- The notes of the `PT_NOTE` segment of a core. -/
def coreNotes (ws : WordSize) (core : ElfCoreReader) : List (Nat × Nat) :=
  match core.getSegmentByType PT_NOTE with
  | none => []
  | some noteSegment =>
    noteWalk ws core.file (noteSegment.p_offset + noteSegment.p_filesz) noteSegment.p_filesz
      noteSegment.p_offset

/-- The `NT_PRSTATUS` notes of a core, in note order. -/
def corePrstatusNotes (ws : WordSize) (core : ElfCoreReader) : List (Nat × Nat) :=
  (coreNotes ws core).filter (fun n => n.1 = NT_PRSTATUS)

/-- The field `pr_pid` of the `elf_prstatus` held by a note. -/
def notePid (lay : NoteLayout) (file : List Byte) (n : Nat × Nat) : Int :=
  toInt32 (readU32 file (n.2 + lay.pr_pid))

/-- The register `pr_reg[ESP_OFFSET]` of the `elf_prstatus` held by a note. -/
def noteStackPointer (ws : WordSize) (lay : NoteLayout) (file : List Byte) (n : Nat × Nat) : Nat :=
  readWord ws file (n.2 + lay.pr_reg + lay.ESP_OFFSET * sizeofADDRESS ws)

/-- A 32-bit core whose only thread has `pr_pid = INT_MAX`. -/
def intMaxPidCore : ElfCoreReader :=
  exampleCore [(2147483647, 3213750432)]
    [{ exampleLoad 3213750272 256 with p_offset := 460 }] (List.replicate 256 7)

/-! ## ProcInterface (`procinterface.cpp`) -/

/-- The members of `ProcInterface`. -/
structure ProcInterface where
  m_pid : Int
  m_sharedObjects : List SharedObject

/-- The bytes `fgets(buf, size, fd)` stores for `room = size - 1`, the rest of
the stream, and whether the read met the end of the file: the read stops after a
newline, at the end of the file, or when the room is used up. -/
def fgetsRead : Nat → List Byte → List Byte × List Byte × Bool
  | 0, stream => ([], stream, false)
  | _ + 1, [] => ([], [], true)
  | room + 1, b :: stream =>
    if b = 10 then ([b], stream, false)
    else ((fgetsRead room stream).1.cons b, (fgetsRead room stream).2.1,
          (fgetsRead room stream).2.2)

/-- Whether the C string `hay` starts with `needle`. -/
def startsWith : List Byte → List Byte → Bool
  | [], _ => true
  | _ :: _, [] => false
  | a :: needle, b :: hay => a == b && startsWith needle hay

/-- Whether `strstr(hay, needle)` is not `NULL`. -/
def strstr : List Byte → List Byte → Bool
  | [], needle => needle.isEmpty
  | b :: hay, needle => startsWith needle (b :: hay) || strstr hay needle

/-- The value of a hexadecimal digit. -/
def hexDigit (b : Byte) : Option Nat :=
  if 48 ≤ b.toNat ∧ b.toNat ≤ 57 then some (b.toNat - 48)
  else if 97 ≤ b.toNat ∧ b.toNat ≤ 102 then some (b.toNat - 87)
  else if 65 ≤ b.toNat ∧ b.toNat ≤ 70 then some (b.toNat - 55)
  else none

/-- The number a string of hexadecimal digits denotes. -/
def hexValue (digits : List Byte) : Nat :=
  digits.foldl (fun v d => 16 * v + (hexDigit d).getD 0) 0

/-- The function `isspace` in the C locale. -/
def isspace (b : Byte) : Bool :=
  b.toNat = 32 || (9 ≤ b.toNat && b.toNat ≤ 13)

/-- The optional sign a conversion of `sscanf` accepts: whether it is `-`, and
the rest of the string. -/
def dropSign (s : List Byte) : Bool × List Byte :=
  if s.head? = some 45 then (true, s.tail)
  else if s.head? = some 43 then (false, s.tail)
  else (false, s)

/-- The optional `0x` or `0X` the conversion `%x` accepts in front of a digit. -/
def dropHexMark (s : List Byte) : List Byte :=
  if s.head? = some 48 ∧ (s.getD 1 0 = 120 ∨ s.getD 1 0 = 88) ∧ (hexDigit (s.getD 2 0)).isSome
  then s.drop 2 else s

/-- The conversion `sscanf(buf, "%x", &addr)`: white space is skipped, an
optional sign and an optional `0x` are accepted, and the digits that follow are
converted as `strtoul` does, to an `unsigned long` of the width of the build: a
value that does not fit it gives `ULONG_MAX`, otherwise the value is negated
after a `-`.  The `unsigned int` stored is the low 32 bits.  The result is
`none` when no digit is there and nothing is stored. -/
def sscanfHex (ws : WordSize) (s : List Byte) : Option Nat :=
  let signed := dropSign (s.dropWhile isspace)
  let digits := (dropHexMark signed.2).takeWhile (fun b => (hexDigit b).isSome)
  if digits = [] then none
  else if wordMod ws ≤ hexValue digits then some 4294967295
  else if signed.1 then some ((wordMod ws - hexValue digits) % wordMod ws % 4294967296)
  else some (hexValue digits % 4294967296)

/-- The loop `for (int i = len-1; i >= 0; i--)` of `getSharedObjects`, entered
with `i + 1 = n`: the value of `begin` after it. -/
def scanBack (buf : List Byte) : Nat → Nat
  | 0 => 0
  | i + 1 => if 0 < (buf.getD i 0).toNat ∧ (buf.getD i 0).toNat ≤ 32 then i + 1 else scanBack buf i

/-- The body of `if (fgets(buf, sizeof(buf), fd))` in `getSharedObjects`, on the
bytes `fgets` stored: the entry pushed, if one is. -/
def parseMapsLine (ws : WordSize) (stored : List Byte) : Option SharedObject :=
  let buf := cstring stored
  if strstr buf [114, 45, 120, 112] && strstr buf [46, 115, 111]
      && !strstr buf [40, 100, 101, 108, 101, 116, 101, 100, 41] then
    let addr := (sscanfHex ws buf).getD 0
    let len := buf.length
    if len > 0 then
      let stripped :=
        if 0 < (buf.getD (len - 1) 0).toNat ∧ (buf.getD (len - 1) 0).toNat < 32
        then buf.take (len - 1) else buf
      let begin := scanBack stripped stripped.length
      if begin > 0 then some { addr := addr, name := stripped.drop begin } else none
    else none
  else none

/-- The loop `while (!feof(fd))` of `getSharedObjects`. -/
def readMapsLoop (ws : WordSize) :
    Nat → List Byte → Bool → List SharedObject → List SharedObject
  | 0, _, _, acc => acc
  | fuel + 1, stream, eof, acc =>
    if eof then acc
    else
      let res := fgetsRead 255 stream
      let acc1 :=
        if res.1 ≠ [] then
          match parseMapsLine ws res.1 with
          | some so => acc ++ [so]
          | none => acc
        else acc
      readMapsLoop ws fuel res.2.1 res.2.2 acc1

namespace ProcInterface

/-- The method `ProcInterface::getSharedObjects`, on the content of the file
opened (`none` when `fopen` fails).  Every round of the loop takes a byte from
the stream or meets its end, so the fuel is never used up. -/
def getSharedObjects (ws : WordSize) (p : ProcInterface) (file : Option (List Byte)) :
    ProcInterface :=
  let cleared := { p with m_sharedObjects := [] }
  match file with
  | none => cleared
  | some content =>
    { cleared with
        m_sharedObjects := readMapsLoop ws (content.length + 2) content false
                             cleared.m_sharedObjects }

end ProcInterface

/-- The filter of the maps-file lines in the words of the specification: the line
contains `r-xp` and `.so` and does not contain `(deleted)`. -/
def acceptedLine (line : List Byte) : Bool :=
  strstr line [114, 45, 120, 112] && strstr line [46, 115, 111]
    && !strstr line [40, 100, 101, 108, 101, 116, 101, 100, 41]

/-- The hexadecimal digits a line starts with. -/
def leadingHexDigits (line : List Byte) : List Byte :=
  line.takeWhile (fun b => (hexDigit b).isSome)

/-- The last white-space-delimited field of a line that does not end in white
space: the bytes after its last white-space byte. -/
def lastField (body : List Byte) : List Byte :=
  (body.reverse.takeWhile (fun b => !isspace b)).reverse

/-- A line without the newline that ends it. -/
def mapsLineBody (line : List Byte) : List Byte :=
  if line.getLast? = some 10 then line.dropLast else line

/-- The entry the specification asks for a line: the value of the leading
hexadecimal address and the last white-space-delimited field. -/
def specEntry (line : List Byte) : SharedObject :=
  { addr := hexValue (leadingHexDigits line), name := lastField (mapsLineBody line) }

/-- The list the specification asks for: one entry per accepted line, in file
order. -/
def specSharedObjects (lines : List (List Byte)) : List SharedObject :=
  (lines.filter acceptedLine).map specEntry

/-- The lines of a file made of `bodies`, each ended by a newline, and of `last`,
the bytes after the last newline. -/
def mapsLines (bodies : List (List Byte)) (last : List Byte) : List (List Byte) :=
  bodies.map (fun l => l ++ [10]) ++ (if last = [] then [] else [last])

/-- The content of a file with the lines `mapsLines bodies last`. -/
def mapsContent (bodies : List (List Byte)) (last : List Byte) : List Byte :=
  (bodies.map (fun l => l ++ [10])).flatten ++ last

/-- A line of text that fits the buffer of `getSharedObjects`: fewer than 255
bytes, none of them a newline, a NUL or a control character other than white
space. -/
@[reducible]
def TextLine (body : List Byte) : Prop :=
  (∀ b ∈ body, 32 < b.toNat ∨ isspace b = true) ∧ 10 ∉ body ∧ body.length < 255

/-- A line with the two fields the specification reads: it starts with a
hexadecimal number that fits an `unsigned int` and is followed by `-`, and it
holds white space and does not end in it. -/
@[reducible]
def EntryLine (body : List Byte) : Prop :=
  leadingHexDigits body ≠ [] ∧ hexValue (leadingHexDigits body) < 4294967296 ∧
  (body.drop (leadingHexDigits body).length).head? = some 45 ∧
  (∃ b ∈ body, isspace b = true) ∧ lastField body ≠ []

/-- The lines of a maps file: the executable, `libc.so`, a writable mapping of
`libc.so`, and `libm.so`. -/
def exampleMapsBodies : List (List Byte) :=
  [ asciiBytes "08048000-08049000 r-xp 00000000 08:01 17 /bin/app",
    asciiBytes "40000000-40150000 r-xp 00000000 08:01 42 /lib/libc.so",
    asciiBytes "40150000-40153000 rw-p 00150000 08:01 42 /lib/libc.so",
    asciiBytes "40200000-40220000 r-xp 00000000 08:01 43 /lib/libm.so" ]

/-- A maps file of two accepted lines: one without white space, and one whose
path is followed by a space. -/
def oddMapsFile : List Byte :=
  asciiBytes "40000000-40150000:r-xp:/lib/libc.so\n" ++
  asciiBytes "40200000-40220000 r-xp 00000000 08:01 43 /lib/libm.so \n"

/-! ## The entry point (`main.cpp`) -/

/-- What `getopt(argc, argv, "hsi:o:e:a:m:")` returns in one round of the loop of
`main`: the option character with `optarg`, for `-a` the value
`strtol(optarg, NULL, 16)`, and `other` for `?`. -/
inductive CmdOption where
  | i (optarg : String)
  | o (optarg : String)
  | e (optarg : String)
  | m (optarg : String)
  | a (value : Int)
  | s
  | h
  | other

/-- The locals of `main` the options set. -/
structure MainArgs where
  inputFile : Option String
  outFile : Option String
  executable : Option String
  mapsFile : Option String
  heapAddress : Nat
  stacksOnlyMode : Bool

/-- What the files named on the command line and the operating system hold:
the core `ElfCoreReader::initalize` opens (`none` when it fails), the facts read
from the executable, the list `getSharedObjects` reads from the maps file, the
answers to the writer, the value of `ProcInterface::heapAddress()`, and the fuel
for the walk of the link map. -/
structure MainInputs where
  core : Option ElfCoreReader
  binary : Option BinaryFacts
  sharedObjects : MapsFile
  env : Env
  ifaceHeap : Nat
  fuel : Nat

/-- The values the locals of `main` start with. -/
def initialArgs : MainArgs :=
  { inputFile := none, outFile := none, executable := none, mapsFile := none,
    heapAddress := 0, stacksOnlyMode := false }

/-- The loop `while ((c = getopt(...)) != -1)` of `main`; `none` when the `switch`
returns -1. -/
def parseOptions (ws : WordSize) : List CmdOption → MainArgs → Option MainArgs
  | [], args => some args
  | .i optarg :: rest, args => parseOptions ws rest { args with inputFile := some optarg }
  | .o optarg :: rest, args => parseOptions ws rest { args with outFile := some optarg }
  | .e optarg :: rest, args => parseOptions ws rest { args with executable := some optarg }
  | .m optarg :: rest, args => parseOptions ws rest { args with mapsFile := some optarg }
  | .a value :: rest, args =>
    parseOptions ws rest { args with heapAddress := (value % (wordMod ws : Int)).toNat }
  | .s :: rest, args => parseOptions ws rest { args with stacksOnlyMode := true }
  | .h :: _, _ => none
  | .other :: _, _ => none

/-- The function `main`: the exit status and the file the run stored.  The result
is `none` when `initalize` or `run` does not come back. -/
def main (ws : WordSize) (lay : NoteLayout) (inputs : MainInputs) (options : List CmdOption) :
    Option (Int × Option ElfFile) :=
  match parseOptions ws options initialArgs with
  | none => some (-1, none)
  | some args =>
    if args.outFile.isNone || args.executable.isNone || args.inputFile.isNone then some (-1, none)
    else
      match Reducer.initalize ws lay inputs.core inputs.binary args.outFile args.heapAddress with
      | none => none
      | some (false, _) => some (-1, none)
      | some (true, none) => none
      | some (true, some reducer) =>
        match Reducer.run ws inputs.env inputs.ifaceHeap inputs.fuel reducer args.stacksOnlyMode
                (args.mapsFile.map (fun _ => inputs.sharedObjects)) with
        | none => none
        | some res => some (0, res.2)

/-- The static example core and its executable, with the answers `env` of the
operating system. -/
def exampleInputs (env : Env) : MainInputs :=
  { core := some exampleStaticCore, binary := some exampleStaticBinary, sharedObjects := [],
    env := env, ifaceHeap := 0, fuel := 16 }

/-- The command line `-i core -o core.reduced -e app -s`. -/
def exampleOptions : List CmdOption :=
  [.i "core", .o "core.reduced", .e "app", .s]


/-! ## Well-formed note segments -/

/-- A note: its type, its name with the terminating NUL, and its descriptor. -/
structure Note where
  n_type : Nat
  name : List Byte
  desc : List Byte

/-- A field of a note padded with zeros up to a 4-byte boundary. -/
def pad4 (bytes : List Byte) : List Byte :=
  bytes ++ List.replicate ((bytes.length + 3) / 4 * 4 - bytes.length) 0

/-- The bytes of a note in a note segment: `n_namesz`, `n_descsz`, `n_type`, then
the name and the descriptor, each padded to a 4-byte boundary. -/
def encodeNote (n : Note) : List Byte :=
  encodeLE 4 n.name.length ++ encodeLE 4 n.desc.length ++ encodeLE 4 n.n_type
    ++ pad4 n.name ++ pad4 n.desc

/-- The bytes of a well-formed note segment that holds `notes`. -/
def encodeNotes (notes : List Note) : List Byte :=
  (notes.map encodeNote).flatten

/-- The type and the place of the descriptor of each note of a segment that
starts at the file offset `p`. -/
def notePositions (p : Nat) : List Note → List (Nat × Nat)
  | [] => []
  | n :: rest =>
    (n.n_type, p + sizeofNhdr + (pad4 n.name).length)
      :: notePositions (p + (encodeNote n).length) rest

/-- A segment of two notes: a `CORE` note of type `NT_PRPSINFO` with a 5-byte
descriptor and a `LINUX` note of type 6 with a 2-byte descriptor. -/
def exampleNoteList : List Note :=
  [ { n_type := NT_PRPSINFO, name := [67, 79, 82, 69, 0], desc := [1, 2, 3, 4, 5] },
    { n_type := 6, name := [76, 73, 78, 85, 88, 0], desc := [9, 9] } ]

/-- An executable with a `PT_PHDR` segment and an `.interp` section and without
a `.dynamic` section. -/
def interpOnlyBinary : BinaryFacts :=
  { ptPhdr := some { zeroPhdr with p_type := PT_PHDR, p_vaddr := 134512692 },
    dynamicSection := none,
    interpSection := some (134512980, some [47, 108, 100, 46, 115, 111, 0]) }

/-- A position-independent executable linked at address 0: `PT_PHDR` at `0x34`,
`.dynamic` at `0x1f00` (24 bytes), `.interp` at `0x154`. -/
def relocatedBinary : BinaryFacts :=
  { ptPhdr := some { zeroPhdr with p_type := PT_PHDR, p_vaddr := 52 },
    dynamicSection := some (7936, 24),
    interpSection := some (340, some [47, 108, 100, 46, 115, 111, 0]) }

/-- The data segment of `interpNameCore`, loaded at `0x08049000`: a `link_map`
record whose `l_name` is `0x08048154`, the address of `.interp` in the
executable, a second record whose `l_name` is `0x08049028`, and the string
`"libc.so"` at that address. -/
def interpNameSegment : List Byte :=
  encodeLE 4 0 ++ encodeLE 4 134512980 ++ encodeLE 4 0 ++ encodeLE 4 134516756 ++ encodeLE 4 0 ++
  encodeLE 4 1073741824 ++ encodeLE 4 134516776 ++ encodeLE 4 0 ++ encodeLE 4 0
    ++ encodeLE 4 134516736 ++
  [108, 105, 98, 99, 46, 115, 111, 0]

/-- A 32-bit core of a dynamic executable whose first `link_map` record names
the interpreter by its address in the executable's text, which the core does not
hold. -/
def interpNameCore : ElfCoreReader :=
  exampleCore [(4242, 3213750432)]
    [ { exampleLoad 134516736 48 with p_offset := 492 },
      { exampleLoad 3213750272 256 with p_offset := 540 } ]
    (interpNameSegment ++ List.replicate 256 7)

/-- The reducer of `interpNameCore` at the point where
`copyDynamicSectionInformation` is entered in a default-mode run. -/
def interpNameReducer : Reducer :=
  (((exampleReducer interpNameCore exampleDynamicBinary).checkHeapAddress 0).getStacks
    .w32).copyInitalSegmentsToOutput .w32 exampleEnv false

/-! ## The reads of the binary search -/

/-- The indices `mid` at which the loop of `getSegmentByAddress` reads
`programHeaders[mid]`, in the order of the reads. -/
def ElfCoreReader.getSegmentByAddressReads (ws : WordSize) (c : ElfCoreReader) (toMatch : Nat) :
    Nat → Int → Int → List Int
  | 0, _, _ => []
  | fuel + 1, first, last =>
    if first ≤ last then
      let mid : Int := (first + last) / 2
      let ph := c.programHeaders mid.toNat
      if toMatch < ph.p_vaddr then
        mid :: getSegmentByAddressReads ws c toMatch fuel first (mid - 1)
      else if (ph.p_vaddr + ph.p_filesz) % wordMod ws ≤ toMatch then
        mid :: getSegmentByAddressReads ws c toMatch fuel (mid + 1) last
      else
        [mid]
    else
      []

/-- The macro `RICHCORE_HEADER`, without its terminating NUL. -/
def RICHCORE_HEADER : List Byte := asciiBytes "[---rich-core: "

/-- The macro `RICHCORE_HEADER_END`, without its terminating NUL. -/
def RICHCORE_HEADER_END : List Byte := asciiBytes "---]\n"

/-- The macro `BUFFER_SIZE`, as it expands in `char buffer[BUFFER_SIZE]`. -/
def BUFFER_SIZE : Nat := 4096 + 128

/-- Whether `strncmp(r, m + i, n)` is zero, for a string `r` given with its
terminating NUL and the memory `m` of an object of `cap` bytes.  The result is
`none` when the comparison reads past the end of either. -/
def strncmpZero (m : Nat → Byte) (cap : Nat) : Nat → List Byte → Nat → Option Bool
  | 0, _, _ => some true
  | _ + 1, [], _ => none
  | n + 1, c :: r, i =>
    if cap ≤ i then none
    else if c ≠ m i then some false
    else if c = 0 then some true
    else strncmpZero m cap n r (i + 1)

/-- The loop `for (i = 0; i < memlen; i++)` of `memcspn`, entered at `i` with
`memlen - i` rounds to go: the value of `i` after it. -/
def memcspnLoop (m : Nat → Byte) (cap : Nat) (r : List Byte) (n : Nat) : Nat → Nat → Option Nat
  | 0, i => some i
  | rounds + 1, i =>
    match strncmpZero m cap n r i with
    | none => none
    | some true => some i
    | some false => memcspnLoop m cap r n rounds (i + 1)

/-- The function `memcspn`.  `mem` is the memory of the object `mem` points to,
with its size, and `reject` the string with its terminating NUL; `none` stands
for a null pointer.  The result is `none` when a read leaves an object. -/
def memcspn (mem : Option ((Nat → Byte) × Nat)) (memlen : Nat) (reject : Option (List Byte))
    (rejectlen : Nat) : Option Nat :=
  match reject with
  | none => some memlen
  | some r =>
    if rejectlen = 0 then some memlen
    else
      match mem with
      | none => some 0
      | some (m, cap) =>
        if memlen = 0 then some 0
        else memcspnLoop m cap r (rejectlen - 1) memlen 0

/-- The memory of an object that holds the bytes `bytes`. -/
def memoryOf (bytes : List Byte) : (Nat → Byte) × Nat :=
  (fun i => bytes.getD i 0, bytes.length)

/-- Whether the bytes `pat` stand in the memory `m` from index `i` on. -/
def occursAt (m : Nat → Byte) : List Byte → Nat → Bool
  | [], _ => true
  | c :: pat, i => m i == c && occursAt m pat (i + 1)

/-- What `output_file` points to: nothing after a failed `fopen`, `/dev/null`,
or the file created last. -/
inductive OutputFile where
  | null
  | devNull
  | created
deriving DecidableEq, Repr

/-- The state of the extractor inside the split loop: the globals `buffer` and
`size`, the bytes `input_file` has not delivered yet with its end-of-file
indicator, `output_file`, the files created in `output_dir` in the order of their
`fopen` with the bytes written to each, and the bytes written to `/dev/null`.
The indices of `buffer` from `BUFFER_SIZE` on stand for the bytes that follow
the array in memory; no function of the extractor writes them. -/
structure Extractor where
  buffer : Nat → Byte
  size : Int
  input : List Byte
  eof : Bool
  output_file : OutputFile
  files : List (List Byte × List Byte)
  discarded : List Byte

namespace Extractor

/-- The function `unbuffer_data`, `num` being the `int` the caller computes.
The result is `none` when `num` converted to `size_t` exceeds `size`, and when
`size` exceeds the size of `buffer`.  The bytes of `buffer` from the new `size`
on stay as they were. -/
def unbuffer_data (st : Extractor) (num : Int) : Option Extractor :=
  if num < 0 ∨ st.size < num ∨ (BUFFER_SIZE : Int) < st.size then none
  else
    some { st with size := st.size - num
                   buffer := fun i =>
                     if (i : Int) < st.size - num then st.buffer (i + num.toNat) else st.buffer i }

end Extractor

/-- The GNU function `basename` of `<string.h>`: the bytes after the last `/`. -/
def basename (s : List Byte) : List Byte :=
  (s.reverse.takeWhile (fun b => b != 47)).reverse

/-- The files and the discarded bytes after `bytes` have been written to the
current output file. -/
def Extractor.written (st : Extractor) (bytes : List Byte) :
    List (List Byte × List Byte) × List Byte :=
  match st.output_file with
  | .devNull => (st.files, st.discarded ++ bytes)
  | _ =>
    match st.files.getLast? with
    | some f => (st.files.dropLast ++ [(f.1, f.2 ++ bytes)], st.discarded)
    | none => (st.files, st.discarded)

/-- The bytes `l` stand at the start of the memory `m`. -/
def Holds (m : Nat → Byte) (l : List Byte) : Prop :=
  ∀ i, i < l.length → m i = l.getD i 0

/-- The writer of a 32-bit build with two header slots and six bytes of data
room, after `copyElfHeader` and the copy of a first segment of four bytes: the
cursor stands at 120, the capacity is 122, and one slot is free. -/
def exampleSegmentWriter : RawElfWriter :=
  (((RawElfWriter.new.initalize .w32 exampleEnv (some "core.reduced") 2 6).2.copyElfHeader .w32
    (some zeroEhdr)).copySegment .w32 (some (exampleLoad 4096 4)) (some [1, 2, 3, 4]) none 0 0).2

/-- A core whose only thread has the stack pointer `0x000F4240`, an address that
lies in no segment of the core. -/
def strayStackPointerCore : ElfCoreReader :=
  exampleCore [(4242, 1000000)]
    [{ exampleLoad 3213750272 256 with p_offset := 460 }] (List.replicate 256 7)

/-- What the split loop needs of the archive `P "\n" H(n1) P1 ... "\n" H(nk) Pk`
to split it at its markers: no payload holds the start of a marker, no payload
but the last one holds, with the newline that follows it, the end of a marker,
no name holds a NUL or the end of a marker, every path fits `fn[128]` and is
opened, and the last payload is not empty and does not end with a beginning of
the start of a marker.  With `long`, for streams that take more than one
`fread`, every marker is shorter than the 128 bytes read ahead and the last
payload is no shorter than they are. -/
def Splittable (fopenOk : List Byte → Bool) (dir : List Byte) (long : Bool) :
    List Byte → List (List Byte × List Byte) → Prop
  | P, [] =>
    ¬ RICHCORE_HEADER <:+: P ∧ ∀ k, k < 14 → ¬ RICHCORE_HEADER.take (k + 1) <:+ P
  | P, f :: rest =>
    ¬ RICHCORE_HEADER <:+: P ∧ ¬ RICHCORE_HEADER_END <:+: P ++ [10] ∧
    (0 : Byte) ∉ f.1 ∧ ¬ RICHCORE_HEADER_END <:+: f.1 ∧
    (dir ++ [47] ++ basename f.1).length ≤ 127 ∧
    fopenOk (dir ++ [47] ++ basename f.1) = true ∧
    (long = true → f.1.length ≤ 107) ∧
    (rest = [] → f.2 ≠ [] ∧ (long = true → 128 ≤ f.2.length)) ∧
    Splittable fopenOk dir long f.2 rest

theorem wordMod_pos (ws : WordSize) : 0 < wordMod ws := by
  unfold wordMod; positivity

theorem wordMod_w32 : wordMod .w32 = 4294967296 := by
  simp [wordMod, sizeofADDRESS]

theorem wordMod_w64 : wordMod .w64 = 18446744073709551616 := by
  simp [wordMod, sizeofADDRESS]

theorem compare_le_iff (a b : Phdr) : compareProgramHeaders a b ≤ 0 ↔ a.p_vaddr ≤ b.p_vaddr := by
  unfold compareProgramHeaders
  split_ifs <;> omega

theorem qsort_perm (t : List Phdr) : (qsort t).Perm t :=
  List.perm_insertionSort _ t

theorem qsort_sorted (t : List Phdr) : ((qsort t).map Phdr.p_vaddr).Sorted (· ≤ ·) := by
  have total : IsTotal Phdr (fun a b => compareProgramHeaders a b ≤ 0) :=
    ⟨fun a b => by simp only [compare_le_iff]; omega⟩
  have trans : IsTrans Phdr (fun a b => compareProgramHeaders a b ≤ 0) :=
    ⟨fun a b c => by simp only [compare_le_iff]; omega⟩
  have h := List.sorted_insertionSort (fun a b => compareProgramHeaders a b ≤ 0) t
  unfold qsort
  unfold List.Sorted at h ⊢
  rw [List.pairwise_map]
  exact h.imp (fun {a b} hab => (compare_le_iff a b).1 hab)

theorem updateSlot_length (t : List Phdr) (i : Nat) (f : Phdr → Phdr) :
    (updateSlot t i f).length = t.length := by
  unfold updateSlot
  split <;> simp

theorem initalize_ok (ws : WordSize) (env : Env) (fileName : Option String) (n sz : Nat)
    (h : (RawElfWriter.new.initalize ws env fileName n sz).1 = true) :
    (RawElfWriter.new.initalize ws env fileName n sz).2 =
      { RawElfWriter.new with
          fd := env.openFd
          currentBufferSize := (sizeofEhdr ws + n * sizeofPhdr ws + sz) % wordMod ws
          bufferAllocated := true
          numProgramHeaders := n
          offset := (0 + sizeofEhdr ws) % wordMod ws } := by
  unfold RawElfWriter.initalize at h ⊢
  cases fileName with
  | none => simp at h
  | some f =>
    simp only at h ⊢
    split_ifs at h ⊢
    rfl

theorem tableReady_init (ws : WordSize) (env : Env) (fileName : Option String) (n sz : Nat)
    (hdr : Ehdr) (h : (RawElfWriter.new.initalize ws env fileName n sz).1 = true) :
    TableReady n ((RawElfWriter.new.initalize ws env fileName n sz).2.copyElfHeader ws (some hdr)) := by
  rw [initalize_ok ws env fileName n sz h]
  simp [TableReady, RawElfWriter.copyElfHeader, RawElfWriter.new]

theorem tableReady_applyOp (ws : WordSize) (n : Nat) (w : RawElfWriter) (op : WriterOp)
    (h : TableReady n w) : TableReady n (applyOp ws w op) := by
  obtain ⟨h1, h2, h3, h4, h5⟩ := h
  cases op with
  | copySegment hd d o oo os =>
    simp only [applyOp, RawElfWriter.copySegment]
    cases hd <;> cases d <;> simp only [TableReady] <;> try exact ⟨h1, h2, h3, h4, h5⟩
    split_ifs <;> simp [RawElfWriter.reallocate, h1, h2, h3, h4, h5]
  | startLinkMapSegment heap =>
    simp [applyOp, RawElfWriter.startLinkMapSegment, TableReady, updateSlot_length, h1, h2, h3, h4, h5]
  | createR_DebugStruct =>
    simp only [applyOp, RawElfWriter.createR_DebugStruct, RawElfWriter.addR_DebugStruct, TableReady]
    split_ifs <;> simp [RawElfWriter.reallocate, h1, h2, h3, h4, h5]
  | addR_DebugStruct rd =>
    simp only [applyOp, RawElfWriter.addR_DebugStruct]
    cases rd <;> simp only [TableReady] <;> try exact ⟨h1, h2, h3, h4, h5⟩
    split_ifs <;> simp [RawElfWriter.reallocate, h1, h2, h3, h4, h5]
  | createAndAddLinkMapSegment a s l f =>
    simp only [applyOp, RawElfWriter.createAndAddLinkMapSegment, RawElfWriter.addLinkMapSegment,
      TableReady]
    split_ifs <;> simp [RawElfWriter.reallocate, h1, h2, h3, h4, h5]
  | addLinkMapSegment lm s =>
    simp only [applyOp, RawElfWriter.addLinkMapSegment]
    cases lm <;> simp only [TableReady] <;> try exact ⟨h1, h2, h3, h4, h5⟩
    split_ifs <;> simp [RawElfWriter.reallocate, h1, h2, h3, h4, h5]
  | finalizeLinkMapSegment =>
    simp [applyOp, RawElfWriter.finalizeLinkMapSegment, TableReady, updateSlot_length, h1, h2, h3, h4, h5]

theorem tableReady_applyOps (ws : WordSize) (n : Nat) (ops : List WriterOp) (w : RawElfWriter)
    (h : TableReady n w) : TableReady n (applyOps ws w ops) := by
  induction ops generalizing w with
  | nil => exact h
  | cons op ops ih => exact ih _ (tableReady_applyOp ws n w op h)

theorem write_tableReady (env : Env) (n : Nat) (w : RawElfWriter)
    (h : TableReady n w) (hw : env.writeOk = true) :
    (w.write env).2.2 = some { elfHeader := w.elfHeader, programHeaders := qsort w.programHeaders,
                               bytes := w.buffer, size := w.offset } := by
  obtain ⟨h1, h2, h3, h4, h5⟩ := h
  have hs : w.sortBuffer = { w with programHeaders := qsort w.programHeaders,
                                    isBufferSorted := true } := by
    simp [RawElfWriter.sortBuffer, h1, h2, h3, h5, ← h4]
  unfold RawElfWriter.write
  simp only [h1, h3, hw, if_true, Bool.not_false, Bool.not_true, Bool.false_eq_true, if_false]
  rw [hs]

theorem updateSlot_getElem? (t : List Phdr) (i j : Nat) (f : Phdr → Phdr) :
    (updateSlot t i f)[j]? = if j = i then (t[i]?).map f else t[j]? := by
  unfold updateSlot
  split
  · rename_i ph hph
    rw [List.getElem?_set]
    by_cases hji : j = i
    · subst hji
      have hlt : j < t.length := by
        rcases Nat.lt_or_ge j t.length with hlt | hge
        · exact hlt
        · rw [List.getElem?_eq_none hge] at hph; cases hph
      simp [hlt, hph]
    · have : ¬ i = j := fun h => hji h.symm
      simp [hji, this]
  · rename_i hnone
    by_cases hji : j = i
    · subst hji; simp [hnone]
    · simp [hji]

theorem copySegment_eq (ws : WordSize) (w : RawElfWriter) (h : Phdr) (d : List Byte)
    (o : Option (List Byte)) (oo os : Nat) (hslot : w.currentProgramHeader < w.numProgramHeaders) :
    (w.copySegment ws (some h) (some d) o oo os).2 =
      { w with
          currentBufferSize :=
            if (w.offset + h.p_filesz) % wordMod ws > w.currentBufferSize
            then (w.currentBufferSize + h.p_filesz) % wordMod ws else w.currentBufferSize
          programHeaders := w.programHeaders.set w.currentProgramHeader { h with p_offset := w.offset }
          buffer :=
            match o with
            | some od =>
              if (oo + os) % wordMod ws < h.p_filesz
              then memcpyWrapped ws (memcpy w.buffer w.offset d h.p_filesz) (w.offset + oo) od os
              else memcpy w.buffer w.offset d h.p_filesz
            | none => memcpy w.buffer w.offset d h.p_filesz
          offset := (w.offset + h.p_filesz) % wordMod ws
          currentProgramHeader := w.currentProgramHeader + 1 } := by
  unfold RawElfWriter.copySegment
  have : ¬ w.currentProgramHeader ≥ w.numProgramHeaders := by omega
  simp only [this, if_false]
  split_ifs <;> rfl

theorem copySegment_full (ws : WordSize) (w : RawElfWriter) (h : Option Phdr)
    (d o : Option (List Byte)) (oo os : Nat)
    (hslot : w.numProgramHeaders ≤ w.currentProgramHeader) :
    (w.copySegment ws h d o oo os).2 = w := by
  unfold RawElfWriter.copySegment
  rcases h with _ | h <;> rcases d with _ | d <;> simp [hslot]

theorem addR_DebugStruct_eq (ws : WordSize) (w : RawElfWriter) (rd : List Byte) :
    (w.addR_DebugStruct ws (some rd)).2 =
      { w with
          currentBufferSize :=
            if (R_DEBUG_STRUCT_SIZE ws + w.offset) % wordMod ws > w.currentBufferSize
            then (w.currentBufferSize +
                    (R_DEBUG_STRUCT_SIZE ws + w.offset + LM_BUFFER_DATA_SIZE) % wordMod ws)
                   % wordMod ws
            else w.currentBufferSize
          buffer :=
            memcpy (memcpy w.buffer w.offset rd (R_DEBUG_STRUCT_SIZE ws))
              (w.offset + sizeofADDRESS ws)
              (encodeLE (sizeofADDRESS ws)
                (((w.programHeaders.getD w.currentProgramHeader zeroPhdr).p_vaddr
                  + R_DEBUG_STRUCT_SIZE ws) % wordMod ws))
              (sizeofADDRESS ws)
          offset := (w.offset + R_DEBUG_STRUCT_SIZE ws) % wordMod ws
          linkMapHeadAddress :=
            ((w.programHeaders.getD w.currentProgramHeader zeroPhdr).p_vaddr
              + R_DEBUG_STRUCT_SIZE ws) % wordMod ws } := by
  unfold RawElfWriter.addR_DebugStruct
  simp only
  split_ifs <;> rfl

theorem addLinkMapSegment_eq (ws : WordSize) (w : RawElfWriter) (lm : LinkMap)
    (s : Option (List Byte)) :
    (w.addLinkMapSegment ws (some lm) s).2 =
      { w with
          currentBufferSize :=
            if (sizeofLinkMap ws + stringSizeOf ws s + w.offset) % wordMod ws > w.currentBufferSize
            then (w.currentBufferSize +
                    (sizeofLinkMap ws + stringSizeOf ws s + w.offset + LM_BUFFER_DATA_SIZE)
                      % wordMod ws) % wordMod ws
            else w.currentBufferSize
          buffer :=
            memcpy
              (memcpy
                (memcpy w.buffer w.offset (encodeLinkMap ws (writtenLinkMap ws w lm s))
                  (sizeofLinkMap ws))
                ((w.offset + sizeofLinkMap ws) % wordMod ws) (cstring (s.getD []))
                (stringSizeOf ws s - 1))
              ((w.offset + sizeofLinkMap ws) % wordMod ws + (stringSizeOf ws s - 1)) [0] 1
          offset := ((w.offset + sizeofLinkMap ws) % wordMod ws + stringSizeOf ws s) % wordMod ws
          previousLinkAddress := (w.linkMapHeadAddress + w.currentLinkMapSize) % wordMod ws
          currentLinkMapSize :=
            (w.currentLinkMapSize + (sizeofLinkMap ws + stringSizeOf ws s)) % wordMod ws } := by
  unfold RawElfWriter.addLinkMapSegment
  simp only
  rcases s with _ | s <;> simp only [stringSizeOf, writtenLinkMap] <;> split_ifs <;> rfl

theorem addLinkMapSegment_fst (ws : WordSize) (w : RawElfWriter) (lm : LinkMap)
    (s : Option (List Byte)) :
    (w.addLinkMapSegment ws (some lm) s).1 = lm.nextLinkMapStruct := by
  unfold RawElfWriter.addLinkMapSegment
  rfl

theorem offsetsBelowCursor_grow (ws : WordSize) (w w2 : RawElfWriter) (k : Nat)
    (hinv : OffsetsBelowCursor ws true w) (hgrow : w.offset + k < wordMod ws)
    (htable : w2.programHeaders = w.programHeaders)
    (hcur : w2.currentProgramHeader = w.currentProgramHeader)
    (hoff : w2.offset = w.offset + k) :
    OffsetsBelowCursor ws true w2 := by
  obtain ⟨hlt, hall⟩ := hinv
  refine ⟨by omega, ?_⟩
  intro i ph hget
  rw [htable] at hget
  have := hall i ph hget
  rw [hcur, hoff]
  split_ifs at this ⊢ <;> omega

theorem stringSizeOf_eq (ws : WordSize) (s : Option (List Byte))
    (h : strlen (s.getD []) + 1 < wordMod ws) : stringSizeOf ws s = strlen (s.getD []) + 1 := by
  rcases s with _ | s
  · simp [stringSizeOf, strlen, cstring]
  · simp only [stringSizeOf, Option.getD_some] at h ⊢
    rw [Nat.mod_eq_of_lt (by omega)]; omega

theorem addLinkMapSegment_offset (ws : WordSize) (w : RawElfWriter) (lm : LinkMap)
    (s : Option (List Byte))
    (hgrow : w.offset + (sizeofLinkMap ws + strlen (s.getD []) + 1) < wordMod ws) :
    (w.addLinkMapSegment ws (some lm) s).2.offset
      = w.offset + (sizeofLinkMap ws + strlen (s.getD []) + 1) := by
  rw [addLinkMapSegment_eq ws w lm s]
  simp only
  rw [stringSizeOf_eq ws s (by omega),
    Nat.mod_eq_of_lt (show w.offset + sizeofLinkMap ws < wordMod ws by omega),
    Nat.mod_eq_of_lt (by omega)]
  omega

theorem offsetsBelowCursor_applyOp (ws : WordSize) (inLinkMap : Bool) (w : RawElfWriter)
    (op : WriterOp) (hinv : OffsetsBelowCursor ws inLinkMap w)
    (hgrow : w.offset + op.appended ws < wordMod ws) (hallow : op.allowed inLinkMap w = true) :
    OffsetsBelowCursor ws (op.opens inLinkMap) (applyOp ws w op) := by
  cases op with
  | copySegment hd d o oo os =>
    obtain ⟨hlt, hall⟩ := hinv
    simp only [WriterOp.allowed, Bool.not_eq_true'] at hallow
    subst hallow
    simp only [WriterOp.opens]
    rcases hd with _ | h
    · exact ⟨hlt, hall⟩
    rcases d with _ | d
    · exact ⟨hlt, hall⟩
    simp only [WriterOp.appended] at hgrow
    simp only [applyOp]
    rcases Nat.lt_or_ge w.currentProgramHeader w.numProgramHeaders with hslot | hslot
    · rw [copySegment_eq ws w h d o oo os hslot]
      refine ⟨Nat.mod_lt _ (wordMod_pos ws), ?_⟩
      intro i ph hget
      simp only [Bool.false_eq_true, false_and, if_false, Nat.mod_eq_of_lt hgrow]
      simp only at hget
      by_cases hi : w.currentProgramHeader = i
      · subst hi
        rcases Nat.lt_or_ge w.currentProgramHeader w.programHeaders.length with hl | hl
        · rw [List.getElem?_set_self hl] at hget
          simp only [Option.some.injEq] at hget
          subst hget
          simp
        · rw [List.getElem?_eq_none (by simpa using hl)] at hget
          cases hget
      · rw [List.getElem?_set_ne hi] at hget
        have := hall i ph hget
        simp only [Bool.false_eq_true, false_and, if_false] at this
        omega
    · rw [copySegment_full ws w _ _ _ _ _ hslot]
      exact ⟨hlt, hall⟩
  | startLinkMapSegment heap =>
    obtain ⟨hlt, hall⟩ := hinv
    simp only [WriterOp.allowed, Bool.and_eq_true, Bool.not_eq_true', decide_eq_true_eq] at hallow
    obtain ⟨hmode, hslot⟩ := hallow
    subst hmode
    simp only [WriterOp.opens, applyOp, RawElfWriter.startLinkMapSegment]
    refine ⟨hlt, ?_⟩
    intro i ph hget
    simp only [updateSlot_getElem?] at hget
    simp only [true_and]
    split_ifs at hget with h1
    · subst h1
      simp only [if_true]
      rcases hq : w.programHeaders[w.currentProgramHeader]? with _ | q
      · rw [hq] at hget; cases hget
      · rw [hq] at hget
        simp only [Option.map_some', Option.some.injEq] at hget
        subst hget
        simp
    · simp only [h1, if_false]
      have := hall i ph hget
      simpa using this
  | createR_DebugStruct =>
    simp only [WriterOp.allowed] at hallow
    subst hallow
    simp only [WriterOp.appended] at hgrow
    simp only [WriterOp.opens, applyOp, RawElfWriter.createR_DebugStruct]
    rw [addR_DebugStruct_eq]
    exact offsetsBelowCursor_grow ws w _ _ hinv hgrow rfl rfl (Nat.mod_eq_of_lt hgrow)
  | addR_DebugStruct rd =>
    simp only [WriterOp.allowed] at hallow
    subst hallow
    simp only [WriterOp.opens, applyOp]
    rcases rd with _ | rd
    · exact hinv
    simp only [WriterOp.appended] at hgrow
    rw [addR_DebugStruct_eq]
    exact offsetsBelowCursor_grow ws w _ _ hinv hgrow rfl rfl (Nat.mod_eq_of_lt hgrow)
  | createAndAddLinkMapSegment a s l f =>
    simp only [WriterOp.allowed] at hallow
    subst hallow
    simp only [WriterOp.appended] at hgrow
    simp only [WriterOp.opens, applyOp, RawElfWriter.createAndAddLinkMapSegment]
    refine offsetsBelowCursor_grow ws w _ _ hinv (by omega) ?_ ?_
      (addLinkMapSegment_offset ws w _ s (by omega))
    · rw [addLinkMapSegment_eq ws w _ s]
    · rw [addLinkMapSegment_eq ws w _ s]
  | addLinkMapSegment lm s =>
    simp only [WriterOp.allowed] at hallow
    subst hallow
    simp only [WriterOp.opens, applyOp]
    rcases lm with _ | lm
    · exact hinv
    simp only [WriterOp.appended] at hgrow
    refine offsetsBelowCursor_grow ws w _ _ hinv (by omega) ?_ ?_
      (addLinkMapSegment_offset ws w _ s (by omega))
    · rw [addLinkMapSegment_eq ws w _ s]
    · rw [addLinkMapSegment_eq ws w _ s]
  | finalizeLinkMapSegment =>
    obtain ⟨hlt, hall⟩ := hinv
    simp only [WriterOp.allowed] at hallow
    subst hallow
    simp only [WriterOp.opens, applyOp, RawElfWriter.finalizeLinkMapSegment]
    refine ⟨hlt, ?_⟩
    intro i ph hget
    simp only [updateSlot_getElem?] at hget
    simp only [Bool.false_eq_true, false_and, if_false]
    split_ifs at hget with h1
    · subst h1
      rcases hq : w.programHeaders[w.currentProgramHeader]? with _ | q
      · rw [hq] at hget; cases hget
      · rw [hq] at hget
        simp only [Option.map_some', Option.some.injEq] at hget
        subst hget
        have := hall _ q hq
        simp only [true_and, if_true] at this
        simp only
        rw [show w.offset + wordMod ws - q.p_offset = (w.offset - q.p_offset) + wordMod ws by omega,
          Nat.add_mod_right, Nat.mod_eq_of_lt (by omega)]
        omega
    · have := hall i ph hget
      simp only [h1, and_false, if_false] at this
      exact this

theorem offsetsBelowCursor_applyOps (ws : WordSize) (ops : List WriterOp) (inLinkMap : Bool)
    (w : RawElfWriter) (hinv : OffsetsBelowCursor ws inLinkMap w)
    (hok : sessionOk ws inLinkMap w ops = true) :
    OffsetsBelowCursor ws false (applyOps ws w ops) := by
  induction ops generalizing inLinkMap w with
  | nil =>
    simp only [sessionOk, Bool.not_eq_true'] at hok
    subst hok
    exact hinv
  | cons op ops ih =>
    simp only [sessionOk, Bool.and_eq_true, decide_eq_true_eq] at hok
    obtain ⟨⟨hgrow, hallow⟩, hrest⟩ := hok
    exact ih _ _ (offsetsBelowCursor_applyOp ws inLinkMap w op hinv hgrow hallow) hrest

theorem offsetsBelowCursor_init (ws : WordSize) (env : Env) (fileName : Option String) (n sz : Nat)
    (hdr : Ehdr) (h : (RawElfWriter.new.initalize ws env fileName n sz).1 = true) :
    OffsetsBelowCursor ws false
      ((RawElfWriter.new.initalize ws env fileName n sz).2.copyElfHeader ws (some hdr)) := by
  rw [initalize_ok ws env fileName n sz h]
  refine ⟨Nat.mod_lt _ (wordMod_pos ws), ?_⟩
  intro i ph hget
  simp only [RawElfWriter.copyElfHeader] at hget
  have hmem := List.getElem?_mem hget
  rw [List.eq_of_mem_replicate hmem]
  simp [zeroPhdr]

/-- C1. Header-table sort: a writer set up by `initalize` and `copyElfHeader` and
driven through any sequence of `copySegment` and link-map calls hands `::write` a
program-header table of `numProgramHeaders` entries whose `p_vaddr` values are
in non-decreasing order. -/
theorem C1_header_table_sorted (ws : WordSize) (env : Env) (fileName : Option String)
    (n sz : Nat) (hdr : Ehdr) (ops : List WriterOp)
    (hinit : (RawElfWriter.new.initalize ws env fileName n sz).1 = true)
    (hwrite : env.writeOk = true) :
    ∃ out : ElfFile,
      ((applyOps ws ((RawElfWriter.new.initalize ws env fileName n sz).2.copyElfHeader ws
          (some hdr)) ops).write env).2.2 = some out ∧
      (out.programHeaders.map Phdr.p_vaddr).Sorted (· ≤ ·) ∧ out.programHeaders.length = n := by
  have hready := tableReady_applyOps ws n ops _ (tableReady_init ws env fileName n sz hdr hinit)
  refine ⟨_, write_tableReady env n _ hready hwrite, qsort_sorted _, ?_⟩
  simp only
  rw [(qsort_perm _).length_eq]
  exact hready.2.2.2.1

/-- C2. Offset consistency: when the calls follow the discipline of `sessionOk`
(no wrap of the write cursor), every program header of the file handed to
`::write` satisfies `p_offset + p_filesz ≤ file size`, the file size being the
final write cursor. -/
theorem C2_offset_consistency (ws : WordSize) (env : Env) (fileName : Option String)
    (n sz : Nat) (hdr : Ehdr) (ops : List WriterOp)
    (hinit : (RawElfWriter.new.initalize ws env fileName n sz).1 = true)
    (hok : sessionOk ws false
      ((RawElfWriter.new.initalize ws env fileName n sz).2.copyElfHeader ws (some hdr)) ops = true)
    (hwrite : env.writeOk = true) :
    ∃ out : ElfFile,
      ((applyOps ws ((RawElfWriter.new.initalize ws env fileName n sz).2.copyElfHeader ws
          (some hdr)) ops).write env).2.2 = some out ∧
      ∀ ph ∈ out.programHeaders, ph.p_offset + ph.p_filesz ≤ out.size := by
  have hready := tableReady_applyOps ws n ops _ (tableReady_init ws env fileName n sz hdr hinit)
  have hinv := offsetsBelowCursor_applyOps ws ops false _
    (offsetsBelowCursor_init ws env fileName n sz hdr hinit) hok
  refine ⟨_, write_tableReady env n _ hready hwrite, ?_⟩
  intro ph hph
  simp only at hph ⊢
  have hmem := (qsort_perm _).mem_iff.1 hph
  obtain ⟨i, hi⟩ := List.mem_iff_getElem?.1 hmem
  have := hinv.2 i ph hi
  simpa using this

/-- Witness of C1: the example session on a 32-bit build with three header slots. -/
theorem C1_header_table_sorted_witness :
    (RawElfWriter.new.initalize .w32 exampleEnv (some "core.reduced") 3 0).1 = true ∧
    exampleEnv.writeOk = true ∧
    ∃ out : ElfFile,
      ((applyOps .w32 ((RawElfWriter.new.initalize .w32 exampleEnv (some "core.reduced") 3
          0).2.copyElfHeader .w32 (some zeroEhdr)) exampleOps).write exampleEnv).2.2 = some out ∧
      (out.programHeaders.map Phdr.p_vaddr).Sorted (· ≤ ·) ∧ out.programHeaders.length = 3 :=
  ⟨by decide, rfl,
   C1_header_table_sorted .w32 exampleEnv (some "core.reduced") 3 0 zeroEhdr exampleOps
     (by decide) rfl⟩

/-- Witness of C2: the example session respects the calling discipline. -/
theorem C2_offset_consistency_witness :
    (RawElfWriter.new.initalize .w32 exampleEnv (some "core.reduced") 3 0).1 = true ∧
    sessionOk .w32 false
      ((RawElfWriter.new.initalize .w32 exampleEnv (some "core.reduced") 3 0).2.copyElfHeader .w32
        (some zeroEhdr)) exampleOps = true ∧
    exampleEnv.writeOk = true ∧
    ∃ out : ElfFile,
      ((applyOps .w32 ((RawElfWriter.new.initalize .w32 exampleEnv (some "core.reduced") 3
          0).2.copyElfHeader .w32 (some zeroEhdr)) exampleOps).write exampleEnv).2.2 = some out ∧
      ∀ ph ∈ out.programHeaders, ph.p_offset + ph.p_filesz ≤ out.size :=
  ⟨by decide, by decide, rfl,
   C2_offset_consistency .w32 exampleEnv (some "core.reduced") 3 0 zeroEhdr exampleOps
     (by decide) (by decide) rfl⟩


/-! ## Stack narrowing -/

theorem narrowedStackHeader_of_ge (ws : WordSize) (sp : Nat) (S : Phdr)
    (hsp : sp < wordMod ws) (hlo : S.p_vaddr ≤ sp) (hfs : S.p_filesz < wordMod ws)
    (hhi : sp < (S.p_vaddr + S.p_filesz) % wordMod ws) (hmargin : STACK_ADDITION ≤ sp) :
    (Reducer.narrowedStackHeader ws sp S).p_vaddr = max S.p_vaddr (sp - STACK_ADDITION) ∧
    (Reducer.narrowedStackHeader ws sp S).p_vaddr ≤ sp ∧
    S.p_vaddr ≤ (Reducer.narrowedStackHeader ws sp S).p_vaddr ∧
    (Reducer.narrowedStackHeader ws sp S).p_vaddr + (Reducer.narrowedStackHeader ws sp S).p_filesz
      = S.p_vaddr + S.p_filesz ∧
    (Reducer.narrowedStackHeader ws sp S).p_memsz = (Reducer.narrowedStackHeader ws sp S).p_filesz := by
  have hM : 128 < wordMod ws := by cases ws <;> simp [wordMod, sizeofADDRESS]
  simp only [STACK_ADDITION] at hmargin ⊢
  have h1 : (sp + wordMod ws - 128) % wordMod ws = sp - 128 := by
    rw [show sp + wordMod ws - 128 = (sp - 128) + wordMod ws by omega, Nat.add_mod_right,
      Nat.mod_eq_of_lt (by omega)]
  have h2 : (S.p_vaddr + S.p_filesz) % wordMod ws = S.p_vaddr + S.p_filesz := by
    rcases Nat.lt_or_ge (S.p_vaddr + S.p_filesz) (wordMod ws) with hlt | hge
    · exact Nat.mod_eq_of_lt hlt
    · exfalso
      have h3 : (S.p_vaddr + S.p_filesz) % wordMod ws = S.p_vaddr + S.p_filesz - wordMod ws := by
        rw [Nat.mod_eq_sub_mod hge, Nat.mod_eq_of_lt (by omega)]
      omega
  rw [h2] at hhi
  have hsum : S.p_vaddr + S.p_filesz < wordMod ws := by
    rw [← h2]; exact Nat.mod_lt _ (by omega)
  have h3 : ∀ v, v ≤ sp → (S.p_vaddr + S.p_filesz + wordMod ws - v) % wordMod ws
      = S.p_vaddr + S.p_filesz - v := by
    intro v hv
    rw [show S.p_vaddr + S.p_filesz + wordMod ws - v = (S.p_vaddr + S.p_filesz - v) + wordMod ws
      by omega, Nat.add_mod_right, Nat.mod_eq_of_lt (by omega)]
  simp only [Reducer.narrowedStackHeader, STACK_ADDITION, h1, h2]
  split_ifs with hgt
  · rw [h3 _ (by omega)]
    refine ⟨by omega, by omega, by omega, by omega, trivial⟩
  · rw [h3 _ hlo]
    refine ⟨by omega, by omega, by omega, by omega, trivial⟩

set_option maxRecDepth 8192 in
/-- C3. Stack narrowing on a 32-bit core whose thread has `sp = 16`:
`getSegmentByAddress` returns the note header (`p_vaddr = 0`, 344 bytes), which covers `sp`,
and the header `getStacks` builds from it starts at `0xFFFFFF90`, above `sp`. -/
theorem C3_stack_narrowing_below_margin :
    (Reducer.initalize .w32 i386Layout (some lowStackPointerCore) (some exampleStaticBinary)
        (some "core.reduced") 0).map (fun res => res.1) = some true ∧
    (exampleReducer lowStackPointerCore exampleStaticBinary).stackPointerAddresses = [16] ∧
    ((exampleReducer lowStackPointerCore exampleStaticBinary).coreReader.getSegmentByAddress .w32
        16).map (fun S => (S.p_vaddr, S.p_filesz)) = some (0, 344) ∧
    (((exampleReducer lowStackPointerCore exampleStaticBinary).getStacks .w32).wantedHeaders.map
        Phdr.p_vaddr) = [0, 4294967184] ∧
    ¬ (4294967184 ≤ 16) := by
  decide

/-- C4. The record `getStacks` builds on a 64-bit build for `sp = 100` inside the
segment `[0, 4096)`: `p_vaddr` is `2^64 - 28`, not `max(0, 100 - 128) = 0`, the
size is `4124`, larger than the segment, and the file offset lies 28 bytes before the
segment's. -/
theorem C4_narrowed_record_below_margin :
    (0 : Nat) ≤ 100 ∧ 100 < 0 + 4096 ∧
    Reducer.narrowedStackHeader .w64 100 { exampleLoad 0 4096 with p_offset := 8192 }
      = { exampleLoad 0 4096 with p_vaddr := 18446744073709551588, p_filesz := 4124,
                                  p_memsz := 4124, p_offset := 8164 } ∧
    ((18446744073709551588 : Nat) : Int) ≠ max ((0 : Nat) : Int) ((100 : Int) - 128) := by
  decide

/-! ## Raw memory -/

theorem wordMod_eq_pow (ws : WordSize) : wordMod ws = 256 ^ sizeofADDRESS ws := by
  cases ws <;> simp [wordMod, sizeofADDRESS]

theorem encodeLE_length (n v : Nat) : (encodeLE n v).length = n := by
  induction n generalizing v with
  | zero => rfl
  | succ n ih => simp [encodeLE, ih]

theorem toNat_ofNat_mod (v : Nat) : (UInt8.ofNat (v % 256)).toNat = v % 256 := by
  show (v % 256) % 256 = v % 256
  exact Nat.mod_mod _ _

theorem decodeLE_encodeLE (n v : Nat) : decodeLE (encodeLE n v) = v % 256 ^ n := by
  induction n generalizing v with
  | zero => simp [encodeLE, decodeLE, Nat.mod_one]
  | succ n ih =>
    simp only [encodeLE, decodeLE, ih]
    rw [pow_succ, Nat.mul_comm (256 ^ n) 256, Nat.mod_mul, toNat_ofNat_mod]

theorem decodeLE_lt (bs : List Byte) : decodeLE bs < 256 ^ bs.length := by
  induction bs with
  | nil => simp [decodeLE]
  | cons b bs ih =>
    simp only [decodeLE, List.length_cons, pow_succ]
    have hb : b.toNat < 256 := b.val.isLt
    omega

theorem bufferBytes_length (mem : Nat → Byte) (off n : Nat) : (bufferBytes mem off n).length = n := by
  simp [bufferBytes]

theorem bufferBytes_eq_of_forall (mem : Nat → Byte) (off : Nat) (l : List Byte)
    (h : ∀ j, j < l.length → mem (off + j) = l.getD j 0) : bufferBytes mem off l.length = l := by
  apply List.ext_getElem
  · simp [bufferBytes]
  · intro j h1 h2
    simp only [bufferBytes, List.getElem_map, List.getElem_range]
    rw [h j h2]
    simp [List.getD_eq_getElem?_getD, List.getElem?_eq_getElem h2]

theorem bufferBytes_congr (mem1 mem2 : Nat → Byte) (off n : Nat)
    (h : ∀ j, off ≤ j → j < off + n → mem1 j = mem2 j) :
    bufferBytes mem1 off n = bufferBytes mem2 off n := by
  simp only [bufferBytes]
  apply List.map_congr_left
  intro j hj
  exact h (off + j) (by omega) (by have := List.mem_range.1 hj; omega)

theorem bufferWord_congr (ws : WordSize) (mem1 mem2 : Nat → Byte) (off : Nat)
    (h : ∀ j, off ≤ j → j < off + sizeofADDRESS ws → mem1 j = mem2 j) :
    bufferWord ws mem1 off = bufferWord ws mem2 off := by
  simp only [bufferWord, bufferBytes_congr mem1 mem2 off _ h]

theorem bufferLinkMap_congr (ws : WordSize) (mem1 mem2 : Nat → Byte) (off : Nat)
    (h : ∀ j, off ≤ j → j < off + sizeofLinkMap ws → mem1 j = mem2 j) :
    bufferLinkMap ws mem1 off = bufferLinkMap ws mem2 off := by
  simp only [bufferLinkMap]
  have hA : sizeofLinkMap ws = 5 * sizeofADDRESS ws := rfl
  congr 1 <;> apply bufferWord_congr <;> intro j h1 h2 <;> apply h <;> omega

theorem bufferWord_of_encodeLE (ws : WordSize) (mem : Nat → Byte) (off v : Nat)
    (h : ∀ j, j < sizeofADDRESS ws → mem (off + j) = (encodeLE (sizeofADDRESS ws) v).getD j 0) :
    bufferWord ws mem off = v % wordMod ws := by
  unfold bufferWord
  have := bufferBytes_eq_of_forall mem off (encodeLE (sizeofADDRESS ws) v)
    (by intro j hj; rw [encodeLE_length] at hj; exact h j hj)
  rw [encodeLE_length] at this
  rw [this, decodeLE_encodeLE, wordMod_eq_pow]

theorem bufferWord_lt (ws : WordSize) (mem : Nat → Byte) (off : Nat) :
    bufferWord ws mem off < wordMod ws := by
  unfold bufferWord
  have := decodeLE_lt (bufferBytes mem off (sizeofADDRESS ws))
  rwa [bufferBytes_length, ← wordMod_eq_pow] at this

theorem memcpy_of_lt (mem : Nat → Byte) (dst : Nat) (src : List Byte) (n i : Nat) (h : i < dst) :
    memcpy mem dst src n i = mem i := by
  unfold memcpy
  rw [if_neg (by omega)]

theorem memcpy_of_ge (mem : Nat → Byte) (dst : Nat) (src : List Byte) (n i : Nat)
    (h : dst + n ≤ i) : memcpy mem dst src n i = mem i := by
  unfold memcpy
  rw [if_neg (by omega)]

theorem memcpy_of_mem (mem : Nat → Byte) (dst : Nat) (src : List Byte) (n i : Nat)
    (h1 : dst ≤ i) (h2 : i < dst + n) : memcpy mem dst src n i = src.getD (i - dst) 0 := by
  unfold memcpy
  rw [if_pos ⟨h1, h2⟩]

theorem memcpyWrapped_eq (ws : WordSize) (mem : Nat → Byte) (dst : Nat) (src : List Byte)
    (n : Nat) (h : dst + n ≤ wordMod ws) : memcpyWrapped ws mem dst src n = memcpy mem dst src n := by
  funext i
  unfold memcpyWrapped memcpy
  generalize wordMod ws = W at h
  rcases Nat.eq_zero_or_pos n with hn | hn
  · subst hn
    rw [if_neg (by omega), if_neg (by omega)]
  · rw [Nat.mod_eq_of_lt (show dst < W by omega)]
    by_cases hi : i < W
    · by_cases hge : dst ≤ i
      · rw [show i + W - dst = (i - dst) + W by omega, Nat.add_mod_right,
          Nat.mod_eq_of_lt (show i - dst < W by omega)]
        by_cases hlt : i < dst + n
        · rw [if_pos ⟨hi, by omega⟩, if_pos ⟨hge, hlt⟩]
        · rw [if_neg (by omega), if_neg (by omega)]
      · rw [Nat.mod_eq_of_lt (show i + W - dst < W by omega), if_neg (by omega),
          if_neg (by omega)]
    · rw [if_neg (fun hc => hi hc.1), if_neg (by omega)]

theorem encodeLinkMap_getD (ws : WordSize) (lm : LinkMap) (k j : Nat) (hk : k < 5)
    (hj : j < sizeofADDRESS ws) :
    (encodeLinkMap ws lm).getD (k * sizeofADDRESS ws + j) 0 =
      (encodeLE (sizeofADDRESS ws)
        (match k with
         | 0 => lm.addressOffset
         | 1 => lm.nameOffset
         | 2 => lm.ldOffset
         | 3 => lm.nextLinkMapStruct
         | _ => lm.previousLinkMapStruct)).getD j 0 := by
  simp only [List.getD_eq_getElem?_getD, encodeLinkMap]
  have hl := encodeLE_length (sizeofADDRESS ws)
  interval_cases k
  · rw [List.getElem?_append_left (by simp [hl]; omega), List.getElem?_append_left (by simp [hl]; omega),
      List.getElem?_append_left (by simp [hl]; omega), List.getElem?_append_left (by simp [hl]; omega)]
    simp
  · rw [List.getElem?_append_left (by simp [hl]; omega), List.getElem?_append_left (by simp [hl]; omega),
      List.getElem?_append_left (by simp [hl]; omega), List.getElem?_append_right (by simp [hl])]
    simp [hl]
  · rw [List.getElem?_append_left (by simp [hl]; omega), List.getElem?_append_left (by simp [hl]; omega),
      List.getElem?_append_right (by simp [hl]; omega)]
    simp only [List.length_append, hl]
    congr 2
    omega
  · rw [List.getElem?_append_left (by simp [hl]; omega),
      List.getElem?_append_right (by simp [hl]; omega)]
    simp only [List.length_append, hl]
    congr 2
    omega
  · rw [List.getElem?_append_right (by simp [hl]; omega)]
    simp only [List.length_append, hl]
    congr 2
    omega

/-- The record read back from memory that holds the image of `lm` at `off`. -/
theorem bufferLinkMap_of_encodeLinkMap (ws : WordSize) (mem : Nat → Byte) (off : Nat) (lm : LinkMap)
    (h : ∀ j, j < sizeofLinkMap ws → mem (off + j) = (encodeLinkMap ws lm).getD j 0) :
    bufferLinkMap ws mem off =
      { addressOffset := lm.addressOffset % wordMod ws
        nameOffset := lm.nameOffset % wordMod ws
        ldOffset := lm.ldOffset % wordMod ws
        nextLinkMapStruct := lm.nextLinkMapStruct % wordMod ws
        previousLinkMapStruct := lm.previousLinkMapStruct % wordMod ws } := by
  have hL : sizeofLinkMap ws = 5 * sizeofADDRESS ws := rfl
  have key : ∀ k, k < 5 → ∀ j, j < sizeofADDRESS ws →
      mem (off + k * sizeofADDRESS ws + j) = (encodeLinkMap ws lm).getD (k * sizeofADDRESS ws + j) 0 := by
    intro k hk j hj
    rw [Nat.add_assoc]
    apply h
    rw [hL]
    have : k * sizeofADDRESS ws + sizeofADDRESS ws ≤ 5 * sizeofADDRESS ws := by
      rw [← Nat.succ_mul]; exact Nat.mul_le_mul_right _ hk
    omega
  unfold bufferLinkMap
  congr 1
  · apply bufferWord_of_encodeLE
    intro j hj
    have := key 0 (by omega) j hj
    rw [encodeLinkMap_getD ws lm 0 j (by omega) hj] at this
    simpa using this
  · apply bufferWord_of_encodeLE
    intro j hj
    have := key 1 (by omega) j hj
    rw [encodeLinkMap_getD ws lm 1 j (by omega) hj] at this
    simpa using this
  · apply bufferWord_of_encodeLE
    intro j hj
    have := key 2 (by omega) j hj
    rw [encodeLinkMap_getD ws lm 2 j (by omega) hj] at this
    simpa using this
  · apply bufferWord_of_encodeLE
    intro j hj
    have := key 3 (by omega) j hj
    rw [encodeLinkMap_getD ws lm 3 j (by omega) hj] at this
    simpa using this
  · apply bufferWord_of_encodeLE
    intro j hj
    have := key 4 (by omega) j hj
    rw [encodeLinkMap_getD ws lm 4 j (by omega) hj] at this
    simpa using this

/-! ## One call of `addLinkMapSegment` -/

theorem recordSize_pos (ws : WordSize) (item : LinkMapItem) :
    sizeofLinkMap ws + 1 ≤ recordSize ws item := by
  unfold recordSize; omega

theorem sizeofLinkMap_pos (ws : WordSize) : 0 < sizeofLinkMap ws := by
  cases ws <;> simp [sizeofLinkMap, sizeofADDRESS]

theorem recordsSize_cons (ws : WordSize) (item : LinkMapItem) (items : List LinkMapItem) :
    recordsSize ws (item :: items) = recordSize ws item + recordsSize ws items := by
  simp [recordsSize]

theorem recordsSize_nil (ws : WordSize) : recordsSize ws [] = 0 := rfl

theorem addLinkMapSegments_cons (ws : WordSize) (w : RawElfWriter) (item : LinkMapItem)
    (items : List LinkMapItem) :
    addLinkMapSegments ws w (item :: items)
      = addLinkMapSegments ws (w.addLinkMapSegment ws (some item.1) item.2).2 items := rfl

/-- What one call stores and how it moves the cursor, when the cursor does not wrap. -/
theorem addLinkMapSegment_step (ws : WordSize) (v : RawElfWriter) (item : LinkMapItem)
    (hfit : v.offset + recordSize ws item < wordMod ws) :
    (v.addLinkMapSegment ws (some item.1) item.2).2.offset = v.offset + recordSize ws item ∧
    (v.addLinkMapSegment ws (some item.1) item.2).2.currentLinkMapSize
      = (v.currentLinkMapSize + recordSize ws item) % wordMod ws ∧
    (v.addLinkMapSegment ws (some item.1) item.2).2.previousLinkAddress
      = (v.linkMapHeadAddress + v.currentLinkMapSize) % wordMod ws ∧
    (v.addLinkMapSegment ws (some item.1) item.2).2.linkMapHeadAddress = v.linkMapHeadAddress ∧
    (v.addLinkMapSegment ws (some item.1) item.2).2.programHeaders = v.programHeaders ∧
    (v.addLinkMapSegment ws (some item.1) item.2).2.currentProgramHeader
      = v.currentProgramHeader ∧
    (∀ j, j < v.offset → (v.addLinkMapSegment ws (some item.1) item.2).2.buffer j = v.buffer j) ∧
    bufferLinkMap ws (v.addLinkMapSegment ws (some item.1) item.2).2.buffer v.offset =
      { addressOffset := item.1.addressOffset % wordMod ws
        nameOffset := (v.linkMapHeadAddress + v.currentLinkMapSize + sizeofLinkMap ws) % wordMod ws
        ldOffset := item.1.ldOffset % wordMod ws
        nextLinkMapStruct :=
          if item.1.nextLinkMapStruct ≠ 0 then
            (v.linkMapHeadAddress + v.currentLinkMapSize + recordSize ws item) % wordMod ws
          else 0
        previousLinkMapStruct := v.previousLinkAddress % wordMod ws } ∧
    bufferBytes (v.addLinkMapSegment ws (some item.1) item.2).2.buffer
      (v.offset + sizeofLinkMap ws) (strlen (item.2.getD []) + 1)
        = cstring (item.2.getD []) ++ [0] := by
  obtain ⟨lm, s⟩ := item
  simp only
  have hsz : recordSize ws (lm, s) = sizeofLinkMap ws + strlen (s.getD []) + 1 := rfl
  have hss : stringSizeOf ws s = strlen (s.getD []) + 1 := stringSizeOf_eq ws s (by omega)
  have h1 : (v.offset + sizeofLinkMap ws) % wordMod ws = v.offset + sizeofLinkMap ws :=
    Nat.mod_eq_of_lt (by omega)
  rw [addLinkMapSegment_eq ws v lm s]
  simp only [hss, h1, Nat.add_sub_cancel]
  refine ⟨?_, ?_, trivial, trivial, trivial, trivial, ?_, ?_, ?_⟩
  · rw [Nat.mod_eq_of_lt (by omega)]; omega
  · rw [hsz]; congr 1
  · intro j hj
    rw [memcpy_of_lt _ _ _ _ _ (by omega), memcpy_of_lt _ _ _ _ _ (by omega),
      memcpy_of_lt _ _ _ _ _ hj]
  · rw [bufferLinkMap_of_encodeLinkMap ws _ v.offset (writtenLinkMap ws v lm s)]
    · simp only [writtenLinkMap, hss, Nat.mod_mod, hsz]
      congr 1
      split_ifs
      · rw [Nat.mod_mod]; congr 1; omega
      · rfl
    · intro j hj
      rw [memcpy_of_lt _ _ _ _ _ (by omega), memcpy_of_lt _ _ _ _ _ (by omega),
        memcpy_of_mem _ _ _ _ _ (by omega) (by omega)]
      congr 1
      omega
  · have hlen : (cstring (s.getD []) ++ [0]).length = strlen (s.getD []) + 1 := by
      simp [strlen]
    rw [← hlen]
    apply bufferBytes_eq_of_forall
    intro j hj
    rw [hlen] at hj
    rcases Nat.lt_or_ge j (strlen (s.getD [])) with hlt | hge
    · rw [memcpy_of_lt _ _ _ _ _ (by omega), memcpy_of_mem _ _ _ _ _ (by omega) (by omega)]
      simp only [List.getD_eq_getElem?_getD]
      rw [List.getElem?_append_left (by simpa [strlen] using hlt)]
      congr 2
      omega
    · have hj' : j = strlen (s.getD []) := by omega
      subst hj'
      rw [memcpy_of_mem _ _ _ _ _ (by omega) (by omega)]
      simp only [List.getD_eq_getElem?_getD]
      rw [List.getElem?_append_right (by simp [strlen])]
      simp [strlen]

/-! ## A sequence of `addLinkMapSegment` calls -/

theorem addLinkMapSegments_frame (ws : WordSize) (items : List LinkMapItem) (v : RawElfWriter)
    (hfit : v.offset + recordsSize ws items < wordMod ws)
    (hva : v.linkMapHeadAddress + v.currentLinkMapSize + recordsSize ws items < wordMod ws) :
    (addLinkMapSegments ws v items).offset = v.offset + recordsSize ws items ∧
    (addLinkMapSegments ws v items).currentLinkMapSize
      = v.currentLinkMapSize + recordsSize ws items ∧
    (addLinkMapSegments ws v items).linkMapHeadAddress = v.linkMapHeadAddress ∧
    (addLinkMapSegments ws v items).programHeaders = v.programHeaders ∧
    (addLinkMapSegments ws v items).currentProgramHeader = v.currentProgramHeader ∧
    (∀ j, j < v.offset → (addLinkMapSegments ws v items).buffer j = v.buffer j) := by
  induction items generalizing v with
  | nil => simp [addLinkMapSegments, recordsSize]
  | cons item items ih =>
    rw [recordsSize_cons] at hfit hva
    obtain ⟨h1, h2, _, h4, h5, h6, h7, _, _⟩ :=
      addLinkMapSegment_step ws v item (by omega)
    have h2' : (v.addLinkMapSegment ws (some item.1) item.2).2.currentLinkMapSize
        = v.currentLinkMapSize + recordSize ws item := by
      rw [h2]; exact Nat.mod_eq_of_lt (by omega)
    obtain ⟨i1, i2, i3, i4, i5, i6⟩ :=
      ih (v.addLinkMapSegment ws (some item.1) item.2).2 (by rw [h1]; omega)
        (by rw [h4, h2']; omega)
    rw [addLinkMapSegments_cons, recordsSize_cons]
    refine ⟨by rw [i1, h1]; omega, by rw [i2, h2']; omega, by rw [i3, h4], by rw [i4, h5],
      by rw [i5, h6], ?_⟩
    intro j hj
    rw [i6 j (by rw [h1]; omega), h7 j hj]

/-- The record and the name stored for the `i`-th item of a sequence of calls, read
back from the buffer after the last call. -/
theorem addLinkMapSegments_record (ws : WordSize) (items : List LinkMapItem) (v : RawElfWriter)
    (i : Nat) (item : LinkMapItem) (hitem : items[i]? = some item)
    (hfit : v.offset + recordsSize ws items < wordMod ws)
    (hva : v.linkMapHeadAddress + v.currentLinkMapSize + recordsSize ws items < wordMod ws)
    (hprev : v.previousLinkAddress < wordMod ws) :
    bufferLinkMap ws (addLinkMapSegments ws v items).buffer
        (v.offset + recordsSize ws (items.take i)) =
      { addressOffset := item.1.addressOffset % wordMod ws
        nameOffset := v.linkMapHeadAddress + v.currentLinkMapSize + recordsSize ws (items.take i)
                        + sizeofLinkMap ws
        ldOffset := item.1.ldOffset % wordMod ws
        nextLinkMapStruct :=
          if item.1.nextLinkMapStruct ≠ 0 then
            v.linkMapHeadAddress + v.currentLinkMapSize + recordsSize ws (items.take (i + 1))
          else 0
        previousLinkMapStruct :=
          if i = 0 then v.previousLinkAddress
          else v.linkMapHeadAddress + v.currentLinkMapSize + recordsSize ws (items.take (i - 1)) } ∧
    bufferBytes (addLinkMapSegments ws v items).buffer
        (v.offset + recordsSize ws (items.take i) + sizeofLinkMap ws)
        (strlen (item.2.getD []) + 1) = cstring (item.2.getD []) ++ [0] := by
  induction items generalizing v i with
  | nil => simp at hitem
  | cons x xs ih =>
    rw [recordsSize_cons] at hfit hva
    have hx := recordSize_pos ws x
    obtain ⟨h1, h2, h3, h4, h5, h6, h7, h8, h9⟩ :=
      addLinkMapSegment_step ws v x (by omega)
    have h2' : (v.addLinkMapSegment ws (some x.1) x.2).2.currentLinkMapSize
        = v.currentLinkMapSize + recordSize ws x := by
      rw [h2]; exact Nat.mod_eq_of_lt (by omega)
    have h3' : (v.addLinkMapSegment ws (some x.1) x.2).2.previousLinkAddress
        = v.linkMapHeadAddress + v.currentLinkMapSize := by
      rw [h3]; exact Nat.mod_eq_of_lt (by omega)
    have hframe := addLinkMapSegments_frame ws xs (v.addLinkMapSegment ws (some x.1) x.2).2
      (by rw [h1]; omega) (by rw [h4, h2']; omega)
    rw [addLinkMapSegments_cons]
    cases i with
    | zero =>
      simp only [List.getElem?_cons_zero, Option.some.injEq] at hitem
      subst hitem
      simp only [List.take_zero, recordsSize_nil, Nat.add_zero, if_true, zero_add,
        List.take_succ_cons, List.take_zero, recordsSize_cons]
      constructor
      · rw [bufferLinkMap_congr ws _ (v.addLinkMapSegment ws (some x.1) x.2).2.buffer v.offset
          (fun j _ hj2 => hframe.2.2.2.2.2 j (by rw [h1]; omega)), h8]
        rw [Nat.mod_eq_of_lt (show v.linkMapHeadAddress + v.currentLinkMapSize + sizeofLinkMap ws
          < wordMod ws by omega), Nat.mod_eq_of_lt hprev]
        congr 1
        split_ifs
        · exact Nat.mod_eq_of_lt (by omega)
        · rfl
      · rw [bufferBytes_congr _ (v.addLinkMapSegment ws (some x.1) x.2).2.buffer _ _
          (fun j _ hj2 => hframe.2.2.2.2.2 j (by rw [h1]; unfold recordSize; omega)), h9]
    | succ j =>
      simp only [List.getElem?_cons_succ] at hitem
      have := ih (v.addLinkMapSegment ws (some x.1) x.2).2 j hitem (by rw [h1]; omega)
        (by rw [h4, h2']; omega) (by rw [h3']; omega)
      rw [h1, h4, h2', h3'] at this
      simp only [List.take_succ_cons, recordsSize_cons, Nat.add_sub_cancel]
      obtain ⟨t1, t2⟩ := this
      constructor
      · rw [show v.offset + (recordSize ws x + recordsSize ws (List.take j xs))
            = v.offset + recordSize ws x + recordsSize ws (List.take j xs) by omega, t1]
        congr 1
        · omega
        · split_ifs <;> omega
        · simp only [Nat.succ_ne_zero, if_false]
          cases j with
          | zero => simp [recordsSize_nil]
          | succ k =>
            simp only [Nat.succ_ne_zero, if_false, Nat.add_sub_cancel, List.take_succ_cons,
              recordsSize_cons]
            omega
      · rw [show v.offset + (recordSize ws x + recordsSize ws (List.take j xs)) + sizeofLinkMap ws
            = v.offset + recordSize ws x + recordsSize ws (List.take j xs) + sizeofLinkMap ws
            by omega, t2]

/-! ## The whole link-map segment -/

theorem R_DEBUG_STRUCT_SIZE_ge (ws : WordSize) : 2 * sizeofADDRESS ws ≤ R_DEBUG_STRUCT_SIZE ws := by
  cases ws <;> simp [R_DEBUG_STRUCT_SIZE, sizeofADDRESS]

/-- The writer after `startLinkMapSegment` and `addR_DebugStruct`. -/
theorem startLinkMap_addR_Debug (ws : WordSize) (w : RawElfWriter) (heap : Nat)
    (rd : List Byte) (slot : Phdr) (hslot : w.programHeaders[w.currentProgramHeader]? = some slot)
    (hfit : w.offset + R_DEBUG_STRUCT_SIZE ws < wordMod ws)
    (hva : heap + R_DEBUG_STRUCT_SIZE ws < wordMod ws) :
    ((w.startLinkMapSegment heap).addR_DebugStruct ws (some rd)).2.offset
      = w.offset + R_DEBUG_STRUCT_SIZE ws ∧
    ((w.startLinkMapSegment heap).addR_DebugStruct ws (some rd)).2.linkMapHeadAddress
      = heap + R_DEBUG_STRUCT_SIZE ws ∧
    ((w.startLinkMapSegment heap).addR_DebugStruct ws (some rd)).2.currentLinkMapSize
      = w.currentLinkMapSize ∧
    ((w.startLinkMapSegment heap).addR_DebugStruct ws (some rd)).2.previousLinkAddress
      = w.previousLinkAddress ∧
    ((w.startLinkMapSegment heap).addR_DebugStruct ws (some rd)).2.currentProgramHeader
      = w.currentProgramHeader ∧
    ((w.startLinkMapSegment heap).addR_DebugStruct ws (some rd)).2.programHeaders
      = w.programHeaders.set w.currentProgramHeader
          { slot with p_type := PT_LOAD, p_vaddr := heap, p_flags := PF_R ||| PF_W,
                      p_offset := w.offset, p_align := 1 } ∧
    (∀ j, j < w.offset →
      ((w.startLinkMapSegment heap).addR_DebugStruct ws (some rd)).2.buffer j = w.buffer j) ∧
    bufferWord ws ((w.startLinkMapSegment heap).addR_DebugStruct ws (some rd)).2.buffer
      (w.offset + sizeofADDRESS ws) = heap + R_DEBUG_STRUCT_SIZE ws := by
  have hlen : w.currentProgramHeader < w.programHeaders.length := by
    rcases Nat.lt_or_ge w.currentProgramHeader w.programHeaders.length with h | h
    · exact h
    · rw [List.getElem?_eq_none h] at hslot; cases hslot
  have htable : (w.startLinkMapSegment heap).programHeaders
      = w.programHeaders.set w.currentProgramHeader
          { slot with p_type := PT_LOAD, p_vaddr := heap, p_flags := PF_R ||| PF_W,
                      p_offset := w.offset, p_align := 1 } := by
    simp [RawElfWriter.startLinkMapSegment, updateSlot, hslot]
  have hvaddr : ((w.startLinkMapSegment heap).programHeaders.getD
      (w.startLinkMapSegment heap).currentProgramHeader zeroPhdr).p_vaddr = heap := by
    rw [htable]
    simp [RawElfWriter.startLinkMapSegment, List.getD_eq_getElem?_getD, hlen]
  have ho : (w.startLinkMapSegment heap).offset = w.offset := rfl
  rw [addR_DebugStruct_eq]
  simp only [hvaddr, ho, Nat.mod_eq_of_lt hva, Nat.mod_eq_of_lt hfit]
  refine ⟨trivial, trivial, rfl, rfl, rfl, htable, ?_, ?_⟩
  · intro j hj
    rw [memcpy_of_lt _ _ _ _ _ (by omega), memcpy_of_lt _ _ _ _ _ (by omega)]
    rfl
  · rw [bufferWord_of_encodeLE ws _ _ (heap + R_DEBUG_STRUCT_SIZE ws)]
    · exact Nat.mod_eq_of_lt hva
    · intro j hj
      rw [memcpy_of_mem _ _ _ _ _ (by omega) (by omega)]
      congr 1
      omega

/-- The state of the writer after the calls of `buildLinkMapSegment`. -/
theorem buildLinkMapSegment_spec (ws : WordSize) (w : RawElfWriter) (heap : Nat)
    (rd : List Byte) (items : List LinkMapItem) (slot : Phdr)
    (hslot : w.programHeaders[w.currentProgramHeader]? = some slot)
    (hsize : w.currentLinkMapSize = 0)
    (hfit : w.offset + R_DEBUG_STRUCT_SIZE ws + recordsSize ws items < wordMod ws)
    (hva : heap + R_DEBUG_STRUCT_SIZE ws + recordsSize ws items < wordMod ws) :
    (buildLinkMapSegment ws w heap rd items).programHeaders
      = w.programHeaders.set w.currentProgramHeader
          (linkMapHeader slot heap w.offset (R_DEBUG_STRUCT_SIZE ws + recordsSize ws items)) ∧
    (buildLinkMapSegment ws w heap rd items).currentProgramHeader = w.currentProgramHeader ∧
    (buildLinkMapSegment ws w heap rd items).offset
      = w.offset + R_DEBUG_STRUCT_SIZE ws + recordsSize ws items ∧
    (buildLinkMapSegment ws w heap rd items).buffer
      = (addLinkMapSegments ws ((w.startLinkMapSegment heap).addR_DebugStruct ws
          (some rd)).2 items).buffer ∧
    (∀ j, j < w.offset → (buildLinkMapSegment ws w heap rd items).buffer j = w.buffer j) ∧
    bufferWord ws (buildLinkMapSegment ws w heap rd items).buffer (w.offset + sizeofADDRESS ws)
      = heap + R_DEBUG_STRUCT_SIZE ws := by
  have hlen : w.currentProgramHeader < w.programHeaders.length := by
    rcases Nat.lt_or_ge w.currentProgramHeader w.programHeaders.length with h | h
    · exact h
    · rw [List.getElem?_eq_none h] at hslot; cases hslot
  obtain ⟨s1, s2, s3, s4, s5, s6, s7, s8⟩ :=
    startLinkMap_addR_Debug ws w heap rd slot hslot (by omega) (by omega)
  obtain ⟨f1, f2, f3, f4, f5, f6⟩ := addLinkMapSegments_frame ws items
    ((w.startLinkMapSegment heap).addR_DebugStruct ws (some rd)).2 (by rw [s1]; omega)
    (by rw [s2, s3, hsize]; omega)
  have hR := R_DEBUG_STRUCT_SIZE_ge ws
  unfold buildLinkMapSegment
  refine ⟨?_, ?_, ?_, rfl, ?_, ?_⟩
  · simp only [RawElfWriter.finalizeLinkMapSegment, f4, f5, s5, s6, f1, s1, updateSlot]
    rw [List.getElem?_set_self hlen]
    simp only [List.set_set, linkMapHeader]
    rw [show w.offset + R_DEBUG_STRUCT_SIZE ws + recordsSize ws items + wordMod ws - w.offset
        = (R_DEBUG_STRUCT_SIZE ws + recordsSize ws items) + wordMod ws by omega,
      Nat.add_mod_right, Nat.mod_eq_of_lt (by omega)]
  · simp only [RawElfWriter.finalizeLinkMapSegment, f5, s5]
  · simp only [RawElfWriter.finalizeLinkMapSegment, f1, s1]
  · intro j hj
    simp only [RawElfWriter.finalizeLinkMapSegment]
    rw [f6 j (by rw [s1]; omega), s7 j hj]
  · simp only [RawElfWriter.finalizeLinkMapSegment]
    rw [bufferWord_congr ws _ ((w.startLinkMapSegment heap).addR_DebugStruct ws (some rd)).2.buffer
      _ (fun j _ hj2 => f6 j (by rw [s1]; omega)), s8]

/-! ## Chains and the debugger's walk -/

theorem chainShaped_next (items : List LinkMapItem) (hchain : ChainShaped items) (i : Nat)
    (item : LinkMapItem) (hitem : items[i]? = some item) :
    item.1.nextLinkMapStruct ≠ 0 ↔ i + 1 < items.length := by
  induction items generalizing i with
  | nil => simp at hitem
  | cons x xs ih =>
    cases xs with
    | nil =>
      cases i with
      | zero =>
        simp only [List.getElem?_cons_zero, Option.some.injEq] at hitem
        subst hitem
        simp only [ChainShaped] at hchain
        simp [hchain]
      | succ j => simp at hitem
    | cons y ys =>
      simp only [ChainShaped] at hchain
      cases i with
      | zero =>
        simp only [List.getElem?_cons_zero, Option.some.injEq] at hitem
        subst hitem
        simp [hchain.1]
      | succ j =>
        simp only [List.getElem?_cons_succ] at hitem
        have := ih hchain.2 j hitem
        simp only [List.length_cons] at this ⊢
        rw [this]
        omega

theorem recordBases_length (ws : WordSize) (items : List LinkMapItem) (first : Nat) :
    (recordBases ws first items).length = items.length := by
  induction items generalizing first with
  | nil => rfl
  | cons x xs ih => simp [recordBases, ih]

theorem recordBases_getElem? (ws : WordSize) (items : List LinkMapItem) (first i : Nat)
    (hi : i < items.length) :
    (recordBases ws first items)[i]? = some (first + recordsSize ws (items.take i)) := by
  induction items generalizing first i with
  | nil => simp at hi
  | cons x xs ih =>
    cases i with
    | zero => simp [recordBases, recordsSize_nil]
    | succ j =>
      simp only [recordBases, List.getElem?_cons_succ, List.take_succ_cons, recordsSize_cons]
      rw [ih _ j (by simpa using hi)]
      congr 1
      omega

/-- The walk over memory that holds a chain of records follows the base of every
record and stops at the last one. -/
theorem walkLinkMap_records (ws : WordSize) (mem : Nat → Byte) (seg : Phdr)
    (items : List LinkMapItem) (hne : items ≠ []) (extra base off : Nat)
    (hlo : seg.p_vaddr ≤ base) (hoff : seg.p_offset + (base - seg.p_vaddr) = off)
    (hhi : base + recordsSize ws items ≤ seg.p_vaddr + seg.p_filesz)
    (hrec : ∀ i item, items[i]? = some item →
      (bufferLinkMap ws mem (off + recordsSize ws (items.take i))).nextLinkMapStruct
        = if i + 1 < items.length then base + recordsSize ws (items.take (i + 1)) else 0) :
    walkLinkMap ws mem seg (items.length + extra) base = some (recordBases ws base items) := by
  induction items generalizing base off with
  | nil => exact absurd rfl hne
  | cons x xs ih =>
    have hx := recordSize_pos ws x
    rw [recordsSize_cons] at hhi
    have h0 := hrec 0 x (by simp)
    simp only [List.take_zero, recordsSize_nil, Nat.add_zero, zero_add, List.take_succ_cons,
      recordsSize_cons, List.length_cons] at h0
    rw [show (x :: xs).length + extra = (xs.length + extra) + 1 by simp; omega]
    simp only [walkLinkMap]
    rw [if_pos ⟨hlo, by omega⟩, hoff, h0]
    cases xs with
    | nil => simp [recordBases]
    | cons y ys =>
      have hlen : 1 < (y :: ys).length + 1 := by simp
      rw [if_pos hlen, if_neg (by omega)]
      have := ih (by simp) (base + recordSize ws x) (off + recordSize ws x) (by omega)
        (by omega) (by omega)
        (by
          intro i item hitem
          have := hrec (i + 1) item (by simpa using hitem)
          simp only [List.take_succ_cons, recordsSize_cons, List.length_cons] at this ⊢
          rw [show off + recordSize ws x + recordsSize ws (List.take i (y :: ys))
              = off + (recordSize ws x + recordsSize ws (List.take i (y :: ys))) by omega, this]
          split_ifs <;> omega)
      rw [this]
      simp [recordBases]

theorem cstring_ne_zero (s : List Byte) : ∀ b ∈ cstring s, b ≠ 0 := by
  intro b hb
  have := List.mem_takeWhile_imp hb
  simpa using this

/-- The records of a finished link-map segment, read back from the buffer. -/
theorem buildLinkMapSegment_record (ws : WordSize) (w : RawElfWriter) (heap : Nat)
    (rd : List Byte) (items : List LinkMapItem) (slot : Phdr) (i : Nat) (item : LinkMapItem)
    (hslot : w.programHeaders[w.currentProgramHeader]? = some slot)
    (hfresh : w.previousLinkAddress = 0 ∧ w.currentLinkMapSize = 0)
    (hfit : w.offset + R_DEBUG_STRUCT_SIZE ws + recordsSize ws items < wordMod ws)
    (hva : heap + R_DEBUG_STRUCT_SIZE ws + recordsSize ws items < wordMod ws)
    (hitem : items[i]? = some item) :
    bufferLinkMap ws (buildLinkMapSegment ws w heap rd items).buffer
        (w.offset + R_DEBUG_STRUCT_SIZE ws + recordsSize ws (items.take i)) =
      { addressOffset := item.1.addressOffset % wordMod ws
        nameOffset := heap + R_DEBUG_STRUCT_SIZE ws + recordsSize ws (items.take i)
                        + sizeofLinkMap ws
        ldOffset := item.1.ldOffset % wordMod ws
        nextLinkMapStruct :=
          if item.1.nextLinkMapStruct ≠ 0 then
            heap + R_DEBUG_STRUCT_SIZE ws + recordsSize ws (items.take (i + 1))
          else 0
        previousLinkMapStruct :=
          if i = 0 then 0
          else heap + R_DEBUG_STRUCT_SIZE ws + recordsSize ws (items.take (i - 1)) } ∧
    bufferBytes (buildLinkMapSegment ws w heap rd items).buffer
        (w.offset + R_DEBUG_STRUCT_SIZE ws + recordsSize ws (items.take i) + sizeofLinkMap ws)
        (strlen (item.2.getD []) + 1) = cstring (item.2.getD []) ++ [0] := by
  obtain ⟨s1, s2, s3, s4, s5, s6, s7, s8⟩ :=
    startLinkMap_addR_Debug ws w heap rd slot hslot (by omega) (by omega)
  have hb := (buildLinkMapSegment_spec ws w heap rd items slot hslot hfresh.2 hfit hva).2.2.2.1
  have := addLinkMapSegments_record ws items
    ((w.startLinkMapSegment heap).addR_DebugStruct ws (some rd)).2 i item hitem
    (by rw [s1]; omega) (by rw [s2, s3, hfresh.2]; omega)
    (by rw [s4, hfresh.1]; exact wordMod_pos ws)
  rw [s1, s2, s3, s4, hfresh.1, hfresh.2] at this
  simp only [Nat.add_zero] at this
  rw [hb]
  exact this

theorem recordsSize_take_le (ws : WordSize) (items : List LinkMapItem) (i : Nat) :
    recordsSize ws (items.take i) ≤ recordsSize ws items := by
  induction items generalizing i with
  | nil => simp
  | cons x xs ih =>
    cases i with
    | zero => simp [recordsSize]
    | succ j =>
      simp only [List.take_succ_cons, recordsSize_cons]
      have := ih j
      omega

theorem recordsSize_take_succ (ws : WordSize) (items : List LinkMapItem) (i : Nat)
    (item : LinkMapItem) (hitem : items[i]? = some item) :
    recordsSize ws (items.take (i + 1)) = recordsSize ws (items.take i) + recordSize ws item := by
  induction items generalizing i with
  | nil => simp at hitem
  | cons x xs ih =>
    cases i with
    | zero =>
      simp only [List.getElem?_cons_zero, Option.some.injEq] at hitem
      subst hitem
      simp [recordsSize]
    | succ j =>
      simp only [List.getElem?_cons_succ] at hitem
      simp only [List.take_succ_cons, recordsSize_cons]
      rw [ih j hitem]
      omega

/-- C6. Name addressability: in a finished link-map segment the `name_ptr` of every
record written by `addLinkMapSegment` (with or without a name string) is an
address of the segment, and the bytes stored there are the object's path followed
by the first NUL byte, all of them inside the segment. -/
theorem C6_name_addressability (ws : WordSize) (w : RawElfWriter) (heap : Nat)
    (rd : List Byte) (items : List LinkMapItem) (slot : Phdr) (i : Nat) (item : LinkMapItem)
    (hslot : w.programHeaders[w.currentProgramHeader]? = some slot)
    (hfresh : w.previousLinkAddress = 0 ∧ w.currentLinkMapSize = 0)
    (hfit : w.offset + R_DEBUG_STRUCT_SIZE ws + recordsSize ws items < wordMod ws)
    (hva : heap + R_DEBUG_STRUCT_SIZE ws + recordsSize ws items < wordMod ws)
    (hitem : items[i]? = some item) :
    ∃ seg : Phdr,
      (buildLinkMapSegment ws w heap rd items).programHeaders[w.currentProgramHeader]? = some seg ∧
      seg.p_vaddr = heap ∧
      seg.p_vaddr ≤ (bufferLinkMap ws (buildLinkMapSegment ws w heap rd items).buffer
          (seg.p_offset + R_DEBUG_STRUCT_SIZE ws + recordsSize ws (items.take i))).nameOffset ∧
      (bufferLinkMap ws (buildLinkMapSegment ws w heap rd items).buffer
          (seg.p_offset + R_DEBUG_STRUCT_SIZE ws + recordsSize ws (items.take i))).nameOffset
        + strlen (item.2.getD []) + 1 ≤ seg.p_vaddr + seg.p_filesz ∧
      bufferBytes (buildLinkMapSegment ws w heap rd items).buffer
          (seg.p_offset + ((bufferLinkMap ws (buildLinkMapSegment ws w heap rd items).buffer
            (seg.p_offset + R_DEBUG_STRUCT_SIZE ws + recordsSize ws (items.take i))).nameOffset
            - seg.p_vaddr))
          (strlen (item.2.getD []) + 1) = cstring (item.2.getD []) ++ [0] ∧
      ∀ b ∈ cstring (item.2.getD []), b ≠ 0 := by
  have hlen : w.currentProgramHeader < w.programHeaders.length := by
    rcases Nat.lt_or_ge w.currentProgramHeader w.programHeaders.length with h | h
    · exact h
    · rw [List.getElem?_eq_none h] at hslot; cases hslot
  obtain ⟨b1, _, _, _, _, _⟩ :=
    buildLinkMapSegment_spec ws w heap rd items slot hslot hfresh.2 hfit hva
  obtain ⟨r1, r2⟩ := buildLinkMapSegment_record ws w heap rd items slot i item hslot hfresh hfit
    hva hitem
  have hsucc := recordsSize_take_succ ws items i item hitem
  have hle := recordsSize_take_le ws items (i + 1)
  have hsz : recordSize ws item = sizeofLinkMap ws + strlen (item.2.getD []) + 1 := rfl
  refine ⟨linkMapHeader slot heap w.offset (R_DEBUG_STRUCT_SIZE ws + recordsSize ws items),
    by rw [b1, List.getElem?_set_self hlen], rfl, ?_, ?_, ?_, cstring_ne_zero _⟩
  · simp only [linkMapHeader, r1]; omega
  · simp only [linkMapHeader, r1]; omega
  · simp only [linkMapHeader, r1]
    rw [← r2]
    congr 1
    omega

/-- C7. Link-map chain pointers: after `startLinkMapSegment` and `addR_DebugStruct`,
for the records written by a sequence of `addLinkMapSegment` calls that hands over
a chain, every record but the last has `next` equal to its own base address plus
`sizeof(LinkMap) + strlen(path) + 1`, which is the base address of the record
written next; the last record has `next = 0`; the first record has `prev = 0` and
every later record has `prev` equal to the base address of the record before it. -/
theorem C7_link_map_chain_pointers (ws : WordSize) (w : RawElfWriter) (heap : Nat)
    (rd : List Byte) (items : List LinkMapItem) (slot : Phdr) (i : Nat) (item : LinkMapItem)
    (hslot : w.programHeaders[w.currentProgramHeader]? = some slot)
    (hfresh : w.previousLinkAddress = 0 ∧ w.currentLinkMapSize = 0)
    (hfit : w.offset + R_DEBUG_STRUCT_SIZE ws + recordsSize ws items < wordMod ws)
    (hva : heap + R_DEBUG_STRUCT_SIZE ws + recordsSize ws items < wordMod ws)
    (hchain : ChainShaped items)
    (hitem : items[i]? = some item) :
    (i + 1 < items.length →
      (bufferLinkMap ws (buildLinkMapSegment ws w heap rd items).buffer
          (w.offset + R_DEBUG_STRUCT_SIZE ws + recordsSize ws (items.take i))).nextLinkMapStruct
        = (heap + R_DEBUG_STRUCT_SIZE ws + recordsSize ws (items.take i))
            + sizeofLinkMap ws + strlen (item.2.getD []) + 1 ∧
      (bufferLinkMap ws (buildLinkMapSegment ws w heap rd items).buffer
          (w.offset + R_DEBUG_STRUCT_SIZE ws + recordsSize ws (items.take i))).nextLinkMapStruct
        = heap + R_DEBUG_STRUCT_SIZE ws + recordsSize ws (items.take (i + 1))) ∧
    (i + 1 = items.length →
      (bufferLinkMap ws (buildLinkMapSegment ws w heap rd items).buffer
          (w.offset + R_DEBUG_STRUCT_SIZE ws + recordsSize ws (items.take i))).nextLinkMapStruct
        = 0) ∧
    (i = 0 →
      (bufferLinkMap ws (buildLinkMapSegment ws w heap rd items).buffer
          (w.offset + R_DEBUG_STRUCT_SIZE ws + recordsSize ws (items.take i))).previousLinkMapStruct
        = 0) ∧
    (0 < i →
      (bufferLinkMap ws (buildLinkMapSegment ws w heap rd items).buffer
          (w.offset + R_DEBUG_STRUCT_SIZE ws + recordsSize ws (items.take i))).previousLinkMapStruct
        = heap + R_DEBUG_STRUCT_SIZE ws + recordsSize ws (items.take (i - 1))) := by
  obtain ⟨r1, _⟩ := buildLinkMapSegment_record ws w heap rd items slot i item hslot hfresh hfit
    hva hitem
  have hnext := chainShaped_next items hchain i item hitem
  have hsucc := recordsSize_take_succ ws items i item hitem
  have hsz : recordSize ws item = sizeofLinkMap ws + strlen (item.2.getD []) + 1 := rfl
  rw [r1]
  simp only
  refine ⟨?_, ?_, ?_, ?_⟩
  · intro h
    rw [if_pos (hnext.2 h)]
    omega
  · intro h
    rw [if_neg (by rw [hnext]; omega)]
  · intro h
    rw [if_pos h]
  · intro h
    rw [if_neg (by omega)]

/-! ## The two callers of the link-map calls -/

theorem LM_NAME_eq (ws : WordSize) : LM_NAME ws = sizeofADDRESS ws := by
  cases ws <;> rfl

theorem copyLinkMapLoop_eq (ws : WordSize) (r : Reducer) (fuel : Nat) (w : RawElfWriter)
    (start : Nat) :
    Reducer.copyLinkMapLoop ws r fuel w start
      = (originalChain ws r fuel start).map (addLinkMapSegments ws w) := by
  induction fuel generalizing w start with
  | zero =>
    simp only [Reducer.copyLinkMapLoop, originalChain]
    split_ifs <;> simp [addLinkMapSegments]
  | succ fuel ih =>
    simp only [Reducer.copyLinkMapLoop, originalChain]
    split_ifs with h0
    · simp [addLinkMapSegments]
    · rcases hb : r.getBufferAtAddress ws start with _ | off
      · simp
      · simp only
        rw [ih, addLinkMapSegment_fst]
        have hname : readWord ws r.coreReader.file (off + LM_NAME ws)
            = (readLinkMap ws r.coreReader.file off).nameOffset := by
          rw [LM_NAME_eq]; rfl
        rw [hname]
        simp only [Option.map_map]
        rfl

theorem originalChain_zero (ws : WordSize) (r : Reducer) (fuel : Nat) :
    originalChain ws r fuel 0 = some [] := by
  cases fuel <;> simp [originalChain]

theorem originalChain_ne_nil (ws : WordSize) (r : Reducer) (fuel start : Nat)
    (items : List LinkMapItem) (hstart : start ≠ 0)
    (h : originalChain ws r fuel start = some items) : items ≠ [] := by
  cases fuel with
  | zero => simp [originalChain, hstart] at h
  | succ fuel =>
    simp only [originalChain, hstart, if_false] at h
    rcases hb : r.getBufferAtAddress ws start with _ | off
    · rw [hb] at h; simp at h
    · rw [hb] at h
      simp only [Option.map_eq_some'] at h
      obtain ⟨rest, _, hrest⟩ := h
      rw [← hrest]
      simp

theorem originalChain_chainShaped (ws : WordSize) (r : Reducer) (fuel start : Nat)
    (items : List LinkMapItem) (h : originalChain ws r fuel start = some items) :
    ChainShaped items := by
  induction fuel generalizing start items with
  | zero =>
    simp only [originalChain] at h
    split_ifs at h
    simp only [Option.some.injEq] at h
    subst h
    trivial
  | succ fuel ih =>
    simp only [originalChain] at h
    split_ifs at h with h0
    · simp only [Option.some.injEq] at h
      subst h
      trivial
    · rcases hb : r.getBufferAtAddress ws start with _ | off
      · rw [hb] at h; simp at h
      · rw [hb] at h
        simp only [Option.map_eq_some'] at h
        obtain ⟨rest, hrest, hitems⟩ := h
        subst hitems
        have hsh := ih _ rest hrest
        by_cases hn : (readLinkMap ws r.coreReader.file off).nextLinkMapStruct = 0
        · rw [hn, originalChain_zero] at hrest
          simp only [Option.some.injEq] at hrest
          subst hrest
          exact hn
        · have hne := originalChain_ne_nil ws r fuel _ rest hn hrest
          cases rest with
          | nil => exact absurd rfl hne
          | cons y ys => exact ⟨hn, hsh⟩

theorem copyLinkMapToOutputFile_eq (ws : WordSize) (fuel : Nat) (r : Reducer) (w : RawElfWriter)
    (start rdOff : Nat) (hw : r.coreWriter = some w) (hset : w.programHeadersSet = true)
    (hstart : start ≠ 0) (hrd : r.getBufferAtAddress ws start = some rdOff) :
    Reducer.copyLinkMapToOutputFile ws fuel r start
      = (originalChain ws r fuel
          (readWord ws (r.coreReader.file.drop rdOff) (sizeofADDRESS ws))).map
          (fun items => { r with coreWriter := some (buildLinkMapSegment ws w r.heapAddress
            (r.coreReader.file.drop rdOff) items) }) := by
  unfold Reducer.copyLinkMapToOutputFile
  simp only [hstart, if_false, hw, hset, Bool.not_true, Bool.false_eq_true, hrd, Option.map_some']
  rw [copyLinkMapLoop_eq]
  have h1 : ((w.startLinkMapSegment r.heapAddress).addR_DebugStruct ws
      (some (r.coreReader.file.drop rdOff))).1
      = readWord ws (r.coreReader.file.drop rdOff) (sizeofADDRESS ws) := rfl
  rw [h1]
  rcases originalChain ws r fuel (readWord ws (r.coreReader.file.drop rdOff) (sizeofADDRESS ws))
    with _ | items
  · rfl
  · rfl

theorem addSharedObjects_eq (ws : WordSize) (w : RawElfWriter) (soList : List SharedObject) :
    Reducer.addSharedObjects ws w soList = addLinkMapSegments ws w (sharedObjectItems soList) := by
  induction soList generalizing w with
  | nil => rfl
  | cons so rest ih =>
    simp only [Reducer.addSharedObjects, sharedObjectItems, addLinkMapSegments_cons]
    rw [ih]
    rfl

theorem sharedObjectItems_length (soList : List SharedObject) :
    (sharedObjectItems soList).length = soList.length := by
  induction soList with
  | nil => rfl
  | cons so rest ih => simp [sharedObjectItems, ih]

theorem sharedObjectItems_chainShaped (soList : List SharedObject) :
    ChainShaped (sharedObjectItems soList) := by
  induction soList with
  | nil => trivial
  | cons so rest ih =>
    cases rest with
    | nil => simp [sharedObjectItems, ChainShaped]
    | cons so2 rest2 =>
      simp only [sharedObjectItems, ChainShaped] at ih ⊢
      exact ⟨by simp, ih⟩

theorem syntheticItems_chainShaped (soList : List SharedObject) (hne : soList ≠ []) :
    ChainShaped (syntheticItems soList) := by
  cases soList with
  | nil => exact absurd rfl hne
  | cons so rest =>
    have := sharedObjectItems_chainShaped (so :: rest)
    simp only [syntheticItems, sharedObjectItems, ChainShaped] at this ⊢
    exact ⟨by simp, this⟩

theorem createLinkMapInOutputFile_eq (ws : WordSize) (r : Reducer) (w : RawElfWriter)
    (start : Nat) (soList : List SharedObject) (hw : r.coreWriter = some w)
    (hset : w.programHeadersSet = true) (hstart : start ≠ 0) (hne : soList ≠ []) :
    Reducer.createLinkMapInOutputFile ws r start (some soList)
      = some { r with coreWriter := some (buildLinkMapSegment ws w r.heapAddress
          (List.replicate (R_DEBUG_STRUCT_SIZE ws) 0) (syntheticItems soList)) } := by
  have hlen : ¬ soList.length ≤ 0 := by
    cases soList with
    | nil => exact absurd rfl hne
    | cons so rest => simp
  unfold Reducer.createLinkMapInOutputFile
  simp only [hstart, if_false, hw, hset, hlen, Bool.not_true, Bool.false_eq_true]
  rw [addSharedObjects_eq]
  rfl

/-- The debugger's walk over a finished link-map segment that holds a chain. -/
theorem buildLinkMapSegment_walk (ws : WordSize) (w : RawElfWriter) (heap : Nat)
    (rd : List Byte) (items : List LinkMapItem) (slot : Phdr) (extra : Nat)
    (hslot : w.programHeaders[w.currentProgramHeader]? = some slot)
    (hfresh : w.previousLinkAddress = 0 ∧ w.currentLinkMapSize = 0)
    (hfit : w.offset + R_DEBUG_STRUCT_SIZE ws + recordsSize ws items < wordMod ws)
    (hva : heap + R_DEBUG_STRUCT_SIZE ws + recordsSize ws items < wordMod ws)
    (hchain : ChainShaped items) (hne : items ≠ []) :
    ∃ seg : Phdr,
      (buildLinkMapSegment ws w heap rd items).programHeaders[w.currentProgramHeader]? = some seg ∧
      seg.p_vaddr = heap ∧
      seg.p_filesz = R_DEBUG_STRUCT_SIZE ws + recordsSize ws items ∧
      bufferWord ws (buildLinkMapSegment ws w heap rd items).buffer
        (seg.p_offset + sizeofADDRESS ws) = heap + R_DEBUG_STRUCT_SIZE ws ∧
      walkLinkMap ws (buildLinkMapSegment ws w heap rd items).buffer seg (items.length + extra)
        (heap + R_DEBUG_STRUCT_SIZE ws)
          = some (recordBases ws (heap + R_DEBUG_STRUCT_SIZE ws) items) := by
  have hlen : w.currentProgramHeader < w.programHeaders.length := by
    rcases Nat.lt_or_ge w.currentProgramHeader w.programHeaders.length with h | h
    · exact h
    · rw [List.getElem?_eq_none h] at hslot; cases hslot
  obtain ⟨b1, _, _, _, _, b6⟩ :=
    buildLinkMapSegment_spec ws w heap rd items slot hslot hfresh.2 hfit hva
  refine ⟨linkMapHeader slot heap w.offset (R_DEBUG_STRUCT_SIZE ws + recordsSize ws items),
    by rw [b1, List.getElem?_set_self hlen], rfl, rfl, b6, ?_⟩
  apply walkLinkMap_records ws _ _ items hne extra (heap + R_DEBUG_STRUCT_SIZE ws)
    (w.offset + R_DEBUG_STRUCT_SIZE ws)
  · simp [linkMapHeader]
  · simp only [linkMapHeader]; omega
  · simp only [linkMapHeader]; omega
  · intro i item hitem
    rw [(buildLinkMapSegment_record ws w heap rd items slot i item hslot hfresh hfit hva hitem).1]
    have hnext := chainShaped_next items hchain i item hitem
    simp only
    by_cases h : i + 1 < items.length
    · rw [if_pos (hnext.2 h), if_pos h]
    · rw [if_neg (by rw [hnext]; exact h), if_neg h]

/-- C5 (as amended). Link-map closure when at least one record is written.  In copy
mode, when the original `r_debug` is found in the core and the walk of the
original chain consumes the records `items`, at least one, and in synthesise
mode, for a maps file with at least one shared object, the link-map segment is
written and a walk from the forged `r_debug.link_map`
(`heapVA + sizeof(r_debug)`) follows pointers that are bases of records inside
the segment, ends at a record whose `next` is zero, and visits as many records
as were consumed (copy mode) or one more than there are shared objects
(synthesise mode). -/
theorem C5_link_map_closure (ws : WordSize) (r : Reducer) (w : RawElfWriter) (slot : Phdr)
    (start : Nat) (hw : r.coreWriter = some w) (hset : w.programHeadersSet = true)
    (hslot : w.programHeaders[w.currentProgramHeader]? = some slot)
    (hfresh : w.previousLinkAddress = 0 ∧ w.currentLinkMapSize = 0)
    (hstart : start ≠ 0) :
    (∀ (fuel rdOff : Nat) (items : List LinkMapItem),
      r.getBufferAtAddress ws start = some rdOff →
      originalChain ws r fuel (readWord ws (r.coreReader.file.drop rdOff) (sizeofADDRESS ws))
        = some items →
      items ≠ [] →
      w.offset + R_DEBUG_STRUCT_SIZE ws + recordsSize ws items < wordMod ws →
      r.heapAddress + R_DEBUG_STRUCT_SIZE ws + recordsSize ws items < wordMod ws →
      ∃ (r2 : Reducer) (w2 : RawElfWriter) (seg : Phdr) (visited : List Nat),
        Reducer.copyLinkMapToOutputFile ws fuel r start = some r2 ∧
        r2.coreWriter = some w2 ∧
        w2.programHeaders[w.currentProgramHeader]? = some seg ∧
        seg.p_vaddr = r.heapAddress ∧
        bufferWord ws w2.buffer (seg.p_offset + sizeofADDRESS ws)
          = r.heapAddress + R_DEBUG_STRUCT_SIZE ws ∧
        walkLinkMap ws w2.buffer seg items.length (r.heapAddress + R_DEBUG_STRUCT_SIZE ws)
          = some visited ∧
        visited = recordBases ws (r.heapAddress + R_DEBUG_STRUCT_SIZE ws) items ∧
        visited.length = items.length) ∧
    (∀ soList : List SharedObject,
      soList ≠ [] →
      w.offset + R_DEBUG_STRUCT_SIZE ws + recordsSize ws (syntheticItems soList) < wordMod ws →
      r.heapAddress + R_DEBUG_STRUCT_SIZE ws + recordsSize ws (syntheticItems soList)
        < wordMod ws →
      ∃ (r2 : Reducer) (w2 : RawElfWriter) (seg : Phdr) (visited : List Nat),
        Reducer.createLinkMapInOutputFile ws r start (some soList) = some r2 ∧
        r2.coreWriter = some w2 ∧
        w2.programHeaders[w.currentProgramHeader]? = some seg ∧
        seg.p_vaddr = r.heapAddress ∧
        bufferWord ws w2.buffer (seg.p_offset + sizeofADDRESS ws)
          = r.heapAddress + R_DEBUG_STRUCT_SIZE ws ∧
        walkLinkMap ws w2.buffer seg (soList.length + 1)
          (r.heapAddress + R_DEBUG_STRUCT_SIZE ws) = some visited ∧
        visited = recordBases ws (r.heapAddress + R_DEBUG_STRUCT_SIZE ws)
          (syntheticItems soList) ∧
        visited.length = soList.length + 1) := by
  constructor
  · intro fuel rdOff items hrd hchain hne hfit hva
    obtain ⟨seg, g1, g2, _, g4, g5⟩ := buildLinkMapSegment_walk ws w r.heapAddress
      (r.coreReader.file.drop rdOff) items slot 0 hslot hfresh hfit hva
      (originalChain_chainShaped ws r fuel _ items hchain) hne
    refine ⟨{ r with coreWriter := some (buildLinkMapSegment ws w r.heapAddress
      (r.coreReader.file.drop rdOff) items) }, _, seg, _, ?_, rfl, g1, g2, g4, g5, rfl,
      recordBases_length ws items _⟩
    rw [copyLinkMapToOutputFile_eq ws fuel r w start rdOff hw hset hstart hrd, hchain]
    rfl
  · intro soList hne hfit hva
    have hlen : (syntheticItems soList).length = soList.length + 1 := by
      simp [syntheticItems, sharedObjectItems_length]
    obtain ⟨seg, g1, g2, _, g4, g5⟩ := buildLinkMapSegment_walk ws w r.heapAddress
      (List.replicate (R_DEBUG_STRUCT_SIZE ws) 0) (syntheticItems soList) slot 0 hslot hfresh
      hfit hva (syntheticItems_chainShaped soList hne) (by simp [syntheticItems])
    rw [hlen] at g5
    refine ⟨_, _, seg, _, createLinkMapInOutputFile_eq ws r w start soList hw hset hstart hne,
      rfl, g1, g2, g4, g5, rfl, ?_⟩
    rw [recordBases_length, hlen]

set_option maxRecDepth 16384 in
/-- Witness of C5: the example core in copy mode (two records consumed) and the
example maps file in synthesise mode (two shared objects, three records). -/
theorem C5_link_map_closure_witness :
    (∃ (r2 : Reducer) (w2 : RawElfWriter) (seg : Phdr) (visited : List Nat),
        Reducer.copyLinkMapToOutputFile .w32 16 (exampleDynamicReducer 134516780) 134516760
          = some r2 ∧
        r2.coreWriter = some w2 ∧
        w2.programHeaders[(exampleLinkMapWriter 134516780).currentProgramHeader]? = some seg ∧
        seg.p_vaddr = (exampleDynamicReducer 134516780).heapAddress ∧
        bufferWord .w32 w2.buffer (seg.p_offset + sizeofADDRESS .w32)
          = (exampleDynamicReducer 134516780).heapAddress + R_DEBUG_STRUCT_SIZE .w32 ∧
        walkLinkMap .w32 w2.buffer seg exampleOriginalItems.length
          ((exampleDynamicReducer 134516780).heapAddress + R_DEBUG_STRUCT_SIZE .w32)
          = some visited ∧
        visited = recordBases .w32
          ((exampleDynamicReducer 134516780).heapAddress + R_DEBUG_STRUCT_SIZE .w32)
          exampleOriginalItems ∧
        visited.length = exampleOriginalItems.length) ∧
    (∃ (r2 : Reducer) (w2 : RawElfWriter) (seg : Phdr) (visited : List Nat),
        Reducer.createLinkMapInOutputFile .w32 (exampleDynamicReducer 134516780) 134516760
          (some exampleSharedObjects) = some r2 ∧
        r2.coreWriter = some w2 ∧
        w2.programHeaders[(exampleLinkMapWriter 134516780).currentProgramHeader]? = some seg ∧
        seg.p_vaddr = (exampleDynamicReducer 134516780).heapAddress ∧
        bufferWord .w32 w2.buffer (seg.p_offset + sizeofADDRESS .w32)
          = (exampleDynamicReducer 134516780).heapAddress + R_DEBUG_STRUCT_SIZE .w32 ∧
        walkLinkMap .w32 w2.buffer seg (exampleSharedObjects.length + 1)
          ((exampleDynamicReducer 134516780).heapAddress + R_DEBUG_STRUCT_SIZE .w32)
          = some visited ∧
        visited = recordBases .w32
          ((exampleDynamicReducer 134516780).heapAddress + R_DEBUG_STRUCT_SIZE .w32)
          (syntheticItems exampleSharedObjects) ∧
        visited.length = exampleSharedObjects.length + 1) :=
  ⟨(C5_link_map_closure .w32 (exampleDynamicReducer 134516780) (exampleLinkMapWriter 134516780)
      zeroPhdr 134516760 rfl (by decide) (by decide) (by decide) (by decide)).1
      16 516 exampleOriginalItems (by decide) (by decide) (by decide) (by decide) (by decide),
   (C5_link_map_closure .w32 (exampleDynamicReducer 134516780) (exampleLinkMapWriter 134516780)
      zeroPhdr 134516760 rfl (by decide) (by decide) (by decide) (by decide)).2
      exampleSharedObjects (List.cons_ne_nil _ _) (by decide) (by decide)⟩
set_option maxRecDepth 16384 in
/-- Counterexample to C5 as stated, on two 32-bit cores reduced in copy mode with
`heapVA = 4`.  In the first the `r_debug` record the `DT_DEBUG` entry points to,
at `0x08049018`, is in the file data of no segment: `addR_DebugStruct` is handed
`NULL`, and the link-map segment emitted is empty, so the walk from
`heapVA + sizeof(r_debug)` resolves nowhere.  In the second the `r_debug` record
is there with `r_map = 0`: no record is consumed, the segment is the 20-byte
`r_debug` alone, its forged pointer is `24`, the end of the segment, and the walk
from it does not resolve inside the segment. -/
theorem C5_no_record_counterexample :
    ((exampleReducer exampleTruncatedCore exampleDynamicBinary).getBufferAtAddress .w32
        134516760 = none ∧
     (Reducer.run .w32 exampleEnv 0 16
        (exampleReducer exampleTruncatedCore exampleDynamicBinary) false none).map
      (fun res => res.2.map (fun out => (out.programHeaders[1]?).map (fun seg =>
        (seg.p_vaddr, seg.p_filesz,
         walkLinkMap .w32 out.bytes seg 16 (seg.p_vaddr + R_DEBUG_STRUCT_SIZE .w32)))))
      = some (some (some (4, 0, none)))) ∧
    ((originalChain .w32 (exampleDynamicReducer 0) 16 0).map List.length = some 0 ∧
     (Reducer.run .w32 exampleEnv 0 16
        (exampleReducer (exampleDynamicCore 0) exampleDynamicBinary) false none).map
      (fun res => res.2.map (fun out => (out.programHeaders[1]?).map (fun seg =>
        (seg.p_vaddr, seg.p_filesz, bufferWord .w32 out.bytes (seg.p_offset + 4),
         walkLinkMap .w32 out.bytes seg 16 (bufferWord .w32 out.bytes (seg.p_offset + 4))))))
      = some (some (some (4, 20, 24, none)))) :=
  ⟨⟨by decide, rfl⟩, ⟨by decide, rfl⟩⟩

set_option maxRecDepth 16384 in
/-- Witness of C6: the second record of the synthesised example segment, whose name
is `libc.so`. -/
theorem C6_name_addressability_witness :
    ∃ seg : Phdr,
      (buildLinkMapSegment .w32 (exampleLinkMapWriter 134516780) 4
        (List.replicate 20 0) (syntheticItems exampleSharedObjects)).programHeaders[
          (exampleLinkMapWriter 134516780).currentProgramHeader]? = some seg ∧
      seg.p_vaddr = 4 ∧
      seg.p_vaddr ≤ (bufferLinkMap .w32 (buildLinkMapSegment .w32 (exampleLinkMapWriter 134516780)
          4 (List.replicate 20 0) (syntheticItems exampleSharedObjects)).buffer
          (seg.p_offset + R_DEBUG_STRUCT_SIZE .w32
            + recordsSize .w32 ((syntheticItems exampleSharedObjects).take 1))).nameOffset ∧
      (bufferLinkMap .w32 (buildLinkMapSegment .w32 (exampleLinkMapWriter 134516780)
          4 (List.replicate 20 0) (syntheticItems exampleSharedObjects)).buffer
          (seg.p_offset + R_DEBUG_STRUCT_SIZE .w32
            + recordsSize .w32 ((syntheticItems exampleSharedObjects).take 1))).nameOffset
        + strlen [108, 105, 98, 99, 46, 115, 111] + 1 ≤ seg.p_vaddr + seg.p_filesz ∧
      bufferBytes (buildLinkMapSegment .w32 (exampleLinkMapWriter 134516780)
          4 (List.replicate 20 0) (syntheticItems exampleSharedObjects)).buffer
          (seg.p_offset + ((bufferLinkMap .w32 (buildLinkMapSegment .w32
            (exampleLinkMapWriter 134516780) 4 (List.replicate 20 0)
            (syntheticItems exampleSharedObjects)).buffer
            (seg.p_offset + R_DEBUG_STRUCT_SIZE .w32
              + recordsSize .w32 ((syntheticItems exampleSharedObjects).take 1))).nameOffset
            - seg.p_vaddr))
          (strlen [108, 105, 98, 99, 46, 115, 111] + 1)
        = cstring [108, 105, 98, 99, 46, 115, 111] ++ [0] ∧
      ∀ b ∈ cstring [108, 105, 98, 99, 46, 115, 111], b ≠ 0 :=
  C6_name_addressability .w32 (exampleLinkMapWriter 134516780) 4 (List.replicate 20 0)
    (syntheticItems exampleSharedObjects) zeroPhdr 1
    ({ addressOffset := 1073741824, nameOffset := 0, ldOffset := 0, nextLinkMapStruct := 1,
       previousLinkMapStruct := 1 }, some [108, 105, 98, 99, 46, 115, 111])
    (by decide) (by decide) (by decide) (by decide) (by decide)

set_option maxRecDepth 16384 in
/-- Witness of C7: the second of the two records copied from the example core's
original chain; it is the last one. -/
theorem C7_link_map_chain_pointers_witness :
    exampleOriginalItems.length = 2 ∧
    (bufferLinkMap .w32 (buildLinkMapSegment .w32 (exampleLinkMapWriter 134516780) 4
        ((exampleDynamicCore 134516780).file.drop 516) exampleOriginalItems).buffer
        ((exampleLinkMapWriter 134516780).offset + R_DEBUG_STRUCT_SIZE .w32
          + recordsSize .w32 (exampleOriginalItems.take 1))).nextLinkMapStruct = 0 ∧
    (bufferLinkMap .w32 (buildLinkMapSegment .w32 (exampleLinkMapWriter 134516780) 4
        ((exampleDynamicCore 134516780).file.drop 516) exampleOriginalItems).buffer
        ((exampleLinkMapWriter 134516780).offset + R_DEBUG_STRUCT_SIZE .w32
          + recordsSize .w32 (exampleOriginalItems.take 1))).previousLinkMapStruct
      = 4 + R_DEBUG_STRUCT_SIZE .w32 + recordsSize .w32 (exampleOriginalItems.take (1 - 1)) :=
  ⟨by decide,
   (C7_link_map_chain_pointers .w32 (exampleLinkMapWriter 134516780) 4
      ((exampleDynamicCore 134516780).file.drop 516) exampleOriginalItems zeroPhdr 1
      (exampleOriginalItems.getD 1 (⟨0, 0, 0, 0, 0⟩, none)) (by decide) (by decide) (by decide) (by decide)
      (originalChain_chainShaped .w32 (exampleDynamicReducer 134516780) 16 134516780
        exampleOriginalItems (by decide)) (by decide)).2.1 (by decide),
   (C7_link_map_chain_pointers .w32 (exampleLinkMapWriter 134516780) 4
      ((exampleDynamicCore 134516780).file.drop 516) exampleOriginalItems zeroPhdr 1
      (exampleOriginalItems.getD 1 (⟨0, 0, 0, 0, 0⟩, none)) (by decide) (by decide) (by decide) (by decide)
      (originalChain_chainShaped .w32 (exampleDynamicReducer 134516780) 16 134516780
        exampleOriginalItems (by decide)) (by decide)).2.2.2 (by decide)⟩

/-! ## The copied dynamic segment -/

theorem readBytes_of_ge (file : List Byte) (pos n : Nat) (h : file.length ≤ pos) :
    readBytes file pos n = List.replicate n 0 := by
  apply List.ext_getElem
  · simp [readBytes]
  · intro i h1 h2
    simp only [readBytes, List.getElem_map, List.getElem_range, List.getElem_replicate,
      List.getD_eq_getElem?_getD]
    rw [List.getElem?_eq_none (by omega)]
    rfl

theorem decodeLE_replicate_zero (n : Nat) : decodeLE (List.replicate n 0) = 0 := by
  induction n with
  | zero => rfl
  | succ n ih => simp [List.replicate_succ, decodeLE, ih]

theorem readWord_of_ge (ws : WordSize) (file : List Byte) (pos : Nat) (h : file.length ≤ pos) :
    readWord ws file pos = 0 := by
  unfold readWord
  rw [readBytes_of_ge file pos _ h, decodeLE_replicate_zero]

/-- Where `findDtDebug` stops: at the `j`-th entry, whose tag is `DT_DEBUG`. -/
theorem findDtDebug_spec (ws : WordSize) (file : List Byte) (fuel start offset current found : Nat)
    (h : Reducer.findDtDebug ws file fuel start offset = some (current, found)) :
    ∃ j, current = start + j * sizeofDyn ws ∧
      found % wordMod ws = (offset + j * sizeofDyn ws) % wordMod ws ∧
      readWord ws file current = DT_DEBUG := by
  induction fuel generalizing start offset with
  | zero => simp [Reducer.findDtDebug] at h
  | succ fuel ih =>
    simp only [Reducer.findDtDebug] at h
    split_ifs at h with h0 h1
    · simp only [Option.some.injEq, Prod.mk.injEq] at h
      exact ⟨0, by omega, by rw [h.2]; simp, by rw [← h.1]; exact h1⟩
    · obtain ⟨j, e1, e2, e3⟩ := ih _ _ h
      refine ⟨j + 1, by rw [e1, Nat.succ_mul]; omega, ?_, e3⟩
      rw [e2, Nat.mod_add_mod, Nat.succ_mul]
      congr 1
      omega

theorem addLinkMapSegments_below (ws : WordSize) (items : List LinkMapItem) (v : RawElfWriter)
    (hfit : v.offset + recordsSize ws items < wordMod ws) :
    (addLinkMapSegments ws v items).programHeaders = v.programHeaders ∧
    (addLinkMapSegments ws v items).currentProgramHeader = v.currentProgramHeader ∧
    (∀ j, j < v.offset → (addLinkMapSegments ws v items).buffer j = v.buffer j) := by
  induction items generalizing v with
  | nil => simp [addLinkMapSegments]
  | cons item items ih =>
    rw [recordsSize_cons] at hfit
    obtain ⟨h1, _, _, _, h5, h6, h7, _, _⟩ := addLinkMapSegment_step ws v item (by omega)
    obtain ⟨i1, i2, i3⟩ := ih (v.addLinkMapSegment ws (some item.1) item.2).2 (by rw [h1]; omega)
    rw [addLinkMapSegments_cons]
    refine ⟨by rw [i1, h5], by rw [i2, h6], ?_⟩
    intro j hj
    rw [i3 j (by rw [h1]; omega), h7 j hj]

theorem findDtDebug_lt (ws : WordSize) (file : List Byte) (fuel start offset current found : Nat)
    (hoff : offset < wordMod ws)
    (h : Reducer.findDtDebug ws file fuel start offset = some (current, found)) :
    found < wordMod ws := by
  induction fuel generalizing start offset with
  | zero => simp [Reducer.findDtDebug] at h
  | succ fuel ih =>
    simp only [Reducer.findDtDebug] at h
    split_ifs at h with h0 h1
    · simp only [Option.some.injEq, Prod.mk.injEq] at h
      omega
    · exact ih _ _ (Nat.mod_lt _ (wordMod_pos ws)) h

theorem sizeofSWord_eq (ws : WordSize) : sizeofSWord ws = sizeofADDRESS ws := by
  cases ws <;> rfl

theorem applyOps_preserves (ws : WordSize) (P : RawElfWriter → Prop)
    (hP : ∀ w op, P w → P (applyOp ws w op)) (ops : List WriterOp) (w : RawElfWriter)
    (h : P w) : P (applyOps ws w ops) := by
  induction ops generalizing w with
  | nil => exact h
  | cons op ops ih => exact ih _ (hP w op h)

theorem addLinkMapSegments_preserves (ws : WordSize) (P : RawElfWriter → Prop)
    (hP : ∀ w op, P w → P (applyOp ws w op)) (items : List LinkMapItem) (w : RawElfWriter)
    (h : P w) : P (addLinkMapSegments ws w items) := by
  induction items generalizing w with
  | nil => exact h
  | cons item items ih =>
    rw [addLinkMapSegments_cons]
    exact ih _ (hP w (.addLinkMapSegment (some item.1) item.2) h)

theorem buildLinkMapSegment_preserves (ws : WordSize) (P : RawElfWriter → Prop)
    (hP : ∀ w op, P w → P (applyOp ws w op)) (w : RawElfWriter) (heap : Nat) (rd : List Byte)
    (items : List LinkMapItem) (h : P w) : P (buildLinkMapSegment ws w heap rd items) := by
  unfold buildLinkMapSegment
  exact hP _ .finalizeLinkMapSegment
    (addLinkMapSegments_preserves ws P hP items _
      (hP _ (.addR_DebugStruct (some rd)) (hP w (.startLinkMapSegment heap) h)))

theorem copyLinkMapToOutputFile_preserves (ws : WordSize) (P : RawElfWriter → Prop)
    (hP : ∀ w op, P w → P (applyOp ws w op)) (fuel : Nat) (r r2 : Reducer) (w : RawElfWriter)
    (start : Nat) (hw : r.coreWriter = some w) (h : P w)
    (hrun : Reducer.copyLinkMapToOutputFile ws fuel r start = some r2) :
    ∃ w2, r2.coreWriter = some w2 ∧ P w2 := by
  unfold Reducer.copyLinkMapToOutputFile at hrun
  split_ifs at hrun with h0
  · simp only [Option.some.injEq] at hrun
    subst hrun
    exact ⟨w, hw, h⟩
  · rw [hw] at hrun
    simp only at hrun
    split_ifs at hrun with hset
    rw [copyLinkMapLoop_eq] at hrun
    rcases hch : originalChain ws r fuel ((w.startLinkMapSegment r.heapAddress).addR_DebugStruct ws
        (Option.map (fun off => List.drop off r.coreReader.file)
          (r.getBufferAtAddress ws start))).1 with _ | items
    · rw [hch] at hrun; simp at hrun
    · rw [hch] at hrun
      simp only [Option.map_some', Option.some.injEq] at hrun
      subst hrun
      refine ⟨_, rfl, ?_⟩
      exact hP _ .finalizeLinkMapSegment
        (addLinkMapSegments_preserves ws P hP items _
          (hP _ (.addR_DebugStruct _) (hP w (.startLinkMapSegment r.heapAddress) h)))

theorem createLinkMapInOutputFile_preserves (ws : WordSize) (P : RawElfWriter → Prop)
    (hP : ∀ w op, P w → P (applyOp ws w op)) (r r2 : Reducer) (w : RawElfWriter)
    (start : Nat) (mapsFile : Option MapsFile) (hw : r.coreWriter = some w) (h : P w)
    (hrun : Reducer.createLinkMapInOutputFile ws r start mapsFile = some r2) :
    ∃ w2, r2.coreWriter = some w2 ∧ P w2 := by
  unfold Reducer.createLinkMapInOutputFile at hrun
  rcases mapsFile with _ | soList
  · simp only [Option.some.injEq] at hrun
    subst hrun
    exact ⟨w, hw, h⟩
  · simp only [hw] at hrun
    split_ifs at hrun with h0 h1 h2
    · simp only [Option.some.injEq] at hrun
      subst hrun
      exact ⟨w, hw, h⟩
    · simp only [Option.some.injEq] at hrun
      subst hrun
      exact ⟨w, hw, h⟩
    · simp only [Option.some.injEq] at hrun
      subst hrun
      refine ⟨_, rfl, ?_⟩
      rw [addSharedObjects_eq]
      exact hP _ .finalizeLinkMapSegment
        (addLinkMapSegments_preserves ws P hP _ _
          (hP _ (.createAndAddLinkMapSegment 0 none false true)
            (hP _ .createR_DebugStruct (hP w (.startLinkMapSegment r.heapAddress) h))))

theorem copySegment_preserves (ws : WordSize) (P : RawElfWriter → Prop)
    (hP : ∀ w op, P w → P (applyOp ws w op)) (w : RawElfWriter) (hd : Option Phdr)
    (d o : Option (List Byte)) (oo os : Nat) (h : P w) :
    P (w.copySegment ws hd d o oo os).2 :=
  hP w (.copySegment hd d o oo os) h

theorem generateDynamicSectionInformation_preserves (ws : WordSize) (P : RawElfWriter → Prop)
    (hP : ∀ w op, P w → P (applyOp ws w op)) (r : Reducer) (w w1 : RawElfWriter) (h : P w)
    (hgen : Reducer.generateDynamicSectionInformation ws r w = some w1) : P w1 := by
  unfold Reducer.generateDynamicSectionInformation at hgen
  simp only at hgen
  split_ifs at hgen
  simp only [Option.some.injEq] at hgen
  rw [← hgen]
  exact copySegment_preserves ws P hP w _ _ _ _ _ h

theorem copyDynamicSectionInformation_preserves (ws : WordSize) (P : RawElfWriter → Prop)
    (hP : ∀ w op, P w → P (applyOp ws w op)) (fuel : Nat) (r r2 : Reducer) (w : RawElfWriter)
    (mapsFile : Option MapsFile) (hw : r.coreWriter = some w) (h : P w)
    (hrun : Reducer.copyDynamicSectionInformation ws fuel r mapsFile = some r2) :
    ∃ w2, r2.coreWriter = some w2 ∧ P w2 := by
  rcases hseg : r.coreReader.getSegmentByAddress ws r.dynamicAddressFromExecutable with _ | S
  · rcases mapsFile with _ | soList
    · have e : Reducer.copyDynamicSectionInformation ws fuel r none = some r := by
        unfold Reducer.copyDynamicSectionInformation
        simp only [hseg]
      rw [e] at hrun
      cases hrun
      exact ⟨w, hw, h⟩
    · rcases hgen : Reducer.generateDynamicSectionInformation ws r w with _ | w1
      · have e : Reducer.copyDynamicSectionInformation ws fuel r (some soList) = none := by
          unfold Reducer.copyDynamicSectionInformation
          simp only [hseg, hw, hgen]
        rw [e] at hrun
        cases hrun
      · have e : Reducer.copyDynamicSectionInformation ws fuel r (some soList)
            = Reducer.createLinkMapInOutputFile ws { r with coreWriter := some w1 }
                r.heapAddress (some soList) := by
          unfold Reducer.copyDynamicSectionInformation
          simp only [hseg, hw, hgen]
        rw [e] at hrun
        exact createLinkMapInOutputFile_preserves ws P hP
          { r with coreWriter := some w1 } r2 w1 _ _ rfl
          (generateDynamicSectionInformation_preserves ws P hP r w w1 h hgen) hrun
  · rcases hfind : Reducer.findDtDebug ws r.coreReader.file (r.coreReader.file.length + 1)
        (S.p_offset + (r.dynamicAddressFromExecutable + wordMod ws - S.p_vaddr) % wordMod ws)
        ((r.dynamicAddressFromExecutable + wordMod ws - S.p_vaddr) % wordMod ws) with _ | res
    · have e : Reducer.copyDynamicSectionInformation ws fuel r mapsFile = some r := by
        unfold Reducer.copyDynamicSectionInformation
        simp only [hseg, hfind]
      rw [e] at hrun
      cases hrun
      exact ⟨w, hw, h⟩
    · obtain ⟨current, found⟩ := res
      generalize hw1e : (w.copySegment ws (some S) (r.coreReader.getDataByOffset S.p_offset)
        (some (encodeLE (sizeofADDRESS ws) r.heapAddress))
        ((found + sizeofSWord ws) % wordMod ws) (sizeofADDRESS ws)).2 = w1
      have hw1 : P w1 := by
        rw [← hw1e]
        exact copySegment_preserves ws P hP w _ _ _ _ _ h
      rcases mapsFile with _ | soList
      · have e : Reducer.copyDynamicSectionInformation ws fuel r none
            = Reducer.copyLinkMapToOutputFile ws fuel { r with coreWriter := some w1 }
                (readWord ws r.coreReader.file (current + sizeofSWord ws)) := by
          unfold Reducer.copyDynamicSectionInformation
          simp only [hseg, hfind, hw, hw1e]
        rw [e] at hrun
        exact copyLinkMapToOutputFile_preserves ws P hP fuel
          { r with coreWriter := some w1 } r2 w1 _ rfl hw1 hrun
      · have e : Reducer.copyDynamicSectionInformation ws fuel r (some soList)
            = Reducer.createLinkMapInOutputFile ws { r with coreWriter := some w1 }
                (readWord ws r.coreReader.file (current + sizeofSWord ws)) (some soList) := by
          unfold Reducer.copyDynamicSectionInformation
          simp only [hseg, hfind, hw, hw1e]
        rw [e] at hrun
        exact createLinkMapInOutputFile_preserves ws P hP
          { r with coreWriter := some w1 } r2 w1 _ _ rfl hw1 hrun

/-! ## The header count of a run -/

theorem applyOp_elfHeader (ws : WordSize) (w : RawElfWriter) (op : WriterOp) :
    (applyOp ws w op).elfHeader = w.elfHeader := by
  cases op with
  | copySegment hd d o oo os =>
    simp only [applyOp, RawElfWriter.copySegment]
    cases hd <;> cases d <;> simp only
    split_ifs <;> simp [RawElfWriter.reallocate]
  | startLinkMapSegment heap => simp [applyOp, RawElfWriter.startLinkMapSegment]
  | createR_DebugStruct =>
    simp only [applyOp, RawElfWriter.createR_DebugStruct, RawElfWriter.addR_DebugStruct]
    split_ifs <;> simp [RawElfWriter.reallocate]
  | addR_DebugStruct rd =>
    simp only [applyOp, RawElfWriter.addR_DebugStruct]
    cases rd <;> simp only
    split_ifs <;> simp [RawElfWriter.reallocate]
  | createAndAddLinkMapSegment a s l f =>
    simp only [applyOp, RawElfWriter.createAndAddLinkMapSegment, RawElfWriter.addLinkMapSegment]
    split_ifs <;> simp [RawElfWriter.reallocate]
  | addLinkMapSegment lm s =>
    simp only [applyOp, RawElfWriter.addLinkMapSegment]
    cases lm <;> simp only
    split_ifs <;> simp [RawElfWriter.reallocate]
  | finalizeLinkMapSegment => simp [applyOp, RawElfWriter.finalizeLinkMapSegment]

theorem applyOp_current_le (ws : WordSize) (w : RawElfWriter) (op : WriterOp)
    (h : w.currentProgramHeader ≤ w.numProgramHeaders) :
    (applyOp ws w op).currentProgramHeader ≤ w.numProgramHeaders := by
  cases op with
  | copySegment hd d o oo os =>
    simp only [applyOp, RawElfWriter.copySegment]
    cases hd <;> cases d <;> simp only <;> try exact h
    split_ifs <;> simp [RawElfWriter.reallocate] <;> omega
  | startLinkMapSegment heap => simpa [applyOp, RawElfWriter.startLinkMapSegment] using h
  | createR_DebugStruct =>
    simp only [applyOp, RawElfWriter.createR_DebugStruct, RawElfWriter.addR_DebugStruct]
    split_ifs <;> simpa [RawElfWriter.reallocate] using h
  | addR_DebugStruct rd =>
    simp only [applyOp, RawElfWriter.addR_DebugStruct]
    cases rd <;> simp only <;> try exact h
    split_ifs <;> simpa [RawElfWriter.reallocate] using h
  | createAndAddLinkMapSegment a s l f =>
    simp only [applyOp, RawElfWriter.createAndAddLinkMapSegment, RawElfWriter.addLinkMapSegment]
    split_ifs <;> simpa [RawElfWriter.reallocate] using h
  | addLinkMapSegment lm s =>
    simp only [applyOp, RawElfWriter.addLinkMapSegment]
    cases lm <;> simp only <;> try exact h
    split_ifs <;> simpa [RawElfWriter.reallocate] using h
  | finalizeLinkMapSegment => simpa [applyOp, RawElfWriter.finalizeLinkMapSegment] using h

theorem headerSlots_applyOp (ws : WordSize) (n : Nat) (w : RawElfWriter) (op : WriterOp)
    (h : HeaderSlots n w) : HeaderSlots n (applyOp ws w op) := by
  obtain ⟨ht, he, hc⟩ := h
  refine ⟨tableReady_applyOp ws n w op ht, ?_, ?_⟩
  · rw [applyOp_elfHeader, he]
  · have := applyOp_current_le ws w op (by rw [ht.2.2.2.2]; exact hc)
    rw [ht.2.2.2.2] at this
    exact this

theorem getNotesLoop_facts (ws : WordSize) (lay : NoteLayout) (file : List Byte) (endPos : Nat)
    (fuel : Nat) : ∀ (current : Nat) (r : Reducer),
    (Reducer.getNotesLoop ws lay file endPos fuel current r).coreReader = r.coreReader ∧
    (Reducer.getNotesLoop ws lay file endPos fuel current r).coreWriter = r.coreWriter ∧
    (Reducer.getNotesLoop ws lay file endPos fuel current r).output = r.output ∧
    (Reducer.getNotesLoop ws lay file endPos fuel current r).wantedHeaders = r.wantedHeaders ∧
    (Reducer.getNotesLoop ws lay file endPos fuel current r).stackPointerAddresses =
      r.stackPointerAddresses ++ prstatusStackPointers ws lay file endPos fuel current := by
  induction fuel with
  | zero =>
    intro current r
    simp [Reducer.getNotesLoop, prstatusStackPointers]
  | succ fuel ih =>
    intro current r
    unfold Reducer.getNotesLoop prstatusStackPointers
    by_cases hc : current < endPos
    · simp only [hc, if_true]
      by_cases h1 : readU32 file (current + 8) = NT_PRSTATUS
      · simp only [h1, if_true]
        obtain ⟨a, b, c, d, e⟩ := ih
          (current + sizeofNhdr + align_power ws (readU32 file current) 2 +
            align_power ws (readU32 file (current + 4)) 2)
          { r with
              stackPointerAddresses := r.stackPointerAddresses ++
                [readWord ws file (current + sizeofNhdr + align_power ws (readU32 file current) 2
                  + lay.pr_reg + lay.ESP_OFFSET * sizeofADDRESS ws)]
              processId :=
                if toInt32 (readU32 file (current + sizeofNhdr
                      + align_power ws (readU32 file current) 2 + lay.pr_pid)) < r.processId
                then toInt32 (readU32 file (current + sizeofNhdr
                      + align_power ws (readU32 file current) 2 + lay.pr_pid))
                else r.processId }
        refine ⟨a, b, c, d, ?_⟩
        rw [e, List.append_assoc]
        rfl
      · simp only [h1, if_false]
        by_cases h2 : readU32 file (current + 8) = NT_PRPSINFO
        · simp only [h2, if_true]
          exact ih _ _
        · simp only [h2, if_false]
          by_cases h3 : readU32 file (current + 8) = NT_AUXV
          · simp only [h3, if_true]
            rcases auxvScan_cases : Reducer.auxvScan ws file (file.length + 1)
                (current + sizeofNhdr + align_power ws (readU32 file current) 2) with _ | v
            · exact ih _ _
            · exact ih _ _
          · simp only [h3, if_false]
            exact ih _ _
    · simp [hc]

theorem getNotes_facts (ws : WordSize) (lay : NoteLayout) (c : ElfCoreReader)
    (output : Option String) (heap : Nat) (r : Reducer)
    (h : Reducer.getNotes ws lay (Reducer.new c output heap) = (true, r)) :
    r.coreReader = c ∧ r.coreWriter = none ∧ r.output = output ∧ r.wantedHeaders.length = 1 ∧
      r.stackPointerAddresses = corePrstatusStackPointers ws lay c := by
  unfold Reducer.getNotes at h
  unfold corePrstatusStackPointers
  have hc : (Reducer.new c output heap).coreReader = c := rfl
  rw [hc] at h
  rcases hseg : c.getSegmentByType PT_NOTE with _ | noteSegment
  · rw [hseg] at h
    simp at h
  · rw [hseg] at h
    simp only at h ⊢
    split_ifs at h
    · simp at h
    simp only [Prod.mk.injEq, true_and] at h
    obtain ⟨a, b, c1, d, e⟩ := getNotesLoop_facts ws lay c.file
      (noteSegment.p_offset + noteSegment.p_filesz) noteSegment.p_filesz noteSegment.p_offset
      { Reducer.new c output heap with
          wantedHeaders := (Reducer.new c output heap).wantedHeaders ++ [noteSegment] }
    subst h
    exact ⟨a, b, c1, (congrArg List.length d).trans rfl, e.trans rfl⟩

theorem initalize_facts (ws : WordSize) (lay : NoteLayout) (c : ElfCoreReader)
    (binary : Option BinaryFacts) (output : Option String) (heap : Nat) (r : Reducer)
    (h : Reducer.initalize ws lay (some c) binary output heap = some (true, some r)) :
    r.coreReader = c ∧ r.coreWriter = none ∧ r.output = output ∧ r.wantedHeaders.length = 1 ∧
      r.stackPointerAddresses = corePrstatusStackPointers ws lay c := by
  unfold Reducer.initalize at h
  simp only at h
  rcases hn : Reducer.getNotes ws lay (Reducer.new c output heap) with ⟨ok, r0⟩
  rw [hn] at h
  cases ok with
  | false => simp at h
  | true =>
    have hf := getNotes_facts ws lay c output heap r0 hn
    simp only at h
    rcases binary with _ | b
    · simp at h
    · simp only at h
      rcases hp : b.ptPhdr with _ | phdr
      · rw [hp] at h
        simp at h
      · rw [hp] at h
        simp only at h
        rcases hd : b.dynamicSection with _ | ⟨sh_addr, sh_size⟩
        · rw [hd] at h
          simp only [Option.some.injEq, Prod.mk.injEq, true_and] at h
          rw [← h]
          exact hf
        · rw [hd] at h
          simp only at h
          rcases hi : b.interpSection with _ | ⟨interpAddr, data⟩
          · rw [hi] at h
            simp only [Option.some.injEq, Prod.mk.injEq, true_and] at h
            rw [← h]
            exact hf
          · rw [hi] at h
            simp only [Option.some.injEq, Prod.mk.injEq, true_and] at h
            rw [← h]
            exact hf

theorem getStacksStep_facts (ws : WordSize) (r : Reducer) (sp : Nat) :
    (Reducer.getStacksStep ws r sp).coreReader = r.coreReader ∧
    (Reducer.getStacksStep ws r sp).coreWriter = r.coreWriter ∧
    (Reducer.getStacksStep ws r sp).output = r.output ∧
    (Reducer.getStacksStep ws r sp).wantedHeaders.length =
      r.wantedHeaders.length + (locatedStackPointers ws r.coreReader [sp]).length := by
  unfold Reducer.getStacksStep locatedStackPointers
  rcases hseg : r.coreReader.getSegmentByAddress ws sp with _ | seg
  · simp [hseg]
  · simp [hseg]

theorem getStacks_fold_facts (ws : WordSize) (sps : List Nat) : ∀ r : Reducer,
    (sps.foldl (Reducer.getStacksStep ws) r).coreReader = r.coreReader ∧
    (sps.foldl (Reducer.getStacksStep ws) r).coreWriter = r.coreWriter ∧
    (sps.foldl (Reducer.getStacksStep ws) r).output = r.output ∧
    (sps.foldl (Reducer.getStacksStep ws) r).wantedHeaders.length =
      r.wantedHeaders.length + (locatedStackPointers ws r.coreReader sps).length := by
  induction sps with
  | nil =>
    intro r
    simp [locatedStackPointers]
  | cons sp rest ih =>
    intro r
    obtain ⟨a, b, c, d⟩ := ih (Reducer.getStacksStep ws r sp)
    obtain ⟨a1, b1, c1, d1⟩ := getStacksStep_facts ws r sp
    rw [List.foldl_cons]
    refine ⟨a.trans a1, b.trans b1, c.trans c1, ?_⟩
    rw [d, d1, a1]
    have hl : locatedStackPointers ws r.coreReader (sp :: rest)
        = locatedStackPointers ws r.coreReader [sp] ++ locatedStackPointers ws r.coreReader rest := by
      unfold locatedStackPointers
      rw [← List.filter_append]
      rfl
    rw [hl, List.length_append]
    omega

theorem checkHeapAddress_facts (r : Reducer) (ifaceHeap : Nat) :
    (r.checkHeapAddress ifaceHeap).coreReader = r.coreReader ∧
    (r.checkHeapAddress ifaceHeap).coreWriter = r.coreWriter ∧
    (r.checkHeapAddress ifaceHeap).output = r.output ∧
    (r.checkHeapAddress ifaceHeap).wantedHeaders = r.wantedHeaders ∧
    (r.checkHeapAddress ifaceHeap).stackPointerAddresses = r.stackPointerAddresses := by
  unfold Reducer.checkHeapAddress
  split_ifs <;> exact ⟨rfl, rfl, rfl, rfl, rfl⟩

theorem writer_initalize_succeeds (ws : WordSize) (env : Env) (name : String) (n sz : Nat)
    (hfd : 0 ≤ env.openFd) (hm : env.mallocOk = true) :
    (RawElfWriter.new.initalize ws env (some name) n sz).1 = true := by
  unfold RawElfWriter.initalize
  simp [not_lt.mpr hfd, hm]

theorem headerSlots_init (ws : WordSize) (env : Env) (fileName : Option String) (n sz : Nat)
    (hdr : Ehdr) (h : (RawElfWriter.new.initalize ws env fileName n sz).1 = true) :
    HeaderSlots n ((RawElfWriter.new.initalize ws env fileName n sz).2.copyElfHeader ws (some hdr)) := by
  refine ⟨tableReady_init ws env fileName n sz hdr h, ?_, ?_⟩
  · rw [initalize_ok ws env fileName n sz h]
    rfl
  · rw [initalize_ok ws env fileName n sz h]
    exact Nat.zero_le _

theorem copySegments_fold_preserves (ws : WordSize) (P : RawElfWriter → Prop)
    (hP : ∀ w op, P w → P (applyOp ws w op)) (data : Phdr → Option (List Byte))
    (hs : List Phdr) : ∀ w : RawElfWriter, P w →
    P (hs.foldl (fun w ph => (w.copySegment ws (some ph) (data ph) none 0 0).2) w) := by
  induction hs with
  | nil => exact fun w h => h
  | cons ph rest ih =>
    intro w h
    rw [List.foldl_cons]
    exact ih _ (hP w (.copySegment (some ph) (data ph) none 0 0) h)

theorem copyInitalSegmentsToOutput_facts (ws : WordSize) (env : Env) (r : Reducer)
    (stacksOnly : Bool) (name : String) (hout : r.output = some name)
    (hfd : 0 ≤ env.openFd) (hm : env.mallocOk = true) :
    (r.copyInitalSegmentsToOutput ws env stacksOnly).coreReader = r.coreReader ∧
    ∃ w, (r.copyInitalSegmentsToOutput ws env stacksOnly).coreWriter = some w ∧
      HeaderSlots (reservedHeaders r.wantedHeaders.length stacksOnly) w := by
  unfold Reducer.copyInitalSegmentsToOutput
  simp only [hout]
  generalize hsz : intToSize ws (r.wantedHeaders.foldl
    (fun acc ph => wrapInt32 (acc + (ph.p_filesz : Int))) 0) = sz
  have hok := writer_initalize_succeeds ws env name
    (r.wantedHeaders.length + (if !stacksOnly then 2 else 0)) sz hfd hm
  have hs := headerSlots_init ws env (some name)
    (r.wantedHeaders.length + (if !stacksOnly then 2 else 0)) sz r.coreReader.elfFileHeader hok
  rcases hi : RawElfWriter.new.initalize ws env (some name)
    (r.wantedHeaders.length + (if !stacksOnly then 2 else 0)) sz with ⟨ok, w0⟩
  rw [hi] at hok hs
  simp only at hok
  subst hok
  simp only
  refine ⟨trivial, _, rfl, ?_⟩
  exact copySegments_fold_preserves ws _ (headerSlots_applyOp ws _)
    (fun ph => r.coreReader.getDataByOffset ph.p_offset) r.wantedHeaders _ hs

theorem write_headerSlots (env : Env) (n : Nat) (w : RawElfWriter) (h : HeaderSlots n w)
    (hw : env.writeOk = true) :
    ∃ out, (w.write env).2.2 = some out ∧ out.elfHeader.e_phnum = n % 65536 ∧
      out.programHeaders.length = n ∧ (w.write env).2.1.currentProgramHeader ≤ n := by
  obtain ⟨ht, he, hc⟩ := h
  refine ⟨_, write_tableReady env n w ht hw, he, ?_, ?_⟩
  · show (qsort w.programHeaders).length = n
    rw [(qsort_perm w.programHeaders).length_eq]
    exact ht.2.2.2.1
  · obtain ⟨h1, h2, h3, h4, h5⟩ := ht
    unfold RawElfWriter.write RawElfWriter.sortBuffer
    simp only [h1, h2, h3, hw, if_true, Bool.not_false, Bool.not_true, Bool.false_eq_true,
      if_false, Bool.or_self]
    exact hc

theorem run_header_count (ws : WordSize) (env : Env) (ifaceHeap fuel : Nat) (r : Reducer)
    (stacksOnly : Bool) (mapsFile : Option MapsFile) (name : String)
    (hout : r.output = some name) (hfd : 0 ≤ env.openFd) (hm : env.mallocOk = true)
    (hwr : env.writeOk = true) (res : Reducer × Option ElfFile)
    (hrun : Reducer.run ws env ifaceHeap fuel r stacksOnly mapsFile = some res) :
    ∃ out w, res.2 = some out ∧ res.1.coreWriter = some w ∧
      out.elfHeader.e_phnum =
        reservedHeaders (r.wantedHeaders.length +
          (locatedStackPointers ws r.coreReader r.stackPointerAddresses).length) stacksOnly
          % 65536 ∧
      out.programHeaders.length =
        reservedHeaders (r.wantedHeaders.length +
          (locatedStackPointers ws r.coreReader r.stackPointerAddresses).length) stacksOnly ∧
      w.currentProgramHeader ≤
        reservedHeaders (r.wantedHeaders.length +
          (locatedStackPointers ws r.coreReader r.stackPointerAddresses).length) stacksOnly := by
  obtain ⟨a1, b1, c1, d1, e1⟩ := checkHeapAddress_facts r ifaceHeap
  obtain ⟨a2, b2, c2, d2⟩ := getStacks_fold_facts ws (r.checkHeapAddress ifaceHeap).stackPointerAddresses
    (r.checkHeapAddress ifaceHeap)
  obtain ⟨a3, w3, hw3, hs3⟩ := copyInitalSegmentsToOutput_facts ws env
    ((r.checkHeapAddress ifaceHeap).getStacks ws) stacksOnly name
    (by unfold Reducer.getStacks; rw [c2, c1, hout]) hfd hm
  have hlen : ((r.checkHeapAddress ifaceHeap).getStacks ws).wantedHeaders.length
      = r.wantedHeaders.length +
          (locatedStackPointers ws r.coreReader r.stackPointerAddresses).length := by
    unfold Reducer.getStacks
    rw [d2, d1, a1, e1]
  rw [hlen] at hs3
  have hfin : ∀ r5 : Reducer, ∀ w5 : RawElfWriter, r5.coreWriter = some w5 →
      HeaderSlots (reservedHeaders (r.wantedHeaders.length +
          (locatedStackPointers ws r.coreReader r.stackPointerAddresses).length) stacksOnly) w5 →
      res = ({ r5 with coreWriter := some (w5.write env).2.1 }, (w5.write env).2.2) →
      ∃ out w, res.2 = some out ∧ res.1.coreWriter = some w ∧
        out.elfHeader.e_phnum =
          reservedHeaders (r.wantedHeaders.length +
            (locatedStackPointers ws r.coreReader r.stackPointerAddresses).length) stacksOnly
            % 65536 ∧
        out.programHeaders.length =
          reservedHeaders (r.wantedHeaders.length +
            (locatedStackPointers ws r.coreReader r.stackPointerAddresses).length) stacksOnly ∧
        w.currentProgramHeader ≤
          reservedHeaders (r.wantedHeaders.length +
            (locatedStackPointers ws r.coreReader r.stackPointerAddresses).length) stacksOnly := by
    intro r5 w5 h5 hs5 hres
    obtain ⟨out, ho, p1, p2, p3⟩ := write_headerSlots env _ w5 hs5 hwr
    subst hres
    exact ⟨out, _, ho, rfl, p1, p2, p3⟩
  unfold Reducer.run at hrun
  simp only at hrun
  cases stacksOnly with
  | true =>
    simp only [Bool.not_true, Bool.false_eq_true, if_false, hw3, Option.some.injEq] at hrun
    exact hfin _ w3 hw3 hs3 hrun.symm
  | false =>
    simp only [Bool.not_false, if_true] at hrun
    rcases hd : Reducer.copyDynamicSectionInformation ws fuel
      (((r.checkHeapAddress ifaceHeap).getStacks ws).copyInitalSegmentsToOutput ws env false)
      mapsFile with _ | r5
    · rw [hd] at hrun
      simp at hrun
    · rw [hd] at hrun
      obtain ⟨w5, hw5, hs5⟩ := copyDynamicSectionInformation_preserves ws _
        (headerSlots_applyOp ws _) fuel _ r5 w3 mapsFile hw3 hs3 hd
      simp only [hw5, Option.some.injEq] at hrun
      exact hfin r5 w5 hw5 hs5 hrun.symm

theorem run_stacksOnly_returns (ws : WordSize) (env : Env) (ifaceHeap fuel : Nat) (r : Reducer)
    (mapsFile : Option MapsFile) :
    ∃ res, Reducer.run ws env ifaceHeap fuel r true mapsFile = some res := by
  unfold Reducer.run
  simp only [Bool.not_true, Bool.false_eq_true, if_false]
  rcases (((r.checkHeapAddress ifaceHeap).getStacks ws).copyInitalSegmentsToOutput ws env
    true).coreWriter with _ | w
  · exact ⟨_, rfl⟩
  · exact ⟨_, rfl⟩

theorem locatedStackPointers_length_le (ws : WordSize) (core : ElfCoreReader) (sps : List Nat) :
    (locatedStackPointers ws core sps).length ≤ sps.length :=
  List.length_filter_le _ _

theorem locatedStackPointers_all (ws : WordSize) (core : ElfCoreReader) (sps : List Nat)
    (h : ∀ sp ∈ sps, (core.getSegmentByAddress ws sp).isSome = true) :
    locatedStackPointers ws core sps = sps :=
  List.filter_eq_self.mpr h

/-- C9, amended: in stacks-only mode, the run of a reducer that `initalize`
accepted, with an output file that opens, a buffer that is allocated and a
`write` that succeeds, always stores a file.  Its header table has `1 + L`
entries and its `e_phnum` is `1 + L` in 16 bits, where `L` is the number of
`NT_PRSTATUS` notes whose stack pointer `getSegmentByAddress` finds a segment
for: the other notes get no header.  `L` is at most the number of
`NT_PRSTATUS` notes, and when every stack pointer is found the table has
`1 + number of NT_PRSTATUS notes` entries. -/
theorem C9_stacks_only_header_count (ws : WordSize) (lay : NoteLayout) (core : ElfCoreReader)
    (binary : Option BinaryFacts) (name : String) (heap : Nat) (env : Env)
    (ifaceHeap fuel : Nat) (mapsFile : Option MapsFile) (r : Reducer)
    (hinit : Reducer.initalize ws lay (some core) binary (some name) heap = some (true, some r))
    (hfd : 0 ≤ env.openFd) (hm : env.mallocOk = true) (hwr : env.writeOk = true) :
    ∃ (r2 : Reducer) (out : ElfFile),
      Reducer.run ws env ifaceHeap fuel r true mapsFile = some (r2, some out) ∧
      out.programHeaders.length =
        1 + (locatedStackPointers ws core (corePrstatusStackPointers ws lay core)).length ∧
      out.elfHeader.e_phnum =
        (1 + (locatedStackPointers ws core (corePrstatusStackPointers ws lay core)).length)
          % 65536 ∧
      (locatedStackPointers ws core (corePrstatusStackPointers ws lay core)).length
        ≤ (corePrstatusStackPointers ws lay core).length ∧
      ((∀ sp ∈ corePrstatusStackPointers ws lay core,
          (core.getSegmentByAddress ws sp).isSome = true) →
        out.programHeaders.length = 1 + (corePrstatusStackPointers ws lay core).length) := by
  obtain ⟨hc, _, ho, hwl, hsp⟩ := initalize_facts ws lay core binary (some name) heap r hinit
  obtain ⟨res, hrun⟩ := run_stacksOnly_returns ws env ifaceHeap fuel r mapsFile
  obtain ⟨out, w, h1, _, h3, h4, _⟩ :=
    run_header_count ws env ifaceHeap fuel r true mapsFile name ho hfd hm hwr res hrun
  rw [hwl, hc, hsp] at h3 h4
  have hres : res = (res.1, some out) := by
    rw [← h1]
  have e0 : reservedHeaders
      (1 + (locatedStackPointers ws core (corePrstatusStackPointers ws lay core)).length) true
      = 1 + (locatedStackPointers ws core (corePrstatusStackPointers ws lay core)).length := by
    simp [reservedHeaders]
  rw [e0] at h3 h4
  refine ⟨res.1, out, ?_, h4, h3, locatedStackPointers_length_le ws core _, ?_⟩
  · rw [hrun, ← hres]
  · intro hall
    rw [h4, locatedStackPointers_all ws core _ hall]

set_option maxRecDepth 16384 in
/-- Counterexample to C9 as stated: a 32-bit core with two `NT_PRSTATUS` notes,
the stack pointer of the second lying in no segment.  `initalize` accepts it,
and the stacks-only run stores a table of two headers with `e_phnum = 2`, not
`1 + 2`. -/
theorem C9_unlocated_stack_counterexample :
    (corePrstatusStackPointers .w32 i386Layout unmappedStackCore).length = 2 ∧
    (Reducer.initalize .w32 i386Layout (some unmappedStackCore) (some exampleStaticBinary)
        (some "core.reduced") 0).map (fun res => res.1) = some true ∧
    (Reducer.run .w32 exampleEnv 0 16 (exampleReducer unmappedStackCore exampleStaticBinary)
        true none).map
      (fun res => res.2.map (fun out => (out.elfHeader.e_phnum, out.programHeaders.length)))
      = some (some (2, 2)) :=
  ⟨by decide, by decide, by decide⟩

set_option maxRecDepth 16384 in
/-- Witness of C9: the core of the static executable, whose only stack pointer
lies in the stack mapping. -/
theorem C9_stacks_only_header_count_witness :
    ∃ (r2 : Reducer) (out : ElfFile),
      Reducer.run .w32 exampleEnv 0 16 (exampleReducer exampleStaticCore exampleStaticBinary)
        true none = some (r2, some out) ∧
      out.programHeaders.length =
        1 + (locatedStackPointers .w32 exampleStaticCore
              (corePrstatusStackPointers .w32 i386Layout exampleStaticCore)).length ∧
      out.elfHeader.e_phnum =
        (1 + (locatedStackPointers .w32 exampleStaticCore
              (corePrstatusStackPointers .w32 i386Layout exampleStaticCore)).length) % 65536 ∧
      (locatedStackPointers .w32 exampleStaticCore
          (corePrstatusStackPointers .w32 i386Layout exampleStaticCore)).length
        ≤ (corePrstatusStackPointers .w32 i386Layout exampleStaticCore).length ∧
      ((∀ sp ∈ corePrstatusStackPointers .w32 i386Layout exampleStaticCore,
          (exampleStaticCore.getSegmentByAddress .w32 sp).isSome = true) →
        out.programHeaders.length
          = 1 + (corePrstatusStackPointers .w32 i386Layout exampleStaticCore).length) :=
  C9_stacks_only_header_count .w32 i386Layout exampleStaticCore (some exampleStaticBinary)
    "core.reduced" 0 exampleEnv 0 16 none (exampleReducer exampleStaticCore exampleStaticBinary)
    rfl (by decide) rfl rfl

set_option maxRecDepth 16384 in
/-- Counterexample to C10 as stated: the 32-bit core of a statically linked
executable with one thread, reduced in default mode.  Two `copySegment` calls
succeed (the notes and the narrowed stack) and no dynamic or link-map segment is
written, yet `e_phnum` is 4 and the table has four entries, two of them
`PT_NULL`. -/
theorem C10_static_default_counterexample :
    (Reducer.run .w32 exampleEnv 0 16 (exampleReducer exampleStaticCore exampleStaticBinary)
        false none).map
      (fun res =>
        (res.2.map (fun out =>
            (out.elfHeader.e_phnum, out.programHeaders.length,
             (out.programHeaders.filter (fun ph => decide (ph.p_type = PT_NULL))).length,
             (out.programHeaders.filter (fun ph => decide (ph.p_type = PT_NOTE))).length,
             (out.programHeaders.filter (fun ph => decide (ph.p_type = PT_LOAD))).length)),
         res.1.coreWriter.map (fun w => w.currentProgramHeader)))
      = some (some (4, 4, 2, 1, 1), some 2) :=
  rfl

/-! ## Bounds-checked lookups of the core reader -/

/-- C14. `getSegmentByIndex` is a bounds-checked lookup: for every index `i` it
returns the `i`-th program header when `i < e_phnum` and `NULL` otherwise; in
particular it returns `NULL` for `i = e_phnum` and, `e_phnum` being a 16-bit
field, for `i = UINT_MAX`. -/
theorem C14_getSegmentByIndex_bounds (c : ElfCoreReader) (i : Nat) :
    (i < c.elfHeader.e_phnum → c.getSegmentByIndex i = some (c.programHeaders i)) ∧
    (c.elfHeader.e_phnum ≤ i → c.getSegmentByIndex i = none) ∧
    c.getSegmentByIndex c.elfHeader.e_phnum = none ∧
    (c.elfHeader.e_phnum < 65536 → c.getSegmentByIndex 4294967295 = none) := by
  unfold ElfCoreReader.getSegmentByIndex
  refine ⟨fun h => if_pos h, fun h => if_neg (by omega), if_neg (by omega), fun h => if_neg (by omega)⟩

/-- Witness of C14: the two-entry table of the static example core. -/
theorem C14_getSegmentByIndex_bounds_witness :
    exampleStaticCore.getSegmentByIndex 1 = some (exampleStaticCore.programHeaders 1) ∧
    exampleStaticCore.getSegmentByIndex 2 = none ∧
    exampleStaticCore.getSegmentByIndex 4294967295 = none :=
  ⟨(C14_getSegmentByIndex_bounds exampleStaticCore 1).1 (by decide),
   (C14_getSegmentByIndex_bounds exampleStaticCore 2).2.1 (by decide),
   (C14_getSegmentByIndex_bounds exampleStaticCore 0).2.2.2 (by decide)⟩

/-- C15. `getDataByOffset` is bounds-checked against the file size: for every
offset it returns the memory that starts at byte `offset` of the mapped file when
`offset < fileSize`, and `NULL` when `offset >= fileSize`.  For a file that is
not empty the offsets `0`, `fileSize / 2` and `fileSize - 1` succeed;
`offset = fileSize` fails, and so does `UINT_MAX` when the file is no larger
than that. -/
theorem C15_getDataByOffset_bounds (c : ElfCoreReader) (offset : Nat) :
    (offset < c.fileSize → c.getDataByOffset offset = some (c.file.drop offset)) ∧
    (c.fileSize ≤ offset → c.getDataByOffset offset = none) ∧
    (0 < c.fileSize →
      c.getDataByOffset 0 = some c.file ∧
      c.getDataByOffset (c.fileSize / 2) = some (c.file.drop (c.fileSize / 2)) ∧
      c.getDataByOffset (c.fileSize - 1) = some (c.file.drop (c.fileSize - 1))) ∧
    c.getDataByOffset c.fileSize = none ∧
    (c.fileSize ≤ 4294967295 → c.getDataByOffset 4294967295 = none) := by
  unfold ElfCoreReader.getDataByOffset
  refine ⟨fun h => if_pos h, fun h => if_neg (by omega), fun h => ⟨?_, ?_, ?_⟩,
    if_neg (by omega), fun h => if_neg (by omega)⟩
  · rw [if_pos h, List.drop_zero]
  · rw [if_pos (by omega)]
  · rw [if_pos (by omega)]

set_option maxRecDepth 16384 in
/-- Witness of C15: the 716-byte image of the static example core. -/
theorem C15_getDataByOffset_bounds_witness :
    exampleStaticCore.getDataByOffset 460 = some (exampleStaticCore.file.drop 460) ∧
    exampleStaticCore.getDataByOffset 716 = none ∧
    (exampleStaticCore.getDataByOffset 0 = some exampleStaticCore.file ∧
      exampleStaticCore.getDataByOffset (exampleStaticCore.fileSize / 2)
        = some (exampleStaticCore.file.drop (exampleStaticCore.fileSize / 2)) ∧
      exampleStaticCore.getDataByOffset (exampleStaticCore.fileSize - 1)
        = some (exampleStaticCore.file.drop (exampleStaticCore.fileSize - 1))) ∧
    exampleStaticCore.getDataByOffset 4294967295 = none :=
  ⟨(C15_getDataByOffset_bounds exampleStaticCore 460).1 (by decide),
   (C15_getDataByOffset_bounds exampleStaticCore 716).2.1 (by decide),
   (C15_getDataByOffset_bounds exampleStaticCore 0).2.2.1 (by decide),
   (C15_getDataByOffset_bounds exampleStaticCore 0).2.2.2.2 (by decide)⟩

/-! ## The binary search of `getSegmentByAddress` -/

theorem getSegmentByAddressLoop_some (ws : WordSize) (c : ElfCoreReader) (toMatch : Nat)
    (fuel : Nat) : ∀ (first last : Int) (ph : Phdr), 0 ≤ first →
    c.getSegmentByAddressLoop ws toMatch fuel first last = some ph →
    ∃ i : Nat, first ≤ (i : Int) ∧ (i : Int) ≤ last ∧ ph = c.programHeaders i ∧
      ph.p_vaddr ≤ toMatch ∧ toMatch < (ph.p_vaddr + ph.p_filesz) % wordMod ws := by
  induction fuel with
  | zero =>
    intro first last ph _ h
    simp [ElfCoreReader.getSegmentByAddressLoop] at h
  | succ fuel ih =>
    intro first last ph h0 h
    unfold ElfCoreReader.getSegmentByAddressLoop at h
    by_cases h1 : first ≤ last
    swap
    · rw [if_neg h1] at h
      cases h
    rw [if_pos h1] at h
    simp only at h
    split_ifs at h with h2 h3
    · obtain ⟨i, a, b, e⟩ := ih first ((first + last) / 2 - 1) ph h0 h
      exact ⟨i, a, by omega, e⟩
    · obtain ⟨i, a, b, e⟩ := ih ((first + last) / 2 + 1) last ph (by omega) h
      exact ⟨i, by omega, b, e⟩
    · simp only [Option.some.injEq] at h
      subst h
      refine ⟨((first + last) / 2).toNat, by omega, by omega, rfl, by omega, by omega⟩

theorem getSegmentByAddress_some (ws : WordSize) (c : ElfCoreReader) (toMatch : Nat) (ph : Phdr)
    (h : c.getSegmentByAddress ws toMatch = some ph) :
    ∃ i : Nat, i ≤ c.elfHeader.e_phnum ∧ ph = c.programHeaders i ∧
      ph.p_vaddr ≤ toMatch ∧ toMatch < (ph.p_vaddr + ph.p_filesz) % wordMod ws := by
  obtain ⟨i, _, b, e⟩ := getSegmentByAddressLoop_some ws c toMatch _ 0 _ ph (le_refl _) h
  exact ⟨i, by omega, e⟩

/-- C12. `getSegmentByAddress` on a core whose table has one entry, the mapping
`[0x1000, 0x2000)`, asked for `0x3100`: no entry of the table covers the address,
the search goes on to index `e_phnum`, reads the bytes after the table as a
header and returns it.  On the same image with an empty table, asked
for `0x1100`, the search reads index 0 and returns what it finds there.  Any
header the search returns is at an index up to and including `e_phnum`, and
covers the address. -/
theorem C12_getSegmentByAddress_past_table :
    (∀ i, i < overrunCore.elfHeader.e_phnum →
      ¬ ((overrunCore.programHeaders i).p_vaddr ≤ 12544 ∧
         12544 < (overrunCore.programHeaders i).p_vaddr + (overrunCore.programHeaders i).p_filesz)) ∧
    overrunCore.getSegmentByAddress .w32 12544 = some (overrunCore.programHeaders 1) ∧
    emptyTableCore.elfHeader.e_phnum = 0 ∧
    emptyTableCore.getSegmentByAddress .w32 4352 = some (emptyTableCore.programHeaders 0) ∧
    (∀ (ws : WordSize) (c : ElfCoreReader) (toMatch : Nat) (ph : Phdr),
      c.getSegmentByAddress ws toMatch = some ph →
      ∃ i : Nat, i ≤ c.elfHeader.e_phnum ∧ ph = c.programHeaders i ∧
        ph.p_vaddr ≤ toMatch ∧ toMatch < (ph.p_vaddr + ph.p_filesz) % wordMod ws) := by
  refine ⟨?_, rfl, rfl, rfl, getSegmentByAddress_some⟩
  intro i hi
  have h1 : i = 0 := by
    have : overrunCore.elfHeader.e_phnum = 1 := rfl
    omega
  subst h1
  decide

theorem getSegmentByAddressLoop_found (ws : WordSize) (c : ElfCoreReader) (toMatch j : Nat)
    (hj : j < c.elfHeader.e_phnum)
    (hwrap : ∀ i, i < c.elfHeader.e_phnum →
      (c.programHeaders i).p_vaddr + (c.programHeaders i).p_filesz < wordMod ws)
    (hord : ∀ i k, i < k → k < c.elfHeader.e_phnum →
      (c.programHeaders i).p_vaddr + (c.programHeaders i).p_filesz ≤ (c.programHeaders k).p_vaddr)
    (hlo : (c.programHeaders j).p_vaddr ≤ toMatch)
    (hhi : toMatch < (c.programHeaders j).p_vaddr + (c.programHeaders j).p_filesz)
    (fuel : Nat) : ∀ (first last : Int), 0 ≤ first → first ≤ (j : Int) → (j : Int) ≤ last →
    last ≤ (c.elfHeader.e_phnum : Int) → last - first < (fuel : Int) →
    c.getSegmentByAddressLoop ws toMatch fuel first last = some (c.programHeaders j) := by
  induction fuel with
  | zero =>
    intro first last _ h1 h2 _ h4
    omega
  | succ fuel ih =>
    intro first last h0 h1 h2 h3 h4
    unfold ElfCoreReader.getSegmentByAddressLoop
    rw [if_pos (by omega)]
    simp only
    have hm0 : 0 ≤ (first + last) / 2 := by omega
    have hmn : ((first + last) / 2).toNat < c.elfHeader.e_phnum := by omega
    rcases Nat.lt_trichotomy ((first + last) / 2).toNat j with hlt | heq | hgt
    · have ho := hord _ _ hlt hj
      have hw := hwrap _ hmn
      rw [if_neg (by omega), if_pos (by rw [Nat.mod_eq_of_lt hw]; omega)]
      exact ih _ _ (by omega) (by omega) h2 h3 (by omega)
    · rw [heq, if_neg (by omega), if_neg (by rw [Nat.mod_eq_of_lt (hwrap j hj)]; omega)]
    · have ho := hord _ _ hgt hmn
      rw [if_pos (by omega)]
      exact ih _ _ h0 h1 (by omega) (by omega) (by omega)

/-- C13, amended: when the `e_phnum` headers of the table, whatever their type,
are in address order with file ranges `[p_vaddr, p_vaddr + p_filesz)` that do
not wrap and do not overlap (each range ends at or before the start of every
later one), `getSegmentByAddress` returns, for every address covered by an entry
of the table, that entry. -/
theorem C13_getSegmentByAddress_finds (ws : WordSize) (c : ElfCoreReader) (toMatch j : Nat)
    (hj : j < c.elfHeader.e_phnum)
    (hwrap : ∀ i, i < c.elfHeader.e_phnum →
      (c.programHeaders i).p_vaddr + (c.programHeaders i).p_filesz < wordMod ws)
    (hord : ∀ i k, i < k → k < c.elfHeader.e_phnum →
      (c.programHeaders i).p_vaddr + (c.programHeaders i).p_filesz ≤ (c.programHeaders k).p_vaddr)
    (hlo : (c.programHeaders j).p_vaddr ≤ toMatch)
    (hhi : toMatch < (c.programHeaders j).p_vaddr + (c.programHeaders j).p_filesz) :
    c.getSegmentByAddress ws toMatch = some (c.programHeaders j) :=
  getSegmentByAddressLoop_found ws c toMatch j hj hwrap hord hlo hhi _ 0 _ (le_refl _)
    (by omega) (by omega) (le_refl _) (by omega)

set_option maxRecDepth 16384 in
/-- Counterexample to C13 as stated, on two 32-bit cores whose `PT_LOAD` headers
are in non-decreasing `p_vaddr` order.  In the first the `PT_NOTE` header, at
address 0, stands between the two `PT_LOAD` headers: the address `0x1500`,
covered by the first `PT_LOAD`, is compared with the note, sent to the upper
half, and not found.  In the second the first `PT_LOAD` overlaps the second:
the address `0x3000`, covered by the first only, is sent to the upper half by
the second, and not found. -/
theorem C13_sorted_loads_counterexample :
    ((((List.range noteBetweenCore.elfHeader.e_phnum).map noteBetweenCore.programHeaders).filter
        (fun ph => decide (ph.p_type = PT_LOAD))).map (fun ph => (ph.p_vaddr, ph.p_filesz))
        = [(4096, 4096), (12288, 4096)] ∧
      (noteBetweenCore.programHeaders 0).p_type = PT_LOAD ∧
      ((4096 : Nat) ≤ 5376 ∧ (5376 : Nat) < 4096 + 4096) ∧
      noteBetweenCore.getSegmentByAddress .w32 5376 = none) ∧
    ((((List.range overlappingLoadsCore.elfHeader.e_phnum).map
          overlappingLoadsCore.programHeaders).filter
        (fun ph => decide (ph.p_type = PT_LOAD))).map (fun ph => (ph.p_vaddr, ph.p_filesz))
        = [(4096, 16384), (8192, 256), (24576, 256)] ∧
      ((4096 : Nat) ≤ 12288 ∧ (12288 : Nat) < 4096 + 16384) ∧
      overlappingLoadsCore.getSegmentByAddress .w32 12288 = none) := by
  decide

set_option maxRecDepth 16384 in
/-- Witness of C13: the stack mapping of the static example core, found for the
stack pointer `0xbf8df0a0`. -/
theorem C13_getSegmentByAddress_finds_witness :
    exampleStaticCore.getSegmentByAddress .w32 3213750432
      = some (exampleStaticCore.programHeaders 1) :=
  C13_getSegmentByAddress_finds .w32 exampleStaticCore 3213750432 1 (by decide)
    (by
      intro i hi
      have h2 : exampleStaticCore.elfHeader.e_phnum = 2 := rfl
      have : i = 0 ∨ i = 1 := by omega
      rcases this with h | h <;> subst h <;> decide)
    (by
      intro i k hik hk
      have h2 : exampleStaticCore.elfHeader.e_phnum = 2 := rfl
      have : i = 0 ∧ k = 1 := by omega
      obtain ⟨h, h'⟩ := this
      subst h
      subst h'
      decide)
    (by decide) (by decide)

/-! ## Section lookup of the binary reader -/

theorem scanSections_hit (ws : WordSize) (q : SectionQuery) (l : List (Option Shdr)) :
    ∀ (b : ElfBinaryReader) (index : Nat) (s : CurrentSectionData) (b2 : ElfBinaryReader),
    ElfBinaryReader.scanSections ws q b l index = (some s, b2) →
    b2.current = s ∧ b2.strptr = b.strptr ∧ b2.sections = b.sections ∧
      ∃ (k : Nat) (sh : Shdr), s.scn = some k ∧ s.sectionHeader = some sh ∧
        q.callback ws b.strptr sh = true := by
  induction l with
  | nil =>
    intro b index s b2 h
    simp [ElfBinaryReader.scanSections] at h
  | cons x rest ih =>
    intro b index s b2 h
    rcases x with _ | sh
    · simp [ElfBinaryReader.scanSections] at h
    · unfold ElfBinaryReader.scanSections at h
      simp only at h
      by_cases hc : q.callback ws b.strptr sh = true
      · rw [if_pos hc] at h
        simp only [Prod.mk.injEq, Option.some.injEq] at h
        obtain ⟨h1, h2⟩ := h
        subst h2
        subst h1
        exact ⟨rfl, rfl, rfl, index, sh, rfl, rfl, hc⟩
      · rw [if_neg hc] at h
        have hrest := ih _ _ s b2 h
        exact hrest

theorem scanSections_first (ws : WordSize) (q : SectionQuery) (shs : List Shdr) :
    ∀ (b : ElfBinaryReader) (index : Nat),
    (ElfBinaryReader.scanSections ws q b (shs.map some) index).1
      = (firstMatchingSection ws b.strptr q shs index).map
          (fun p => { sectionHeader := some p.2, scn := some p.1, index := p.1 }) := by
  induction shs with
  | nil =>
    intro b index
    rfl
  | cons sh rest ih =>
    intro b index
    simp only [List.map_cons, ElfBinaryReader.scanSections, firstMatchingSection]
    by_cases hc : q.callback ws b.strptr sh = true
    · rw [if_pos hc, if_pos hc]
      rfl
    · rw [if_neg hc, if_neg hc]
      exact ih _ _

theorem getSection_uncached (ws : WordSize) (b : ElfBinaryReader) (q : SectionQuery)
    (shs : List Shdr) (hs : b.sections = shs.map some)
    (hmiss : ∀ sh, b.current.scn.isSome = true → b.current.sectionHeader = some sh →
      q.callback ws b.strptr sh = false) :
    (b.getSection ws q).1
      = (firstMatchingSection ws b.strptr q shs 1).map
          (fun p => { sectionHeader := some p.2, scn := some p.1, index := p.1 }) := by
  unfold ElfBinaryReader.getSection
  rcases h1 : b.current.scn with _ | k <;> rcases h2 : b.current.sectionHeader with _ | sh <;>
    simp only
  · rw [hs]; exact scanSections_first ws q shs b 1
  · rw [hs]; exact scanSections_first ws q shs b 1
  · rw [hs]; exact scanSections_first ws q shs b 1
  · rw [if_neg (by rw [hmiss sh (by rw [h1]; rfl) h2]; exact Bool.false_ne_true), hs]
    exact scanSections_first ws q shs b 1

theorem getSection_repeat (ws : WordSize) (b : ElfBinaryReader) (q : SectionQuery)
    (s : CurrentSectionData) (b2 : ElfBinaryReader) (h : b.getSection ws q = (some s, b2)) :
    b2.getSection ws q = (some s, b2) := by
  have key : b2.current = s ∧ ∃ (k : Nat) (sh : Shdr), s.scn = some k ∧
      s.sectionHeader = some sh ∧ q.callback ws b2.strptr sh = true := by
    unfold ElfBinaryReader.getSection at h
    rcases h1 : b.current.scn with _ | k <;> rcases h2 : b.current.sectionHeader with _ | sh <;>
      simp only [h1, h2] at h
    · obtain ⟨a, e, _, k, sh, c1, c2, c3⟩ := scanSections_hit ws q _ _ _ _ _ h
      exact ⟨a, k, sh, c1, c2, by rw [e]; exact c3⟩
    · obtain ⟨a, e, _, k, sh, c1, c2, c3⟩ := scanSections_hit ws q _ _ _ _ _ h
      exact ⟨a, k, sh, c1, c2, by rw [e]; exact c3⟩
    · obtain ⟨a, e, _, k, sh, c1, c2, c3⟩ := scanSections_hit ws q _ _ _ _ _ h
      exact ⟨a, k, sh, c1, c2, by rw [e]; exact c3⟩
    · by_cases hc : q.callback ws b.strptr sh = true
      · rw [if_pos hc] at h
        simp only [Prod.mk.injEq, Option.some.injEq] at h
        obtain ⟨e1, e2⟩ := h
        subst e2
        subst e1
        exact ⟨rfl, k, sh, h1, h2, hc⟩
      · rw [if_neg hc] at h
        obtain ⟨a, e, _, k2, sh2, c1, c2, c3⟩ := scanSections_hit ws q _ _ _ _ _ h
        exact ⟨a, k2, sh2, c1, c2, by rw [e]; exact c3⟩
  obtain ⟨hcur, k, sh, c1, c2, c3⟩ := key
  unfold ElfBinaryReader.getSection
  rw [hcur, c1, c2]
  simp only
  rw [if_pos c3]

theorem firstMatchingSection_none (ws : WordSize) (strptr : Nat → Option (List Byte))
    (q : SectionQuery) (shs : List Shdr) :
    ∀ index, (∀ sh, sh ∈ shs → q.callback ws strptr sh = false) →
    firstMatchingSection ws strptr q shs index = none := by
  induction shs with
  | nil =>
    intro index _
    rfl
  | cons sh rest ih =>
    intro index h
    unfold firstMatchingSection
    rw [if_neg (by rw [h sh (List.mem_cons_self _ _)]; exact Bool.false_ne_true)]
    exact ih _ (fun x hx => h x (List.mem_cons_of_mem _ hx))

/-- What a lookup returns: on a reader whose section headers can all be read, a lookup by
name, type or address (the query `q`) returns the cached last result, without a
scan and without changing the reader, when that section satisfies the query,
whether or not it is the first to do so.  When there is no cached section or it
does not satisfy the query, the lookup returns the first section that satisfies
it, in the order `elf_nextscn` yields the sections, and `NULL` when no section
does. -/
theorem getSection_lookup (ws : WordSize) (b : ElfBinaryReader) (q : SectionQuery)
    (shs : List Shdr) (hs : b.sections = shs.map some) :
    (∀ (k : Nat) (sh : Shdr), b.current.scn = some k → b.current.sectionHeader = some sh →
      q.callback ws b.strptr sh = true → b.getSection ws q = (some b.current, b)) ∧
    ((∀ sh, b.current.scn.isSome = true → b.current.sectionHeader = some sh →
        q.callback ws b.strptr sh = false) →
      (b.getSection ws q).1
        = (firstMatchingSection ws b.strptr q shs 1).map
            (fun p => { sectionHeader := some p.2, scn := some p.1, index := p.1 }) ∧
      ((∀ sh, sh ∈ shs → q.callback ws b.strptr sh = false) → (b.getSection ws q).1 = none)) := by
  refine ⟨fun k sh h1 h2 h3 => ?_, fun hmiss => ?_⟩
  · unfold ElfBinaryReader.getSection
    rw [h1, h2]
    simp only
    rw [if_pos h3]
  · have e := getSection_uncached ws b q shs hs hmiss
    refine ⟨e, fun hnone => ?_⟩
    rw [e, firstMatchingSection_none ws b.strptr q shs 1 hnone]
    rfl

/-- On the example executable after `getSectionByType(SHT_DYNAMIC)`,
a lookup of the address `0x08049004` is served from the cache, and a lookup of
the name `.text` scans and returns section 2. -/
theorem getSection_lookup_example :
    (exampleBinaryReader.getSectionByType .w32 SHT_DYNAMIC).2.getSection .w32
        (.byAddress 134516740)
      = (some (exampleBinaryReader.getSectionByType .w32 SHT_DYNAMIC).2.current,
         (exampleBinaryReader.getSectionByType .w32 SHT_DYNAMIC).2) ∧
    ((exampleBinaryReader.getSectionByType .w32 SHT_DYNAMIC).2.getSection .w32
        (.byName (asciiBytes ".text"))).1
      = some { sectionHeader := some { sh_name := 9, sh_type := SHT_PROGBITS,
                                       sh_addr := 134513152, sh_size := 256 },
               scn := some 2, index := 2 } :=
  ⟨(getSection_lookup .w32 (exampleBinaryReader.getSectionByType .w32 SHT_DYNAMIC).2
      (.byAddress 134516740) (exampleBinaryReader.sections.filterMap id) rfl).1 3
      { sh_name := 15, sh_type := SHT_DYNAMIC, sh_addr := 134516736, sh_size := 24 }
      rfl rfl (by decide),
   ((getSection_lookup .w32 (exampleBinaryReader.getSectionByType .w32 SHT_DYNAMIC).2
      (.byName (asciiBytes ".text")) (exampleBinaryReader.sections.filterMap id) rfl).2
      (by
        intro sh _ h
        have e : sh = { sh_name := 15, sh_type := SHT_DYNAMIC, sh_addr := 134516736,
                        sh_size := 24 } := (Option.some.inj h).symm
        subst e
        decide)).1.trans (by decide)⟩

/-! ## Program-header lookup of the binary reader -/

theorem getSegmentByTypeLoop_none (b : ElfBinaryReader) (type : Nat)
    (h : ∀ i, (b.programHeaders i).p_type ≠ type) (fuel : Nat) :
    ∀ index, b.getSegmentByTypeLoop type fuel index = none := by
  induction fuel with
  | zero =>
    intro index
    rfl
  | succ fuel ih =>
    intro index
    unfold ElfBinaryReader.getSegmentByTypeLoop
    rw [if_neg (h index)]
    exact ih _

theorem getSegmentByTypeLoop_first (b : ElfBinaryReader) (type j : Nat)
    (hj : (b.programHeaders j).p_type = type) (fuel : Nat) :
    ∀ index, index ≤ j → j < index + fuel →
    (∀ i, index ≤ i → i < j → (b.programHeaders i).p_type ≠ type) →
    b.getSegmentByTypeLoop type fuel index = some j := by
  induction fuel with
  | zero =>
    intro index h1 h2 _
    omega
  | succ fuel ih =>
    intro index h1 h2 h3
    unfold ElfBinaryReader.getSegmentByTypeLoop
    rcases Nat.eq_or_lt_of_le h1 with e | hlt
    · subst e
      rw [if_pos hj]
    · rw [if_neg (h3 index (le_refl _) hlt)]
      exact ih _ (by omega) (by omega) (fun i hi hij => h3 i (by omega) hij)

theorem staticBinaryReader_no_phdr (i : Nat) :
    (staticBinaryReader.programHeaders i).p_type ≠ PT_PHDR := by
  rcases i with _ | _ | i
  · decide
  · decide
  · show zeroPhdr.p_type ≠ PT_PHDR
    decide

/-- C18. `ElfBinaryReader::getSegmentByType` on a statically linked executable with
two program headers, both `PT_LOAD`.  None of the two has type `PT_PHDR`, and
the lookup of `PT_PHDR` reads on past the table: it never returns when the memory
behind the table holds no matching word, returns the header at index 3 when that
memory reads as a `PT_PHDR` header there, and a lookup of `PT_NULL` returns the
zeroed memory at index 2.  On the dynamic example the lookup returns the first
header, the `PT_PHDR` one. -/
theorem C18_getSegmentByType_past_table :
    staticBinaryReader.phnum = some 2 ∧
    ((List.range 2).map (fun i => (staticBinaryReader.programHeaders i).p_type)) = [PT_LOAD, PT_LOAD] ∧
    (∀ fuel, staticBinaryReader.getSegmentByType PT_PHDR fuel = none) ∧
    staticBinaryReaderStale.phnum = some 2 ∧
    staticBinaryReaderStale.getSegmentByType PT_PHDR 8 = some (some 3) ∧
    staticBinaryReader.getSegmentByType PT_NULL 8 = some (some 2) ∧
    exampleBinaryReader.getSegmentByType PT_PHDR 8 = some (some 0) := by
  refine ⟨rfl, by decide, fun fuel => ?_, rfl, by decide, by decide, by decide⟩
  show (staticBinaryReader.getSegmentByTypeLoop PT_PHDR fuel 0).map some = none
  rw [getSegmentByTypeLoop_none staticBinaryReader PT_PHDR staticBinaryReader_no_phdr fuel 0]
  rfl

/-! ## Postconditions of `copyElfHeader` and `copySegment` -/

/-- C19. `copyElfHeader` postcondition: on a writer initialised for `n` segments,
with `n` fitting the 16-bit `e_phnum` and the header area fitting `size_t`, the
ELF header of the buffer equals the source header except that `e_shnum`,
`e_shstrndx` and `e_shoff` are zero, `e_phnum = n` and `e_phoff = sizeof(Ehdr)`;
the `n` program-header slots that follow are all zero; and the write cursor is
`sizeof(Ehdr) + n * sizeof(Phdr)`. -/
theorem C19_copyElfHeader_postcondition (ws : WordSize) (env : Env) (fileName : Option String)
    (n sz : Nat) (src : Ehdr)
    (hinit : (RawElfWriter.new.initalize ws env fileName n sz).1 = true)
    (hn : n < 65536) (hfit : sizeofEhdr ws + n * sizeofPhdr ws < wordMod ws) :
    ((RawElfWriter.new.initalize ws env fileName n sz).2.copyElfHeader ws (some src)).elfHeader
      = { src with e_shnum := 0, e_shstrndx := 0, e_shoff := 0, e_phnum := n,
                   e_phoff := sizeofEhdr ws } ∧
    ((RawElfWriter.new.initalize ws env fileName n sz).2.copyElfHeader ws (some src)).programHeaders
      = List.replicate n zeroPhdr ∧
    ((RawElfWriter.new.initalize ws env fileName n sz).2.copyElfHeader ws (some src)).offset
      = sizeofEhdr ws + n * sizeofPhdr ws ∧
    ((RawElfWriter.new.initalize ws env fileName n sz).2.copyElfHeader ws (some src)).currentProgramHeader
      = 0 := by
  rw [initalize_ok ws env fileName n sz hinit]
  have h1 : (0 + sizeofEhdr ws) % wordMod ws = sizeofEhdr ws :=
    by rw [Nat.zero_add]; exact Nat.mod_eq_of_lt (by omega)
  refine ⟨?_, rfl, ?_, rfl⟩
  · show ({ src with e_shnum := 0, e_shstrndx := 0, e_shoff := 0, e_phnum := n % 65536,
                     e_phoff := sizeofEhdr ws } : Ehdr) = _
    rw [Nat.mod_eq_of_lt hn]
  · show ((0 + sizeofEhdr ws) % wordMod ws + sizeofPhdr ws * n) % wordMod ws = _
    rw [h1, Nat.mul_comm, Nat.mod_eq_of_lt hfit]

/-- Witness of C19: a 32-bit writer initialised for three segments. -/
theorem C19_copyElfHeader_postcondition_witness :
    ((RawElfWriter.new.initalize .w32 exampleEnv (some "core.reduced") 3 600).2.copyElfHeader .w32
        (some exampleStaticCore.elfFileHeader)).elfHeader
      = { exampleStaticCore.elfFileHeader with
            e_shnum := 0, e_shstrndx := 0, e_shoff := 0, e_phnum := 3,
            e_phoff := sizeofEhdr .w32 } ∧
    ((RawElfWriter.new.initalize .w32 exampleEnv (some "core.reduced") 3 600).2.copyElfHeader .w32
        (some exampleStaticCore.elfFileHeader)).programHeaders = List.replicate 3 zeroPhdr ∧
    ((RawElfWriter.new.initalize .w32 exampleEnv (some "core.reduced") 3 600).2.copyElfHeader .w32
        (some exampleStaticCore.elfFileHeader)).offset = sizeofEhdr .w32 + 3 * sizeofPhdr .w32 ∧
    ((RawElfWriter.new.initalize .w32 exampleEnv (some "core.reduced") 3 600).2.copyElfHeader .w32
        (some exampleStaticCore.elfFileHeader)).currentProgramHeader = 0 :=
  C19_copyElfHeader_postcondition .w32 exampleEnv (some "core.reduced") 3 600
    exampleStaticCore.elfFileHeader (by decide) (by decide) (by decide)

theorem copySegment_fst (ws : WordSize) (w : RawElfWriter) (h : Phdr) (d : List Byte)
    (o : Option (List Byte)) (oo os : Nat) (hslot : w.currentProgramHeader < w.numProgramHeaders) :
    (w.copySegment ws (some h) (some d) o oo os).1 = some w.offset := by
  unfold RawElfWriter.copySegment
  have : ¬ w.currentProgramHeader ≥ w.numProgramHeaders := by omega
  simp only [this, if_false]
  split_ifs <;> rfl

/-- C20. `copySegment` postcondition: on a writer with `n` header slots of which
`k < n` are used and with the cursor `c`, when `c + ph.p_filesz` does not wrap,
`copySegment(ph, data)` without overwrite succeeds and returns the place the
data was written at; slot `k` of the table equals `ph` except `p_offset = c`;
the bytes `[c, c + ph.p_filesz)` of the buffer are the first `ph.p_filesz` bytes
of `data`; the cursor becomes `c + ph.p_filesz` and the count of used slots
`k + 1`; the ELF header, every other slot and every byte of the buffer outside
`[c, c + ph.p_filesz)` are unchanged. -/
theorem C20_copySegment_postcondition (ws : WordSize) (w : RawElfWriter) (ph : Phdr)
    (data : List Byte) (oo os : Nat)
    (hslot : w.currentProgramHeader < w.numProgramHeaders)
    (hlen : w.programHeaders.length = w.numProgramHeaders)
    (hfit : w.offset + ph.p_filesz < wordMod ws) :
    (w.copySegment ws (some ph) (some data) none oo os).1 = some w.offset ∧
    (w.copySegment ws (some ph) (some data) none oo os).2.programHeaders[w.currentProgramHeader]?
      = some { ph with p_offset := w.offset } ∧
    (∀ i, i < ph.p_filesz →
      (w.copySegment ws (some ph) (some data) none oo os).2.buffer (w.offset + i)
        = data.getD i 0) ∧
    (w.copySegment ws (some ph) (some data) none oo os).2.offset = w.offset + ph.p_filesz ∧
    (w.copySegment ws (some ph) (some data) none oo os).2.currentProgramHeader
      = w.currentProgramHeader + 1 ∧
    (w.copySegment ws (some ph) (some data) none oo os).2.elfHeader = w.elfHeader ∧
    (∀ i, i ≠ w.currentProgramHeader →
      (w.copySegment ws (some ph) (some data) none oo os).2.programHeaders[i]?
        = w.programHeaders[i]?) ∧
    (∀ i, i < w.offset ∨ w.offset + ph.p_filesz ≤ i →
      (w.copySegment ws (some ph) (some data) none oo os).2.buffer i = w.buffer i) := by
  rw [copySegment_eq ws w ph data none oo os hslot]
  refine ⟨copySegment_fst ws w ph data none oo os hslot, ?_, ?_, Nat.mod_eq_of_lt hfit, rfl, rfl,
    ?_, ?_⟩
  · show (w.programHeaders.set w.currentProgramHeader { ph with p_offset := w.offset })[
      w.currentProgramHeader]? = _
    rw [List.getElem?_set_self (by omega)]
  · intro i hi
    show memcpy w.buffer w.offset data ph.p_filesz (w.offset + i) = _
    rw [memcpy_of_mem _ _ _ _ _ (by omega) (by omega), Nat.add_sub_cancel_left]
  · intro i hi
    show (w.programHeaders.set w.currentProgramHeader { ph with p_offset := w.offset })[i]? = _
    rw [List.getElem?_set_ne (Ne.symm hi)]
  · intro i hi
    show memcpy w.buffer w.offset data ph.p_filesz i = _
    rcases hi with hi | hi
    · exact memcpy_of_lt _ _ _ _ _ hi
    · exact memcpy_of_ge _ _ _ _ _ hi

set_option maxRecDepth 16384 in
/-- Witness of C20: the first segment copied by the example session, four bytes
at the cursor 116 of a writer of two slots. -/
theorem C20_copySegment_postcondition_witness :
    (((RawElfWriter.new.initalize .w32 exampleEnv (some "core.reduced") 2 6).2.copyElfHeader .w32
        (some zeroEhdr)).copySegment .w32 (some (exampleLoad 3217028096 4)) (some [1, 2, 3, 4])
        none 0 0).1 = some 116 ∧
    (((RawElfWriter.new.initalize .w32 exampleEnv (some "core.reduced") 2 6).2.copyElfHeader .w32
        (some zeroEhdr)).copySegment .w32 (some (exampleLoad 3217028096 4)) (some [1, 2, 3, 4])
        none 0 0).2.programHeaders[0]? = some { exampleLoad 3217028096 4 with p_offset := 116 } ∧
    (((RawElfWriter.new.initalize .w32 exampleEnv (some "core.reduced") 2 6).2.copyElfHeader .w32
        (some zeroEhdr)).copySegment .w32 (some (exampleLoad 3217028096 4)) (some [1, 2, 3, 4])
        none 0 0).2.buffer (116 + 2) = 3 ∧
    (((RawElfWriter.new.initalize .w32 exampleEnv (some "core.reduced") 2 6).2.copyElfHeader .w32
        (some zeroEhdr)).copySegment .w32 (some (exampleLoad 3217028096 4)) (some [1, 2, 3, 4])
        none 0 0).2.offset = 116 + 4 :=
  ⟨(C20_copySegment_postcondition .w32
      ((RawElfWriter.new.initalize .w32 exampleEnv (some "core.reduced") 2 6).2.copyElfHeader .w32
        (some zeroEhdr)) (exampleLoad 3217028096 4) [1, 2, 3, 4] 0 0
      (by decide) (by decide) (by decide)).1,
   (C20_copySegment_postcondition .w32
      ((RawElfWriter.new.initalize .w32 exampleEnv (some "core.reduced") 2 6).2.copyElfHeader .w32
        (some zeroEhdr)) (exampleLoad 3217028096 4) [1, 2, 3, 4] 0 0
      (by decide) (by decide) (by decide)).2.1,
   (C20_copySegment_postcondition .w32
      ((RawElfWriter.new.initalize .w32 exampleEnv (some "core.reduced") 2 6).2.copyElfHeader .w32
        (some zeroEhdr)) (exampleLoad 3217028096 4) [1, 2, 3, 4] 0 0
      (by decide) (by decide) (by decide)).2.2.1 2 (by decide),
   (C20_copySegment_postcondition .w32
      ((RawElfWriter.new.initalize .w32 exampleEnv (some "core.reduced") 2 6).2.copyElfHeader .w32
        (some zeroEhdr)) (exampleLoad 3217028096 4) [1, 2, 3, 4] 0 0
      (by decide) (by decide) (by decide)).2.2.2.1⟩

/-! ## Runs on an executable without `.dynamic` -/

theorem getNotesLoop_dynamicAddress (ws : WordSize) (lay : NoteLayout) (file : List Byte)
    (endPos : Nat) (fuel : Nat) : ∀ (current : Nat) (r : Reducer),
    (Reducer.getNotesLoop ws lay file endPos fuel current r).dynamicAddressFromExecutable
      = r.dynamicAddressFromExecutable := by
  induction fuel with
  | zero =>
    intro current r
    rfl
  | succ fuel ih =>
    intro current r
    unfold Reducer.getNotesLoop
    by_cases hc : current < endPos
    · simp only [hc, if_true]
      by_cases h1 : readU32 file (current + 8) = NT_PRSTATUS
      · simp only [h1, if_true]
        exact ih _ _
      · simp only [h1, if_false]
        by_cases h2 : readU32 file (current + 8) = NT_PRPSINFO
        · simp only [h2, if_true]
          exact ih _ _
        · simp only [h2, if_false]
          by_cases h3 : readU32 file (current + 8) = NT_AUXV
          · simp only [h3, if_true]
            rcases Reducer.auxvScan ws file (file.length + 1)
                (current + sizeofNhdr + align_power ws (readU32 file current) 2) with _ | v
            · exact ih _ _
            · exact ih _ _
          · simp only [h3, if_false]
            exact ih _ _
    · simp [hc]

theorem initalize_no_dynamic (ws : WordSize) (lay : NoteLayout) (c : ElfCoreReader)
    (b : BinaryFacts) (output : Option String) (heap : Nat) (r : Reducer)
    (h : Reducer.initalize ws lay (some c) (some b) output heap = some (true, some r))
    (hb : b.dynamicSection = none) : r.dynamicAddressFromExecutable = 0 := by
  unfold Reducer.initalize at h
  simp only at h
  rcases hn : Reducer.getNotes ws lay (Reducer.new c output heap) with ⟨ok, r0⟩
  rw [hn] at h
  cases ok with
  | false => simp at h
  | true =>
    simp only at h
    rcases hp : b.ptPhdr with _ | phdr
    · rw [hp] at h
      simp at h
    · rw [hp, hb] at h
      simp only [Option.some.injEq, Prod.mk.injEq, true_and] at h
      subst h
      unfold Reducer.getNotes at hn
      rcases hseg : (Reducer.new c output heap).coreReader.getSegmentByType PT_NOTE with _ | ns
      · rw [hseg] at hn
        simp at hn
      · rw [hseg] at hn
        simp only at hn
        split_ifs at hn
        · simp at hn
        simp only [Prod.mk.injEq, true_and] at hn
        rw [← hn, getNotesLoop_dynamicAddress]
        rfl

theorem getStacks_fold_dynamicAddress (ws : WordSize) (sps : List Nat) : ∀ r : Reducer,
    (sps.foldl (Reducer.getStacksStep ws) r).dynamicAddressFromExecutable
      = r.dynamicAddressFromExecutable := by
  induction sps with
  | nil =>
    intro r
    rfl
  | cons sp rest ih =>
    intro r
    rw [List.foldl_cons, ih]
    unfold Reducer.getStacksStep
    rcases r.coreReader.getSegmentByAddress ws sp with _ | seg <;> rfl

theorem beforeDynamic_dynamicAddress (ws : WordSize) (env : Env) (ifaceHeap : Nat) (r : Reducer)
    (stacksOnly : Bool) :
    (((r.checkHeapAddress ifaceHeap).getStacks ws).copyInitalSegmentsToOutput ws env
        stacksOnly).dynamicAddressFromExecutable = r.dynamicAddressFromExecutable := by
  have h1 : (r.checkHeapAddress ifaceHeap).dynamicAddressFromExecutable
      = r.dynamicAddressFromExecutable := by
    unfold Reducer.checkHeapAddress
    split_ifs <;> rfl
  have h2 : ((r.checkHeapAddress ifaceHeap).getStacks ws).dynamicAddressFromExecutable
      = r.dynamicAddressFromExecutable := by
    unfold Reducer.getStacks
    rw [getStacks_fold_dynamicAddress, h1]
  rw [← h2]
  unfold Reducer.copyInitalSegmentsToOutput
  simp only
  split <;> rfl

theorem copyDynamicSectionInformation_skip (ws : WordSize) (fuel : Nat) (r : Reducer)
    (mapsFile : Option MapsFile) (hdyn : r.dynamicAddressFromExecutable = 0)
    (hscan : ∀ S, r.coreReader.getSegmentByAddress ws 0 = some S →
      Reducer.findDtDebug ws r.coreReader.file (r.coreReader.file.length + 1) S.p_offset 0 = none)
    (hmaps : r.coreReader.getSegmentByAddress ws 0 = none → mapsFile = none) :
    Reducer.copyDynamicSectionInformation ws fuel r mapsFile = some r := by
  unfold Reducer.copyDynamicSectionInformation
  rw [hdyn]
  rcases hseg : r.coreReader.getSegmentByAddress ws 0 with _ | S
  · rw [hmaps hseg]
  · obtain ⟨i, _, _, hv, _⟩ := getSegmentByAddress_some ws r.coreReader 0 S hseg
    have hv0 : S.p_vaddr = 0 := by omega
    have hd : (0 + wordMod ws - S.p_vaddr) % wordMod ws = 0 := by
      rw [hv0, Nat.zero_add, Nat.sub_zero, Nat.mod_self]
    simp only [hd, Nat.add_zero]
    rw [hscan S hseg]

theorem copySegment_copiedFrom (ws : WordSize) (wanted : List Phdr) (w : RawElfWriter) (h : Phdr)
    (d : Option (List Byte)) (hh : h ∈ wanted) (hc : CopiedFrom wanted w.programHeaders) :
    CopiedFrom wanted (w.copySegment ws (some h) d none 0 0).2.programHeaders := by
  rcases d with _ | d
  · exact hc
  · by_cases hslot : w.currentProgramHeader < w.numProgramHeaders
    · rw [copySegment_eq ws w h d none 0 0 hslot]
      intro ph hph
      rcases List.mem_or_eq_of_mem_set hph with hold | hnew
      · exact hc ph hold
      · right
        refine ⟨h, hh, ?_⟩
        rw [hnew]
    · rw [copySegment_full ws w (some h) (some d) none 0 0 (by omega)]
      exact hc

theorem copySegments_fold_copiedFrom (ws : WordSize) (wanted : List Phdr)
    (data : Phdr → Option (List Byte)) (hs : List Phdr) :
    ∀ w : RawElfWriter, (∀ h, h ∈ hs → h ∈ wanted) → CopiedFrom wanted w.programHeaders →
    CopiedFrom wanted
      (hs.foldl (fun w ph => (w.copySegment ws (some ph) (data ph) none 0 0).2) w).programHeaders := by
  induction hs with
  | nil => exact fun w _ h => h
  | cons ph rest ih =>
    intro w hsub h
    rw [List.foldl_cons]
    exact ih _ (fun x hx => hsub x (List.mem_cons_of_mem _ hx))
      (copySegment_copiedFrom ws wanted w ph (data ph) (hsub ph (List.mem_cons_self _ _)) h)

theorem copyInitalSegmentsToOutput_table (ws : WordSize) (env : Env) (r : Reducer)
    (stacksOnly : Bool) (name : String) (hout : r.output = some name)
    (hfd : 0 ≤ env.openFd) (hm : env.mallocOk = true) :
    ∃ w, (r.copyInitalSegmentsToOutput ws env stacksOnly).coreWriter = some w ∧
      HeaderSlots (reservedHeaders r.wantedHeaders.length stacksOnly) w ∧
      CopiedFrom r.wantedHeaders w.programHeaders ∧
      w.currentProgramHeader ≤ r.wantedHeaders.length := by
  unfold Reducer.copyInitalSegmentsToOutput
  simp only [hout]
  generalize hsz : intToSize ws (r.wantedHeaders.foldl
    (fun acc ph => wrapInt32 (acc + (ph.p_filesz : Int))) 0) = sz
  have hok := writer_initalize_succeeds ws env name
    (r.wantedHeaders.length + (if !stacksOnly then 2 else 0)) sz hfd hm
  have hs := headerSlots_init ws env (some name)
    (r.wantedHeaders.length + (if !stacksOnly then 2 else 0)) sz r.coreReader.elfFileHeader hok
  have hz : CopiedFrom r.wantedHeaders
      ((RawElfWriter.new.initalize ws env (some name)
        (r.wantedHeaders.length + (if !stacksOnly then 2 else 0)) sz).2.copyElfHeader ws
          (some r.coreReader.elfFileHeader)).programHeaders := by
    rw [initalize_ok ws env _ _ sz hok]
    intro ph hph
    left
    exact List.eq_of_mem_replicate hph
  have hcur : ((RawElfWriter.new.initalize ws env (some name)
        (r.wantedHeaders.length + (if !stacksOnly then 2 else 0)) sz).2.copyElfHeader ws
          (some r.coreReader.elfFileHeader)).currentProgramHeader = 0 := by
    rw [initalize_ok ws env _ _ sz hok]
    rfl
  rcases hi : RawElfWriter.new.initalize ws env (some name)
    (r.wantedHeaders.length + (if !stacksOnly then 2 else 0)) sz with ⟨ok, w0⟩
  rw [hi] at hok hs hz hcur
  simp only at hok
  subst hok
  simp only
  refine ⟨_, rfl, ?_, ?_, ?_⟩
  · exact copySegments_fold_preserves ws _ (headerSlots_applyOp ws _)
      (fun ph => r.coreReader.getDataByOffset ph.p_offset) r.wantedHeaders _ hs
  · exact copySegments_fold_copiedFrom ws r.wantedHeaders
      (fun ph => r.coreReader.getDataByOffset ph.p_offset) r.wantedHeaders _ (fun _ h => h) hz
  · have key : ∀ (hs : List Phdr) (w : RawElfWriter),
        (hs.foldl (fun w ph => (w.copySegment ws (some ph)
          (r.coreReader.getDataByOffset ph.p_offset) none 0 0).2) w).currentProgramHeader
          ≤ w.currentProgramHeader + hs.length := by
      intro hs
      induction hs with
      | nil =>
        intro w
        exact Nat.le_refl _
      | cons ph rest ih =>
        intro w
        rw [List.foldl_cons]
        refine le_trans (ih _) ?_
        have step : (w.copySegment ws (some ph) (r.coreReader.getDataByOffset ph.p_offset)
            none 0 0).2.currentProgramHeader ≤ w.currentProgramHeader + 1 := by
          rcases r.coreReader.getDataByOffset ph.p_offset with _ | d
          · exact Nat.le_succ _
          · by_cases hslot : w.currentProgramHeader < w.numProgramHeaders
            · rw [copySegment_eq ws w ph d none 0 0 hslot]
            · rw [copySegment_full ws w (some ph) (some d) none 0 0 (by omega)]
              exact Nat.le_succ _
        rw [List.length_cons]
        omega
    have := key r.wantedHeaders (w0.copyElfHeader ws (some r.coreReader.elfFileHeader))
    rw [hcur] at this
    omega

theorem initalize_getNotes (ws : WordSize) (lay : NoteLayout) (c : ElfCoreReader)
    (binary : Option BinaryFacts) (output : Option String) (heap : Nat) (r : Reducer)
    (h : Reducer.initalize ws lay (some c) binary output heap = some (true, some r)) :
    ∃ r0, Reducer.getNotes ws lay (Reducer.new c output heap) = (true, r0) ∧
      r.wantedHeaders = r0.wantedHeaders := by
  unfold Reducer.initalize at h
  simp only at h
  rcases hn : Reducer.getNotes ws lay (Reducer.new c output heap) with ⟨ok, r0⟩
  rw [hn] at h
  cases ok with
  | false => simp at h
  | true =>
    refine ⟨r0, rfl, ?_⟩
    simp only at h
    rcases binary with _ | b
    · simp at h
    · simp only at h
      rcases hp : b.ptPhdr with _ | phdr
      · rw [hp] at h
        simp at h
      · rw [hp] at h
        simp only at h
        rcases hd : b.dynamicSection with _ | ⟨sh_addr, sh_size⟩
        · rw [hd] at h
          simp only [Option.some.injEq, Prod.mk.injEq, true_and] at h
          rw [← h]
        · rw [hd] at h
          simp only at h
          rcases hi : b.interpSection with _ | ⟨interpAddr, data⟩
          · rw [hi] at h
            simp only [Option.some.injEq, Prod.mk.injEq, true_and] at h
            rw [← h]
          · rw [hi] at h
            simp only [Option.some.injEq, Prod.mk.injEq, true_and] at h
            rw [← h]

theorem getNotes_wanted (ws : WordSize) (lay : NoteLayout) (c : ElfCoreReader)
    (output : Option String) (heap : Nat) (r : Reducer)
    (h : Reducer.getNotes ws lay (Reducer.new c output heap) = (true, r)) :
    ∃ ns, c.getSegmentByType PT_NOTE = some ns ∧ r.wantedHeaders = [ns] := by
  unfold Reducer.getNotes at h
  have hc : (Reducer.new c output heap).coreReader = c := rfl
  rcases hseg : c.getSegmentByType PT_NOTE with _ | noteSegment
  · rw [hc, hseg] at h
    simp at h
  · rw [hc, hseg] at h
    simp only at h
    split_ifs at h
    · simp at h
    simp only [Prod.mk.injEq, true_and] at h
    refine ⟨noteSegment, rfl, ?_⟩
    rw [← h, (getNotesLoop_facts ws lay c.file _ _ _ _).2.2.2.1]
    rfl

theorem getStacks_fold_mem (ws : WordSize) (sps : List Nat) : ∀ (r : Reducer) (h : Phdr),
    h ∈ (sps.foldl (Reducer.getStacksStep ws) r).wantedHeaders →
    h ∈ r.wantedHeaders ∨ ∃ sp S, sp ∈ sps ∧ r.coreReader.getSegmentByAddress ws sp = some S ∧
      h = Reducer.narrowedStackHeader ws sp S := by
  induction sps with
  | nil =>
    intro r h hh
    exact Or.inl hh
  | cons sp rest ih =>
    intro r h hh
    rw [List.foldl_cons] at hh
    have hcr : (Reducer.getStacksStep ws r sp).coreReader = r.coreReader :=
      (getStacksStep_facts ws r sp).1
    rcases ih _ h hh with h1 | ⟨sp2, S, m, e1, e2⟩
    · unfold Reducer.getStacksStep at h1
      rcases hseg : r.coreReader.getSegmentByAddress ws sp with _ | seg
      · rw [hseg] at h1
        exact Or.inl h1
      · rw [hseg] at h1
        simp only [List.mem_append, List.mem_singleton] at h1
        rcases h1 with h1 | h1
        · exact Or.inl h1
        · exact Or.inr ⟨sp, seg, List.mem_cons_self _ _, hseg, h1⟩
    · rw [hcr] at e1
      exact Or.inr ⟨sp2, S, List.mem_cons_of_mem _ m, e1, e2⟩

theorem wanted_noteOrStack (ws : WordSize) (lay : NoteLayout) (c : ElfCoreReader)
    (binary : Option BinaryFacts) (output : Option String) (heap ifaceHeap : Nat) (r : Reducer)
    (hinit : Reducer.initalize ws lay (some c) binary output heap = some (true, some r))
    (h : Phdr) (hh : h ∈ ((r.checkHeapAddress ifaceHeap).getStacks ws).wantedHeaders) :
    NoteOrStack ws lay c h := by
  obtain ⟨hc, _, _, _, hsp⟩ := initalize_facts ws lay c binary output heap r hinit
  obtain ⟨r0, hn, hw⟩ := initalize_getNotes ws lay c binary output heap r hinit
  obtain ⟨ns, hns, hw0⟩ := getNotes_wanted ws lay c output heap r0 hn
  obtain ⟨a1, _, _, d1, e1⟩ := checkHeapAddress_facts r ifaceHeap
  unfold Reducer.getStacks at hh
  rcases getStacks_fold_mem ws _ _ h hh with h1 | ⟨sp, S, m, s1, s2⟩
  · rw [d1, hw, hw0, List.mem_singleton] at h1
    left
    rw [h1]
    exact hns
  · right
    rw [e1, hsp] at m
    rw [a1, hc] at s1
    exact ⟨sp, S, m, s1, s2⟩

theorem write_currentProgramHeader (env : Env) (w : RawElfWriter) :
    (w.write env).2.1.currentProgramHeader = w.currentProgramHeader := by
  unfold RawElfWriter.write RawElfWriter.sortBuffer
  split_ifs <;> rfl

theorem run_skip_dynamic (ws : WordSize) (env : Env) (ifaceHeap fuel : Nat) (r : Reducer)
    (mapsFile : Option MapsFile) (name : String)
    (hout : r.output = some name) (hfd : 0 ≤ env.openFd) (hm : env.mallocOk = true)
    (hwr : env.writeOk = true) (hdyn : r.dynamicAddressFromExecutable = 0)
    (hscan : ∀ S, r.coreReader.getSegmentByAddress ws 0 = some S →
      Reducer.findDtDebug ws r.coreReader.file (r.coreReader.file.length + 1) S.p_offset 0 = none)
    (hmaps : r.coreReader.getSegmentByAddress ws 0 = none → mapsFile = none) :
    ∃ (r2 : Reducer) (out : ElfFile) (w : RawElfWriter),
      Reducer.run ws env ifaceHeap fuel r false mapsFile = some (r2, some out) ∧
      r2.coreWriter = some w ∧
      CopiedFrom ((r.checkHeapAddress ifaceHeap).getStacks ws).wantedHeaders out.programHeaders ∧
      w.currentProgramHeader ≤ ((r.checkHeapAddress ifaceHeap).getStacks ws).wantedHeaders.length ∧
      out.programHeaders.length
        = ((r.checkHeapAddress ifaceHeap).getStacks ws).wantedHeaders.length + 2 := by
  obtain ⟨a1, _, c1, _, _⟩ := checkHeapAddress_facts r ifaceHeap
  obtain ⟨a2, _, c2, _⟩ := getStacks_fold_facts ws
    (r.checkHeapAddress ifaceHeap).stackPointerAddresses (r.checkHeapAddress ifaceHeap)
  have ho : ((r.checkHeapAddress ifaceHeap).getStacks ws).output = some name := by
    unfold Reducer.getStacks
    rw [c2, c1, hout]
  have hcr : ((r.checkHeapAddress ifaceHeap).getStacks ws).coreReader = r.coreReader := by
    unfold Reducer.getStacks
    rw [a2, a1]
  obtain ⟨a3, _⟩ := copyInitalSegmentsToOutput_facts ws env
    ((r.checkHeapAddress ifaceHeap).getStacks ws) false name ho hfd hm
  obtain ⟨w3, hw3, hs3, hc3, hk3⟩ := copyInitalSegmentsToOutput_table ws env
    ((r.checkHeapAddress ifaceHeap).getStacks ws) false name ho hfd hm
  have hskip := copyDynamicSectionInformation_skip ws fuel
    (((r.checkHeapAddress ifaceHeap).getStacks ws).copyInitalSegmentsToOutput ws env false)
    mapsFile (by rw [beforeDynamic_dynamicAddress, hdyn])
    (by rw [a3, hcr]; exact hscan) (by rw [a3, hcr]; exact hmaps)
  have hwrite := write_tableReady env _ w3 hs3.1 hwr
  refine ⟨{ ((r.checkHeapAddress ifaceHeap).getStacks ws).copyInitalSegmentsToOutput ws env false
              with coreWriter := some (w3.write env).2.1 },
    { elfHeader := w3.elfHeader, programHeaders := qsort w3.programHeaders,
      bytes := w3.buffer, size := w3.offset }, (w3.write env).2.1, ?_, rfl, ?_, ?_, ?_⟩
  · unfold Reducer.run
    simp only [Bool.not_false, if_true, hskip, hw3, hwrite]
  · intro ph hph
    exact hc3 ph ((qsort_perm w3.programHeaders).mem_iff.mp hph)
  · rw [write_currentProgramHeader]
    exact hk3
  · show (qsort w3.programHeaders).length = _
    rw [(qsort_perm w3.programHeaders).length_eq, hs3.1.2.2.2.1]
    rfl

/-- The run for an executable without `.dynamic` section and a core that
`initalize` accepts: `dynamicAddressFromExecutable` stays 0 and a default-mode
run looks address 0 up in the core.  When the lookup finds no segment and no
maps file is given, or finds a segment in which the scan for `DT_DEBUG` meets
none before `DT_NULL`, the run copies no dynamic segment and writes no link-map
segment: it stores a file whose table holds, besides two zeroed slots, only
copies of the `PT_NOTE` header and of the narrowed stack headers, and no
`copySegment` call succeeds beyond those. -/
theorem run_no_dynamic_section (ws : WordSize) (lay : NoteLayout) (core : ElfCoreReader)
    (b : BinaryFacts) (name : String) (heap : Nat) (env : Env) (ifaceHeap fuel : Nat)
    (mapsFile : Option MapsFile) (r : Reducer)
    (hinit : Reducer.initalize ws lay (some core) (some b) (some name) heap = some (true, some r))
    (hb : b.dynamicSection = none)
    (hfd : 0 ≤ env.openFd) (hm : env.mallocOk = true) (hwr : env.writeOk = true)
    (hscan : ∀ S, core.getSegmentByAddress ws 0 = some S →
      Reducer.findDtDebug ws core.file (core.file.length + 1) S.p_offset 0 = none)
    (hmaps : core.getSegmentByAddress ws 0 = none → mapsFile = none) :
    ∃ (r2 : Reducer) (out : ElfFile) (w : RawElfWriter),
      Reducer.run ws env ifaceHeap fuel r false mapsFile = some (r2, some out) ∧
      r2.coreWriter = some w ∧
      (∀ ph, ph ∈ out.programHeaders →
        ph = zeroPhdr ∨ ∃ h, NoteOrStack ws lay core h ∧ ph = { h with p_offset := ph.p_offset }) ∧
      out.programHeaders.length
        = 1 + (locatedStackPointers ws core (corePrstatusStackPointers ws lay core)).length + 2 ∧
      w.currentProgramHeader
        ≤ 1 + (locatedStackPointers ws core (corePrstatusStackPointers ws lay core)).length := by
  obtain ⟨hc, _, ho, hwl, hsp⟩ := initalize_facts ws lay core (some b) (some name) heap r hinit
  have hdyn := initalize_no_dynamic ws lay core b (some name) heap r hinit hb
  obtain ⟨r2, out, w, h1, h2, h3, h4, h5⟩ := run_skip_dynamic ws env ifaceHeap fuel r mapsFile
    name ho hfd hm hwr hdyn (by rw [hc]; exact hscan) (by rw [hc]; exact hmaps)
  obtain ⟨a1, _, _, d1, e1⟩ := checkHeapAddress_facts r ifaceHeap
  obtain ⟨_, _, _, d2⟩ := getStacks_fold_facts ws
    (r.checkHeapAddress ifaceHeap).stackPointerAddresses (r.checkHeapAddress ifaceHeap)
  have hlen : ((r.checkHeapAddress ifaceHeap).getStacks ws).wantedHeaders.length
      = 1 + (locatedStackPointers ws core (corePrstatusStackPointers ws lay core)).length := by
    unfold Reducer.getStacks
    rw [d2, d1, a1, e1, hwl, hc, hsp]
  refine ⟨r2, out, w, h1, h2, ?_, by rw [h5, hlen], by rw [← hlen]; exact h4⟩
  intro ph hph
  rcases h3 ph hph with hz | ⟨h, hh, e⟩
  · exact Or.inl hz
  · exact Or.inr ⟨h, wanted_noteOrStack ws lay core (some b) (some name) heap ifaceHeap r hinit h hh, e⟩

set_option maxRecDepth 16384 in
/-- Counterexample to C11 as stated: a 32-bit core of a statically linked
executable whose table lists the `PT_NOTE` header last, so that the lookup of
address 0 finds no segment, reduced in default mode with a maps file of two
shared objects.  `initalize` accepts the pair with `dynamicAddressFromExecutable`
left at 0, and the run synthesises a dynamic segment (the empty `PT_LOAD` at
address 0) and writes a 97-byte link-map segment at `heapVA = 4`. -/
theorem C11_maps_file_counterexample :
    (Reducer.initalize .w32 i386Layout (some noteLastCore) (some exampleStaticBinary)
        (some "core.reduced") 0).map (fun res => res.1) = some true ∧
    exampleStaticBinary.dynamicSection = none ∧
    (exampleReducer noteLastCore exampleStaticBinary).dynamicAddressFromExecutable = 0 ∧
    (Reducer.run .w32 exampleEnv 0 16 (exampleReducer noteLastCore exampleStaticBinary) false
        (some exampleSharedObjects)).map
      (fun res => res.2.map (fun out =>
        out.programHeaders.map (fun ph => (ph.p_type, ph.p_vaddr, ph.p_filesz, ph.p_flags))))
      = some (some [(PT_NOTE, 0, 344, 0), (PT_LOAD, 0, 0, PF_R), (PT_LOAD, 4, 97, PF_R ||| PF_W),
                    (PT_LOAD, 3213750304, 224, PF_R ||| PF_W)]) :=
  ⟨by decide, rfl, by decide, by decide⟩

/-! ## Failure and frame of writer calls -/

theorem copySegment_full_fst (ws : WordSize) (w : RawElfWriter) (h : Option Phdr)
    (d o : Option (List Byte)) (oo os : Nat)
    (hslot : w.numProgramHeaders ≤ w.currentProgramHeader) :
    (w.copySegment ws h d o oo os).1 = none := by
  unfold RawElfWriter.copySegment
  rcases h with _ | h <;> rcases d with _ | d <;> simp [hslot]

/-- C21. `copySegment` fails atomically when all slots are used: on a writer whose
count of used program-header slots has reached `numProgramHeaders`, whatever
the arguments, `copySegment` returns `NULL` and leaves the writer as it was:
buffer contents, write cursor, buffer capacity, table and count of used
slots. -/
theorem C21_copySegment_full_table (ws : WordSize) (w : RawElfWriter) (h : Option Phdr)
    (d o : Option (List Byte)) (oo os : Nat)
    (hfull : w.currentProgramHeader = w.numProgramHeaders) :
    (w.copySegment ws h d o oo os).1 = none ∧
    (w.copySegment ws h d o oo os).2 = w ∧
    (w.copySegment ws h d o oo os).2.buffer = w.buffer ∧
    (w.copySegment ws h d o oo os).2.offset = w.offset ∧
    (w.copySegment ws h d o oo os).2.currentBufferSize = w.currentBufferSize ∧
    (w.copySegment ws h d o oo os).2.currentProgramHeader = w.currentProgramHeader := by
  have e := copySegment_full ws w h d o oo os (by omega)
  refine ⟨copySegment_full_fst ws w h d o oo os (by omega), e, ?_, ?_, ?_, ?_⟩ <;> rw [e]

set_option maxRecDepth 16384 in
/-- Witness of C21: a third segment offered to a writer of two slots, both used. -/
theorem C21_copySegment_full_table_witness :
    ((applyOps .w32 ((RawElfWriter.new.initalize .w32 exampleEnv (some "core.reduced") 2 6).2.copyElfHeader
        .w32 (some zeroEhdr)) (exampleOps.take 2)).copySegment .w32
        (some (exampleLoad 4096 2)) (some [9, 9]) none 0 0).1 = none ∧
    ((applyOps .w32 ((RawElfWriter.new.initalize .w32 exampleEnv (some "core.reduced") 2 6).2.copyElfHeader
        .w32 (some zeroEhdr)) (exampleOps.take 2)).copySegment .w32
        (some (exampleLoad 4096 2)) (some [9, 9]) none 0 0).2.offset = 122 :=
  ⟨(C21_copySegment_full_table .w32 _ (some (exampleLoad 4096 2)) (some [9, 9]) none 0 0
      (by decide)).1,
   ((C21_copySegment_full_table .w32 _ (some (exampleLoad 4096 2)) (some [9, 9]) none 0 0
      (by decide)).2.2.2.1).trans (by decide)⟩

/-- C22. Sorting moves headers only: `sortBuffer` leaves the buffer that holds the
segment data, the ELF header, the write cursor and the buffer capacity as they
were, and the table after sorting is a permutation of the table before it: the
same headers, each with its own `p_offset`, `p_filesz` and other fields, so each
still refers to the bytes written for it. -/
theorem C22_sortBuffer_moves_headers_only (w : RawElfWriter) :
    w.sortBuffer.buffer = w.buffer ∧
    w.sortBuffer.elfHeader = w.elfHeader ∧
    w.sortBuffer.offset = w.offset ∧
    w.sortBuffer.currentBufferSize = w.currentBufferSize ∧
    w.sortBuffer.programHeaders.Perm w.programHeaders ∧
    (∀ ph, ph ∈ w.sortBuffer.programHeaders ↔ ph ∈ w.programHeaders) ∧
    (∀ ph, ph ∈ w.sortBuffer.programHeaders →
      bufferBytes w.sortBuffer.buffer ph.p_offset ph.p_filesz
        = bufferBytes w.buffer ph.p_offset ph.p_filesz) := by
  have hperm : w.sortBuffer.programHeaders.Perm w.programHeaders := by
    unfold RawElfWriter.sortBuffer
    split_ifs
    · exact List.Perm.refl _
    · show (qsort (w.programHeaders.take w.numProgramHeaders)
        ++ w.programHeaders.drop w.numProgramHeaders).Perm w.programHeaders
      have h1 := (qsort_perm (w.programHeaders.take w.numProgramHeaders)).append_right
        (w.programHeaders.drop w.numProgramHeaders)
      rw [List.take_append_drop] at h1
      exact h1
  have hbuf : w.sortBuffer.buffer = w.buffer := by
    unfold RawElfWriter.sortBuffer
    split_ifs <;> rfl
  refine ⟨hbuf, ?_, ?_, ?_, hperm, fun ph => hperm.mem_iff, fun ph _ => by rw [hbuf]⟩ <;>
    (unfold RawElfWriter.sortBuffer; split_ifs <;> rfl)

/-! ## The forged `r_debug` record -/

theorem readWord_replicate_zero (ws : WordSize) :
    readWord ws (List.replicate (R_DEBUG_STRUCT_SIZE ws) 0) (sizeofADDRESS ws) = 0 := by
  cases ws <;> rfl

/-- C23. Forged `r_debug`: after `startLinkMapSegment(h)` on a free slot, when
neither the cursor nor `h + sizeof(r_debug)` wraps, `addR_DebugStruct` appends
exactly `sizeof(r_debug)` bytes (20 on a 32-bit build, 40 on a 64-bit one) at
the cursor: they equal the input record except that the `ADDRESS` at byte offset
`sizeof(ADDRESS)`, the `link_map` pointer, holds `h + sizeof(r_debug)`; no other
byte of the buffer changes; and the call returns the `link_map` pointer of the
input record, which is 0 for the zero-filled record of `createR_DebugStruct`. -/
theorem C23_forged_r_debug (ws : WordSize) (w : RawElfWriter) (h : Nat) (rd : List Byte)
    (slot : Phdr) (hslot : w.programHeaders[w.currentProgramHeader]? = some slot)
    (hfit : w.offset + R_DEBUG_STRUCT_SIZE ws < wordMod ws)
    (hva : h + R_DEBUG_STRUCT_SIZE ws < wordMod ws) :
    ((w.startLinkMapSegment h).addR_DebugStruct ws (some rd)).1
      = readWord ws rd (sizeofADDRESS ws) ∧
    ((w.startLinkMapSegment h).createR_DebugStruct ws).1 = 0 ∧
    ((w.startLinkMapSegment h).addR_DebugStruct ws (some rd)).2.offset
      = w.offset + R_DEBUG_STRUCT_SIZE ws ∧
    (R_DEBUG_STRUCT_SIZE .w32 = 20 ∧ R_DEBUG_STRUCT_SIZE .w64 = 40) ∧
    bufferWord ws ((w.startLinkMapSegment h).addR_DebugStruct ws (some rd)).2.buffer
      (w.offset + sizeofADDRESS ws) = h + R_DEBUG_STRUCT_SIZE ws ∧
    (∀ i, i < R_DEBUG_STRUCT_SIZE ws → (i < sizeofADDRESS ws ∨ 2 * sizeofADDRESS ws ≤ i) →
      ((w.startLinkMapSegment h).addR_DebugStruct ws (some rd)).2.buffer (w.offset + i)
        = rd.getD i 0) ∧
    (∀ j, j < w.offset ∨ w.offset + R_DEBUG_STRUCT_SIZE ws ≤ j →
      ((w.startLinkMapSegment h).addR_DebugStruct ws (some rd)).2.buffer j = w.buffer j) := by
  obtain ⟨s1, _, _, _, _, _, _, s8⟩ := startLinkMap_addR_Debug ws w h rd slot hslot hfit hva
  have hR : 2 * sizeofADDRESS ws ≤ R_DEBUG_STRUCT_SIZE ws := by
    cases ws <;> decide
  have ho : (w.startLinkMapSegment h).offset = w.offset := rfl
  have hb : (w.startLinkMapSegment h).buffer = w.buffer := rfl
  refine ⟨rfl, readWord_replicate_zero ws, s1, ⟨rfl, rfl⟩, s8, ?_, ?_⟩
  · intro i hi hout
    rw [addR_DebugStruct_eq]
    simp only [ho, hb]
    rcases hout with hlt | hge
    · rw [memcpy_of_lt _ _ _ _ _ (by omega), memcpy_of_mem _ _ _ _ _ (by omega) (by omega),
        Nat.add_sub_cancel_left]
    · rw [memcpy_of_ge _ _ _ _ _ (by omega), memcpy_of_mem _ _ _ _ _ (by omega) (by omega),
        Nat.add_sub_cancel_left]
  · intro j hj
    rw [addR_DebugStruct_eq]
    simp only [ho, hb]
    rcases hj with hlt | hge
    · rw [memcpy_of_lt _ _ _ _ _ (by omega), memcpy_of_lt _ _ _ _ _ hlt]
    · rw [memcpy_of_ge _ _ _ _ _ (by omega), memcpy_of_ge _ _ _ _ _ hge]

set_option maxRecDepth 16384 in
/-- Witness of C23: the `r_debug` record of the example core, copied into the free
slot of the example writer with `h = 4`. -/
theorem C23_forged_r_debug_witness :
    (((exampleLinkMapWriter 134516780).startLinkMapSegment 4).addR_DebugStruct .w32
        (some ((exampleDynamicCore 134516780).file.drop 516))).1 = 134516780 ∧
    bufferWord .w32 (((exampleLinkMapWriter 134516780).startLinkMapSegment 4).addR_DebugStruct
        .w32 (some ((exampleDynamicCore 134516780).file.drop 516))).2.buffer
      ((exampleLinkMapWriter 134516780).offset + sizeofADDRESS .w32) = 4 + R_DEBUG_STRUCT_SIZE .w32 :=
  ⟨((C23_forged_r_debug .w32 (exampleLinkMapWriter 134516780) 4
      ((exampleDynamicCore 134516780).file.drop 516) zeroPhdr (by decide) (by decide)
      (by decide)).1).trans (by decide),
   (C23_forged_r_debug .w32 (exampleLinkMapWriter 134516780) 4
      ((exampleDynamicCore 134516780).file.drop 516) zeroPhdr (by decide) (by decide)
      (by decide)).2.2.2.2.1⟩

/-! ## The synthetic dynamic segment -/

theorem wrapInt32_of_lt (n : Nat) (h : n < 2147483648) : wrapInt32 (n : Int) = (n : Int) := by
  unfold wrapInt32 toInt32
  have e : ((n : Int) % 4294967296).toNat = n := by omega
  rw [e]
  have e2 : n % 4294967296 = n := by omega
  rw [e2, if_pos h]

theorem generateDynamicSectionInformation_eq (ws : WordSize) (r : Reducer) (w : RawElfWriter)
    (hint : r.dynamicSectionSizeFromExecutable / sizeofDyn ws < 2147483648) :
    Reducer.generateDynamicSectionInformation ws r w
      = some (w.copySegment ws (some (syntheticDynHeader r))
          (some (Reducer.syntheticDynEntries ws r.heapAddress
            (r.dynamicSectionSizeFromExecutable / sizeofDyn ws - 1))) none 0 0).2 := by
  unfold Reducer.generateDynamicSectionInformation
  simp only
  rw [wrapInt32_of_lt _ hint]
  generalize r.dynamicSectionSizeFromExecutable / sizeofDyn ws = k
  rw [if_neg (by omega)]
  have e : ((k : Int) - 1).toNat = k - 1 := by omega
  rw [e]
  rfl

theorem sizeofDyn_eq (ws : WordSize) : sizeofDyn ws = sizeofSWord ws + sizeofADDRESS ws := by
  cases ws <;> rfl

theorem syntheticDynEntries_length (ws : WordSize) (heap count : Nat) :
    (Reducer.syntheticDynEntries ws heap count).length = count * sizeofDyn ws := by
  induction count with
  | zero => simp [Reducer.syntheticDynEntries]
  | succ n ih =>
    simp only [Reducer.syntheticDynEntries, List.length_append, List.length_replicate, encodeLE_length,
      ih, sizeofDyn_eq]
    rw [Nat.succ_mul]
    omega

theorem syntheticDynEntries_getD (ws : WordSize) (heap count : Nat) :
    ∀ j i, j < count → i < sizeofDyn ws →
    (Reducer.syntheticDynEntries ws heap count).getD (j * sizeofDyn ws + i) 0
      = if i < sizeofSWord ws then 0
        else (encodeLE (sizeofADDRESS ws) heap).getD (i - sizeofSWord ws) 0 := by
  induction count with
  | zero =>
    intro j i hj _
    omega
  | succ n ih =>
    intro j i hj hi
    have hd := sizeofDyn_eq ws
    unfold Reducer.syntheticDynEntries
    rw [List.getD_eq_getElem?_getD, List.append_assoc]
    rcases j with _ | j
    · rw [Nat.zero_mul, Nat.zero_add]
      by_cases h1 : i < sizeofSWord ws
      · rw [if_pos h1, List.getElem?_append_left (by rw [List.length_replicate]; exact h1)]
        simp [List.getElem?_replicate, h1]
      · rw [if_neg h1, List.getElem?_append_right (by rw [List.length_replicate]; omega),
          List.length_replicate,
          List.getElem?_append_left (by rw [encodeLE_length]; omega),
          List.getD_eq_getElem?_getD]
    · rw [List.getElem?_append_right (by rw [List.length_replicate, Nat.succ_mul]; omega),
        List.length_replicate,
        List.getElem?_append_right (by rw [encodeLE_length, Nat.succ_mul]; omega), encodeLE_length]
      have e : (j + 1) * sizeofDyn ws + i - sizeofSWord ws - sizeofADDRESS ws
          = j * sizeofDyn ws + i := by
        rw [Nat.succ_mul]
        omega
      rw [e, ← List.getD_eq_getElem?_getD]
      exact ih j i (by omega) hi

theorem generateDynamicSectionInformation_spec (ws : WordSize) (r : Reducer) (w : RawElfWriter)
    (hint : r.dynamicSectionSizeFromExecutable / sizeofDyn ws < 2147483648)
    (hslot : w.currentProgramHeader < w.numProgramHeaders)
    (hlen : w.programHeaders.length = w.numProgramHeaders)
    (hfit : w.offset + r.dynamicSectionSizeFromExecutable < wordMod ws) :
    ∃ w2, Reducer.generateDynamicSectionInformation ws r w = some w2 ∧
      w2.programHeaders[w.currentProgramHeader]?
        = some { syntheticDynHeader r with p_offset := w.offset } ∧
      w2.offset = w.offset + r.dynamicSectionSizeFromExecutable ∧
      w2.currentProgramHeader = w.currentProgramHeader + 1 ∧
      (w2.programHeadersSet = w.programHeadersSet ∧
        w2.previousLinkAddress = w.previousLinkAddress ∧
        w2.currentLinkMapSize = w.currentLinkMapSize) ∧
      (∀ i, i ≠ w.currentProgramHeader → w2.programHeaders[i]? = w.programHeaders[i]?) ∧
      (∀ i, i < w.offset ∨ w.offset + r.dynamicSectionSizeFromExecutable ≤ i →
        w2.buffer i = w.buffer i) ∧
      (∀ j i, j + 1 < r.dynamicSectionSizeFromExecutable / sizeofDyn ws → i < sizeofDyn ws →
        w2.buffer (w.offset + (j * sizeofDyn ws + i))
          = if i < sizeofSWord ws then 0
            else (encodeLE (sizeofADDRESS ws) r.heapAddress).getD (i - sizeofSWord ws) 0) ∧
      (∀ i, (r.dynamicSectionSizeFromExecutable / sizeofDyn ws - 1) * sizeofDyn ws ≤ i →
        i < r.dynamicSectionSizeFromExecutable → w2.buffer (w.offset + i) = 0) := by
  refine ⟨_, generateDynamicSectionInformation_eq ws r w hint, ?_⟩
  have hsd : (syntheticDynHeader r).p_filesz = r.dynamicSectionSizeFromExecutable := rfl
  rw [copySegment_eq ws w _ _ none 0 0 hslot]
  have hdiv : r.dynamicSectionSizeFromExecutable / sizeofDyn ws * sizeofDyn ws
      ≤ r.dynamicSectionSizeFromExecutable := Nat.div_mul_le_self _ _
  refine ⟨?_, ?_, rfl, ⟨rfl, rfl, rfl⟩, ?_, ?_, ?_, ?_⟩
  · show (w.programHeaders.set w.currentProgramHeader _)[w.currentProgramHeader]? = _
    rw [List.getElem?_set_self (by omega)]
  · show (w.offset + (syntheticDynHeader r).p_filesz) % wordMod ws = _
    rw [hsd, Nat.mod_eq_of_lt hfit]
  · intro i hi
    show (w.programHeaders.set w.currentProgramHeader _)[i]? = _
    rw [List.getElem?_set_ne (Ne.symm hi)]
  · intro i hi
    show memcpy w.buffer w.offset _ (syntheticDynHeader r).p_filesz i = _
    rw [hsd]
    rcases hi with hi | hi
    · exact memcpy_of_lt _ _ _ _ _ hi
    · exact memcpy_of_ge _ _ _ _ _ hi
  · intro j i hj hi
    show memcpy w.buffer w.offset _ (syntheticDynHeader r).p_filesz _ = _
    have hb : (j + 1) * sizeofDyn ws
        ≤ (r.dynamicSectionSizeFromExecutable / sizeofDyn ws - 1) * sizeofDyn ws :=
      Nat.mul_le_mul_right _ (by omega)
    have hm : (r.dynamicSectionSizeFromExecutable / sizeofDyn ws - 1) * sizeofDyn ws
        ≤ r.dynamicSectionSizeFromExecutable / sizeofDyn ws * sizeofDyn ws :=
      Nat.mul_le_mul_right _ (by omega)
    rw [Nat.succ_mul] at hb
    rw [hsd, memcpy_of_mem _ _ _ _ _ (by omega) (by omega), Nat.add_sub_cancel_left]
    exact syntheticDynEntries_getD ws r.heapAddress _ j i (by omega) hi
  · intro i hlo hhi
    show memcpy w.buffer w.offset _ (syntheticDynHeader r).p_filesz _ = _
    rw [hsd, memcpy_of_mem _ _ _ _ _ (by omega) (by omega), Nat.add_sub_cancel_left,
      List.getD_eq_getElem?_getD,
      List.getElem?_eq_none (by rw [syntheticDynEntries_length]; exact hlo)]
    rfl

set_option maxRecDepth 16384 in
/-- C24. `generateDynamicSectionInformation` for an executable whose `.dynamic`
section has 12 bytes, on a 32-bit build where `sizeof(Elf_Dyn)` is 8: the array
`dyn` is allocated with `12 / 8 = 1` entry, 8 bytes, while `memset` writes 12
bytes to it and `copySegment` reads 12 bytes from it, 4 bytes past its end.  The
header emitted has `p_filesz = p_memsz = 12`. -/
theorem C24_dyn_array_overrun :
    oddDynamicReducer.dynamicSectionSizeFromExecutable = 12 ∧
    sizeofDyn .w32 = 8 ∧
    oddDynamicReducer.dynArrayBytes .w32 = 8 ∧
    oddDynamicReducer.dynBytesAccessed = 12 ∧
    (oddDynamicReducer.coreWriter.bind
        (fun w => Reducer.generateDynamicSectionInformation .w32 oddDynamicReducer w)).map
      (fun w => ((w.programHeaders[2]?).map
        (fun ph => (ph.p_type, ph.p_vaddr, ph.p_filesz, ph.p_memsz, ph.p_flags, ph.p_align)),
        w.offset))
      = some (some (PT_LOAD, 134516736, 12, 12, PF_R, 1), 760) :=
  ⟨by decide, by decide, by decide, by decide, rfl⟩

/-! ## The synthesised link map -/

theorem startLinkMap_addR_Debug_bytes (ws : WordSize) (w : RawElfWriter) (heap : Nat)
    (rd : List Byte) (i : Nat) (hi : i < R_DEBUG_STRUCT_SIZE ws)
    (hout : i < sizeofADDRESS ws ∨ 2 * sizeofADDRESS ws ≤ i) :
    ((w.startLinkMapSegment heap).addR_DebugStruct ws (some rd)).2.buffer (w.offset + i)
      = rd.getD i 0 := by
  have ho : (w.startLinkMapSegment heap).offset = w.offset := rfl
  have hb : (w.startLinkMapSegment heap).buffer = w.buffer := rfl
  rw [addR_DebugStruct_eq]
  simp only [ho, hb]
  rcases hout with hlt | hge
  · rw [memcpy_of_lt _ _ _ _ _ (by omega), memcpy_of_mem _ _ _ _ _ (by omega) (by omega),
      Nat.add_sub_cancel_left]
  · rw [memcpy_of_ge _ _ _ _ _ (by omega), memcpy_of_mem _ _ _ _ _ (by omega) (by omega),
      Nat.add_sub_cancel_left]

theorem sharedObjectItems_getElem? (soList : List SharedObject) :
    ∀ (i : Nat) (so : SharedObject), soList[i]? = some so →
    (sharedObjectItems soList)[i]?
      = some ({ addressOffset := so.addr, nameOffset := 0, ldOffset := 0,
                nextLinkMapStruct := if i + 1 < soList.length then 1 else 0,
                previousLinkMapStruct := 1 }, some so.name) := by
  induction soList with
  | nil => intro i so h; simp at h
  | cons head rest ih =>
    intro i so h
    rcases i with _ | i
    · simp only [List.getElem?_cons_zero, Option.some.injEq] at h
      subst h
      cases rest <;> simp [sharedObjectItems]
    · simp only [List.getElem?_cons_succ] at h
      simp only [sharedObjectItems, List.getElem?_cons_succ, List.length_cons]
      rw [ih i so h]
      simp

theorem cstring_of_no_nul (s : List Byte) (h : ∀ b ∈ s, b ≠ 0) : cstring s = s := by
  unfold cstring
  rw [List.takeWhile_eq_self_iff]
  intro b hb
  simpa using h b hb

theorem syntheticItems_getElem?_succ (soList : List SharedObject) (i : Nat) (so : SharedObject)
    (h : soList[i]? = some so) :
    (syntheticItems soList)[i + 1]?
      = some ({ addressOffset := so.addr, nameOffset := 0, ldOffset := 0,
                nextLinkMapStruct := if i + 1 < soList.length then 1 else 0,
                previousLinkMapStruct := 1 }, some so.name) := by
  unfold syntheticItems
  rw [List.getElem?_cons_succ]
  exact sharedObjectItems_getElem? soList i so h

/-- C25. Synthesised link map: for a maps file that lists at least one shared
object, on a writer with a free slot, when neither the cursor nor the segment's
addresses wrap, `createLinkMapInOutputFile` returns and the segment it writes,
of `sizeof(r_debug)` bytes plus the sizes of `m + 1` records, holds at its start
the forged `r_debug` (zero apart from the `link_map` pointer
`heapVA + sizeof(r_debug)`), then the head record with `addr`, `ld` and `prev`
zero, an empty name and a non-zero `next`, then for the `i`-th shared object a
record whose `addr` is `addr_i`, whose `ld` is zero and whose name is the C
string `path_i`, with `next` zero in the last record and in no other. -/
theorem C25_synthesised_link_map (ws : WordSize) (r : Reducer) (w : RawElfWriter) (slot : Phdr)
    (start : Nat) (soList : List SharedObject)
    (hw : r.coreWriter = some w) (hset : w.programHeadersSet = true)
    (hslot : w.programHeaders[w.currentProgramHeader]? = some slot)
    (hfresh : w.previousLinkAddress = 0 ∧ w.currentLinkMapSize = 0)
    (hstart : start ≠ 0) (hne : soList ≠ [])
    (haddr : ∀ so ∈ soList, so.addr < wordMod ws)
    (hfit : w.offset + R_DEBUG_STRUCT_SIZE ws + recordsSize ws (syntheticItems soList)
      < wordMod ws)
    (hva : r.heapAddress + R_DEBUG_STRUCT_SIZE ws + recordsSize ws (syntheticItems soList)
      < wordMod ws) :
    ∃ w2 : RawElfWriter,
      Reducer.createLinkMapInOutputFile ws r start (some soList)
        = some { r with coreWriter := some w2 } ∧
      w2.programHeaders[w.currentProgramHeader]?
        = some (linkMapHeader slot r.heapAddress w.offset
            (R_DEBUG_STRUCT_SIZE ws + recordsSize ws (syntheticItems soList))) ∧
      (syntheticItems soList).length = soList.length + 1 ∧
      bufferWord ws w2.buffer (w.offset + sizeofADDRESS ws)
        = r.heapAddress + R_DEBUG_STRUCT_SIZE ws ∧
      (∀ i, i < R_DEBUG_STRUCT_SIZE ws → (i < sizeofADDRESS ws ∨ 2 * sizeofADDRESS ws ≤ i) →
        w2.buffer (w.offset + i) = 0) ∧
      bufferLinkMap ws w2.buffer (w.offset + R_DEBUG_STRUCT_SIZE ws)
        = { addressOffset := 0
            nameOffset := r.heapAddress + R_DEBUG_STRUCT_SIZE ws + sizeofLinkMap ws
            ldOffset := 0
            nextLinkMapStruct := r.heapAddress + R_DEBUG_STRUCT_SIZE ws + (sizeofLinkMap ws + 1)
            previousLinkMapStruct := 0 } ∧
      w2.buffer (w.offset + R_DEBUG_STRUCT_SIZE ws + sizeofLinkMap ws) = 0 ∧
      ∀ (i : Nat) (so : SharedObject), soList[i]? = some so →
        (bufferLinkMap ws w2.buffer (w.offset + R_DEBUG_STRUCT_SIZE ws
            + recordsSize ws ((syntheticItems soList).take (i + 1)))).addressOffset = so.addr ∧
        (bufferLinkMap ws w2.buffer (w.offset + R_DEBUG_STRUCT_SIZE ws
            + recordsSize ws ((syntheticItems soList).take (i + 1)))).ldOffset = 0 ∧
        (bufferLinkMap ws w2.buffer (w.offset + R_DEBUG_STRUCT_SIZE ws
            + recordsSize ws ((syntheticItems soList).take (i + 1)))).nameOffset
          = r.heapAddress + R_DEBUG_STRUCT_SIZE ws
              + recordsSize ws ((syntheticItems soList).take (i + 1)) + sizeofLinkMap ws ∧
        bufferBytes w2.buffer (w.offset + R_DEBUG_STRUCT_SIZE ws
            + recordsSize ws ((syntheticItems soList).take (i + 1)) + sizeofLinkMap ws)
            (strlen so.name + 1) = cstring so.name ++ [0] ∧
        ((∀ b ∈ so.name, b ≠ 0) → cstring so.name = so.name) ∧
        (bufferLinkMap ws w2.buffer (w.offset + R_DEBUG_STRUCT_SIZE ws
            + recordsSize ws ((syntheticItems soList).take (i + 1)))).previousLinkMapStruct
          = r.heapAddress + R_DEBUG_STRUCT_SIZE ws
              + recordsSize ws ((syntheticItems soList).take i) ∧
        (bufferLinkMap ws w2.buffer (w.offset + R_DEBUG_STRUCT_SIZE ws
            + recordsSize ws ((syntheticItems soList).take (i + 1)))).nextLinkMapStruct
          = (if i + 1 < soList.length then
              r.heapAddress + R_DEBUG_STRUCT_SIZE ws
                + recordsSize ws ((syntheticItems soList).take (i + 2))
             else 0) ∧
        ((bufferLinkMap ws w2.buffer (w.offset + R_DEBUG_STRUCT_SIZE ws
            + recordsSize ws ((syntheticItems soList).take (i + 1)))).nextLinkMapStruct = 0
          ↔ i + 1 = soList.length) := by
  refine ⟨_, createLinkMapInOutputFile_eq ws r w start soList hw hset hstart hne, ?_⟩
  have hlen : w.currentProgramHeader < w.programHeaders.length := by
    rcases Nat.lt_or_ge w.currentProgramHeader w.programHeaders.length with h | h
    · exact h
    · rw [List.getElem?_eq_none h] at hslot; cases hslot
  obtain ⟨b1, _, _, b4, _, b6⟩ := buildLinkMapSegment_spec ws w r.heapAddress
    (List.replicate (R_DEBUG_STRUCT_SIZE ws) 0) (syntheticItems soList) slot hslot hfresh.2
    hfit hva
  obtain ⟨s1, _, _, _, _, _, _, _⟩ := startLinkMap_addR_Debug ws w r.heapAddress
    (List.replicate (R_DEBUG_STRUCT_SIZE ws) 0) slot hslot (by omega) (by omega)
  obtain ⟨_, _, _, _, _, f6⟩ := addLinkMapSegments_frame ws (syntheticItems soList)
    ((w.startLinkMapSegment r.heapAddress).addR_DebugStruct ws
      (some (List.replicate (R_DEBUG_STRUCT_SIZE ws) 0))).2 (by rw [s1]; omega)
    (by
      obtain ⟨_, s2, s3, _⟩ := startLinkMap_addR_Debug ws w r.heapAddress
        (List.replicate (R_DEBUG_STRUCT_SIZE ws) 0) slot hslot (by omega) (by omega)
      rw [s2, s3, hfresh.2]; omega)
  have hhead := buildLinkMapSegment_record ws w r.heapAddress
    (List.replicate (R_DEBUG_STRUCT_SIZE ws) 0) (syntheticItems soList) slot 0
    ({ addressOffset := 0, nameOffset := 0, ldOffset := 0, nextLinkMapStruct := 1,
       previousLinkMapStruct := 0 }, none) hslot hfresh hfit hva
    (by unfold syntheticItems; exact List.getElem?_cons_zero)
  have htake1 : recordsSize ws ((syntheticItems soList).take 1) = sizeofLinkMap ws + 1 := by
    simp [syntheticItems, recordsSize, recordSize, strlen, cstring]
  refine ⟨by rw [b1, List.getElem?_set_self hlen], by simp [syntheticItems,
    sharedObjectItems_length], b6, ?_, ?_, ?_, ?_⟩
  · intro i hi hout
    rw [b4, f6 _ (by rw [s1]; omega), startLinkMap_addR_Debug_bytes ws w _ _ i hi hout]
    simp [List.getD_eq_getElem?_getD, List.getElem?_replicate, hi]
  · have h := hhead.1
    rw [htake1] at h
    simp only [List.take_zero, recordsSize_nil, Nat.add_zero, Nat.zero_mod] at h
    rw [h]
    simp
  · have h := hhead.2
    simp only [List.take_zero, recordsSize_nil, Nat.add_zero, Option.getD_none] at h
    have h0 := congrArg (fun l => l.getD 0 1) h
    simp only [bufferBytes, strlen, cstring] at h0
    simpa using h0
  · intro i so hso
    have hrec := buildLinkMapSegment_record ws w r.heapAddress
      (List.replicate (R_DEBUG_STRUCT_SIZE ws) 0) (syntheticItems soList) slot (i + 1) _
      hslot hfresh hfit hva (syntheticItems_getElem?_succ soList i so hso)
    have hmem : so ∈ soList := List.mem_iff_getElem?.2 ⟨i, hso⟩
    have hi : i < soList.length := by
      rcases Nat.lt_or_ge i soList.length with h | h
      · exact h
      · rw [List.getElem?_eq_none h] at hso; cases hso
    rw [hrec.1]
    simp only [Nat.mod_eq_of_lt (haddr so hmem), Nat.zero_mod, Nat.add_sub_cancel]
    refine ⟨trivial, trivial, trivial, hrec.2, cstring_of_no_nul so.name, ?_, ?_, ?_⟩
    · simp
    · by_cases h : i + 1 < soList.length
      · simp [h]
      · simp [h]
    · have hR := R_DEBUG_STRUCT_SIZE_ge ws
      have hA : 0 < sizeofADDRESS ws := by cases ws <;> decide
      by_cases h : i + 1 < soList.length
      · simp only [h, if_true, ne_eq, one_ne_zero, not_false_eq_true]
        constructor
        · intro h0; omega
        · intro h0; omega
      · simp only [h, if_false, ne_eq, not_true_eq_false]
        constructor
        · intro _; omega
        · intro _; trivial

set_option maxRecDepth 16384 in
/-- Witness of C25: the maps file of `libc.so` and `libm.so` on the example
writer.  The record of `libc.so` follows the 21-byte head record, the record of
`libm.so` is the last one. -/
theorem C25_synthesised_link_map_witness :
    ∃ w2 : RawElfWriter,
      Reducer.createLinkMapInOutputFile .w32 (exampleDynamicReducer 134516780) 134516760
          (some exampleSharedObjects)
        = some { exampleDynamicReducer 134516780 with coreWriter := some w2 } ∧
      (bufferLinkMap .w32 w2.buffer ((exampleLinkMapWriter 134516780).offset
          + R_DEBUG_STRUCT_SIZE .w32 + 21)).addressOffset = 1073741824 ∧
      bufferBytes w2.buffer ((exampleLinkMapWriter 134516780).offset
          + R_DEBUG_STRUCT_SIZE .w32 + 21 + sizeofLinkMap .w32) 8
        = [108, 105, 98, 99, 46, 115, 111, 0] ∧
      (bufferLinkMap .w32 w2.buffer ((exampleLinkMapWriter 134516780).offset
          + R_DEBUG_STRUCT_SIZE .w32 + 49)).addressOffset = 1075838976 ∧
      (bufferLinkMap .w32 w2.buffer ((exampleLinkMapWriter 134516780).offset
          + R_DEBUG_STRUCT_SIZE .w32 + 49)).nextLinkMapStruct = 0 := by
  obtain ⟨w2, h1, _, _, _, _, _, _, h8⟩ := C25_synthesised_link_map .w32
    (exampleDynamicReducer 134516780) (exampleLinkMapWriter 134516780) zeroPhdr 134516760
    exampleSharedObjects rfl (by decide) (by decide) (by decide) (by decide)
    (List.cons_ne_nil _ _) (by decide) (by decide) (by decide)
  have r0 := h8 0 _ rfl
  have r1 := h8 1 _ rfl
  exact ⟨w2, h1, r0.1, r0.2.2.2.1, r1.1, r1.2.2.2.2.2.2.2.mpr rfl⟩

/-! ## A maps file and the dynamic segment -/

/-- A maps file with the dynamic segment missing from the core:
when the lookup of the executable's dynamic address finds no segment of the core
and the maps file lists at least one shared object, on a writer with two free
slots and without wrap, `copyDynamicSectionInformation` returns, the first slot
holds the synthetic dynamic segment (every entry but the last with
`d_un = heapVA`, the last one zero), the second holds the link-map segment
synthesised from the maps file, and a walk from the forged `link_map` pointer
visits the head record and one record per shared object. -/
theorem copyDynamicSectionInformation_synthesis (ws : WordSize) (fuel : Nat) (r : Reducer)
    (w : RawElfWriter) (slot : Phdr) (soList : List SharedObject)
    (hw : r.coreWriter = some w) (hset : w.programHeadersSet = true)
    (hmiss : r.coreReader.getSegmentByAddress ws r.dynamicAddressFromExecutable = none)
    (hne : soList ≠ []) (hheap : r.heapAddress ≠ 0) (hword : r.heapAddress < wordMod ws)
    (hint : r.dynamicSectionSizeFromExecutable / sizeofDyn ws < 2147483648)
    (hfree : w.currentProgramHeader + 1 < w.numProgramHeaders)
    (hlen : w.programHeaders.length = w.numProgramHeaders)
    (hslot : w.programHeaders[w.currentProgramHeader + 1]? = some slot)
    (hfresh : w.previousLinkAddress = 0 ∧ w.currentLinkMapSize = 0)
    (hfit : w.offset + r.dynamicSectionSizeFromExecutable + R_DEBUG_STRUCT_SIZE ws
      + recordsSize ws (syntheticItems soList) < wordMod ws)
    (hva : r.heapAddress + R_DEBUG_STRUCT_SIZE ws + recordsSize ws (syntheticItems soList)
      < wordMod ws) :
    ∃ w2 : RawElfWriter,
      Reducer.copyDynamicSectionInformation ws fuel r (some soList)
        = some { r with coreWriter := some w2 } ∧
      w2.programHeaders[w.currentProgramHeader]?
        = some { syntheticDynHeader r with p_offset := w.offset } ∧
      w2.programHeaders[w.currentProgramHeader + 1]?
        = some (linkMapHeader slot r.heapAddress
            (w.offset + r.dynamicSectionSizeFromExecutable)
            (R_DEBUG_STRUCT_SIZE ws + recordsSize ws (syntheticItems soList))) ∧
      (∀ j, j + 1 < r.dynamicSectionSizeFromExecutable / sizeofDyn ws →
        bufferWord ws w2.buffer (w.offset + j * sizeofDyn ws + sizeofSWord ws)
          = r.heapAddress) ∧
      (∀ i, (r.dynamicSectionSizeFromExecutable / sizeofDyn ws - 1) * sizeofDyn ws ≤ i →
        i < r.dynamicSectionSizeFromExecutable → w2.buffer (w.offset + i) = 0) ∧
      bufferWord ws w2.buffer
          (w.offset + r.dynamicSectionSizeFromExecutable + sizeofADDRESS ws)
        = r.heapAddress + R_DEBUG_STRUCT_SIZE ws ∧
      walkLinkMap ws w2.buffer
          (linkMapHeader slot r.heapAddress (w.offset + r.dynamicSectionSizeFromExecutable)
            (R_DEBUG_STRUCT_SIZE ws + recordsSize ws (syntheticItems soList)))
          (soList.length + 1) (r.heapAddress + R_DEBUG_STRUCT_SIZE ws)
        = some (recordBases ws (r.heapAddress + R_DEBUG_STRUCT_SIZE ws)
            (syntheticItems soList)) := by
  obtain ⟨w1, hgen, g1, g2, g3, ⟨g4, g5, g6⟩, g7, _, g9, g10⟩ :=
    generateDynamicSectionInformation_spec ws r w hint (by omega) hlen (by omega)
  have hslot1 : w1.programHeaders[w1.currentProgramHeader]? = some slot := by
    rw [g3, g7 _ (by omega), hslot]
  have hfresh1 : w1.previousLinkAddress = 0 ∧ w1.currentLinkMapSize = 0 := by
    rw [g5, g6]; exact hfresh
  have hfit1 : w1.offset + R_DEBUG_STRUCT_SIZE ws + recordsSize ws (syntheticItems soList)
      < wordMod ws := by rw [g2]; exact hfit
  have hrun : Reducer.copyDynamicSectionInformation ws fuel r (some soList)
      = some { r with coreWriter := some (buildLinkMapSegment ws w1 r.heapAddress
          (List.replicate (R_DEBUG_STRUCT_SIZE ws) 0) (syntheticItems soList)) } := by
    unfold Reducer.copyDynamicSectionInformation
    simp only [hmiss, hw, hgen]
    exact createLinkMapInOutputFile_eq ws { r with coreWriter := some w1 } w1 r.heapAddress
      soList rfl (by rw [g4]; exact hset) hheap hne
  obtain ⟨b1, _, _, _, b5, b6⟩ := buildLinkMapSegment_spec ws w1 r.heapAddress
    (List.replicate (R_DEBUG_STRUCT_SIZE ws) 0) (syntheticItems soList) slot hslot1 hfresh1.2
    hfit1 hva
  obtain ⟨seg, k1, _, _, _, k5⟩ := buildLinkMapSegment_walk ws w1 r.heapAddress
    (List.replicate (R_DEBUG_STRUCT_SIZE ws) 0) (syntheticItems soList) slot 0 hslot1 hfresh1
    hfit1 hva (syntheticItems_chainShaped soList hne) (List.cons_ne_nil _ _)
  have hlen1 : w1.currentProgramHeader < w1.programHeaders.length := by
    rcases Nat.lt_or_ge w1.currentProgramHeader w1.programHeaders.length with h | h
    · exact h
    · rw [List.getElem?_eq_none h] at hslot1; cases hslot1
  have hseg : seg = linkMapHeader slot r.heapAddress
      (w.offset + r.dynamicSectionSizeFromExecutable)
      (R_DEBUG_STRUCT_SIZE ws + recordsSize ws (syntheticItems soList)) := by
    rw [b1, List.getElem?_set_self hlen1, g2] at k1
    exact (Option.some.inj k1).symm
  have hdiv : r.dynamicSectionSizeFromExecutable / sizeofDyn ws * sizeofDyn ws
      ≤ r.dynamicSectionSizeFromExecutable := Nat.div_mul_le_self _ _
  have hd := sizeofDyn_eq ws
  refine ⟨_, hrun, ?_, ?_, ?_, ?_, ?_, ?_⟩
  · rw [b1, List.getElem?_set_ne (by omega), g1]
  · rw [b1, g3, List.getElem?_set_self (by rw [g3] at hlen1; exact hlen1), g2]
  · intro j hj
    have hb : (j + 1) * sizeofDyn ws
        ≤ r.dynamicSectionSizeFromExecutable / sizeofDyn ws * sizeofDyn ws :=
      Nat.mul_le_mul_right _ (by omega)
    rw [Nat.succ_mul] at hb
    rw [bufferWord_of_encodeLE ws _ _ r.heapAddress, Nat.mod_eq_of_lt hword]
    intro i hi
    rw [b5 _ (by rw [g2]; omega)]
    have := g9 j (sizeofSWord ws + i) hj (by omega)
    rw [if_neg (by omega), Nat.add_sub_cancel_left] at this
    rw [← this]
    congr 1
    omega
  · intro i hlo hhi
    rw [b5 _ (by rw [g2]; omega)]
    exact g10 i hlo hhi
  · rw [← g2]; exact b6
  · rw [← hseg]
    have e : (syntheticItems soList).length + 0 = soList.length + 1 := by
      simp [syntheticItems, sharedObjectItems_length]
    rw [← e]
    exact k5

set_option maxRecDepth 16384 in
/-- Counterexample to C26 as stated, on two 32-bit cores that hold the segment of
the executable's dynamic section, reduced in default mode with a maps file of two
shared objects.  In the first the dynamic array holds a `DT_DEBUG` entry with a
non-zero pointer: the output holds the original 96-byte segment at `0x08049000`
with its flags, its first entry still `DT_NEEDED` with `d_un = 1`, next to the
synthesised link-map segment at `heapVA = 4`; no synthetic dynamic segment is
emitted.  In the second the array holds no `DT_DEBUG` entry: neither a dynamic
segment nor a link-map segment is emitted. -/
theorem C26_segment_present_counterexample :
    (Reducer.run .w32 exampleEnv 0 16
        (exampleReducer (exampleDynamicCore 134516780) exampleDynamicBinary) false
        (some exampleSharedObjects)).map
      (fun res => res.2.map (fun out =>
        (out.programHeaders.map (fun ph => (ph.p_type, ph.p_vaddr, ph.p_filesz, ph.p_flags)),
         (List.range 16).map
           (fun i => out.bytes ((out.programHeaders.getD 2 zeroPhdr).p_offset + i)))))
      = some (some ([(PT_NOTE, 0, 344, 0), (PT_LOAD, 4, 97, PF_R ||| PF_W),
                     (PT_LOAD, 134516736, 96, PF_R ||| PF_W),
                     (PT_LOAD, 3213750304, 224, PF_R ||| PF_W)],
                    [1, 0, 0, 0, 1, 0, 0, 0, 21, 0, 0, 0, 4, 0, 0, 0])) ∧
    (Reducer.run .w32 exampleEnv 0 16 (exampleReducer noDebugDynamicCore exampleDynamicBinary)
        false (some exampleSharedObjects)).map
      (fun res => res.2.map (fun out =>
        out.programHeaders.map (fun ph => (ph.p_type, ph.p_vaddr, ph.p_filesz, ph.p_flags))))
      = some (some [(PT_NOTE, 0, 344, 0), (PT_NULL, 0, 0, 0), (PT_NULL, 0, 0, 0),
                    (PT_LOAD, 3213750304, 224, PF_R ||| PF_W)]) :=
  ⟨rfl, rfl⟩

/-! ## The walk over the notes -/

theorem toInt32_le (v : Nat) : toInt32 v ≤ INT_MAX := by
  unfold toInt32 INT_MAX
  split_ifs <;> omega

theorem foldl_min_spec (l : List Int) : ∀ init : Int,
    l.foldl (fun m p => if p < m then p else m) init ≤ init ∧
    (∀ p ∈ l, l.foldl (fun m p => if p < m then p else m) init ≤ p) ∧
    (l.foldl (fun m p => if p < m then p else m) init = init ∨
      l.foldl (fun m p => if p < m then p else m) init ∈ l) := by
  induction l with
  | nil => intro init; simp
  | cons a rest ih =>
    intro init
    simp only [List.foldl_cons, List.mem_cons]
    obtain ⟨h1, h2, h3⟩ := ih (if a < init then a else init)
    have hm : (if a < init then a else init) ≤ init ∧ (if a < init then a else init) ≤ a ∧
        ((if a < init then a else init) = init ∨ (if a < init then a else init) = a) := by
      split_ifs <;> omega
    generalize (if a < init then a else init) = m at h1 h2 h3 hm
    refine ⟨by omega, ?_, ?_⟩
    · intro p hp
      rcases hp with hp | hp
      · subst hp
        omega
      · exact h2 p hp
    · rcases h3 with h3 | h3
      · rcases hm.2.2 with e | e
        · exact Or.inl (h3.trans e)
        · exact Or.inr (Or.inl (h3.trans e))
      · exact Or.inr (Or.inr h3)

/-- What the loop of `getNotes` records, in terms of the notes walked. -/
theorem getNotesLoop_notes (ws : WordSize) (lay : NoteLayout) (file : List Byte) (endPos : Nat)
    (fuel : Nat) : ∀ (current : Nat) (r : Reducer),
    (Reducer.getNotesLoop ws lay file endPos fuel current r).stackPointerAddresses =
      r.stackPointerAddresses ++
        ((noteWalk ws file endPos fuel current).filter (fun n => n.1 = NT_PRSTATUS)).map
          (noteStackPointer ws lay file) ∧
    (Reducer.getNotesLoop ws lay file endPos fuel current r).processId =
      (((noteWalk ws file endPos fuel current).filter (fun n => n.1 = NT_PRSTATUS)).map
          (notePid lay file)).foldl (fun m p => if p < m then p else m) r.processId ∧
    ((Reducer.getNotesLoop ws lay file endPos fuel current r).executableName = none ↔
      r.executableName = none ∧
        ∀ n ∈ noteWalk ws file endPos fuel current, n.1 ≠ NT_PRPSINFO) := by
  induction fuel with
  | zero =>
    intro current r
    simp [Reducer.getNotesLoop, noteWalk]
  | succ fuel ih =>
    intro current r
    unfold Reducer.getNotesLoop noteWalk
    by_cases hc : current < endPos
    · simp only [hc, if_true]
      by_cases h1 : readU32 file (current + 8) = NT_PRSTATUS
      · simp only [h1, if_true]
        obtain ⟨a, b, c⟩ := ih
          (current + sizeofNhdr + align_power ws (readU32 file current) 2 +
            align_power ws (readU32 file (current + 4)) 2)
          { r with
              stackPointerAddresses := r.stackPointerAddresses ++
                [readWord ws file (current + sizeofNhdr + align_power ws (readU32 file current) 2
                  + lay.pr_reg + lay.ESP_OFFSET * sizeofADDRESS ws)]
              processId :=
                if toInt32 (readU32 file (current + sizeofNhdr
                      + align_power ws (readU32 file current) 2 + lay.pr_pid)) < r.processId
                then toInt32 (readU32 file (current + sizeofNhdr
                      + align_power ws (readU32 file current) 2 + lay.pr_pid))
                else r.processId }
        refine ⟨?_, ?_, ?_⟩
        · rw [a, List.append_assoc]
          simp [noteStackPointer]
        · rw [b]
          simp [notePid]
        · rw [c]
          simp only [List.mem_cons, forall_eq_or_imp]
          have : NT_PRSTATUS ≠ NT_PRPSINFO := by decide
          simp [this]
      · simp only [h1, if_false]
        by_cases h2 : readU32 file (current + 8) = NT_PRPSINFO
        · simp only [h2, if_true]
          obtain ⟨a, b, c⟩ := ih
            (current + sizeofNhdr + align_power ws (readU32 file current) 2 +
              align_power ws (readU32 file (current + 4)) 2)
            { r with executableName := some (current + sizeofNhdr
                + align_power ws (readU32 file current) 2 + lay.pr_psargs) }
          have hne : ¬ NT_PRPSINFO = NT_PRSTATUS := by decide
          refine ⟨?_, ?_, ?_⟩
          · rw [a]; simp [hne]
          · rw [b]; simp [hne]
          · rw [c]; simp
        · simp only [h2, if_false]
          have key : ∀ r1 : Reducer, r1.stackPointerAddresses = r.stackPointerAddresses →
              r1.processId = r.processId → r1.executableName = r.executableName →
              (Reducer.getNotesLoop ws lay file endPos fuel
                (current + sizeofNhdr + align_power ws (readU32 file current) 2 +
                  align_power ws (readU32 file (current + 4)) 2) r1).stackPointerAddresses =
                r.stackPointerAddresses ++
                  (((readU32 file (current + 8),
                      current + sizeofNhdr + align_power ws (readU32 file current) 2) ::
                    noteWalk ws file endPos fuel
                      (current + sizeofNhdr + align_power ws (readU32 file current) 2 +
                        align_power ws (readU32 file (current + 4)) 2)).filter
                    (fun n => n.1 = NT_PRSTATUS)).map (noteStackPointer ws lay file) ∧
              (Reducer.getNotesLoop ws lay file endPos fuel
                (current + sizeofNhdr + align_power ws (readU32 file current) 2 +
                  align_power ws (readU32 file (current + 4)) 2) r1).processId =
                ((((readU32 file (current + 8),
                      current + sizeofNhdr + align_power ws (readU32 file current) 2) ::
                    noteWalk ws file endPos fuel
                      (current + sizeofNhdr + align_power ws (readU32 file current) 2 +
                        align_power ws (readU32 file (current + 4)) 2)).filter
                    (fun n => n.1 = NT_PRSTATUS)).map (notePid lay file)).foldl
                  (fun m p => if p < m then p else m) r.processId ∧
              ((Reducer.getNotesLoop ws lay file endPos fuel
                (current + sizeofNhdr + align_power ws (readU32 file current) 2 +
                  align_power ws (readU32 file (current + 4)) 2) r1).executableName = none ↔
                r.executableName = none ∧
                  ∀ n ∈ ((readU32 file (current + 8),
                      current + sizeofNhdr + align_power ws (readU32 file current) 2) ::
                    noteWalk ws file endPos fuel
                      (current + sizeofNhdr + align_power ws (readU32 file current) 2 +
                        align_power ws (readU32 file (current + 4)) 2)), n.1 ≠ NT_PRPSINFO) := by
            intro r1 e1 e2 e3
            obtain ⟨a, b, c⟩ := ih
              (current + sizeofNhdr + align_power ws (readU32 file current) 2 +
                align_power ws (readU32 file (current + 4)) 2) r1
            refine ⟨?_, ?_, ?_⟩
            · rw [a, e1]; simp [h1]
            · rw [b, e2]; simp [h1]
            · rw [c, e3]; simp [h2]
          by_cases h3 : readU32 file (current + 8) = NT_AUXV
          · simp only [h3, if_true]
            rw [h3] at key
            rcases auxvScan_cases : Reducer.auxvScan ws file (file.length + 1)
                (current + sizeofNhdr + align_power ws (readU32 file current) 2) with _ | v
            · exact key _ rfl rfl rfl
            · exact key _ rfl rfl rfl
          · simp only [h3, if_false]
            exact key _ rfl rfl rfl
    · simp [hc]

/-- The walk needs no more fuel than there are bytes left: every note takes at
least the 12 bytes of its header. -/
theorem noteWalk_fuel (ws : WordSize) (file : List Byte) (endPos : Nat) (fuel : Nat) :
    ∀ (fuel2 current : Nat), endPos - current ≤ fuel → endPos - current ≤ fuel2 →
    noteWalk ws file endPos fuel current = noteWalk ws file endPos fuel2 current := by
  induction fuel with
  | zero =>
    intro fuel2 current h1 _
    rcases fuel2 with _ | fuel2
    · rfl
    · unfold noteWalk
      rw [if_neg (by omega)]
  | succ fuel ih =>
    intro fuel2 current h1 h2
    rcases fuel2 with _ | fuel2
    · unfold noteWalk
      rw [if_neg (by omega)]
    · unfold noteWalk
      by_cases hc : current < endPos
      · simp only [hc, if_true]
        have hn : sizeofNhdr = 12 := rfl
        rw [ih fuel2 _ (by omega) (by omega)]
      · simp only [hc, if_false]

theorem getSegmentByType_none_iff (c : ElfCoreReader) (t : Nat) :
    c.getSegmentByType t = none ↔ ∀ i, i < c.elfHeader.e_phnum → (c.programHeaders i).p_type ≠ t := by
  unfold ElfCoreReader.getSegmentByType
  simp [List.find?_eq_none]

theorem getNotes_eq (ws : WordSize) (lay : NoteLayout) (r : Reducer) (noteSegment : Phdr)
    (hseg : r.coreReader.getSegmentByType PT_NOTE = some noteSegment) :
    Reducer.getNotes ws lay r =
      (!((Reducer.getNotesLoop ws lay r.coreReader.file
            (noteSegment.p_offset + noteSegment.p_filesz) noteSegment.p_filesz
            noteSegment.p_offset
            { r with wantedHeaders := r.wantedHeaders ++ [noteSegment] }).executableName.isNone
          || decide ((Reducer.getNotesLoop ws lay r.coreReader.file
            (noteSegment.p_offset + noteSegment.p_filesz) noteSegment.p_filesz
            noteSegment.p_offset
            { r with wantedHeaders := r.wantedHeaders ++ [noteSegment] }).processId = INT_MAX)),
       Reducer.getNotesLoop ws lay r.coreReader.file
         (noteSegment.p_offset + noteSegment.p_filesz) noteSegment.p_filesz noteSegment.p_offset
         { r with wantedHeaders := r.wantedHeaders ++ [noteSegment] }) := by
  unfold Reducer.getNotes
  rw [hseg]
  simp only
  split_ifs with h
  · rw [h]; rfl
  · rw [Bool.not_eq_true] at h
    rw [h]; rfl

theorem getNotes_new (ws : WordSize) (lay : NoteLayout) (core : ElfCoreReader)
    (output : Option String) (heap : Nat) (noteSegment : Phdr)
    (hseg : core.getSegmentByType PT_NOTE = some noteSegment) :
    (Reducer.getNotes ws lay (Reducer.new core output heap)).2.stackPointerAddresses
      = (corePrstatusNotes ws core).map (noteStackPointer ws lay core.file) ∧
    (Reducer.getNotes ws lay (Reducer.new core output heap)).2.processId
      = ((corePrstatusNotes ws core).map (notePid lay core.file)).foldl
          (fun m p => if p < m then p else m) INT_MAX ∧
    ((Reducer.getNotes ws lay (Reducer.new core output heap)).2.executableName = none ↔
      ∀ n ∈ coreNotes ws core, n.1 ≠ NT_PRPSINFO) ∧
    (Reducer.getNotes ws lay (Reducer.new core output heap)).1
      = !((Reducer.getNotes ws lay (Reducer.new core output heap)).2.executableName.isNone
          || decide ((Reducer.getNotes ws lay (Reducer.new core output heap)).2.processId
              = INT_MAX)) := by
  obtain ⟨a, b, c⟩ := getNotesLoop_notes ws lay core.file
    (noteSegment.p_offset + noteSegment.p_filesz) noteSegment.p_filesz noteSegment.p_offset
    { Reducer.new core output heap with
        wantedHeaders := (Reducer.new core output heap).wantedHeaders ++ [noteSegment] }
  have hn : coreNotes ws core = noteWalk ws core.file
      (noteSegment.p_offset + noteSegment.p_filesz) noteSegment.p_filesz
      noteSegment.p_offset := by
    unfold coreNotes
    rw [hseg]
  unfold corePrstatusNotes
  rw [hn, getNotes_eq ws lay (Reducer.new core output heap) noteSegment hseg]
  exact ⟨a.trans (List.nil_append _), b, c.trans (by simp [Reducer.new]), rfl⟩

theorem foldl_min_eq_max_iff (l : List Int) (hl : ∀ p ∈ l, p ≤ INT_MAX) :
    l.foldl (fun m p => if p < m then p else m) INT_MAX = INT_MAX ↔ ∀ p ∈ l, p = INT_MAX := by
  obtain ⟨h1, h2, h3⟩ := foldl_min_spec l INT_MAX
  constructor
  · intro h p hp
    have := h2 p hp
    have := hl p hp
    omega
  · intro h
    rcases h3 with h3 | h3
    · exact h3
    · exact h _ h3

/-- C27 (as amended). For every core, `getNotes` on a freshly constructed reducer
returns `false` if and only if the table lists no `PT_NOTE` header, or the note
segment holds no `NT_PRPSINFO` note, or every `NT_PRSTATUS` note of the segment
has `pr_pid = INT_MAX` (as when there is none); otherwise it returns `true`. -/
theorem C27_getNotes_false_iff (ws : WordSize) (lay : NoteLayout) (core : ElfCoreReader)
    (output : Option String) (heap : Nat) :
    ((Reducer.getNotes ws lay (Reducer.new core output heap)).1 = false ↔
      (∀ i, i < core.elfHeader.e_phnum → (core.programHeaders i).p_type ≠ PT_NOTE) ∨
      (∀ n ∈ coreNotes ws core, n.1 ≠ NT_PRPSINFO) ∨
      (∀ n ∈ corePrstatusNotes ws core, notePid lay core.file n = INT_MAX)) ∧
    ((Reducer.getNotes ws lay (Reducer.new core output heap)).1 = true ↔
      (∃ i, i < core.elfHeader.e_phnum ∧ (core.programHeaders i).p_type = PT_NOTE) ∧
      (∃ n ∈ coreNotes ws core, n.1 = NT_PRPSINFO) ∧
      (∃ n ∈ corePrstatusNotes ws core, notePid lay core.file n < INT_MAX)) := by
  have hfalse : (Reducer.getNotes ws lay (Reducer.new core output heap)).1 = false ↔
      (∀ i, i < core.elfHeader.e_phnum → (core.programHeaders i).p_type ≠ PT_NOTE) ∨
      (∀ n ∈ coreNotes ws core, n.1 ≠ NT_PRPSINFO) ∨
      (∀ n ∈ corePrstatusNotes ws core, notePid lay core.file n = INT_MAX) := by
    rcases hseg : core.getSegmentByType PT_NOTE with _ | noteSegment
    · have h1 : (Reducer.getNotes ws lay (Reducer.new core output heap)).1 = false := by
        unfold Reducer.getNotes
        rw [show (Reducer.new core output heap).coreReader = core from rfl, hseg]
      exact ⟨fun _ => Or.inl ((getSegmentByType_none_iff core PT_NOTE).1 hseg), fun _ => h1⟩
    · obtain ⟨_, b, c, d⟩ := getNotes_new ws lay core output heap noteSegment hseg
      have hnot : ¬ ∀ i, i < core.elfHeader.e_phnum → (core.programHeaders i).p_type ≠ PT_NOTE := by
        intro h
        rw [(getSegmentByType_none_iff core PT_NOTE).2 h] at hseg
        cases hseg
      have hmax := foldl_min_eq_max_iff ((corePrstatusNotes ws core).map (notePid lay core.file))
        (by
          intro p hp
          obtain ⟨n, _, rfl⟩ := List.mem_map.1 hp
          exact toInt32_le _)
      rw [d]
      simp only [Bool.not_eq_eq_eq_not, Bool.not_false, Bool.or_eq_true, decide_eq_true_eq,
        Option.isNone_iff_eq_none]
      rw [c, b, hmax]
      simp only [List.mem_map, forall_exists_index, and_imp, forall_apply_eq_imp_iff₂]
      constructor
      · intro h; exact Or.inr h
      · rintro (h | h)
        · exact absurd h hnot
        · exact h
  refine ⟨hfalse, ?_⟩
  rw [← Bool.not_eq_false, hfalse]
  simp only [not_or, not_forall, Classical.not_imp, ne_eq, not_not, exists_prop]
  have hle : ∀ n, notePid lay core.file n ≤ INT_MAX := fun n => toInt32_le _
  constructor
  · rintro ⟨⟨i, h1, h2⟩, ⟨n, h3, h4⟩, ⟨m, h5, h6⟩⟩
    exact ⟨⟨i, h1, h2⟩, ⟨n, h3, h4⟩, ⟨m, h5, by have := hle m; omega⟩⟩
  · rintro ⟨⟨i, h1, h2⟩, ⟨n, h3, h4⟩, ⟨m, h5, h6⟩⟩
    exact ⟨⟨i, h1, h2⟩, ⟨n, h3, h4⟩, ⟨m, h5, by omega⟩⟩

set_option maxRecDepth 16384 in
/-- Counterexample to C27 as stated: a 32-bit core with a `PT_NOTE` segment that
holds an `NT_PRSTATUS` note, an `NT_PRPSINFO` note and an `NT_AUXV` note, in
which the `pr_pid` of the only thread is `INT_MAX`.  `getNotes` returns `false`:
the process id recorded equals the value `INT_MAX` that stands for "no pid". -/
theorem C27_int_max_pid_counterexample :
    (Reducer.getNotes .w32 i386Layout (Reducer.new intMaxPidCore none 0)).1 = false ∧
    (intMaxPidCore.getSegmentByType PT_NOTE).isSome = true ∧
    (coreNotes .w32 intMaxPidCore).map (fun n => n.1) = [NT_PRSTATUS, NT_PRPSINFO, NT_AUXV] ∧
    (corePrstatusNotes .w32 intMaxPidCore).map (notePid i386Layout intMaxPidCore.file)
      = [INT_MAX] ∧
    (Reducer.getNotes .w32 i386Layout (Reducer.new intMaxPidCore none 0)).2.executableName.isSome
      = true := by
  decide

/-- C28. Main-thread pid and stack-pointer list: for every core whose note segment
holds at least one `NT_PRSTATUS` note, after `getNotes` on a freshly constructed
reducer the stack-pointer list holds one entry per `NT_PRSTATUS` note, in note
order, equal to that note's `pr_reg[ESP_OFFSET]`, and the process id recorded is
the minimum `pr_pid` over the `NT_PRSTATUS` notes: it is the `pr_pid` of one of
them and no note has a smaller one. -/
theorem C28_pid_and_stack_pointers (ws : WordSize) (lay : NoteLayout) (core : ElfCoreReader)
    (output : Option String) (heap : Nat) (hne : corePrstatusNotes ws core ≠ []) :
    (Reducer.getNotes ws lay (Reducer.new core output heap)).2.stackPointerAddresses
      = (corePrstatusNotes ws core).map (noteStackPointer ws lay core.file) ∧
    (Reducer.getNotes ws lay (Reducer.new core output heap)).2.stackPointerAddresses.length
      = (corePrstatusNotes ws core).length ∧
    (Reducer.getNotes ws lay (Reducer.new core output heap)).2.processId
      ∈ (corePrstatusNotes ws core).map (notePid lay core.file) ∧
    (∀ n ∈ corePrstatusNotes ws core,
      (Reducer.getNotes ws lay (Reducer.new core output heap)).2.processId
        ≤ notePid lay core.file n) := by
  rcases hseg : core.getSegmentByType PT_NOTE with _ | noteSegment
  · exfalso
    apply hne
    unfold corePrstatusNotes coreNotes
    rw [hseg]
    rfl
  · obtain ⟨a, b, _, _⟩ := getNotes_new ws lay core output heap noteSegment hseg
    obtain ⟨_, h2, h3⟩ := foldl_min_spec
      ((corePrstatusNotes ws core).map (notePid lay core.file)) INT_MAX
    rw [a, b]
    refine ⟨rfl, List.length_map _ _, ?_, ?_⟩
    · rcases h3 with h3 | h3
      · rcases hl : corePrstatusNotes ws core with _ | ⟨n, rest⟩
        · exact absurd hl hne
        · have hn : notePid lay core.file n
              ∈ (corePrstatusNotes ws core).map (notePid lay core.file) := by
            rw [hl]; simp
          have h4 := h2 _ hn
          have h5 : notePid lay core.file n ≤ INT_MAX := toInt32_le _
          rw [h3] at h4
          rw [← hl, h3]
          have : notePid lay core.file n = INT_MAX := by omega
          rw [← this]
          exact hn
      · exact h3
    · intro n hn
      exact h2 _ (List.mem_map_of_mem _ hn)

set_option maxRecDepth 16384 in
/-- Witness of C28: a core with the two threads `(4242, 0xbf8df0a0)` and
`(4243, 0xb0000000)`. -/
theorem C28_pid_and_stack_pointers_witness :
    corePrstatusNotes .w32 unmappedStackCore ≠ [] ∧
    (Reducer.getNotes .w32 i386Layout
        (Reducer.new unmappedStackCore none 0)).2.stackPointerAddresses
      = [3213750432, 2952790016] ∧
    (Reducer.getNotes .w32 i386Layout (Reducer.new unmappedStackCore none 0)).2.processId
      ≤ 4243 :=
  ⟨by decide,
   (C28_pid_and_stack_pointers .w32 i386Layout unmappedStackCore none 0 (by decide)).1.trans
     (by decide),
   (C28_pid_and_stack_pointers .w32 i386Layout unmappedStackCore none 0 (by decide)).2.2.2
     (1, 300) (by decide) |>.trans (by decide)⟩

/-! ## The parser of the maps file -/

theorem startsWith_iff (needle : List Byte) : ∀ hay : List Byte,
    startsWith needle hay = true ↔ ∃ post, hay = needle ++ post := by
  induction needle with
  | nil => intro hay; simp [startsWith]
  | cons a needle ih =>
    intro hay
    rcases hay with _ | ⟨b, hay⟩
    · simp [startsWith]
    · simp only [startsWith, Bool.and_eq_true, beq_iff_eq, ih hay, List.cons_append,
        List.cons.injEq]
      constructor
      · rintro ⟨rfl, post, rfl⟩
        exact ⟨post, rfl, rfl⟩
      · rintro ⟨post, rfl, rfl⟩
        exact ⟨rfl, post, rfl⟩

/-- The call `strstr(hay, needle)` finds `needle` exactly when `hay` contains it. -/
theorem strstr_iff (needle : List Byte) : ∀ hay : List Byte,
    strstr hay needle = true ↔ ∃ pre post, hay = pre ++ needle ++ post := by
  intro hay
  induction hay with
  | nil =>
    simp only [strstr, List.isEmpty_iff]
    constructor
    · rintro rfl
      exact ⟨[], [], rfl⟩
    · rintro ⟨pre, post, h⟩
      have := congrArg List.length h
      simp only [List.length_nil, List.length_append] at this
      exact List.length_eq_zero.1 (by omega)
  | cons b hay ih =>
    simp only [strstr, Bool.or_eq_true, startsWith_iff, ih]
    constructor
    · rintro (⟨post, h⟩ | ⟨pre, post, h⟩)
      · exact ⟨[], post, h⟩
      · exact ⟨b :: pre, post, by rw [h]; rfl⟩
    · rintro ⟨pre, post, h⟩
      rcases pre with _ | ⟨c, pre⟩
      · exact Or.inl ⟨post, h⟩
      · simp only [List.cons_append, List.cons.injEq] at h
        exact Or.inr ⟨pre, post, h.2⟩

theorem fgetsRead_line (body rest : List Byte) : ∀ room : Nat, body.length < room →
    10 ∉ body → fgetsRead room (body ++ 10 :: rest) = (body ++ [10], rest, false) := by
  induction body with
  | nil =>
    intro room h _
    rcases room with _ | room
    · omega
    · simp [fgetsRead]
  | cons b body ih =>
    intro room h hnl
    rcases room with _ | room
    · omega
    · have hb : b ≠ 10 := fun e => hnl (by rw [e]; exact List.mem_cons_self _ _)
      have hrest : 10 ∉ body := fun e => hnl (List.mem_cons_of_mem _ e)
      simp only [List.length_cons] at h
      have hi := ih room (by omega) hrest
      show fgetsRead (room + 1) (b :: (body ++ 10 :: rest)) = _
      simp only [fgetsRead, hb, if_false, hi]
      rfl

theorem fgetsRead_last (last : List Byte) : ∀ room : Nat, last.length < room →
    10 ∉ last → fgetsRead room last = (last, [], true) := by
  induction last with
  | nil =>
    intro room h _
    rcases room with _ | room
    · omega
    · rfl
  | cons b body ih =>
    intro room h hnl
    rcases room with _ | room
    · omega
    · have hb : b ≠ 10 := fun e => hnl (by rw [e]; exact List.mem_cons_self _ _)
      have hrest : 10 ∉ body := fun e => hnl (List.mem_cons_of_mem _ e)
      simp only [List.length_cons] at h
      simp only [fgetsRead, hb, if_false, ih room (by omega) hrest, List.cons_eq_cons]

/-- The loop of `getSharedObjects` handles the lines of the file one by one when
each has fewer than 255 bytes before its newline. -/
theorem readMapsLoop_lines (ws : WordSize) (last : List Byte) (hlast : 10 ∉ last ∧ last.length < 255) :
    ∀ (bodies : List (List Byte)) (fuel : Nat) (acc : List SharedObject),
    (∀ l ∈ bodies, 10 ∉ l ∧ l.length < 255) → bodies.length + 2 ≤ fuel →
    readMapsLoop ws fuel (mapsContent bodies last) false acc
      = acc ++ (mapsLines bodies last).filterMap (parseMapsLine ws) := by
  intro bodies
  induction bodies with
  | nil =>
    intro fuel acc _ hfuel
    obtain ⟨fuel, rfl⟩ : ∃ k, fuel = k + 2 := ⟨fuel - 2, by simp at hfuel; omega⟩
    simp only [mapsContent, mapsLines, List.map_nil, List.flatten_nil, List.nil_append]
    unfold readMapsLoop
    simp only [Bool.false_eq_true, if_false, fgetsRead_last last 255 hlast.2 hlast.1]
    unfold readMapsLoop
    simp only [if_true]
    by_cases h : last = []
    · simp [h]
    · simp only [h, ne_eq, not_false_eq_true, if_true, if_false, List.filterMap_cons,
        List.filterMap_nil]
      rcases parseMapsLine ws last with _ | so <;> simp
  | cons body bodies ih =>
    intro fuel acc hb hfuel
    obtain ⟨fuel, rfl⟩ : ∃ k, fuel = k + 1 := ⟨fuel - 1, by simp at hfuel; omega⟩
    have h1 := hb body (List.mem_cons_self _ _)
    have hcontent : mapsContent (body :: bodies) last
        = body ++ 10 :: mapsContent bodies last := by
      simp [mapsContent]
    have hlines : mapsLines (body :: bodies) last = (body ++ [10]) :: mapsLines bodies last := by
      simp [mapsLines]
    rw [hcontent, hlines]
    unfold readMapsLoop
    simp only [Bool.false_eq_true, if_false, fgetsRead_line body _ 255 h1.2 h1.1]
    rw [ih fuel _ (fun l hl => hb l (List.mem_cons_of_mem _ hl))
      (by simp only [List.length_cons] at hfuel; omega)]
    have hne : body ++ [10] ≠ [] := by simp
    simp only [hne, ne_eq, not_false_eq_true, if_true, List.filterMap_cons]
    rcases parseMapsLine ws (body ++ [10]) with _ | so <;> simp

theorem isspace_iff (b : Byte) :
    isspace b = true ↔ b.toNat = 32 ∨ (9 ≤ b.toNat ∧ b.toNat ≤ 13) := by
  simp [isspace]

theorem hexDigit_isSome (b : Byte) (h : (hexDigit b).isSome = true) :
    (48 ≤ b.toNat ∧ b.toNat ≤ 57) ∨ (97 ≤ b.toNat ∧ b.toNat ≤ 102)
      ∨ (65 ≤ b.toNat ∧ b.toNat ≤ 70) := by
  unfold hexDigit at h
  split_ifs at h with h1 h2 h3
  · exact Or.inl h1
  · exact Or.inr (Or.inl h2)
  · exact Or.inr (Or.inr h3)
  · simp at h

theorem takeWhile_append_stop {α : Type} (p : α → Bool) (d : List α) (x : α) (rest : List α)
    (hd : ∀ b ∈ d, p b = true) (hx : p x = false) :
    (d ++ x :: rest).takeWhile p = d := by
  induction d with
  | nil => simp [List.takeWhile, hx]
  | cons a d ih =>
    simp only [List.cons_append, List.takeWhile_cons, hd a (List.mem_cons_self _ _), if_true,
      ih (fun b hb => hd b (List.mem_cons_of_mem _ hb))]

/-- The conversion `%x` on a string that starts with hexadecimal digits followed
by `-`. -/
theorem sscanfHex_digits (ws : WordSize) (d rest : List Byte) (hne : d ≠ [])
    (hd : ∀ b ∈ d, (hexDigit b).isSome = true) (hv : hexValue d < 4294967296) :
    sscanfHex ws (d ++ 45 :: rest) = some (hexValue d) := by
  rcases d with _ | ⟨d0, d⟩
  · exact absurd rfl hne
  have h0 := hexDigit_isSome d0 (hd d0 (List.mem_cons_self _ _))
  have hsp : isspace d0 = false := by
    rw [Bool.eq_false_iff, Ne, isspace_iff]
    omega
  have h45 : (45 : Byte).toNat = 45 := rfl
  have h43 : (43 : Byte).toNat = 43 := rfl
  have h120 : (120 : Byte).toNat = 120 := rfl
  have h88 : (88 : Byte).toNat = 88 := rfl
  have hminus : (hexDigit 45).isSome = false := by decide
  have hdrop : (d0 :: d ++ 45 :: rest).dropWhile isspace = d0 :: d ++ 45 :: rest := by
    simp [List.dropWhile, hsp]
  have hsign : dropSign (d0 :: d ++ 45 :: rest) = (false, d0 :: d ++ 45 :: rest) := by
    unfold dropSign
    have e1 : ¬ d0 = 45 := fun e => by rw [e, h45] at h0; omega
    have e2 : ¬ d0 = 43 := fun e => by rw [e, h43] at h0; omega
    simp [e1, e2]
  have hmark : dropHexMark (d0 :: d ++ 45 :: rest) = d0 :: d ++ 45 :: rest := by
    unfold dropHexMark
    rw [if_neg]
    rintro ⟨_, h2, _⟩
    rcases d with _ | ⟨d1, d⟩
    · simp only [List.cons_append, List.nil_append, List.getD_cons_succ,
        List.getD_cons_zero] at h2
      rcases h2 with h2 | h2
      · exact absurd (congrArg UInt8.toNat h2) (by rw [h45, h120]; decide)
      · exact absurd (congrArg UInt8.toNat h2) (by rw [h45, h88]; decide)
    · have h1 := hexDigit_isSome d1 (hd d1 (by simp))
      simp only [List.cons_append, List.getD_cons_succ, List.getD_cons_zero] at h2
      rcases h2 with h2 | h2
      · rw [h2, h120] at h1; omega
      · rw [h2, h88] at h1; omega
  have hfit : ¬ wordMod ws ≤ hexValue (d0 :: d) := by
    cases ws
    · rw [wordMod_w32]; omega
    · rw [wordMod_w64]; omega
  unfold sscanfHex
  simp only [hdrop, hsign, hmark]
  rw [takeWhile_append_stop _ (d0 :: d) 45 rest hd hminus]
  simp only [reduceCtorEq, if_false, hfit, Bool.false_eq_true]
  rw [Nat.mod_eq_of_lt hv]

theorem scanBack_found (pre name : List Byte) (sep : Byte)
    (hsep : 0 < sep.toNat ∧ sep.toNat ≤ 32) (hname : ∀ b ∈ name, 32 < b.toNat) :
    ∀ k, k ≤ name.length →
      scanBack (pre ++ sep :: name) (pre.length + 1 + k) = pre.length + 1 := by
  intro k
  induction k with
  | zero =>
    intro _
    show scanBack (pre ++ sep :: name) (pre.length + 1) = _
    unfold scanBack
    have e : (pre ++ sep :: name).getD pre.length 0 = sep := by
      rw [List.getD_eq_getElem?_getD, List.getElem?_append_right (Nat.le_refl _), Nat.sub_self,
        List.getElem?_cons_zero, Option.getD_some]
    rw [e, if_pos hsep]
  | succ k ih =>
    intro hk
    show scanBack (pre ++ sep :: name) (pre.length + 1 + k + 1) = _
    unfold scanBack
    have hmem : (pre ++ sep :: name).getD (pre.length + 1 + k) 0 ∈ name := by
      have e : (pre ++ sep :: name)[pre.length + 1 + k]? = name[k]? := by
        rw [List.getElem?_append_right (by omega)]
        have : pre.length + 1 + k - pre.length = k + 1 := by omega
        rw [this, List.getElem?_cons_succ]
      rw [List.getD_eq_getElem?_getD, e, List.getElem?_eq_getElem (by omega)]
      exact List.getElem_mem _
    have := hname _ hmem
    rw [if_neg (by omega)]
    exact ih (by omega)

/-- A line that holds white space splits at its last white-space byte, in front
of its last field. -/
theorem lastField_split (body : List Byte) (hsp : ∃ b ∈ body, isspace b = true) :
    ∃ pre sep, isspace sep = true ∧ body = pre ++ sep :: lastField body ∧
      ∀ b ∈ lastField body, isspace b = false := by
  have hsplit := List.takeWhile_append_dropWhile (fun b => !isspace b) body.reverse
  have hne : body.reverse.dropWhile (fun b => !isspace b) ≠ [] := by
    intro h
    rw [List.dropWhile_eq_nil_iff] at h
    obtain ⟨b, hb, hs⟩ := hsp
    have := h b (List.mem_reverse.2 hb)
    simp [hs] at this
  rcases hdw : body.reverse.dropWhile (fun b => !isspace b) with _ | ⟨sep, t⟩
  · exact absurd hdw hne
  · have hhead := List.head_dropWhile_not (fun b => !isspace b) body.reverse hne
    simp only [hdw, List.head_cons, Bool.not_eq_false', Bool.not_eq_true] at hhead
    refine ⟨t.reverse, sep, by simpa using hhead, ?_, ?_⟩
    · have := congrArg List.reverse hsplit
      rw [List.reverse_reverse, List.reverse_append, hdw, List.reverse_cons,
        List.append_assoc] at this
      exact this.symm
    · intro b hb
      unfold lastField at hb
      have := List.mem_takeWhile_imp (List.mem_reverse.1 hb)
      simpa using this

theorem getD_last_concat (l : List Byte) (z : Byte) :
    (l ++ [z]).getD ((l ++ [z]).length - 1) 0 = z := by
  rw [List.length_append, List.length_singleton, Nat.add_sub_cancel,
    List.getD_eq_getElem?_getD, List.getElem?_append_right (Nat.le_refl _), Nat.sub_self,
    List.getElem?_cons_zero, Option.getD_some]

theorem textLine_no_nul (body term : List Byte) (hterm : term = [] ∨ term = [10])
    (htext : ∀ b ∈ body, 32 < b.toNat ∨ isspace b = true) : ∀ b ∈ body ++ term, b ≠ 0 := by
  intro b hb e
  subst e
  rcases List.mem_append.1 hb with h | h
  · rcases htext 0 h with h1 | h1
    · exact absurd h1 (by decide)
    · exact absurd h1 (by decide)
  · rcases hterm with rfl | rfl
    · simp at h
    · simp at h

theorem parseMapsLine_rejected (ws : WordSize) (line : List Byte) (hnul : ∀ b ∈ line, b ≠ 0)
    (hacc : acceptedLine line = false) : parseMapsLine ws line = none := by
  unfold parseMapsLine
  simp only [cstring_of_no_nul line hnul]
  unfold acceptedLine at hacc
  rw [if_neg (by rw [hacc]; simp)]

/-- The entry `getSharedObjects` pushes for an accepted line of text with an
address and a last field. -/
theorem parseMapsLine_entry (ws : WordSize) (body term : List Byte) (hterm : term = [] ∨ term = [10])
    (htext : ∀ b ∈ body, 32 < b.toNat ∨ isspace b = true) (hentry : EntryLine body)
    (hacc : acceptedLine (body ++ term) = true) :
    parseMapsLine ws (body ++ term) = some (specEntry (body ++ term)) := by
  obtain ⟨hd1, hd2, hd3, hsp, hfield⟩ := hentry
  obtain ⟨pre, sep, hs, hbody, hname⟩ := lastField_split body hsp
  have hnul := textLine_no_nul body term hterm htext
  have hname32 : ∀ b ∈ lastField body, 32 < b.toNat := by
    intro b hb
    have hmem : b ∈ body := by rw [hbody]; simp [hb]
    rcases htext b hmem with h | h
    · exact h
    · rw [hname b hb] at h; cases h
  have hsep : 0 < sep.toNat ∧ sep.toNat ≤ 32 := by
    rw [isspace_iff] at hs; omega
  have hlen : body.length = pre.length + 1 + (lastField body).length := by
    conv_lhs => rw [hbody]
    simp only [List.length_append, List.length_cons]
    omega
  have hscan : scanBack body body.length = pre.length + 1 := by
    have := scanBack_found pre (lastField body) sep hsep hname32 (lastField body).length
      (Nat.le_refl _)
    rw [← hbody, ← hlen] at this
    exact this
  have hdrop : body.drop (pre.length + 1) = lastField body := by
    conv_lhs => rw [hbody]
    rw [show pre ++ sep :: lastField body = (pre ++ [sep]) ++ lastField body by simp]
    exact List.drop_left' (by simp)
  obtain ⟨d, rest, hsplit, hdd, hdne, hlead⟩ : ∃ d rest, body = d ++ 45 :: rest ∧
      (∀ b ∈ d, (hexDigit b).isSome = true) ∧ d ≠ [] ∧ leadingHexDigits body = d := by
    have h1 := List.takeWhile_append_dropWhile (fun b => (hexDigit b).isSome) body
    have h2 : body.drop (leadingHexDigits body).length
        = body.dropWhile (fun b => (hexDigit b).isSome) := by
      have h3 := @List.drop_left' Byte (body.takeWhile (fun b => (hexDigit b).isSome))
        (body.dropWhile (fun b => (hexDigit b).isSome)) (leadingHexDigits body).length rfl
      rw [h1] at h3
      exact h3
    rw [h2] at hd3
    rcases hdw : body.dropWhile (fun b => (hexDigit b).isSome) with _ | ⟨x, rest⟩
    · rw [hdw] at hd3; cases hd3
    · rw [hdw] at hd3 h1
      simp only [List.head?_cons, Option.some.injEq] at hd3
      subst hd3
      exact ⟨leadingHexDigits body, rest, h1.symm,
        fun b hb => List.mem_takeWhile_imp (p := fun b => (hexDigit b).isSome) hb, hd1, rfl⟩
  have hminus : (hexDigit 45).isSome = false := by decide
  have hscanf : sscanfHex ws (body ++ term) = some (hexValue (leadingHexDigits body)) := by
    rw [hlead]
    conv_lhs => rw [hsplit]
    rw [show d ++ 45 :: rest ++ term = d ++ 45 :: (rest ++ term) by simp,
      sscanfHex_digits ws d _ hdne hdd (by rw [← hlead]; exact hd2)]
  have hleadline : leadingHexDigits (body ++ term) = leadingHexDigits body := by
    rw [hlead]
    conv_lhs => rw [hsplit]
    rw [show d ++ 45 :: rest ++ term = d ++ 45 :: (rest ++ term) by simp]
    exact takeWhile_append_stop _ d 45 _ hdd hminus
  obtain ⟨init, z, hz⟩ : ∃ init z, lastField body = init ++ [z] :=
    ⟨_, _, (List.dropLast_append_getLast hfield).symm⟩
  have hz32 : 32 < z.toNat := hname32 z (by rw [hz]; simp)
  have hbody2 : body = (pre ++ sep :: init) ++ [z] := by
    conv_lhs => rw [hbody, hz]
    simp
  have hgetz : body.getD (body.length - 1) 0 = z := by
    rw [hbody2]
    exact getD_last_concat _ z
  have hbodylast : mapsLineBody body = body := by
    unfold mapsLineBody
    rw [if_neg]
    rw [hbody2, List.getLast?_concat]
    intro h
    rw [Option.some.inj h] at hz32
    exact absurd hz32 (by decide)
  have hstrip : (if 0 < ((body ++ term).getD ((body ++ term).length - 1) 0).toNat ∧
        ((body ++ term).getD ((body ++ term).length - 1) 0).toNat < 32
      then (body ++ term).take ((body ++ term).length - 1) else body ++ term) = body := by
    rcases hterm with rfl | rfl
    · rw [List.append_nil, hgetz, if_neg (by omega)]
    · rw [getD_last_concat, if_pos (by decide)]
      exact List.take_left' (by simp)
  have hline : mapsLineBody (body ++ term) = body := by
    rcases hterm with rfl | rfl
    · rw [List.append_nil]; exact hbodylast
    · unfold mapsLineBody
      rw [List.getLast?_concat, if_pos rfl, List.dropLast_concat]
  have hpos : (body ++ term).length > 0 := by
    rw [hbody2]; simp
  unfold parseMapsLine specEntry
  simp only [cstring_of_no_nul _ hnul]
  unfold acceptedLine at hacc
  rw [if_pos hacc, if_pos hpos, hstrip, hscan, if_pos (by omega), hdrop, hscanf, hleadline, hline]
  rfl

theorem filterMap_ite {α β : Type} (f : α → Option β) (p : α → Bool) (g : α → β) :
    ∀ l : List α, (∀ x ∈ l, f x = if p x = true then some (g x) else none) →
      l.filterMap f = (l.filter p).map g := by
  intro l
  induction l with
  | nil => intro _; rfl
  | cons a l ih =>
    intro h
    have ha := h a (List.mem_cons_self _ _)
    have hl := ih (fun x hx => h x (List.mem_cons_of_mem _ hx))
    by_cases hp : p a = true
    · rw [if_pos hp] at ha
      simp [List.filterMap_cons, ha, List.filter_cons, hp, hl]
    · rw [if_neg hp] at ha
      simp [List.filterMap_cons, ha, List.filter_cons, hp, hl]

theorem mapsContent_length (last : List Byte) : ∀ bodies : List (List Byte),
    bodies.length ≤ (mapsContent bodies last).length := by
  intro bodies
  induction bodies with
  | nil => simp
  | cons l bodies ih =>
    simp only [mapsContent, List.map_cons, List.flatten_cons, List.length_append,
      List.length_cons, List.length_nil] at ih ⊢
    omega

/-- C29 (as amended). Maps-file parsing, for a text file whose lines have fewer
than 255 bytes and in which every line that contains `r-xp` and `.so` and not
`(deleted)` starts with a hexadecimal address that fits an `unsigned int`,
followed by `-`, holds white space and does not end in it: `getSharedObjects`
returns, in file order, one entry per such line, with `addr` the value of the
leading address and `name` the last white-space-delimited field; the other lines
contribute nothing, the list held before the call does not matter, and the list
is empty when the file cannot be opened. -/
theorem C29_getSharedObjects_text_lines (ws : WordSize) (p : ProcInterface) (bodies : List (List Byte))
    (last : List Byte) (htext : ∀ l ∈ bodies, TextLine l) (hlast : TextLine last)
    (hentry : ∀ l ∈ bodies, acceptedLine (l ++ [10]) = true → EntryLine l)
    (hentrylast : acceptedLine last = true → EntryLine last) :
    (p.getSharedObjects ws (some (mapsContent bodies last))).m_sharedObjects
      = specSharedObjects (mapsLines bodies last) ∧
    (p.getSharedObjects ws none).m_sharedObjects = [] := by
  refine ⟨?_, rfl⟩
  unfold ProcInterface.getSharedObjects
  simp only
  rw [readMapsLoop_lines ws last ⟨hlast.2.1, hlast.2.2⟩ bodies _ []
    (fun l hl => ⟨(htext l hl).2.1, (htext l hl).2.2⟩)
    (by have := mapsContent_length last bodies; omega), List.nil_append]
  unfold specSharedObjects
  apply filterMap_ite
  intro line hline
  have hcases : (∃ l ∈ bodies, line = l ++ [10]) ∨ (line = last ∧ last ≠ []) := by
    unfold mapsLines at hline
    rcases List.mem_append.1 hline with h | h
    · obtain ⟨l, hl, rfl⟩ := List.mem_map.1 h
      exact Or.inl ⟨l, hl, rfl⟩
    · by_cases hne : last = []
      · simp [hne] at h
      · simp only [hne, if_false, List.mem_singleton] at h
        exact Or.inr ⟨h, hne⟩
  by_cases hacc : acceptedLine line = true
  · rw [if_pos hacc]
    rcases hcases with ⟨l, hl, rfl⟩ | ⟨rfl, _⟩
    · exact parseMapsLine_entry ws l [10] (Or.inr rfl) (htext l hl).1 (hentry l hl hacc) hacc
    · have := parseMapsLine_entry ws line [] (Or.inl rfl) hlast.1 (hentrylast hacc)
        (by rw [List.append_nil]; exact hacc)
      rw [List.append_nil] at this
      exact this
  · rw [if_neg hacc]
    rw [Bool.not_eq_true] at hacc
    rcases hcases with ⟨l, hl, rfl⟩ | ⟨rfl, _⟩
    · exact parseMapsLine_rejected ws _ (textLine_no_nul l [10] (Or.inr rfl) (htext l hl).1) hacc
    · have := textLine_no_nul line [] (Or.inl rfl) hlast.1
      rw [List.append_nil] at this
      exact parseMapsLine_rejected ws _ this hacc

set_option maxRecDepth 65536 in
/-- Witness of C29: a maps file of four lines, two of them accepted. -/
theorem C29_getSharedObjects_text_lines_witness :
    ((ProcInterface.mk 4242 exampleSharedObjects).getSharedObjects .w32
        (some (mapsContent exampleMapsBodies []))).m_sharedObjects
      = specSharedObjects (mapsLines exampleMapsBodies []) ∧
    specSharedObjects (mapsLines exampleMapsBodies [])
      = [ { addr := 1073741824, name := asciiBytes "/lib/libc.so" },
          { addr := 1075838976, name := asciiBytes "/lib/libm.so" } ] :=
  ⟨(C29_getSharedObjects_text_lines .w32 (ProcInterface.mk 4242 exampleSharedObjects)
      exampleMapsBodies [] (by decide) (by decide) (by decide) (by decide)).1, rfl⟩

set_option maxRecDepth 65536 in
/-- Counterexample to C29 as stated: a maps file of two lines that contain `r-xp`
and `.so` and not `(deleted)`.  The first holds no white space: no entry is
pushed for it.  The second has a space after its path: the entry pushed has the
address `0x40200000` and an empty name, where the last white-space-delimited
field is `/lib/libm.so`. -/
theorem C29_unparsed_line_counterexample :
    ((ProcInterface.mk 4242 []).getSharedObjects .w32 (some oddMapsFile)).m_sharedObjects
      = [ { addr := 1075838976, name := [] } ] ∧
    acceptedLine (asciiBytes "40000000-40150000:r-xp:/lib/libc.so\n") = true ∧
    acceptedLine (asciiBytes "40200000-40220000 r-xp 00000000 08:01 43 /lib/libm.so \n")
      = true :=
  ⟨rfl, by decide, by decide⟩

/-! ## The exit status -/

/-- C30 (as amended). Exit status: `main` returns -1 when an option is `-h` or
unknown, when `-i`, `-o` or `-e` is missing, and when `Reducer::initalize`
returns `false`, and it returns -1 in no other case; once `initalize` has
succeeded and `run` comes back, `main` returns 0 whatever happened inside `run`,
with or without a file stored. -/
theorem C30_exit_status (ws : WordSize) (lay : NoteLayout) (inputs : MainInputs)
    (options : List CmdOption) :
    (∀ status file, main ws lay inputs options = some (status, file) →
      status = 0 ∨ status = -1) ∧
    (parseOptions ws options initialArgs = none →
      main ws lay inputs options = some (-1, none)) ∧
    (∀ args, parseOptions ws options initialArgs = some args →
      (args.inputFile = none ∨ args.outFile = none ∨ args.executable = none) →
      main ws lay inputs options = some (-1, none)) ∧
    (∀ args r, parseOptions ws options initialArgs = some args →
      args.inputFile ≠ none → args.outFile ≠ none → args.executable ≠ none →
      Reducer.initalize ws lay inputs.core inputs.binary args.outFile args.heapAddress
        = some (false, r) →
      main ws lay inputs options = some (-1, none)) ∧
    (∀ args reducer res, parseOptions ws options initialArgs = some args →
      args.inputFile ≠ none → args.outFile ≠ none → args.executable ≠ none →
      Reducer.initalize ws lay inputs.core inputs.binary args.outFile args.heapAddress
        = some (true, some reducer) →
      Reducer.run ws inputs.env inputs.ifaceHeap inputs.fuel reducer args.stacksOnlyMode
        (args.mapsFile.map (fun _ => inputs.sharedObjects)) = some res →
      main ws lay inputs options = some (0, res.2)) ∧
    (∀ file, main ws lay inputs options = some (-1, file) →
      parseOptions ws options initialArgs = none ∨
      ∃ args, parseOptions ws options initialArgs = some args ∧
        (args.inputFile = none ∨ args.outFile = none ∨ args.executable = none ∨
          ∃ r, Reducer.initalize ws lay inputs.core inputs.binary args.outFile args.heapAddress
            = some (false, r))) := by
  have hreq : ∀ args : MainArgs,
      (args.outFile.isNone || args.executable.isNone || args.inputFile.isNone) = true ↔
        (args.inputFile = none ∨ args.outFile = none ∨ args.executable = none) := by
    intro args
    simp only [Bool.or_eq_true, Option.isNone_iff_eq_none]
    tauto
  refine ⟨?_, ?_, ?_, ?_, ?_, ?_⟩
  · intro status file h
    unfold main at h
    rcases hp : parseOptions ws options initialArgs with _ | args
    · rw [hp] at h
      simp only [Option.some.injEq, Prod.mk.injEq] at h
      exact Or.inr h.1.symm
    · rw [hp] at h
      simp only at h
      split_ifs at h
      · simp only [Option.some.injEq, Prod.mk.injEq] at h
        exact Or.inr h.1.symm
      · rcases hi : Reducer.initalize ws lay inputs.core inputs.binary args.outFile
          args.heapAddress with _ | ⟨ok, r⟩
        · rw [hi] at h; cases h
        · rw [hi] at h
          rcases ok with _ | _
          · simp only [Option.some.injEq, Prod.mk.injEq] at h
            exact Or.inr h.1.symm
          · rcases r with _ | reducer
            · cases h
            · simp only at h
              rcases hr : Reducer.run ws inputs.env inputs.ifaceHeap inputs.fuel reducer
                args.stacksOnlyMode (args.mapsFile.map (fun _ => inputs.sharedObjects))
                with _ | res
              · rw [hr] at h; cases h
              · rw [hr] at h
                simp only [Option.some.injEq, Prod.mk.injEq] at h
                exact Or.inl h.1.symm
  · intro hp
    unfold main
    rw [hp]
  · intro args hp hmiss
    unfold main
    rw [hp]
    simp only
    rw [if_pos ((hreq args).2 hmiss)]
  · intro args r hp h1 h2 h3 hi
    unfold main
    rw [hp]
    simp only
    rw [if_neg (by rw [hreq]; tauto), hi]
  · intro args reducer res hp h1 h2 h3 hi hr
    unfold main
    rw [hp]
    simp only
    rw [if_neg (by rw [hreq]; tauto), hi]
    simp only
    rw [hr]
  · intro file h
    unfold main at h
    rcases hp : parseOptions ws options initialArgs with _ | args
    · exact Or.inl rfl
    · rw [hp] at h
      simp only at h
      refine Or.inr ⟨args, rfl, ?_⟩
      by_cases hm : (args.outFile.isNone || args.executable.isNone || args.inputFile.isNone) = true
      · have := (hreq args).1 hm
        tauto
      · rw [if_neg hm] at h
        rcases hi : Reducer.initalize ws lay inputs.core inputs.binary args.outFile
          args.heapAddress with _ | ⟨ok, r⟩
        · rw [hi] at h; cases h
        · rw [hi] at h
          rcases ok with _ | _
          · exact Or.inr (Or.inr (Or.inr ⟨r, rfl⟩))
          · rcases r with _ | reducer
            · cases h
            · simp only at h
              rcases hr : Reducer.run ws inputs.env inputs.ifaceHeap inputs.fuel reducer
                args.stacksOnlyMode (args.mapsFile.map (fun _ => inputs.sharedObjects))
                with _ | res
              · rw [hr] at h; cases h
              · rw [hr] at h
                simp only [Option.some.injEq, Prod.mk.injEq] at h
                exact absurd h.1 (by decide)

set_option maxRecDepth 16384 in
/-- Counterexample to C30 as stated, on the static example core with the command
line `-i core -o core.reduced -e app -s`: when the output file cannot be created
(`open` returns -1), when the buffer cannot be allocated, and when the final
`::write` fails, no file is stored and `main` returns 0; the same command line
without `-o` returns -1, and with every call succeeding it returns 0 and stores
a file of 684 bytes. -/
theorem C30_failed_run_exit_status_counterexample :
    (main .w32 i386Layout (exampleInputs { exampleEnv with openFd := -1 }) exampleOptions).map
        (fun res => (res.1, res.2.isSome)) = some (0, false) ∧
    (main .w32 i386Layout (exampleInputs { exampleEnv with mallocOk := false })
        exampleOptions).map (fun res => (res.1, res.2.isSome)) = some (0, false) ∧
    (main .w32 i386Layout (exampleInputs { exampleEnv with writeOk := false })
        exampleOptions).map (fun res => (res.1, res.2.isSome)) = some (0, false) ∧
    (main .w32 i386Layout (exampleInputs exampleEnv) [.i "core", .e "app", .s]).map
        (fun res => (res.1, res.2.isSome)) = some (-1, false) ∧
    (main .w32 i386Layout (exampleInputs exampleEnv) exampleOptions).map
        (fun res => (res.1, res.2.map (fun f => f.size))) = some (0, some 684) := by
  refine ⟨by decide, by decide, by decide, by decide, by decide⟩


/-! ## The overwrite bound of `copySegment` -/

/-- The overwrite of `copySegment` where nothing wraps: on a writer with a free
slot, for a call with overwrite data in which neither the cursor nor
`overwriteOffset + overwriteSize` wraps, the call returns the place the data was
written at, and the bytes `[overwriteOffset, overwriteOffset + overwriteSize)` of
the segment are those of `overwriteData` when
`overwriteOffset + overwriteSize < p_filesz`, the other bytes those of `data`;
when `overwriteOffset + overwriteSize ≥ p_filesz`, as for an overwrite that
reaches the end of the segment exactly, every byte of the segment is that of
`data`. -/
theorem copySegment_overwrite_no_wrap (ws : WordSize) (w : RawElfWriter) (ph : Phdr)
    (data od : List Byte) (oo os : Nat)
    (hslot : w.currentProgramHeader < w.numProgramHeaders)
    (hfit : w.offset + ph.p_filesz < wordMod ws) (hsum : oo + os < wordMod ws) :
    (w.copySegment ws (some ph) (some data) (some od) oo os).1 = some w.offset ∧
    (oo + os < ph.p_filesz →
      (∀ i, oo ≤ i → i < oo + os →
        (w.copySegment ws (some ph) (some data) (some od) oo os).2.buffer (w.offset + i)
          = od.getD (i - oo) 0) ∧
      (∀ i, i < ph.p_filesz → (i < oo ∨ oo + os ≤ i) →
        (w.copySegment ws (some ph) (some data) (some od) oo os).2.buffer (w.offset + i)
          = data.getD i 0)) ∧
    (ph.p_filesz ≤ oo + os →
      ∀ i, i < ph.p_filesz →
        (w.copySegment ws (some ph) (some data) (some od) oo os).2.buffer (w.offset + i)
          = data.getD i 0) ∧
    (oo + os = ph.p_filesz →
      (w.copySegment ws (some ph) (some data) (some od) oo os).2
        = (w.copySegment ws (some ph) (some data) none 0 0).2) ∧
    (w.copySegment ws (some ph) (some data) (some od) oo os).2.offset
      = w.offset + ph.p_filesz := by
  rw [copySegment_eq ws w ph data (some od) oo os hslot,
    copySegment_eq ws w ph data none 0 0 hslot]
  simp only [Nat.mod_eq_of_lt hsum, Nat.mod_eq_of_lt hfit]
  refine ⟨copySegment_fst ws w ph data (some od) oo os hslot, ?_, ?_, ?_, trivial⟩
  · intro hlt
    simp only [hlt, if_true]
    rw [memcpyWrapped_eq ws _ _ _ _ (by omega)]
    constructor
    · intro i h1 h2
      rw [memcpy_of_mem _ _ _ _ _ (by omega) (by omega)]
      congr 1
      omega
    · intro i h1 h2
      rcases h2 with h2 | h2
      · rw [memcpy_of_lt _ _ _ _ _ (by omega), memcpy_of_mem _ _ _ _ _ (by omega) (by omega),
          Nat.add_sub_cancel_left]
      · rw [memcpy_of_ge _ _ _ _ _ (by omega), memcpy_of_mem _ _ _ _ _ (by omega) (by omega),
          Nat.add_sub_cancel_left]
  · intro hge i hi
    rw [if_neg (by omega), memcpy_of_mem _ _ _ _ _ (by omega) (by omega), Nat.add_sub_cancel_left]
  · intro heq
    rw [if_neg (by omega)]

set_option maxRecDepth 16384 in
/-- A four-byte segment copied to the example writer with a two-byte overwrite
at offset 2, which reaches the end of the segment and is rejected, and at
offset 1, which is applied. -/
theorem copySegment_overwrite_no_wrap_example :
    (List.range 4).map (fun i =>
      (((RawElfWriter.new.initalize .w32 exampleEnv (some "core.reduced") 2 6).2.copyElfHeader
        .w32 (some zeroEhdr)).copySegment .w32 (some (exampleLoad 4096 4)) (some [1, 2, 3, 4])
        (some [8, 9]) 2 2).2.buffer (116 + i)) = [1, 2, 3, 4] ∧
    (List.range 4).map (fun i =>
      (((RawElfWriter.new.initalize .w32 exampleEnv (some "core.reduced") 2 6).2.copyElfHeader
        .w32 (some zeroEhdr)).copySegment .w32 (some (exampleLoad 4096 4)) (some [1, 2, 3, 4])
        (some [8, 9]) 1 2).2.buffer (116 + i)) = [1, 8, 9, 4] ∧
    (((RawElfWriter.new.initalize .w32 exampleEnv (some "core.reduced") 2 6).2.copyElfHeader
        .w32 (some zeroEhdr)).copySegment .w32 (some (exampleLoad 4096 4)) (some [1, 2, 3, 4])
        (some [8, 9]) 2 2).1 = some 116 :=
  ⟨by decide, by decide,
   ((copySegment_overwrite_no_wrap .w32 _ (exampleLoad 4096 4) [1, 2, 3, 4] [8, 9] 2 2 (by decide)
      (by decide) (by decide)).1).trans (by decide)⟩

/-! ## The file range of a narrowed stack -/

/-- The file range of the header `getStacks` builds, for a stack pointer at least
`STACK_ADDITION` above zero: a suffix of the file range of the segment. -/
theorem narrowedStackHeader_file_range (ws : WordSize) (sp : Nat) (S : Phdr)
    (hsp : sp < wordMod ws) (hlo : S.p_vaddr ≤ sp) (hfs : S.p_filesz < wordMod ws)
    (hhi : sp < (S.p_vaddr + S.p_filesz) % wordMod ws) (hmargin : STACK_ADDITION ≤ sp)
    (hfile : S.p_offset + S.p_filesz < wordMod ws) :
    (Reducer.narrowedStackHeader ws sp S).p_filesz ≤ S.p_filesz ∧
    S.p_offset ≤ (Reducer.narrowedStackHeader ws sp S).p_offset ∧
    (Reducer.narrowedStackHeader ws sp S).p_offset + (Reducer.narrowedStackHeader ws sp S).p_filesz
      = S.p_offset + S.p_filesz := by
  obtain ⟨_, h2, h3, h4, _⟩ := narrowedStackHeader_of_ge ws sp S hsp hlo hfs hhi hmargin
  have hoff : (Reducer.narrowedStackHeader ws sp S).p_offset
      = (S.p_offset + ((Reducer.narrowedStackHeader ws sp S).p_vaddr + wordMod ws - S.p_vaddr)
          % wordMod ws) % wordMod ws := by
    simp only [Reducer.narrowedStackHeader]
  have e1 : ((Reducer.narrowedStackHeader ws sp S).p_vaddr + wordMod ws - S.p_vaddr) % wordMod ws
      = (Reducer.narrowedStackHeader ws sp S).p_vaddr - S.p_vaddr := by
    rw [show (Reducer.narrowedStackHeader ws sp S).p_vaddr + wordMod ws - S.p_vaddr
        = ((Reducer.narrowedStackHeader ws sp S).p_vaddr - S.p_vaddr) + wordMod ws by omega,
      Nat.add_mod_right, Nat.mod_eq_of_lt (by omega)]
  rw [e1, Nat.mod_eq_of_lt (by omega)] at hoff
  omega

set_option maxRecDepth 16384 in
/-- C40. The header `getStacks` builds on a 32-bit core whose thread has `sp = 16`:
the segment found for `sp` is the note segment, at `p_vaddr = 0` with 344 bytes
at file offset 116, and the header built from it has `p_filesz = 456`, larger
than the segment, and `p_offset = 4`, before the segment: the bytes copied for
it start inside the ELF header of the input core. -/
theorem C40_narrowed_stack_outside_segment :
    ((exampleReducer lowStackPointerCore exampleStaticBinary).coreReader.getSegmentByAddress .w32
        16).map (fun S => (S.p_vaddr, S.p_offset, S.p_filesz)) = some (0, 116, 344) ∧
    ((0 : Nat) ≤ 16 ∧ 16 < 0 + 344) ∧
    (((exampleReducer lowStackPointerCore exampleStaticBinary).getStacks .w32).wantedHeaders.map
        (fun ph => (ph.p_offset, ph.p_filesz))) = [(116, 344), (4, 456)] ∧
    ¬ (456 ≤ 344) ∧ ¬ (116 ≤ 4) := by
  decide

/-! ## Termination and reads of the binary search -/

/-- The loop of `getSegmentByAddress` ends within `last - first + 1` rounds: more
fuel does not change its result. -/
theorem getSegmentByAddressLoop_fuel (ws : WordSize) (c : ElfCoreReader) (toMatch : Nat)
    (fuel : Nat) : ∀ (fuel2 : Nat) (first last : Int), 0 ≤ first →
    (last + 1 - first).toNat ≤ fuel → (last + 1 - first).toNat ≤ fuel2 →
    c.getSegmentByAddressLoop ws toMatch fuel first last
      = c.getSegmentByAddressLoop ws toMatch fuel2 first last := by
  induction fuel with
  | zero =>
    intro fuel2 first last h0 h1 _
    rcases fuel2 with _ | fuel2
    · rfl
    · unfold ElfCoreReader.getSegmentByAddressLoop
      rw [if_neg (by omega)]
  | succ fuel ih =>
    intro fuel2 first last h0 h1 h2
    rcases fuel2 with _ | fuel2
    · unfold ElfCoreReader.getSegmentByAddressLoop
      rw [if_neg (by omega)]
    · unfold ElfCoreReader.getSegmentByAddressLoop
      by_cases hle : first ≤ last
      · rw [if_pos hle, if_pos hle]
        simp only
        have hm1 : first ≤ (first + last) / 2 := by omega
        have hm2 : (first + last) / 2 ≤ last := by omega
        split_ifs
        · exact ih fuel2 first _ h0 (by omega) (by omega)
        · exact ih fuel2 _ last (by omega) (by omega) (by omega)
        · rfl
      · rw [if_neg hle, if_neg hle]

/-- Every index the loop of `getSegmentByAddress` reads lies between `first` and
`last`. -/
theorem getSegmentByAddressReads_bounds (ws : WordSize) (c : ElfCoreReader) (toMatch : Nat)
    (fuel : Nat) : ∀ (first last : Int), 0 ≤ first →
    ∀ m ∈ c.getSegmentByAddressReads ws toMatch fuel first last, first ≤ m ∧ m ≤ last := by
  induction fuel with
  | zero =>
    intro first last _ m hm
    simp [ElfCoreReader.getSegmentByAddressReads] at hm
  | succ fuel ih =>
    intro first last h0 m hm
    unfold ElfCoreReader.getSegmentByAddressReads at hm
    by_cases hle : first ≤ last
    · rw [if_pos hle] at hm
      simp only at hm
      have hm1 : first ≤ (first + last) / 2 := by omega
      have hm2 : (first + last) / 2 ≤ last := by omega
      split_ifs at hm
      · rcases List.mem_cons.1 hm with h | h
        · omega
        · have := ih first _ h0 m h
          omega
      · rcases List.mem_cons.1 hm with h | h
        · omega
        · have := ih _ last (by omega) m h
          omega
      · rw [List.mem_singleton] at hm
        omega
    · rw [if_neg hle] at hm
      simp at hm

set_option maxRecDepth 16384 in
/-- C37. The reads of `getSegmentByAddress`: on a core with an empty table
(`e_phnum = 0`) the search reads `programHeaders[0]`, and on a core with two
entries, asked for an address above both, it reads `programHeaders[1]` and then
`programHeaders[2]`: in both the last index read is `e_phnum`, one past the
table.  For every table the search ends within `e_phnum + 1` rounds and reads no
index above `e_phnum`. -/
theorem C37_binary_search_reads_past_table :
    emptyTableCore.elfHeader.e_phnum = 0 ∧
    emptyTableCore.getSegmentByAddressReads .w32 4352 (0 + 2) 0 0 = [0] ∧
    exampleStaticCore.elfHeader.e_phnum = 2 ∧
    exampleStaticCore.getSegmentByAddressReads .w32 4294967295 (2 + 2) 0 2 = [1, 2] ∧
    (∀ (ws : WordSize) (c : ElfCoreReader) (toMatch fuel : Nat),
      c.elfHeader.e_phnum + 1 ≤ fuel →
      c.getSegmentByAddressLoop ws toMatch fuel 0 c.elfHeader.e_phnum
        = c.getSegmentByAddress ws toMatch) ∧
    (∀ (ws : WordSize) (c : ElfCoreReader) (toMatch fuel : Nat),
      ∀ m ∈ c.getSegmentByAddressReads ws toMatch fuel 0 c.elfHeader.e_phnum,
        0 ≤ m ∧ m ≤ (c.elfHeader.e_phnum : Int)) := by
  refine ⟨rfl, by decide, rfl, by decide, ?_, ?_⟩
  · intro ws c toMatch fuel hfuel
    unfold ElfCoreReader.getSegmentByAddress
    exact getSegmentByAddressLoop_fuel ws c toMatch fuel _ 0 _ (le_refl _) (by omega) (by omega)
  · intro ws c toMatch fuel m hm
    exact getSegmentByAddressReads_bounds ws c toMatch fuel 0 _ (le_refl _) m hm

/-! ## The search `memcspn` -/

theorem strncmpZero_eq (m : Nat → Byte) (cap : Nat) (pat : List Byte) :
    ∀ i, (∀ b ∈ pat, b ≠ 0) → i + pat.length ≤ cap →
    strncmpZero m cap pat.length (pat ++ [0]) i = some (occursAt m pat i) := by
  induction pat with
  | nil => intro i _ _; rfl
  | cons c pat ih =>
    intro i h0 hb
    simp only [List.length_cons] at hb
    have hc : c ≠ 0 := h0 c (List.mem_cons_self _ _)
    show strncmpZero m cap (pat.length + 1) (c :: (pat ++ [0])) i = _
    unfold strncmpZero occursAt
    rw [if_neg (by omega)]
    by_cases hm : c = m i
    · rw [if_neg (by simpa using hm), if_neg hc,
        ih (i + 1) (fun b hb => h0 b (List.mem_cons_of_mem _ hb)) (by omega)]
      simp [hm]
    · rw [if_pos hm]
      have : (m i == c) = false := by
        rw [beq_eq_false_iff_ne]
        exact fun e => hm e.symm
      simp [this]

/-- What the loop of `memcspn` returns when every comparison stays inside the
object: the first index from `i` on at which the pattern stands in memory, or the
end of the range. -/
theorem memcspnLoop_spec (m : Nat → Byte) (cap : Nat) (pat : List Byte)
    (h0 : ∀ b ∈ pat, b ≠ 0) : ∀ rounds i, i + rounds + pat.length ≤ cap + 1 →
    ∃ j, memcspnLoop m cap (pat ++ [0]) pat.length rounds i = some j ∧ i ≤ j ∧ j ≤ i + rounds ∧
      (∀ k, i ≤ k → k < j → occursAt m pat k = false) ∧
      (j < i + rounds → occursAt m pat j = true) := by
  intro rounds
  induction rounds with
  | zero =>
    intro i _
    exact ⟨i, rfl, le_refl _, le_refl _, fun k h1 h2 => by omega, fun h => by omega⟩
  | succ rounds ih =>
    intro i hb
    unfold memcspnLoop
    rw [strncmpZero_eq m cap pat i h0 (by omega)]
    rcases hocc : occursAt m pat i with _ | _
    · obtain ⟨j, e, h1, h2, h3, h4⟩ := ih (i + 1) (by omega)
      refine ⟨j, e, by omega, by omega, ?_, fun h => h4 (by omega)⟩
      intro k hk1 hk2
      rcases Nat.eq_or_lt_of_le hk1 with rfl | hlt
      · exact hocc
      · exact h3 k hlt hk2
    · exact ⟨i, rfl, le_refl _, by omega, fun k h1 h2 => by omega, fun _ => hocc⟩

/-- The value of `memcspn` for a pattern without NUL, on a buffer that leaves
room for the pattern after its `memlen` bytes: the first index below `memlen` at
which the pattern stands in memory, `memlen` bytes or not, and `memlen` when
there is none. -/
theorem memcspn_spec (m : Nat → Byte) (cap memlen : Nat) (pat : List Byte)
    (h0 : ∀ b ∈ pat, b ≠ 0) (hb : memlen + pat.length ≤ cap) :
    ∃ j, memcspn (some (m, cap)) memlen (some (pat ++ [0])) (pat.length + 1) = some j ∧
      j ≤ memlen ∧ (∀ k, k < j → occursAt m pat k = false) ∧
      (j < memlen → occursAt m pat j = true) := by
  unfold memcspn
  simp only [Nat.add_one_ne_zero, if_false, Nat.add_sub_cancel]
  by_cases hz : memlen = 0
  · rw [if_pos hz]
    exact ⟨0, rfl, by omega, fun k hk => by omega, fun h => by omega⟩
  · rw [if_neg hz]
    obtain ⟨j, e, _, h2, h3, h4⟩ := memcspnLoop_spec m cap pat h0 memlen 0 (by omega)
    exact ⟨j, e, by omega, fun k hk => h3 k (Nat.zero_le _) hk, fun h => h4 (by omega)⟩

set_option maxRecDepth 16384 in
/-- C36. The value of `memcspn` on the three bytes `xab`, searched for the pattern
`ab` (`rejectlen = 3`) with `memlen = 2`: the pattern does not stand inside the
first two bytes, and the result is `1`, not `memlen`, because the comparison at
index 1 goes on to the byte after the `memlen` bytes.  On the two bytes `xa` the
same search reads past the end of the buffer.  On the buffer of the extractor,
five bytes `ab[--` followed by the remains of an earlier header, the search for
`RICHCORE_HEADER` with `memlen = 5` returns `2`.  With a null `mem` the result
is `0` whatever `memlen` is. -/
theorem C36_memcspn_reads_past_memlen :
    memcspn (some (memoryOf (asciiBytes "xab"))) 2 (some (asciiBytes "ab" ++ [0])) 3 = some 1 ∧
    occursAt (memoryOf (asciiBytes "xa")).1 (asciiBytes "ab") 0 = false ∧
    occursAt (memoryOf (asciiBytes "xa")).1 (asciiBytes "ab") 1 = false ∧
    memcspn (some (memoryOf (asciiBytes "xa"))) 2 (some (asciiBytes "ab" ++ [0])) 3 = none ∧
    memcspn (some (memoryOf (asciiBytes "ab[---rich-core: x---]"))) 5
      (some (RICHCORE_HEADER ++ [0])) 16 = some 2 ∧
    memcspn none 5 (some (RICHCORE_HEADER ++ [0])) 16 = some 0 := by
  decide

/-! ## Stepping over the notes -/

theorem land_mask_four (k y : Nat) (hk : 2 ≤ k) (hy : y < 2 ^ k) :
    y &&& (2 ^ k - 4) = y / 4 * 4 := by
  apply Nat.eq_of_testBit_eq
  intro i
  have hmask : 2 ^ k - 4 = (2 ^ (k - 2) - 1) <<< 2 := by
    rw [Nat.shiftLeft_eq, Nat.sub_mul, ← pow_add]
    have : k - 2 + 2 = k := by omega
    rw [this]
  have hdiv : y / 4 * 4 = (y >>> 2) <<< 2 := by
    rw [Nat.shiftLeft_eq, Nat.shiftRight_eq_div_pow]
  rw [Nat.testBit_and, hmask, hdiv, Nat.testBit_shiftLeft, Nat.testBit_shiftLeft,
    Nat.testBit_two_pow_sub_one, Nat.testBit_shiftRight]
  by_cases h2 : 2 ≤ i
  · have e : 2 + (i - 2) = i := by omega
    rw [e]
    by_cases hik : i - 2 < k - 2
    · simp [h2, hik]
    · have hbig : y < 2 ^ i := lt_of_lt_of_le hy (Nat.pow_le_pow_right (by decide) (by omega))
      simp [Nat.testBit_lt_two_pow hbig]
  · simp [h2]

/-- The macro `align_power(x, 2)` rounds `x` up to a multiple of 4 when `x + 3`
does not wrap. -/
theorem align_power_two (ws : WordSize) (x : Nat) (hx : x + 3 < wordMod ws) :
    align_power ws x 2 = (x + 3) / 4 * 4 := by
  have hw : wordMod ws = 2 ^ (8 * sizeofADDRESS ws) := by
    cases ws <;> simp [wordMod, sizeofADDRESS]
  have hk : 2 ≤ 8 * sizeofADDRESS ws := by cases ws <;> simp [sizeofADDRESS]
  have h4 : 4 < wordMod ws := by cases ws <;> simp [wordMod, sizeofADDRESS]
  unfold align_power
  have e1 : (x + 2 ^ 2 + wordMod ws - 1) % wordMod ws = x + 3 := by
    rw [show x + 2 ^ 2 + wordMod ws - 1 = (x + 3) + wordMod ws by norm_num,
      Nat.add_mod_right, Nat.mod_eq_of_lt hx]
  have e2 : (wordMod ws - 1) * 2 ^ 2 % wordMod ws = wordMod ws - 4 := by
    rw [show (wordMod ws - 1) * 2 ^ 2 = (wordMod ws - 4) + 3 * wordMod ws by norm_num; omega,
      Nat.add_mul_mod_self_right, Nat.mod_eq_of_lt (by omega)]
  rw [e1, e2, hw]
  exact land_mask_four _ _ hk (by rw [← hw]; exact hx)

theorem pad4_length (bytes : List Byte) : (pad4 bytes).length = (bytes.length + 3) / 4 * 4 := by
  unfold pad4
  rw [List.length_append, List.length_replicate]
  omega

theorem encodeNote_length (n : Note) :
    (encodeNote n).length = sizeofNhdr + (pad4 n.name).length + (pad4 n.desc).length := by
  unfold encodeNote sizeofNhdr
  simp only [List.length_append, encodeLE_length]

theorem readBytes_append (pre bs rest : List Byte) :
    readBytes (pre ++ bs ++ rest) pre.length bs.length = bs := by
  apply List.ext_getElem
  · simp [readBytes]
  · intro i h1 h2
    simp only [readBytes, List.getElem_map, List.getElem_range, List.getD_eq_getElem?_getD]
    rw [List.append_assoc, List.getElem?_append_right (Nat.le_add_right _ _),
      Nat.add_sub_cancel_left, List.getElem?_append_left h2, List.getElem?_eq_getElem h2]
    rfl

theorem readU32_append (pre rest : List Byte) (v : Nat) (hv : v < 4294967296) :
    readU32 (pre ++ encodeLE 4 v ++ rest) pre.length = v := by
  unfold readU32
  have := readBytes_append pre (encodeLE 4 v) rest
  rw [encodeLE_length] at this
  rw [this, decodeLE_encodeLE]
  exact Nat.mod_eq_of_lt (by norm_num; exact hv)

/-- The three words the walker reads from the header of a note. -/
theorem readU32_note (pre rest : List Byte) (n : Note)
    (hn : n.name.length < 4294967296 ∧ n.desc.length < 4294967296 ∧ n.n_type < 4294967296) :
    readU32 (pre ++ encodeNote n ++ rest) pre.length = n.name.length ∧
    readU32 (pre ++ encodeNote n ++ rest) (pre.length + 4) = n.desc.length ∧
    readU32 (pre ++ encodeNote n ++ rest) (pre.length + 8) = n.n_type := by
  unfold encodeNote
  refine ⟨?_, ?_, ?_⟩
  · have := readU32_append pre (encodeLE 4 n.desc.length ++ encodeLE 4 n.n_type
      ++ pad4 n.name ++ pad4 n.desc ++ rest) n.name.length hn.1
    simpa only [List.append_assoc] using this
  · have := readU32_append (pre ++ encodeLE 4 n.name.length) (encodeLE 4 n.n_type
      ++ pad4 n.name ++ pad4 n.desc ++ rest) n.desc.length hn.2.1
    simpa only [List.append_assoc, List.length_append, encodeLE_length] using this
  · have := readU32_append (pre ++ encodeLE 4 n.name.length ++ encodeLE 4 n.desc.length)
      (pad4 n.name ++ pad4 n.desc ++ rest) n.n_type hn.2.2
    simpa only [List.append_assoc, List.length_append, encodeLE_length, Nat.add_assoc]
      using this

/-- The walk over a well-formed note segment visits its notes one by one. -/
theorem noteWalk_encodeNotes (ws : WordSize) (post : List Byte) :
    ∀ (notes : List Note) (pre : List Byte) (fuel : Nat),
    (∀ n ∈ notes, n.name.length + 3 < 4294967296 ∧ n.desc.length + 3 < 4294967296 ∧
      n.n_type < 4294967296) →
    (encodeNotes notes).length ≤ fuel →
    noteWalk ws (pre ++ encodeNotes notes ++ post) (pre.length + (encodeNotes notes).length)
      fuel pre.length = notePositions pre.length notes := by
  intro notes
  induction notes with
  | nil =>
    intro pre fuel _ _
    rcases fuel with _ | fuel
    · rfl
    · unfold noteWalk
      simp [encodeNotes, notePositions]
  | cons n rest ih =>
    intro pre fuel hsize hfuel
    have hn := hsize n (List.mem_cons_self _ _)
    have hcons : encodeNotes (n :: rest) = encodeNote n ++ encodeNotes rest := by
      simp [encodeNotes]
    have hlen := encodeNote_length n
    have h12 : sizeofNhdr = 12 := rfl
    rw [hcons, List.length_append] at hfuel
    obtain ⟨fuel, rfl⟩ : ∃ k, fuel = k + 1 := ⟨fuel - 1, by omega⟩
    have hfile : pre ++ encodeNotes (n :: rest) ++ post
        = pre ++ encodeNote n ++ (encodeNotes rest ++ post) := by
      rw [hcons]; simp only [List.append_assoc]
    obtain ⟨r1, r2, r3⟩ := readU32_note pre (encodeNotes rest ++ post) n
      ⟨by omega, by omega, hn.2.2⟩
    have hw : 4294967296 ≤ wordMod ws := by cases ws <;> simp [wordMod, sizeofADDRESS]
    unfold noteWalk notePositions
    rw [hfile, r1, r2, r3, if_pos (by rw [hcons, List.length_append]; omega)]
    simp only
    rw [align_power_two ws _ (by omega), align_power_two ws _ (by omega), ← pad4_length,
      ← pad4_length]
    have hih := ih (pre ++ encodeNote n) fuel
      (fun m hm => hsize m (List.mem_cons_of_mem _ hm)) (by omega)
    have e1 : pre.length + sizeofNhdr + (pad4 n.name).length + (pad4 n.desc).length
        = (pre ++ encodeNote n).length := by
      rw [List.length_append, hlen]; omega
    have e2 : pre.length + (encodeNotes (n :: rest)).length
        = (pre ++ encodeNote n).length + (encodeNotes rest).length := by
      rw [hcons, List.length_append, List.length_append]; omega
    have e3 : pre ++ encodeNote n ++ (encodeNotes rest ++ post)
        = pre ++ encodeNote n ++ encodeNotes rest ++ post := by
      simp only [List.append_assoc]
    rw [e1, e2, e3, hih, List.length_append]

theorem notePositions_length (notes : List Note) : ∀ p, (notePositions p notes).length = notes.length := by
  induction notes with
  | nil => intro p; rfl
  | cons n rest ih => intro p; simp [notePositions, ih]

/-- One round of the loop of `getNotes` moves on to the header of the next note. -/
theorem getNotesLoop_step (ws : WordSize) (lay : NoteLayout) (file : List Byte)
    (endPos fuel p : Nat) (r : Reducer) (hp : p < endPos) :
    ∃ r1 : Reducer, Reducer.getNotesLoop ws lay file endPos (fuel + 1) p r
      = Reducer.getNotesLoop ws lay file endPos fuel
          (p + sizeofNhdr + align_power ws (readU32 file p) 2
            + align_power ws (readU32 file (p + 4)) 2) r1 := by
  have h : Reducer.getNotesLoop ws lay file endPos (fuel + 1) p r
      = Reducer.getNotesLoop ws lay file endPos (fuel + 1) p r := rfl
  conv_rhs at h => unfold Reducer.getNotesLoop
  rw [if_pos hp] at h
  dsimp only at h
  exact ⟨_, h⟩

/-- C32. Note stepping.  `align_power(x, 2)` is the least multiple of 4 that is
at least `x`, when `x + 3` does not wrap.  From a note at the position `p`,
with name size `n` and descriptor size `d`, the walker takes the descriptor at
`p + sizeof(Nhdr) + align_power(n, 2)` and goes on to
`p + sizeof(Nhdr) + align_power(n, 2) + align_power(d, 2)`.  On a well-formed
note segment, made of notes whose sizes fit 32 bits, the walk visits every note
once, in order, with the descriptor of each at its place, and it ends within the
`p_filesz` rounds `getNotes` allows, whatever follows the segment in the file. -/
theorem C32_note_stepping (ws : WordSize) (lay : NoteLayout) (pre post : List Byte)
    (notes : List Note) (r : Reducer)
    (hsize : ∀ n ∈ notes, n.name.length + 3 < 4294967296 ∧ n.desc.length + 3 < 4294967296 ∧
      n.n_type < 4294967296) :
    (∀ x, x + 3 < wordMod ws →
      align_power ws x 2 % 4 = 0 ∧ x ≤ align_power ws x 2 ∧ align_power ws x 2 < x + 4) ∧
    (∀ (file : List Byte) (endPos fuel p : Nat), p < endPos →
      noteWalk ws file endPos (fuel + 1) p
        = (readU32 file (p + 8), p + sizeofNhdr + align_power ws (readU32 file p) 2)
            :: noteWalk ws file endPos fuel
                 (p + sizeofNhdr + align_power ws (readU32 file p) 2
                   + align_power ws (readU32 file (p + 4)) 2)) ∧
    (∀ (file : List Byte) (endPos fuel p : Nat) (r0 : Reducer), p < endPos →
      ∃ r1 : Reducer, Reducer.getNotesLoop ws lay file endPos (fuel + 1) p r0
        = Reducer.getNotesLoop ws lay file endPos fuel
            (p + sizeofNhdr + align_power ws (readU32 file p) 2
              + align_power ws (readU32 file (p + 4)) 2) r1) ∧
    (∀ fuel, (encodeNotes notes).length ≤ fuel →
      noteWalk ws (pre ++ encodeNotes notes ++ post) (pre.length + (encodeNotes notes).length)
        fuel pre.length = notePositions pre.length notes) ∧
    (notePositions pre.length notes).length = notes.length ∧
    (Reducer.getNotesLoop ws lay (pre ++ encodeNotes notes ++ post)
        (pre.length + (encodeNotes notes).length) (encodeNotes notes).length pre.length
        r).stackPointerAddresses
      = r.stackPointerAddresses ++
          ((notePositions pre.length notes).filter (fun n => n.1 = NT_PRSTATUS)).map
            (noteStackPointer ws lay (pre ++ encodeNotes notes ++ post)) := by
  refine ⟨?_, ?_, ?_, ?_, notePositions_length notes _, ?_⟩
  · intro x hx
    rw [align_power_two ws x hx]
    omega
  · intro file endPos fuel p hp
    conv_lhs => unfold noteWalk
    rw [if_pos hp]
  · intro file endPos fuel p r0 hp
    exact getNotesLoop_step ws lay file endPos fuel p r0 hp
  · intro fuel hfuel
    exact noteWalk_encodeNotes ws post notes pre fuel hsize hfuel
  · rw [(getNotesLoop_notes ws lay _ _ _ pre.length r).1,
      noteWalk_encodeNotes ws post notes pre _ hsize (le_refl _)]

set_option maxRecDepth 16384 in
/-- Witness of C32: a segment of two notes at the file offset 4, followed by other
bytes. -/
theorem C32_note_stepping_witness :
    noteWalk .w32 ([0, 0, 0, 0] ++ encodeNotes exampleNoteList ++ [255, 255, 255, 255])
        (4 + (encodeNotes exampleNoteList).length) (encodeNotes exampleNoteList).length 4
      = [(NT_PRPSINFO, 24), (6, 52)] ∧
    (encodeNotes exampleNoteList).length = 52 :=
  ⟨((C32_note_stepping .w32 i386Layout [0, 0, 0, 0] [255, 255, 255, 255] exampleNoteList
      (Reducer.new exampleStaticCore none 0) (by decide)).2.2.2.1 _ (le_refl _)).trans
      (by decide), by decide⟩

/-! ## The load bias -/

theorem getNotesLoop_phdrAddr (ws : WordSize) (lay : NoteLayout) (file : List Byte) (endPos : Nat)
    (fuel : Nat) : ∀ (current : Nat) (r : Reducer),
    (Reducer.getNotesLoop ws lay file endPos fuel current r).phdrAddr =
      ((noteWalk ws file endPos fuel current).filter (fun n => n.1 = NT_AUXV)).foldl
        (fun acc n => (Reducer.auxvScan ws file (file.length + 1) n.2).getD acc) r.phdrAddr := by
  induction fuel with
  | zero =>
    intro current r
    simp [Reducer.getNotesLoop, noteWalk]
  | succ fuel ih =>
    intro current r
    unfold Reducer.getNotesLoop noteWalk
    by_cases hc : current < endPos
    · simp only [hc, if_true]
      by_cases h1 : readU32 file (current + 8) = NT_PRSTATUS
      · simp only [h1, if_true]
        rw [ih]
        have : ¬ NT_PRSTATUS = NT_AUXV := by decide
        simp [this]
      · simp only [h1, if_false]
        by_cases h2 : readU32 file (current + 8) = NT_PRPSINFO
        · simp only [h2, if_true]
          rw [ih]
          have : ¬ NT_PRPSINFO = NT_AUXV := by decide
          simp [this]
        · simp only [h2, if_false]
          by_cases h3 : readU32 file (current + 8) = NT_AUXV
          · simp only [h3, if_true]
            rcases auxvScan_cases : Reducer.auxvScan ws file (file.length + 1)
                (current + sizeofNhdr + align_power ws (readU32 file current) 2) with _ | v
            · simp only
              rw [ih]
              simp [auxvScan_cases]
            · simp only
              rw [ih]
              simp [auxvScan_cases]
          · simp only [h3, if_false]
            rw [ih]
            simp [h3]
    · simp [hc]

/-- The scan of an auxiliary vector stops at the first `AT_PHDR` entry when no
`AT_NULL` entry comes before it. -/
theorem auxvScan_first (ws : WordSize) (file : List Byte) :
    ∀ (k fuel aux : Nat), k < fuel →
    (∀ j, j < k → readWord ws file (aux + j * (2 * sizeofADDRESS ws)) ≠ AT_NULL ∧
      readWord ws file (aux + j * (2 * sizeofADDRESS ws)) ≠ AT_PHDR) →
    readWord ws file (aux + k * (2 * sizeofADDRESS ws)) = AT_PHDR →
    Reducer.auxvScan ws file fuel aux
      = some (readWord ws file (aux + k * (2 * sizeofADDRESS ws) + sizeofADDRESS ws)) := by
  intro k
  induction k with
  | zero =>
    intro fuel aux hf _ hk
    obtain ⟨fuel, rfl⟩ : ∃ f, fuel = f + 1 := ⟨fuel - 1, by omega⟩
    simp only [Nat.zero_mul, Nat.add_zero] at hk ⊢
    unfold Reducer.auxvScan
    have : ¬ AT_PHDR = AT_NULL := by decide
    rw [hk, if_neg this, if_pos rfl]
  | succ k ih =>
    intro fuel aux hf hbefore hk
    obtain ⟨fuel, rfl⟩ : ∃ f, fuel = f + 1 := ⟨fuel - 1, by omega⟩
    have h0 := hbefore 0 (by omega)
    simp only [Nat.zero_mul, Nat.add_zero] at h0
    unfold Reducer.auxvScan
    rw [if_neg h0.1, if_neg h0.2]
    have e : ∀ j, aux + 2 * sizeofADDRESS ws + j * (2 * sizeofADDRESS ws)
        = aux + (j + 1) * (2 * sizeofADDRESS ws) := by
      intro j
      ring
    have := ih fuel (aux + 2 * sizeofADDRESS ws) (by omega)
      (fun j hj => by rw [e]; exact hbefore (j + 1) (by omega)) (by rw [e]; exact hk)
    rw [e] at this
    exact this

theorem bias_int (M sh x pv : Nat) (hpv : pv < M) :
    (((sh + (x + M - pv) % M) % M : Nat) : Int) = ((sh : Int) + ((x : Int) - (pv : Int))) % (M : Int) := by
  have h1 : ((x + M - pv : Nat) : Int) = (x : Int) - pv + M := by
    rw [Nat.cast_sub (by omega)]
    push_cast
    ring
  rw [Int.ofNat_emod, Nat.cast_add, Int.ofNat_emod, h1, Int.add_emod_self, Int.add_emod,
    Int.emod_emod, ← Int.add_emod]

theorem getNotesLoop_interpAddress (ws : WordSize) (lay : NoteLayout) (file : List Byte)
    (endPos : Nat) (fuel : Nat) : ∀ (current : Nat) (r : Reducer),
    (Reducer.getNotesLoop ws lay file endPos fuel current r).interpAddress = r.interpAddress := by
  induction fuel with
  | zero =>
    intro current r
    rfl
  | succ fuel ih =>
    intro current r
    unfold Reducer.getNotesLoop
    by_cases hc : current < endPos
    · simp only [hc, if_true]
      by_cases h1 : readU32 file (current + 8) = NT_PRSTATUS
      · simp only [h1, if_true]
        exact ih _ _
      · simp only [h1, if_false]
        by_cases h2 : readU32 file (current + 8) = NT_PRPSINFO
        · simp only [h2, if_true]
          exact ih _ _
        · simp only [h2, if_false]
          by_cases h3 : readU32 file (current + 8) = NT_AUXV
          · simp only [h3, if_true]
            rcases Reducer.auxvScan ws file (file.length + 1)
                (current + sizeofNhdr + align_power ws (readU32 file current) 2) with _ | v
            · exact ih _ _
            · exact ih _ _
          · simp only [h3, if_false]
            exact ih _ _
    · simp [hc]

/-- What `getNotes` leaves in `phdrAddr` and `interpAddress` of a fresh reducer. -/
theorem getNotes_phdrAddr (ws : WordSize) (lay : NoteLayout) (c : ElfCoreReader)
    (output : Option String) (heap : Nat) (r : Reducer)
    (h : Reducer.getNotes ws lay (Reducer.new c output heap) = (true, r)) :
    r.phdrAddr = ((coreNotes ws c).filter (fun n => n.1 = NT_AUXV)).foldl
        (fun acc n => (Reducer.auxvScan ws c.file (c.file.length + 1) n.2).getD acc) 0 ∧
    r.interpAddress = 0 := by
  rcases hseg : c.getSegmentByType PT_NOTE with _ | noteSegment
  · unfold Reducer.getNotes at h
    rw [show (Reducer.new c output heap).coreReader = c from rfl, hseg] at h
    simp at h
  · rw [getNotes_eq ws lay (Reducer.new c output heap) noteSegment hseg] at h
    have h2 := congrArg Prod.snd h
    simp only at h2
    have hn : coreNotes ws c = noteWalk ws c.file
        (noteSegment.p_offset + noteSegment.p_filesz) noteSegment.p_filesz
        noteSegment.p_offset := by
      unfold coreNotes
      rw [hseg]
    rw [← h2, hn, getNotesLoop_phdrAddr, getNotesLoop_interpAddress]
    exact ⟨rfl, rfl⟩

/-- C33 (as amended). Load bias, for a core on which `getNotes` succeeds and an
executable with a `PT_PHDR` segment.  The `AT_PHDR` value recorded from the
`NT_AUXV` note of the core is the `a_val` of the first `AT_PHDR` entry, when no
`AT_NULL` entry comes before it.  When the executable has a `.dynamic` section,
`dynamicAddressFromExecutable` is `sh_addr(.dynamic) + (AT_PHDR - p_vaddr)`
modulo `2^w`, and when it also has an `.interp` section `interpAddress` is
`sh_addr(.interp) + (AT_PHDR - p_vaddr)` modulo `2^w`; both equal the section
addresses when `AT_PHDR = p_vaddr`.  When the executable has no `.dynamic`
section, neither address is computed: `interpAddress` stays 0. -/
theorem C33_load_bias (ws : WordSize) (lay : NoteLayout) (c : ElfCoreReader) (b : BinaryFacts)
    (output : Option String) (heap : Nat) (r : Reducer) (phdr : Phdr)
    (hnotes : Reducer.getNotes ws lay (Reducer.new c output heap) = (true, r))
    (hphdr : b.ptPhdr = some phdr) (hpv : phdr.p_vaddr < wordMod ws) :
    (∀ (note : Nat × Nat) (k : Nat),
      (coreNotes ws c).filter (fun n => n.1 = NT_AUXV) = [note] →
      (∀ j, j < k → readWord ws c.file (note.2 + j * (2 * sizeofADDRESS ws)) ≠ AT_NULL ∧
        readWord ws c.file (note.2 + j * (2 * sizeofADDRESS ws)) ≠ AT_PHDR) →
      readWord ws c.file (note.2 + k * (2 * sizeofADDRESS ws)) = AT_PHDR →
      r.phdrAddr = readWord ws c.file (note.2 + k * (2 * sizeofADDRESS ws) + sizeofADDRESS ws)) ∧
    (∀ sh_addr sh_size, b.dynamicSection = some (sh_addr, sh_size) →
      ∃ r2, Reducer.initalize ws lay (some c) (some b) output heap = some (true, some r2) ∧
        r2.phdrAddr = r.phdrAddr ∧
        (r2.dynamicAddressFromExecutable : Int)
          = ((sh_addr : Int) + ((r.phdrAddr : Int) - (phdr.p_vaddr : Int))) % (wordMod ws : Int) ∧
        r2.dynamicSectionSizeFromExecutable = sh_size ∧
        (r.phdrAddr = phdr.p_vaddr → sh_addr < wordMod ws →
          r2.dynamicAddressFromExecutable = sh_addr) ∧
        (∀ ia data, b.interpSection = some (ia, data) →
          (r2.interpAddress : Int)
            = ((ia : Int) + ((r.phdrAddr : Int) - (phdr.p_vaddr : Int))) % (wordMod ws : Int) ∧
          (r.phdrAddr = phdr.p_vaddr → ia < wordMod ws → r2.interpAddress = ia))) ∧
    (b.dynamicSection = none →
      Reducer.initalize ws lay (some c) (some b) output heap = some (true, some r) ∧
      r.interpAddress = 0) := by
  obtain ⟨hp, hi⟩ := getNotes_phdrAddr ws lay c output heap r hnotes
  have hsame : ∀ x, x < wordMod ws →
      (x + (phdr.p_vaddr + wordMod ws - phdr.p_vaddr) % wordMod ws) % wordMod ws = x := by
    intro x hx
    rw [show phdr.p_vaddr + wordMod ws - phdr.p_vaddr = wordMod ws by omega, Nat.mod_self,
      Nat.add_zero, Nat.mod_eq_of_lt hx]
  refine ⟨?_, ?_, ?_⟩
  · intro note k hfilter hbefore hk
    rw [hp, hfilter]
    have hlt : k < c.file.length + 1 := by
      by_contra hge
      have : readWord ws c.file (note.2 + k * (2 * sizeofADDRESS ws)) = 0 :=
        readWord_of_ge ws c.file _ (by
          have : k ≤ k * (2 * sizeofADDRESS ws) :=
            Nat.le_mul_of_pos_right _ (by cases ws <;> decide)
          omega)
      rw [this] at hk
      exact absurd hk (by decide)
    simp only [List.foldl_cons, List.foldl_nil]
    rw [auxvScan_first ws c.file k _ note.2 hlt hbefore hk]
    rfl
  · intro sh_addr sh_size hd
    unfold Reducer.initalize
    simp only [hnotes, hphdr, hd]
    rcases hint : b.interpSection with _ | ⟨ia, data⟩
    · refine ⟨_, rfl, rfl, bias_int _ _ _ _ hpv, rfl, ?_, ?_⟩
      · intro he hs
        show (sh_addr + (r.phdrAddr + wordMod ws - phdr.p_vaddr) % wordMod ws) % wordMod ws = _
        rw [he]
        exact hsame _ hs
      · intro ia data h
        cases h
    · refine ⟨_, rfl, rfl, bias_int _ _ _ _ hpv, rfl, ?_, ?_⟩
      · intro he hs
        show (sh_addr + (r.phdrAddr + wordMod ws - phdr.p_vaddr) % wordMod ws) % wordMod ws = _
        rw [he]
        exact hsame _ hs
      · intro ia2 data2 h
        simp only [Option.some.injEq, Prod.mk.injEq] at h
        obtain ⟨rfl, rfl⟩ := h
        refine ⟨bias_int _ _ _ _ hpv, ?_⟩
        intro he hs
        show (ia + (r.phdrAddr + wordMod ws - phdr.p_vaddr) % wordMod ws) % wordMod ws = _
        rw [he]
        exact hsame _ hs
  · intro hd
    unfold Reducer.initalize
    simp only [hnotes, hphdr, hd]
    exact ⟨trivial, hi⟩

set_option maxRecDepth 16384 in
/-- Witness of C33: the static example core, whose `NT_AUXV` note holds
`AT_PHDR = 0x08048034` as its first entry, with an executable linked at address
0 whose `PT_PHDR` is at `0x34`: the bias is `0x08048000`. -/
theorem C33_load_bias_witness :
    (Reducer.getNotes .w32 i386Layout (Reducer.new exampleStaticCore (some "core.reduced")
        0)).2.phdrAddr = 134512692 ∧
    ∃ r2, Reducer.initalize .w32 i386Layout (some exampleStaticCore) (some relocatedBinary)
        (some "core.reduced") 0 = some (true, some r2) ∧
      (r2.dynamicAddressFromExecutable : Int) = ((7936 : Int) + (134512692 - 52)) % 4294967296 ∧
      (r2.interpAddress : Int) = ((340 : Int) + (134512692 - 52)) % 4294967296 := by
  have h := C33_load_bias .w32 i386Layout exampleStaticCore relocatedBinary
    (some "core.reduced") 0
    (Reducer.getNotes .w32 i386Layout (Reducer.new exampleStaticCore (some "core.reduced") 0)).2
    { zeroPhdr with p_type := PT_PHDR, p_vaddr := 52 } (by rfl) rfl (by decide)
  have h1 : (Reducer.getNotes .w32 i386Layout (Reducer.new exampleStaticCore
      (some "core.reduced") 0)).2.phdrAddr = 134512692 :=
    (h.1 (6, 444) 0 (by decide) (fun j hj => absurd hj (Nat.not_lt_zero j)) (by decide)).trans
      (by decide)
  obtain ⟨r2, e, _, hd, _, _, hint⟩ := h.2.1 7936 24 rfl
  obtain ⟨hi, _⟩ := hint 340 (some [47, 108, 100, 46, 115, 111, 0]) rfl
  rw [h1] at hd hi
  exact ⟨h1, r2, e, hd, hi⟩

set_option maxRecDepth 16384 in
/-- Counterexample to C33 as stated: an executable with a `PT_PHDR` segment and
an `.interp` section at `0x08048154` and without a `.dynamic` section, paired
with the static example core, whose `AT_PHDR` equals the `p_vaddr` of
`PT_PHDR`.  `initalize` succeeds and `interpAddress` is 0, not the address of the
section. -/
theorem C33_interp_without_dynamic_counterexample :
    (Reducer.initalize .w32 i386Layout (some exampleStaticCore) (some interpOnlyBinary)
        (some "core.reduced") 0).map
      (fun res => (res.1, res.2.map (fun r => (r.phdrAddr, r.interpAddress))))
      = some (true, some (134512692, 0)) ∧
    interpOnlyBinary.interpSection.map (fun s => s.1) = some 134512980 ∧
    interpOnlyBinary.ptPhdr.map (fun ph => ph.p_vaddr) = some 134512692 := by
  decide

/-! ## The name strings of the copied link-map records -/

theorem originalChain_round (ws : WordSize) (r : Reducer) (fuel start lmb : Nat)
    (hstart : start ≠ 0) (hrec : r.getBufferAtAddress ws start = some lmb) :
    originalChain ws r (fuel + 1) start
      = (originalChain ws r fuel (readLinkMap ws r.coreReader.file lmb).nextLinkMapStruct).map
          (fun rest => (readLinkMap ws r.coreReader.file lmb,
            (match r.getBufferAtAddress ws (readWord ws r.coreReader.file (lmb + LM_NAME ws)) with
             | some off => some (r.coreReader.file.drop off)
             | none =>
               if readWord ws r.coreReader.file (lmb + LM_NAME ws) = r.interpAddress
               then r.interpreter else none)) :: rest) := by
  rw [LM_NAME_eq]
  conv_lhs => unfold originalChain
  rw [if_neg hstart, hrec]
  rfl

/-- One round of the loop of `copyLinkMapToOutputFile` followed by the rest of the
chain: the loop returns, and the name handed to the writer in this round stands,
with its NUL, right after the record in the finished buffer. -/
theorem copyLinkMapLoop_round_name (ws : WordSize) (r : Reducer) (fuel : Nat) (w : RawElfWriter)
    (start lmb : Nat) (items : List LinkMapItem) (name : Option (List Byte))
    (hstart : start ≠ 0) (hrec : r.getBufferAtAddress ws start = some lmb)
    (hchain : originalChain ws r fuel (readLinkMap ws r.coreReader.file lmb).nextLinkMapStruct
      = some items)
    (hname : (match r.getBufferAtAddress ws (readWord ws r.coreReader.file (lmb + LM_NAME ws)) with
             | some off => some (r.coreReader.file.drop off)
             | none =>
               if readWord ws r.coreReader.file (lmb + LM_NAME ws) = r.interpAddress
               then r.interpreter else none) = name)
    (hfit : w.offset + (sizeofLinkMap ws + strlen (name.getD []) + 1) + recordsSize ws items
      < wordMod ws) :
    ∃ w2, Reducer.copyLinkMapLoop ws r (fuel + 1) w start = some w2 ∧
      w2 = addLinkMapSegments ws w ((readLinkMap ws r.coreReader.file lmb, name) :: items) ∧
      bufferBytes w2.buffer (w.offset + sizeofLinkMap ws) (strlen (name.getD []) + 1)
        = cstring (name.getD []) ++ [0] := by
  have hsz : recordSize ws (readLinkMap ws r.coreReader.file lmb, name)
      = sizeofLinkMap ws + strlen (name.getD []) + 1 := rfl
  refine ⟨_, ?_, rfl, ?_⟩
  · rw [copyLinkMapLoop_eq, originalChain_round ws r fuel start lmb hstart hrec, hchain, hname]
    rfl
  · obtain ⟨h1, _, _, _, _, _, _, _, h9⟩ :=
      addLinkMapSegment_step ws w (readLinkMap ws r.coreReader.file lmb, name) (by omega)
    obtain ⟨_, _, i3⟩ := addLinkMapSegments_below ws items
      (w.addLinkMapSegment ws (some (readLinkMap ws r.coreReader.file lmb)) name).2
      (by rw [h1]; omega)
    rw [addLinkMapSegments_cons, ← h9]
    apply bufferBytes_congr
    intro j _ hj
    exact i3 j (by rw [h1, hsz]; omega)

theorem getBufferAtAddress_covered (ws : WordSize) (r : Reducer) (va off : Nat)
    (hva : va < wordMod ws) (h : r.getBufferAtAddress ws va = some off) :
    ∃ i : Nat, i ≤ r.coreReader.elfHeader.e_phnum ∧
      (r.coreReader.programHeaders i).p_vaddr ≤ va ∧
      va < ((r.coreReader.programHeaders i).p_vaddr + (r.coreReader.programHeaders i).p_filesz)
        % wordMod ws ∧
      off = (r.coreReader.programHeaders i).p_offset + (va - (r.coreReader.programHeaders i).p_vaddr) := by
  unfold Reducer.getBufferAtAddress at h
  rcases hs : r.coreReader.getSegmentByAddress ws va with _ | ph
  · rw [hs] at h; cases h
  · rw [hs] at h
    simp only [Option.some.injEq] at h
    obtain ⟨i, hi, e, lo, hi2⟩ := getSegmentByAddress_some ws r.coreReader va ph hs
    subst e
    refine ⟨i, hi, lo, hi2, ?_⟩
    rw [← h]
    congr 1
    have e1 : va + wordMod ws - (r.coreReader.programHeaders i).p_vaddr
        = (va - (r.coreReader.programHeaders i).p_vaddr) + wordMod ws := by omega
    rw [e1, Nat.add_mod_right, Nat.mod_eq_of_lt (by omega)]

theorem readWord_lt_wordMod (ws : WordSize) (src : List Byte) (off : Nat) :
    readWord ws src off < wordMod ws := by
  have h := decodeLE_lt (readBytes src off (sizeofADDRESS ws))
  have hl : (readBytes src off (sizeofADDRESS ws)).length = sizeofADDRESS ws := by
    simp [readBytes]
  rw [hl] at h
  unfold readWord
  cases ws
  · exact h
  · exact h

theorem getSegmentByAddress_found (ws : WordSize) (c : ElfCoreReader) (toMatch j : Nat)
    (hj : j < c.elfHeader.e_phnum)
    (hwrap : ∀ i, i < c.elfHeader.e_phnum →
      (c.programHeaders i).p_vaddr + (c.programHeaders i).p_filesz < wordMod ws)
    (hord : ∀ i k, i < k → k < c.elfHeader.e_phnum →
      (c.programHeaders i).p_vaddr + (c.programHeaders i).p_filesz ≤ (c.programHeaders k).p_vaddr)
    (hlo : (c.programHeaders j).p_vaddr ≤ toMatch)
    (hhi : toMatch < (c.programHeaders j).p_vaddr + (c.programHeaders j).p_filesz) :
    c.getSegmentByAddress ws toMatch = some (c.programHeaders j) :=
  getSegmentByAddressLoop_found ws c toMatch j hj hwrap hord hlo hhi _ 0 _ (le_refl _)
    (by omega) (by omega) (le_refl _) (by omega)

/-- C34. Interpreter-name fallback in copy mode.  In a round of the loop of
`copyLinkMapToOutputFile` on the record found at `start`, with `va` the word at
byte offset `LM_NAME` of the record and room in the address width for the
records of the chain: when `getBufferAtAddress va` finds no segment, `va` equals
`interpAddress` and an interpreter path was read from `.interp`, the loop
returns and the name stored after the record is that path and a NUL; when
`getBufferAtAddress va` finds a segment, the name stored is the string found at
`va` in the core file, up to its first NUL, and a NUL; when no segment is found
and `va` differs from `interpAddress`, the name stored is empty.  A segment found
for `va` is a header at an index up to `e_phnum` whose file range covers `va`,
and the string is read at `p_offset + (va - p_vaddr)`; when no header at such an
index covers `va`, none is found; and on a table in address order whose file
ranges neither wrap nor overlap, every `va` covered by a header of the table is
found in it. -/
theorem C34_interpreter_name_fallback (ws : WordSize) (r : Reducer) (fuel : Nat)
    (w : RawElfWriter) (start lmb : Nat) (items : List LinkMapItem)
    (hstart : start ≠ 0) (hrec : r.getBufferAtAddress ws start = some lmb)
    (hchain : originalChain ws r fuel (readLinkMap ws r.coreReader.file lmb).nextLinkMapStruct
      = some items) :
    (∀ path, r.getBufferAtAddress ws (readWord ws r.coreReader.file (lmb + LM_NAME ws)) = none →
      readWord ws r.coreReader.file (lmb + LM_NAME ws) = r.interpAddress →
      r.interpreter = some path →
      w.offset + (sizeofLinkMap ws + strlen path + 1) + recordsSize ws items < wordMod ws →
      ∃ w2, Reducer.copyLinkMapLoop ws r (fuel + 1) w start = some w2 ∧
        w2 = addLinkMapSegments ws w
          ((readLinkMap ws r.coreReader.file lmb, some path) :: items) ∧
        bufferBytes w2.buffer (w.offset + sizeofLinkMap ws) (strlen path + 1)
          = cstring path ++ [0]) ∧
    (∀ off, r.getBufferAtAddress ws (readWord ws r.coreReader.file (lmb + LM_NAME ws)) = some off →
      w.offset + (sizeofLinkMap ws + strlen (r.coreReader.file.drop off) + 1)
        + recordsSize ws items < wordMod ws →
      ∃ w2, Reducer.copyLinkMapLoop ws r (fuel + 1) w start = some w2 ∧
        w2 = addLinkMapSegments ws w
          ((readLinkMap ws r.coreReader.file lmb, some (r.coreReader.file.drop off)) :: items) ∧
        bufferBytes w2.buffer (w.offset + sizeofLinkMap ws)
            (strlen (r.coreReader.file.drop off) + 1)
          = cstring (r.coreReader.file.drop off) ++ [0]) ∧
    (r.getBufferAtAddress ws (readWord ws r.coreReader.file (lmb + LM_NAME ws)) = none →
      readWord ws r.coreReader.file (lmb + LM_NAME ws) ≠ r.interpAddress →
      w.offset + (sizeofLinkMap ws + 1) + recordsSize ws items < wordMod ws →
      ∃ w2, Reducer.copyLinkMapLoop ws r (fuel + 1) w start = some w2 ∧
        bufferBytes w2.buffer (w.offset + sizeofLinkMap ws) 1 = [0]) ∧
    (∀ off, r.getBufferAtAddress ws (readWord ws r.coreReader.file (lmb + LM_NAME ws)) = some off →
      ∃ i : Nat, i ≤ r.coreReader.elfHeader.e_phnum ∧
        (r.coreReader.programHeaders i).p_vaddr ≤ readWord ws r.coreReader.file (lmb + LM_NAME ws) ∧
        readWord ws r.coreReader.file (lmb + LM_NAME ws)
          < ((r.coreReader.programHeaders i).p_vaddr + (r.coreReader.programHeaders i).p_filesz)
              % wordMod ws ∧
        off = (r.coreReader.programHeaders i).p_offset
          + (readWord ws r.coreReader.file (lmb + LM_NAME ws)
              - (r.coreReader.programHeaders i).p_vaddr)) ∧
    ((∀ i, i ≤ r.coreReader.elfHeader.e_phnum →
        ¬ ((r.coreReader.programHeaders i).p_vaddr ≤ readWord ws r.coreReader.file (lmb + LM_NAME ws) ∧
           readWord ws r.coreReader.file (lmb + LM_NAME ws)
            < ((r.coreReader.programHeaders i).p_vaddr + (r.coreReader.programHeaders i).p_filesz)
                % wordMod ws)) →
      r.getBufferAtAddress ws (readWord ws r.coreReader.file (lmb + LM_NAME ws)) = none) ∧
    ((∀ i, i < r.coreReader.elfHeader.e_phnum →
        (r.coreReader.programHeaders i).p_vaddr + (r.coreReader.programHeaders i).p_filesz
          < wordMod ws) →
      (∀ i k, i < k → k < r.coreReader.elfHeader.e_phnum →
        (r.coreReader.programHeaders i).p_vaddr + (r.coreReader.programHeaders i).p_filesz
          ≤ (r.coreReader.programHeaders k).p_vaddr) →
      ∀ j, j < r.coreReader.elfHeader.e_phnum →
        (r.coreReader.programHeaders j).p_vaddr ≤ readWord ws r.coreReader.file (lmb + LM_NAME ws) →
        readWord ws r.coreReader.file (lmb + LM_NAME ws)
          < (r.coreReader.programHeaders j).p_vaddr + (r.coreReader.programHeaders j).p_filesz →
        r.getBufferAtAddress ws (readWord ws r.coreReader.file (lmb + LM_NAME ws))
          = some ((r.coreReader.programHeaders j).p_offset
              + (readWord ws r.coreReader.file (lmb + LM_NAME ws)
                  - (r.coreReader.programHeaders j).p_vaddr))) := by
  have hva := readWord_lt_wordMod ws r.coreReader.file (lmb + LM_NAME ws)
  refine ⟨?_, ?_, ?_, ?_, ?_, ?_⟩
  · intro path hnone heq hint hfit
    refine copyLinkMapLoop_round_name ws r fuel w start lmb items (some path) hstart hrec hchain
      ?_ hfit
    rw [hnone]
    simp only [heq, if_true, hint]
  · intro off hsome hfit
    refine copyLinkMapLoop_round_name ws r fuel w start lmb items
      (some (r.coreReader.file.drop off)) hstart hrec hchain ?_ hfit
    rw [hsome]
  · intro hnone hne hfit
    obtain ⟨w2, h1, _, h3⟩ := copyLinkMapLoop_round_name ws r fuel w start lmb items none hstart
      hrec hchain (by rw [hnone]; simp only [hne, if_false]) hfit
    exact ⟨w2, h1, h3⟩
  · intro off h
    exact getBufferAtAddress_covered ws r _ off hva h
  · intro hno
    rcases hb : r.getBufferAtAddress ws (readWord ws r.coreReader.file (lmb + LM_NAME ws)) with _ | off
    · rfl
    · obtain ⟨i, hi, lo, hi2, _⟩ := getBufferAtAddress_covered ws r _ off hva hb
      exact absurd ⟨lo, hi2⟩ (hno i hi)
  · intro hwrap hord j hj lo hi
    unfold Reducer.getBufferAtAddress
    rw [getSegmentByAddress_found ws r.coreReader _ j hj hwrap hord lo hi]
    simp only [Option.some.injEq]
    congr 1
    generalize readWord ws r.coreReader.file (lmb + LM_NAME ws) = va at hva lo hi
    have e1 : va + wordMod ws - (r.coreReader.programHeaders j).p_vaddr
        = (va - (r.coreReader.programHeaders j).p_vaddr) + wordMod ws := by omega
    rw [e1, Nat.add_mod_right, Nat.mod_eq_of_lt (by omega)]

set_option maxRecDepth 65536 in
/-- Witness of C34: the chain of `interpNameCore`.  The first record's name
address `0x08048154` is in no segment of the core and equals `interpAddress`:
the name stored is `/ld.so`, the path of the executable's `.interp`.  The second
record's name address is in the data segment: the name stored is `libc.so`, read
from the core at file offset 532. -/
theorem C34_interpreter_name_fallback_witness :
    interpNameReducer.interpAddress = 134512980 ∧
    (∃ w2, Reducer.copyLinkMapLoop .w32 interpNameReducer 16
        (interpNameReducer.coreWriter.getD RawElfWriter.new) 134516736 = some w2 ∧
      w2 = addLinkMapSegments .w32 (interpNameReducer.coreWriter.getD RawElfWriter.new)
        ((readLinkMap .w32 interpNameReducer.coreReader.file 492,
            some [47, 108, 100, 46, 115, 111]) ::
          ((originalChain .w32 interpNameReducer 15 134516756).getD [])) ∧
      bufferBytes w2.buffer
        ((interpNameReducer.coreWriter.getD RawElfWriter.new).offset + sizeofLinkMap .w32)
        (strlen [47, 108, 100, 46, 115, 111] + 1)
        = cstring [47, 108, 100, 46, 115, 111] ++ [0]) ∧
    (∃ w2, Reducer.copyLinkMapLoop .w32 interpNameReducer 15
        (interpNameReducer.coreWriter.getD RawElfWriter.new) 134516756 = some w2 ∧
      w2 = addLinkMapSegments .w32 (interpNameReducer.coreWriter.getD RawElfWriter.new)
        [(readLinkMap .w32 interpNameReducer.coreReader.file 512,
            some (interpNameReducer.coreReader.file.drop 532))] ∧
      bufferBytes w2.buffer
        ((interpNameReducer.coreWriter.getD RawElfWriter.new).offset + sizeofLinkMap .w32)
        (strlen (interpNameReducer.coreReader.file.drop 532) + 1)
        = cstring (interpNameReducer.coreReader.file.drop 532) ++ [0]) ∧
    cstring (interpNameReducer.coreReader.file.drop 532) = [108, 105, 98, 99, 46, 115, 111] :=
  ⟨by decide,
   (C34_interpreter_name_fallback .w32 interpNameReducer 15
      (interpNameReducer.coreWriter.getD RawElfWriter.new) 134516736 492
      ((originalChain .w32 interpNameReducer 15 134516756).getD []) (by decide) (by decide)
      (by decide)).1 [47, 108, 100, 46, 115, 111] (by decide) (by decide) (by decide) (by decide),
   (C34_interpreter_name_fallback .w32 interpNameReducer 14
      (interpNameReducer.coreWriter.getD RawElfWriter.new) 134516756 512 [] (by decide)
      (by decide) (by decide)).2.1 532 (by decide) (by decide),
   by decide⟩

/-! ## The capacity of the writer's buffer -/

/-- The state after `initalize` on a fresh writer and `copyElfHeader`: the cursor
stands after the header table and the capacity leaves `initalSizeOfData` bytes
behind it. -/
theorem initalize_copyElfHeader_capacity (ws : WordSize) (env : Env) (name : Option String)
    (n initial : Nat) (hdr : Ehdr) (w : RawElfWriter)
    (hinit : RawElfWriter.new.initalize ws env name n initial = (true, w))
    (hfit : sizeofEhdr ws + n * sizeofPhdr ws + initial < wordMod ws) :
    (w.copyElfHeader ws (some hdr)).offset = sizeofEhdr ws + n * sizeofPhdr ws ∧
    (w.copyElfHeader ws (some hdr)).currentBufferSize
      = sizeofEhdr ws + n * sizeofPhdr ws + initial := by
  unfold RawElfWriter.initalize at hinit
  rcases name with _ | name
  · simp at hinit
  · simp only at hinit
    split_ifs at hinit with h1 h2
    all_goals try (simp at hinit)
    subst hinit
    simp only [RawElfWriter.copyElfHeader, RawElfWriter.new, Nat.zero_add]
    rw [Nat.mul_comm (sizeofPhdr ws) n, Nat.mod_eq_of_lt (a := sizeofEhdr ws) (by omega),
      Nat.mod_eq_of_lt (a := sizeofEhdr ws + n * sizeofPhdr ws) (by omega), Nat.mod_eq_of_lt hfit]
    exact ⟨rfl, rfl⟩

theorem copySegment_capacity (ws : WordSize) (w : RawElfWriter) (h : Phdr) (d : List Byte)
    (od : Option (List Byte)) (oo os : Nat)
    (hinv : w.offset ≤ w.currentBufferSize)
    (hslot : w.currentProgramHeader < w.numProgramHeaders)
    (hfit : w.offset + h.p_filesz < wordMod ws)
    (hcap : w.currentBufferSize < w.offset + h.p_filesz →
      w.currentBufferSize + h.p_filesz < wordMod ws)
    (hsum : oo + os < wordMod ws) :
    (w.copySegment ws (some h) (some d) od oo os).2.offset = w.offset + h.p_filesz ∧
    (w.copySegment ws (some h) (some d) od oo os).2.offset
      ≤ (w.copySegment ws (some h) (some d) od oo os).2.currentBufferSize ∧
    (w.copySegment ws (some h) (some d) od oo os).2.currentBufferSize
      = (if w.currentBufferSize < w.offset + h.p_filesz then w.currentBufferSize + h.p_filesz
         else w.currentBufferSize) ∧
    (∀ j, (j < w.offset ∨ w.offset + h.p_filesz ≤ j) →
      (w.copySegment ws (some h) (some d) od oo os).2.buffer j = w.buffer j) := by
  rw [copySegment_eq ws w h d od oo os hslot]
  simp only [Nat.mod_eq_of_lt hfit, Nat.mod_eq_of_lt hsum, gt_iff_lt]
  refine ⟨trivial, ?_, ?_, ?_⟩
  · split_ifs with hc
    · rw [Nat.mod_eq_of_lt (hcap hc)]; omega
    · omega
  · split_ifs with hc
    · exact Nat.mod_eq_of_lt (hcap hc)
    · rfl
  · intro j hj
    rcases od with _ | o
    · simp only
      rcases hj with hj | hj
      · exact memcpy_of_lt _ _ _ _ _ hj
      · exact memcpy_of_ge _ _ _ _ _ hj
    · simp only
      split_ifs with ho
      · rw [memcpyWrapped_eq ws _ _ _ _ (by omega)]
        rcases hj with hj | hj
        · rw [memcpy_of_lt _ _ _ _ _ (by omega), memcpy_of_lt _ _ _ _ _ hj]
        · rw [memcpy_of_ge _ _ _ _ _ (by omega), memcpy_of_ge _ _ _ _ _ hj]
      · rcases hj with hj | hj
        · exact memcpy_of_lt _ _ _ _ _ hj
        · exact memcpy_of_ge _ _ _ _ _ hj

theorem sizeofADDRESS_R_DEBUG (ws : WordSize) : 2 * sizeofADDRESS ws ≤ R_DEBUG_STRUCT_SIZE ws := by
  cases ws <;> decide

theorem addR_DebugStruct_capacity (ws : WordSize) (w : RawElfWriter) (rd : List Byte)
    (hfit : w.offset + R_DEBUG_STRUCT_SIZE ws < wordMod ws)
    (hcap : w.currentBufferSize < w.offset + R_DEBUG_STRUCT_SIZE ws →
      w.currentBufferSize + (R_DEBUG_STRUCT_SIZE ws + w.offset + LM_BUFFER_DATA_SIZE)
        < wordMod ws) :
    (w.addR_DebugStruct ws (some rd)).2.offset = w.offset + R_DEBUG_STRUCT_SIZE ws ∧
    (w.addR_DebugStruct ws (some rd)).2.offset
      ≤ (w.addR_DebugStruct ws (some rd)).2.currentBufferSize ∧
    (w.addR_DebugStruct ws (some rd)).2.currentBufferSize
      = (if w.currentBufferSize < w.offset + R_DEBUG_STRUCT_SIZE ws
         then w.currentBufferSize + (R_DEBUG_STRUCT_SIZE ws + w.offset + LM_BUFFER_DATA_SIZE)
         else w.currentBufferSize) ∧
    (∀ j, (j < w.offset ∨ w.offset + R_DEBUG_STRUCT_SIZE ws ≤ j) →
      (w.addR_DebugStruct ws (some rd)).2.buffer j = w.buffer j) := by
  have h2 := sizeofADDRESS_R_DEBUG ws
  rw [addR_DebugStruct_eq ws w rd]
  have e1 : (R_DEBUG_STRUCT_SIZE ws + w.offset) % wordMod ws = w.offset + R_DEBUG_STRUCT_SIZE ws := by
    rw [Nat.mod_eq_of_lt (by omega)]; omega
  simp only [Nat.mod_eq_of_lt hfit, e1, gt_iff_lt]
  refine ⟨trivial, ?_, ?_, ?_⟩
  · split_ifs with hc
    · have := hcap hc
      rw [Nat.mod_eq_of_lt (a := R_DEBUG_STRUCT_SIZE ws + w.offset + LM_BUFFER_DATA_SIZE)
        (by omega), Nat.mod_eq_of_lt this]
      omega
    · omega
  · split_ifs with hc
    · have := hcap hc
      rw [Nat.mod_eq_of_lt (a := R_DEBUG_STRUCT_SIZE ws + w.offset + LM_BUFFER_DATA_SIZE)
        (by omega), Nat.mod_eq_of_lt this]
    · rfl
  · intro j hj
    rcases hj with hj | hj
    · rw [memcpy_of_lt _ _ _ _ _ (by omega), memcpy_of_lt _ _ _ _ _ hj]
    · rw [memcpy_of_ge _ _ _ _ _ (by omega), memcpy_of_ge _ _ _ _ _ hj]

theorem addLinkMapSegment_capacity (ws : WordSize) (w : RawElfWriter) (lm : LinkMap)
    (s : Option (List Byte))
    (hfit : w.offset + (sizeofLinkMap ws + strlen (s.getD []) + 1) < wordMod ws)
    (hcap : w.currentBufferSize < w.offset + (sizeofLinkMap ws + strlen (s.getD []) + 1) →
      w.currentBufferSize + (sizeofLinkMap ws + (strlen (s.getD []) + 1) + w.offset
        + LM_BUFFER_DATA_SIZE) < wordMod ws) :
    (w.addLinkMapSegment ws (some lm) s).2.offset
      = w.offset + (sizeofLinkMap ws + strlen (s.getD []) + 1) ∧
    (w.addLinkMapSegment ws (some lm) s).2.offset
      ≤ (w.addLinkMapSegment ws (some lm) s).2.currentBufferSize ∧
    (w.addLinkMapSegment ws (some lm) s).2.currentBufferSize
      = (if w.currentBufferSize < w.offset + (sizeofLinkMap ws + strlen (s.getD []) + 1)
         then w.currentBufferSize + (sizeofLinkMap ws + (strlen (s.getD []) + 1) + w.offset
           + LM_BUFFER_DATA_SIZE)
         else w.currentBufferSize) ∧
    (∀ j, (j < w.offset ∨ w.offset + (sizeofLinkMap ws + strlen (s.getD []) + 1) ≤ j) →
      (w.addLinkMapSegment ws (some lm) s).2.buffer j = w.buffer j) := by
  have hss : stringSizeOf ws s = strlen (s.getD []) + 1 := stringSizeOf_eq ws s (by omega)
  rw [addLinkMapSegment_eq ws w lm s]
  have e1 : (sizeofLinkMap ws + (strlen (s.getD []) + 1) + w.offset) % wordMod ws
      = w.offset + (sizeofLinkMap ws + strlen (s.getD []) + 1) := by
    rw [Nat.mod_eq_of_lt (by omega)]; omega
  have e2 : (w.offset + sizeofLinkMap ws) % wordMod ws = w.offset + sizeofLinkMap ws :=
    Nat.mod_eq_of_lt (by omega)
  have e3 : (w.offset + sizeofLinkMap ws + (strlen (s.getD []) + 1)) % wordMod ws
      = w.offset + (sizeofLinkMap ws + strlen (s.getD []) + 1) := by
    rw [Nat.mod_eq_of_lt (by omega)]; omega
  simp only [hss, e1, e2, e3, gt_iff_lt, Nat.add_sub_cancel]
  refine ⟨trivial, ?_, ?_, ?_⟩
  · split_ifs with hc
    · have := hcap hc
      rw [Nat.mod_eq_of_lt (a := sizeofLinkMap ws + (strlen (s.getD []) + 1) + w.offset
        + LM_BUFFER_DATA_SIZE) (by omega), Nat.mod_eq_of_lt this]
      omega
    · omega
  · split_ifs with hc
    · have := hcap hc
      rw [Nat.mod_eq_of_lt (a := sizeofLinkMap ws + (strlen (s.getD []) + 1) + w.offset
        + LM_BUFFER_DATA_SIZE) (by omega), Nat.mod_eq_of_lt this]
    · rfl
  · intro j hj
    rcases hj with hj | hj
    · rw [memcpy_of_lt _ _ _ _ _ (by omega), memcpy_of_lt _ _ _ _ _ (by omega),
        memcpy_of_lt _ _ _ _ _ hj]
    · rw [memcpy_of_ge _ _ _ _ _ (by omega), memcpy_of_ge _ _ _ _ _ (by omega),
        memcpy_of_ge _ _ _ _ _ (by omega)]

/-- The capacity of the writer where no size wraps.  After `initalize` on a fresh writer and
`copyElfHeader`, when the initial size does not wrap, the cursor stands at
`sizeof(Ehdr) + n * sizeof(Phdr)`, at or below the capacity.  A `copySegment`
that does not return `NULL` was given a header and data and found a free slot;
on a writer with `offset <= currentBufferSize`, when the sizes do not wrap, it
leaves `offset <= currentBufferSize`, the capacity being kept when the data fit
and grown by `p_filesz` when not, and it changes no byte outside
`[offset, offset + p_filesz)`.  `addR_DebugStruct` and `addLinkMapSegment` on a
record leave `offset <= currentBufferSize`, the capacity being kept when the
record fits and grown by the record size plus the cursor plus
`LM_BUFFER_DATA_SIZE` when not, and change no byte outside the range between the
old and the new cursor. -/
theorem writer_capacity_no_wrap (ws : WordSize) :
    (∀ (env : Env) (name : Option String) (n initial : Nat) (hdr : Ehdr) (w : RawElfWriter),
      RawElfWriter.new.initalize ws env name n initial = (true, w) →
      sizeofEhdr ws + n * sizeofPhdr ws + initial < wordMod ws →
      (w.copyElfHeader ws (some hdr)).offset = sizeofEhdr ws + n * sizeofPhdr ws ∧
      (w.copyElfHeader ws (some hdr)).currentBufferSize
        = sizeofEhdr ws + n * sizeofPhdr ws + initial ∧
      (w.copyElfHeader ws (some hdr)).offset ≤ (w.copyElfHeader ws (some hdr)).currentBufferSize) ∧
    (∀ (w : RawElfWriter) (h : Option Phdr) (d od : Option (List Byte)) (oo os : Nat),
      (w.copySegment ws h d od oo os).1 ≠ none →
      ∃ hd dd, h = some hd ∧ d = some dd ∧ w.currentProgramHeader < w.numProgramHeaders) ∧
    (∀ (w : RawElfWriter) (h : Phdr) (d : List Byte) (od : Option (List Byte)) (oo os : Nat),
      w.offset ≤ w.currentBufferSize →
      w.currentProgramHeader < w.numProgramHeaders →
      w.offset + h.p_filesz < wordMod ws →
      (w.currentBufferSize < w.offset + h.p_filesz →
        w.currentBufferSize + h.p_filesz < wordMod ws) →
      oo + os < wordMod ws →
      (w.copySegment ws (some h) (some d) od oo os).1 = some w.offset ∧
      (w.copySegment ws (some h) (some d) od oo os).2.offset = w.offset + h.p_filesz ∧
      (w.copySegment ws (some h) (some d) od oo os).2.offset
        ≤ (w.copySegment ws (some h) (some d) od oo os).2.currentBufferSize ∧
      (w.copySegment ws (some h) (some d) od oo os).2.currentBufferSize
        = (if w.currentBufferSize < w.offset + h.p_filesz then w.currentBufferSize + h.p_filesz
           else w.currentBufferSize) ∧
      (∀ j, (j < w.offset ∨ w.offset + h.p_filesz ≤ j) →
        (w.copySegment ws (some h) (some d) od oo os).2.buffer j = w.buffer j)) ∧
    (∀ (w : RawElfWriter) (rd : List Byte),
      w.offset + R_DEBUG_STRUCT_SIZE ws < wordMod ws →
      (w.currentBufferSize < w.offset + R_DEBUG_STRUCT_SIZE ws →
        w.currentBufferSize + (R_DEBUG_STRUCT_SIZE ws + w.offset + LM_BUFFER_DATA_SIZE)
          < wordMod ws) →
      (w.addR_DebugStruct ws (some rd)).2.offset = w.offset + R_DEBUG_STRUCT_SIZE ws ∧
      (w.addR_DebugStruct ws (some rd)).2.offset
        ≤ (w.addR_DebugStruct ws (some rd)).2.currentBufferSize ∧
      (w.addR_DebugStruct ws (some rd)).2.currentBufferSize
        = (if w.currentBufferSize < w.offset + R_DEBUG_STRUCT_SIZE ws
           then w.currentBufferSize + (R_DEBUG_STRUCT_SIZE ws + w.offset + LM_BUFFER_DATA_SIZE)
           else w.currentBufferSize) ∧
      (∀ j, (j < w.offset ∨ w.offset + R_DEBUG_STRUCT_SIZE ws ≤ j) →
        (w.addR_DebugStruct ws (some rd)).2.buffer j = w.buffer j)) ∧
    (∀ (w : RawElfWriter) (lm : LinkMap) (s : Option (List Byte)),
      w.offset + (sizeofLinkMap ws + strlen (s.getD []) + 1) < wordMod ws →
      (w.currentBufferSize < w.offset + (sizeofLinkMap ws + strlen (s.getD []) + 1) →
        w.currentBufferSize + (sizeofLinkMap ws + (strlen (s.getD []) + 1) + w.offset
          + LM_BUFFER_DATA_SIZE) < wordMod ws) →
      (w.addLinkMapSegment ws (some lm) s).2.offset
        = w.offset + (sizeofLinkMap ws + strlen (s.getD []) + 1) ∧
      (w.addLinkMapSegment ws (some lm) s).2.offset
        ≤ (w.addLinkMapSegment ws (some lm) s).2.currentBufferSize ∧
      (w.addLinkMapSegment ws (some lm) s).2.currentBufferSize
        = (if w.currentBufferSize < w.offset + (sizeofLinkMap ws + strlen (s.getD []) + 1)
           then w.currentBufferSize + (sizeofLinkMap ws + (strlen (s.getD []) + 1) + w.offset
             + LM_BUFFER_DATA_SIZE)
           else w.currentBufferSize) ∧
      (∀ j, (j < w.offset ∨ w.offset + (sizeofLinkMap ws + strlen (s.getD []) + 1) ≤ j) →
        (w.addLinkMapSegment ws (some lm) s).2.buffer j = w.buffer j)) := by
  refine ⟨?_, ?_, ?_, ?_, ?_⟩
  · intro env name n initial hdr w hinit hfit
    obtain ⟨h1, h2⟩ := initalize_copyElfHeader_capacity ws env name n initial hdr w hinit hfit
    exact ⟨h1, h2, by rw [h1, h2]; omega⟩
  · intro w h d od oo os hne
    rcases h with _ | hd
    · exact absurd (by unfold RawElfWriter.copySegment; rfl) hne
    rcases d with _ | dd
    · exact absurd (by unfold RawElfWriter.copySegment; rfl) hne
    refine ⟨hd, dd, rfl, rfl, ?_⟩
    by_contra hfull
    exact hne (copySegment_full_fst ws w _ _ od oo os (by omega))
  · intro w h d od oo os hinv hslot hfit hcap hsum
    exact ⟨copySegment_fst ws w h d od oo os hslot,
      copySegment_capacity ws w h d od oo os hinv hslot hfit hcap hsum⟩
  · intro w rd hfit hcap
    exact addR_DebugStruct_capacity ws w rd hfit hcap
  · intro w lm s hfit hcap
    exact addLinkMapSegment_capacity ws w lm s hfit hcap

set_option maxRecDepth 16384 in
/-- The capacity along the example run: the writer of the dynamic example core
after the initial copies has cursor and capacity 748 in a table of four slots;
`addR_DebugStruct` grows the capacity by `20 + 748 + 512` and moves the cursor
to 768. -/
theorem writer_capacity_example :
    ((exampleLinkMapWriter 134516780).offset, (exampleLinkMapWriter 134516780).currentBufferSize)
      = (748, 748) ∧
    (((exampleLinkMapWriter 134516780).addR_DebugStruct .w32 (some (List.replicate 20 0))).2.offset
        = 748 + 20 ∧
      ((exampleLinkMapWriter 134516780).addR_DebugStruct .w32 (some (List.replicate 20 0))).2.offset
        ≤ ((exampleLinkMapWriter 134516780).addR_DebugStruct .w32
            (some (List.replicate 20 0))).2.currentBufferSize ∧
      ((exampleLinkMapWriter 134516780).addR_DebugStruct .w32
            (some (List.replicate 20 0))).2.currentBufferSize = 748 + (20 + 748 + 512)) :=
  ⟨by decide,
   ((writer_capacity_no_wrap .w32).2.2.2.1 (exampleLinkMapWriter 134516780) (List.replicate 20 0)
      (by decide) (fun _ => by decide)).1,
   ((writer_capacity_no_wrap .w32).2.2.2.1 (exampleLinkMapWriter 134516780) (List.replicate 20 0)
      (by decide) (fun _ => by decide)).2.1,
   (((writer_capacity_no_wrap .w32).2.2.2.1 (exampleLinkMapWriter 134516780) (List.replicate 20 0)
      (by decide) (fun _ => by decide)).2.2.1).trans (by decide)⟩

/-! ## The order of the segment data -/

set_option maxRecDepth 16384 in
/-- The ranges of the example session, in slot order and in the order of the
emitted table: `(p_vaddr, p_offset, p_filesz)` of each header. -/
theorem exampleOps_ranges :
    (applyOps .w32 ((RawElfWriter.new.initalize .w32 exampleEnv (some "core.reduced") 3
        0).2.copyElfHeader .w32 (some zeroEhdr)) exampleOps).programHeaders.map
      (fun ph => (ph.p_vaddr, ph.p_offset, ph.p_filesz))
      = [(3217028096, 148, 4), (134512640, 152, 2), (4, 154, 69)] ∧
    (((applyOps .w32 ((RawElfWriter.new.initalize .w32 exampleEnv (some "core.reduced") 3
        0).2.copyElfHeader .w32 (some zeroEhdr)) exampleOps).write exampleEnv).2.2.map
      (fun out => out.programHeaders.map (fun ph => (ph.p_vaddr, ph.p_offset, ph.p_filesz))))
      = some [(4, 154, 69), (134512640, 152, 2), (3217028096, 148, 4)] := by
  decide

/-! ## The split loop of the extractor -/

theorem occursAt_true_iff (m : Nat → Byte) (pat : List Byte) :
    ∀ k, occursAt m pat k = true ↔ ∀ j, j < pat.length → m (k + j) = pat.getD j 0 := by
  induction pat with
  | nil => intro k; simp [occursAt]
  | cons c pat ih =>
    intro k
    simp only [occursAt, Bool.and_eq_true, beq_iff_eq, ih (k + 1), List.length_cons]
    constructor
    · rintro ⟨h1, h2⟩ j hj
      rcases j with _ | j
      · simpa using h1
      · have := h2 j (by omega)
        rw [show k + (j + 1) = k + 1 + j by omega]
        simpa using this
    · intro h
      refine ⟨by simpa using h 0 (by omega), ?_⟩
      intro j hj
      have := h (j + 1) (by omega)
      rw [show k + (j + 1) = k + 1 + j by omega] at this
      simpa using this

theorem occursAt_false_of_byte (m : Nat → Byte) (pat : List Byte) (k j : Nat)
    (hj : j < pat.length) (hne : m (k + j) ≠ pat.getD j 0) : occursAt m pat k = false := by
  rcases h : occursAt m pat k with _ | _
  · rfl
  · exact absurd ((occursAt_true_iff m pat k).1 h j hj) hne

theorem getD_mem_of_lt (l : List Byte) (i : Nat) (h : i < l.length) : l.getD i 0 ∈ l := by
  rw [List.getD_eq_getElem l 0 h]
  exact List.getElem_mem h

/-- On memory that holds `A ++ pat`, the pattern stands at index `A.length`, and
at no index before it when one of its bytes occurs neither in `A` nor earlier
in the pattern. -/
theorem occursAt_prefix (m : Nat → Byte) (A pat : List Byte) (j0 : Nat)
    (hbuf : ∀ i, i < (A ++ pat).length → m i = (A ++ pat).getD i 0)
    (hj0 : j0 < pat.length) (hA : pat.getD j0 0 ∉ A) (hpre : pat.getD j0 0 ∉ pat.take j0) :
    occursAt m pat A.length = true ∧ ∀ k, k < A.length → occursAt m pat k = false := by
  constructor
  · rw [occursAt_true_iff]
    intro j hj
    rw [hbuf _ (by simp only [List.length_append]; omega),
      List.getD_append_right _ _ _ _ (by omega)]
    congr 1
    omega
  · intro k hk
    apply occursAt_false_of_byte m pat k j0 hj0
    rw [hbuf _ (by simp only [List.length_append]; omega)]
    intro heq
    rcases Nat.lt_or_ge (k + j0) A.length with h1 | h1
    · rw [List.getD_append _ _ _ _ h1] at heq
      exact hA (heq ▸ getD_mem_of_lt A _ h1)
    · rw [List.getD_append_right _ _ _ _ h1] at heq
      have h2 : k + j0 - A.length < (pat.take j0).length := by
        rw [List.length_take]; omega
      have h3 : (pat.take j0).getD (k + j0 - A.length) 0 = pat.getD (k + j0 - A.length) 0 := by
        rw [List.getD_eq_getElem _ 0 h2, List.getD_eq_getElem _ 0 (by omega), List.getElem_take]
      exact hpre (heq ▸ h3 ▸ getD_mem_of_lt _ _ h2)

theorem memcspn_absent (m : Nat → Byte) (cap memlen : Nat) (pat : List Byte)
    (h0 : ∀ b ∈ pat, b ≠ 0) (hb : memlen + pat.length ≤ cap)
    (hno : ∀ k, k < memlen → occursAt m pat k = false) :
    memcspn (some (m, cap)) memlen (some (pat ++ [0])) (pat.length + 1) = some memlen := by
  obtain ⟨j, e, h2, _, h4⟩ := memcspn_spec m cap memlen pat h0 hb
  rw [e]
  congr 1
  rcases Nat.lt_or_ge j memlen with h | h
  · have := h4 h
    rw [hno j h] at this
    cases this
  · omega

theorem Holds.left {m : Nat → Byte} {l l2 : List Byte} (h : Holds m (l ++ l2)) : Holds m l := by
  intro i hi
  rw [h i (by simp only [List.length_append]; omega), List.getD_append _ _ _ _ hi]

theorem Holds.right {m : Nat → Byte} {l l2 : List Byte} (h : Holds m (l ++ l2)) :
    ∀ i, i < l2.length → m (i + l.length) = l2.getD i 0 := by
  intro i hi
  rw [h _ (by simp only [List.length_append]; omega),
    List.getD_append_right _ _ _ _ (by omega)]
  congr 1
  omega

theorem Holds.bufferBytes {m : Nat → Byte} {l : List Byte} (h : Holds m l) :
    bufferBytes m 0 l.length = l :=
  bufferBytes_eq_of_forall m 0 l (fun j hj => by rw [Nat.zero_add]; exact h j hj)

theorem unbuffer_data_holds (st : Extractor) (A B : List Byte)
    (hsize : st.size = ((A ++ B).length : Int)) (hcap : (A ++ B).length ≤ BUFFER_SIZE)
    (hbuf : ∀ i, i < B.length → st.buffer (i + A.length) = B.getD i 0) :
    ∃ st2, st.unbuffer_data (A.length : Int) = some st2 ∧ st2.size = (B.length : Int) ∧
      Holds st2.buffer B ∧ st2.input = st.input ∧ st2.eof = st.eof ∧
      st2.output_file = st.output_file ∧ st2.files = st.files ∧
      st2.discarded = st.discarded := by
  unfold Extractor.unbuffer_data
  simp only [List.length_append, Nat.cast_add] at hsize
  rw [if_neg (by simp only [List.length_append] at hcap; omega)]
  refine ⟨_, rfl, by simp only; omega, ?_, rfl, rfl, rfl, rfl, rfl⟩
  intro i hi
  simp only [Int.toNat_ofNat]
  rw [if_pos (by omega)]
  exact hbuf i hi

/-- C10 (as amended). When the output file opens, the buffer is allocated and
`write` succeeds, every run that comes back stores a file whose `e_phnum` is the
number of header slots reserved by `copyInitalSegmentsToOutput`, in 16 bits, and
whose table has exactly that many entries: the wanted headers (those `initalize`
collected plus one per stack pointer found in the core), plus two in default
mode whether or not a dynamic or a link-map segment is written.  The number of
successful `copySegment` calls is at most that count; the slots left unfilled
stay in the table.  In default mode with one wanted header, the `PT_NOTE` header
that `initalize` stores, and one thread, `e_phnum` is 4 when the stack pointer
of the thread lies in a segment of the core and 3 when it lies in none. -/
theorem C10_e_phnum_counts_reserved_slots (ws : WordSize) (env : Env) (ifaceHeap fuel : Nat)
    (r : Reducer) (stacksOnly : Bool) (mapsFile : Option MapsFile) (name : String)
    (res : Reducer × Option ElfFile)
    (hout : r.output = some name) (hfd : 0 ≤ env.openFd) (hm : env.mallocOk = true)
    (hwr : env.writeOk = true)
    (hrun : Reducer.run ws env ifaceHeap fuel r stacksOnly mapsFile = some res) :
    ∃ (out : ElfFile) (w : RawElfWriter), res.2 = some out ∧ res.1.coreWriter = some w ∧
      out.elfHeader.e_phnum =
        reservedHeaders (r.wantedHeaders.length +
          (locatedStackPointers ws r.coreReader r.stackPointerAddresses).length) stacksOnly
          % 65536 ∧
      out.programHeaders.length =
        reservedHeaders (r.wantedHeaders.length +
          (locatedStackPointers ws r.coreReader r.stackPointerAddresses).length) stacksOnly ∧
      w.currentProgramHeader ≤ out.programHeaders.length ∧
      (∀ sp, r.wantedHeaders.length = 1 → r.stackPointerAddresses = [sp] → stacksOnly = false →
        out.elfHeader.e_phnum
          = if (r.coreReader.getSegmentByAddress ws sp).isSome = true then 4 else 3) := by
  obtain ⟨out, w, h1, h2, h3, h4, h5⟩ :=
    run_header_count ws env ifaceHeap fuel r stacksOnly mapsFile name hout hfd hm hwr res hrun
  refine ⟨out, w, h1, h2, h3, h4, h4 ▸ h5, ?_⟩
  intro sp hw hsp hmode
  rw [h3, hw, hsp, hmode]
  unfold locatedStackPointers reservedHeaders
  by_cases hs : (r.coreReader.getSegmentByAddress ws sp).isSome = true
  · simp [hs]
  · simp [hs]

set_option maxRecDepth 16384 in
/-- Witness of C10: the default-mode run on the example core of a dynamic
executable, in copy mode; its one thread has its stack pointer in the stack
segment and `e_phnum` is 4. -/
theorem C10_e_phnum_counts_reserved_slots_witness :
    ∃ (out : ElfFile) (w : RawElfWriter),
      ((Reducer.run .w32 exampleEnv 0 16
          (exampleReducer (exampleDynamicCore 134516780) exampleDynamicBinary) false none).getD
        (exampleReducer (exampleDynamicCore 134516780) exampleDynamicBinary, none)).2 = some out ∧
      ((Reducer.run .w32 exampleEnv 0 16
          (exampleReducer (exampleDynamicCore 134516780) exampleDynamicBinary) false none).getD
        (exampleReducer (exampleDynamicCore 134516780) exampleDynamicBinary, none)).1.coreWriter
        = some w ∧
      out.programHeaders.length = 4 ∧
      w.currentProgramHeader ≤ out.programHeaders.length ∧
      out.elfHeader.e_phnum = 4 := by
  obtain ⟨out, w, h1, h2, _, h4, h5, h6⟩ := C10_e_phnum_counts_reserved_slots .w32 exampleEnv 0 16
    (exampleReducer (exampleDynamicCore 134516780) exampleDynamicBinary) false none "core.reduced"
    _ rfl (by decide) rfl rfl rfl
  exact ⟨out, w, h1, h2, h4.trans (by decide), h5,
    (h6 3213750432 (by decide) (by decide) rfl).trans (by decide)⟩

set_option maxRecDepth 16384 in
/-- The default-mode run on a core whose one thread has its stack pointer in no
segment: only the notes are copied, `e_phnum` is 3, and the table holds the
`PT_NOTE` header and two `PT_NULL` slots. -/
theorem run_stray_stack_pointer :
    (Reducer.run .w32 exampleEnv 0 16 (exampleReducer strayStackPointerCore exampleStaticBinary)
        false none).map
      (fun res =>
        (res.2.map (fun out =>
            (out.elfHeader.e_phnum, out.programHeaders.map (fun ph => ph.p_type))),
         res.1.coreWriter.map (fun w => w.currentProgramHeader)))
      = some (some (3, [PT_NOTE, PT_NULL, PT_NULL]), some 1) ∧
    (exampleReducer strayStackPointerCore exampleStaticBinary).stackPointerAddresses = [1000000] ∧
    (strayStackPointerCore.getSegmentByAddress .w32 1000000).isSome = false :=
  ⟨rfl, by decide, by decide⟩

/-! ## The maps file and the dynamic segment of the core -/

theorem addLinkMapSegment_table (ws : WordSize) (w : RawElfWriter) (lm : Option LinkMap)
    (s : Option (List Byte)) :
    (w.addLinkMapSegment ws lm s).2.programHeaders = w.programHeaders ∧
    (w.addLinkMapSegment ws lm s).2.currentProgramHeader = w.currentProgramHeader := by
  rcases lm with _ | lm
  · exact ⟨rfl, rfl⟩
  · unfold RawElfWriter.addLinkMapSegment
    simp only
    split_ifs <;> exact ⟨rfl, rfl⟩

theorem addLinkMapSegments_table (ws : WordSize) (items : List LinkMapItem) :
    ∀ w : RawElfWriter,
    (addLinkMapSegments ws w items).programHeaders = w.programHeaders ∧
    (addLinkMapSegments ws w items).currentProgramHeader = w.currentProgramHeader := by
  induction items with
  | nil => intro w; exact ⟨rfl, rfl⟩
  | cons item items ih =>
    intro w
    rw [addLinkMapSegments_cons]
    obtain ⟨h1, h2⟩ := ih (w.addLinkMapSegment ws (some item.1) item.2).2
    obtain ⟨g1, g2⟩ := addLinkMapSegment_table ws w (some item.1) item.2
    exact ⟨h1.trans g1, h2.trans g2⟩

/-- The table after the calls that build a link-map segment, whatever the sizes:
the current slot holds a `PT_LOAD` header at `heapAddress`, readable and writable,
and every other slot is as it was. -/
theorem buildLinkMapSegment_table (ws : WordSize) (w : RawElfWriter) (heap : Nat)
    (rd : List Byte) (items : List LinkMapItem) :
    (buildLinkMapSegment ws w heap rd items).currentProgramHeader = w.currentProgramHeader ∧
    (∀ j, j ≠ w.currentProgramHeader →
      (buildLinkMapSegment ws w heap rd items).programHeaders[j]? = w.programHeaders[j]?) ∧
    (∀ slot, w.programHeaders[w.currentProgramHeader]? = some slot →
      ∃ seg, (buildLinkMapSegment ws w heap rd items).programHeaders[w.currentProgramHeader]?
          = some seg ∧
        seg.p_type = PT_LOAD ∧ seg.p_vaddr = heap ∧ seg.p_flags = PF_R ||| PF_W ∧
        seg.p_align = 1 ∧ seg.p_offset = w.offset) := by
  obtain ⟨t1, t2⟩ := addLinkMapSegments_table ws items
    ((w.startLinkMapSegment heap).addR_DebugStruct ws (some rd)).2
  have e := addR_DebugStruct_eq ws (w.startLinkMapSegment heap) rd
  have ht : ((w.startLinkMapSegment heap).addR_DebugStruct ws (some rd)).2.programHeaders
      = (w.startLinkMapSegment heap).programHeaders := by rw [e]
  have hc : ((w.startLinkMapSegment heap).addR_DebugStruct ws (some rd)).2.currentProgramHeader
      = w.currentProgramHeader := by rw [e]; rfl
  have hs : (w.startLinkMapSegment heap).programHeaders
      = updateSlot w.programHeaders w.currentProgramHeader
          (fun ph => { ph with p_type := PT_LOAD, p_vaddr := heap, p_flags := PF_R ||| PF_W,
                               p_offset := w.offset, p_align := 1 }) := rfl
  rw [ht, hs] at t1
  rw [hc] at t2
  unfold buildLinkMapSegment
  generalize addLinkMapSegments ws ((w.startLinkMapSegment heap).addR_DebugStruct ws
    (some rd)).2 items = v at t1 t2
  have hf : ∀ j, (v.finalizeLinkMapSegment ws).programHeaders[j]?
      = if j = w.currentProgramHeader then
          ((if w.currentProgramHeader = w.currentProgramHeader then
              (w.programHeaders[w.currentProgramHeader]?).map
                (fun ph => { ph with p_type := PT_LOAD, p_vaddr := heap,
                                     p_flags := PF_R ||| PF_W, p_offset := w.offset,
                                     p_align := 1 })
            else w.programHeaders[w.currentProgramHeader]?).map
            (fun ph => { ph with p_filesz := (v.offset + wordMod ws - ph.p_offset) % wordMod ws,
                                 p_memsz := (v.offset + wordMod ws - ph.p_offset) % wordMod ws }))
        else (if j = w.currentProgramHeader then
                (w.programHeaders[w.currentProgramHeader]?).map
                  (fun ph => { ph with p_type := PT_LOAD, p_vaddr := heap,
                                       p_flags := PF_R ||| PF_W, p_offset := w.offset,
                                       p_align := 1 })
              else w.programHeaders[j]?) := by
    intro j
    show (updateSlot v.programHeaders v.currentProgramHeader _)[j]? = _
    rw [updateSlot_getElem?, t1, t2, updateSlot_getElem?, updateSlot_getElem?]
  refine ⟨t2, ?_, ?_⟩
  · intro j hj
    rw [hf, if_neg hj, if_neg hj]
  · intro slot hslot
    rw [hf, if_pos rfl, if_pos rfl, hslot]
    exact ⟨_, rfl, rfl, rfl, rfl, rfl, rfl⟩

theorem createLinkMapInOutputFile_skip (ws : WordSize) (r : Reducer) (start : Nat)
    (soList : List SharedObject) (h : start = 0 ∨ soList = []) :
    Reducer.createLinkMapInOutputFile ws r start (some soList) = some r := by
  unfold Reducer.createLinkMapInOutputFile
  simp only
  rcases h with h | h
  · rw [if_pos h]
  · subst h
    by_cases h0 : start = 0
    · rw [if_pos h0]
    · rw [if_neg h0]
      rcases r.coreWriter with _ | w
      · rfl
      · simp

/-- The copy `copyDynamicSectionInformation` makes of the segment that holds the
dynamic array, when the `d_un` field of the `DT_DEBUG` entry found ends strictly
before the end of the segment's file data. -/
theorem copySegment_dynamic (ws : WordSize) (r : Reducer) (w : RawElfWriter) (S : Phdr)
    (current found : Nat)
    (hslot : w.currentProgramHeader < w.numProgramHeaders)
    (hfind : Reducer.findDtDebug ws r.coreReader.file (r.coreReader.file.length + 1)
      (S.p_offset + (r.dynamicAddressFromExecutable + wordMod ws - S.p_vaddr) % wordMod ws)
      ((r.dynamicAddressFromExecutable + wordMod ws - S.p_vaddr) % wordMod ws)
        = some (current, found))
    (hinside : (current - S.p_offset) + sizeofSWord ws + sizeofADDRESS ws < S.p_filesz)
    (hfilesz : S.p_filesz < wordMod ws)
    (hfit : w.offset + S.p_filesz < wordMod ws) (w1 : RawElfWriter)
    (hw1 : (w.copySegment ws (some S) (r.coreReader.getDataByOffset S.p_offset)
        (some (encodeLE (sizeofADDRESS ws) r.heapAddress))
        ((found + sizeofSWord ws) % wordMod ws) (sizeofADDRESS ws)).2 = w1) :
    w1.programHeaders = w.programHeaders.set w.currentProgramHeader { S with p_offset := w.offset } ∧
    w1.offset = w.offset + S.p_filesz ∧
    w1.currentProgramHeader = w.currentProgramHeader + 1 ∧
    (w1.programHeadersSet = w.programHeadersSet ∧
      w1.previousLinkAddress = w.previousLinkAddress ∧
      w1.currentLinkMapSize = w.currentLinkMapSize) ∧
    bufferWord ws w1.buffer (w.offset + (current - S.p_offset) + sizeofSWord ws)
      = r.heapAddress % wordMod ws ∧
    (∀ i, i < S.p_filesz →
      (i < (current - S.p_offset) + sizeofSWord ws ∨
        (current - S.p_offset) + sizeofSWord ws + sizeofADDRESS ws ≤ i) →
      w1.buffer (w.offset + i) = r.coreReader.file.getD (S.p_offset + i) 0) := by
  obtain ⟨j, e1, e2, e3⟩ := findDtDebug_spec ws _ _ _ _ _ _ hfind
  have hfl := findDtDebug_lt ws _ _ _ _ _ _ (Nat.mod_lt _ (wordMod_pos ws)) hfind
  have hcur : current - S.p_offset
      = (r.dynamicAddressFromExecutable + wordMod ws - S.p_vaddr) % wordMod ws
        + j * sizeofDyn ws := by omega
  have hfound : found = current - S.p_offset := by
    rw [hcur, ← Nat.mod_eq_of_lt hfl, e2]
    exact Nat.mod_eq_of_lt (by omega)
  have hfile : S.p_offset < r.coreReader.file.length := by
    rcases Nat.lt_or_ge current r.coreReader.file.length with h | h
    · omega
    · rw [readWord_of_ge ws _ _ h] at e3; simp [DT_DEBUG] at e3
  have hdata : r.coreReader.getDataByOffset S.p_offset = some (r.coreReader.file.drop S.p_offset) := by
    simp [ElfCoreReader.getDataByOffset, ElfCoreReader.fileSize, hfile]
  have hA : 0 < sizeofADDRESS ws := by cases ws <;> simp [sizeofADDRESS]
  rw [hdata, copySegment_eq ws w S _ _ _ _ hslot] at hw1
  have hguard : ((found + sizeofSWord ws) % wordMod ws + sizeofADDRESS ws) % wordMod ws
      < S.p_filesz := by
    rw [Nat.mod_eq_of_lt (show found + sizeofSWord ws < wordMod ws by omega),
      Nat.mod_eq_of_lt (by omega)]
    omega
  simp only [hguard, if_true] at hw1
  rw [Nat.mod_eq_of_lt (show found + sizeofSWord ws < wordMod ws by omega),
    Nat.mod_eq_of_lt hfit, memcpyWrapped_eq ws _ _ _ _ (by omega)] at hw1
  subst hw1
  refine ⟨rfl, rfl, rfl, ⟨rfl, rfl, rfl⟩, ?_, ?_⟩
  · simp only
    rw [bufferWord_of_encodeLE ws _ _ r.heapAddress]
    intro k hk
    rw [memcpy_of_mem _ _ _ _ _ (by omega) (by omega)]
    congr 1
    omega
  · intro i hi hout
    simp only
    rcases hout with h | h
    · rw [memcpy_of_lt _ _ _ _ _ (by omega), memcpy_of_mem _ _ _ _ _ (by omega) (by omega)]
      simp only [Nat.add_sub_cancel_left, List.getD_eq_getElem?_getD, List.getElem?_drop]
    · rw [memcpy_of_ge _ _ _ _ _ (by omega), memcpy_of_mem _ _ _ _ _ (by omega) (by omega)]
      simp only [Nat.add_sub_cancel_left, List.getD_eq_getElem?_getD, List.getElem?_drop]

/-- C26 (as amended). A maps file and the dynamic segment, on a writer with two
free slots and without wrap.  When the lookup of the executable's dynamic
address finds no segment of the core and the maps file lists at least one
shared object, `copyDynamicSectionInformation` returns, the first free slot
holds the synthetic dynamic segment (every entry but the last with
`d_un = heapVA`, the last one zero), the second holds the link-map segment
synthesised from the maps file, and a walk from the forged `link_map` pointer
visits the head record and one record per shared object.  When the lookup finds
a segment and the scan of it meets no `DT_DEBUG` entry before `DT_NULL`, nothing
is emitted.  When the scan finds a `DT_DEBUG` entry whose `d_un` field ends
strictly before the end of the segment's file data, no synthetic dynamic
segment is emitted: the first free slot holds the header of the original
segment, and the copy holds `heapVA` in that field and the bytes of the
original segment everywhere else; the second free slot holds the link-map
segment synthesised from the maps file when the pointer of the `DT_DEBUG` entry
is not zero and the maps file lists a shared object, and is left as it was when
the pointer is zero or the maps file lists none. -/
theorem C26_maps_file_and_dynamic_segment (ws : WordSize) (fuel : Nat) (r : Reducer)
    (w : RawElfWriter) (slot : Phdr) (soList : List SharedObject)
    (hw : r.coreWriter = some w) (hset : w.programHeadersSet = true)
    (hfree : w.currentProgramHeader + 1 < w.numProgramHeaders)
    (hlen : w.programHeaders.length = w.numProgramHeaders)
    (hslot : w.programHeaders[w.currentProgramHeader + 1]? = some slot)
    (hfresh : w.previousLinkAddress = 0 ∧ w.currentLinkMapSize = 0)
    (hva : r.heapAddress + R_DEBUG_STRUCT_SIZE ws + recordsSize ws (syntheticItems soList)
      < wordMod ws) :
    (r.coreReader.getSegmentByAddress ws r.dynamicAddressFromExecutable = none →
      soList ≠ [] → r.heapAddress ≠ 0 →
      r.dynamicSectionSizeFromExecutable / sizeofDyn ws < 2147483648 →
      w.offset + r.dynamicSectionSizeFromExecutable + R_DEBUG_STRUCT_SIZE ws
        + recordsSize ws (syntheticItems soList) < wordMod ws →
      ∃ w2 : RawElfWriter,
        Reducer.copyDynamicSectionInformation ws fuel r (some soList)
          = some { r with coreWriter := some w2 } ∧
        w2.programHeaders[w.currentProgramHeader]?
          = some { syntheticDynHeader r with p_offset := w.offset } ∧
        w2.programHeaders[w.currentProgramHeader + 1]?
          = some (linkMapHeader slot r.heapAddress
              (w.offset + r.dynamicSectionSizeFromExecutable)
              (R_DEBUG_STRUCT_SIZE ws + recordsSize ws (syntheticItems soList))) ∧
        (∀ j, j + 1 < r.dynamicSectionSizeFromExecutable / sizeofDyn ws →
          bufferWord ws w2.buffer (w.offset + j * sizeofDyn ws + sizeofSWord ws)
            = r.heapAddress) ∧
        (∀ i, (r.dynamicSectionSizeFromExecutable / sizeofDyn ws - 1) * sizeofDyn ws ≤ i →
          i < r.dynamicSectionSizeFromExecutable → w2.buffer (w.offset + i) = 0) ∧
        bufferWord ws w2.buffer
            (w.offset + r.dynamicSectionSizeFromExecutable + sizeofADDRESS ws)
          = r.heapAddress + R_DEBUG_STRUCT_SIZE ws ∧
        walkLinkMap ws w2.buffer
            (linkMapHeader slot r.heapAddress (w.offset + r.dynamicSectionSizeFromExecutable)
              (R_DEBUG_STRUCT_SIZE ws + recordsSize ws (syntheticItems soList)))
            (soList.length + 1) (r.heapAddress + R_DEBUG_STRUCT_SIZE ws)
          = some (recordBases ws (r.heapAddress + R_DEBUG_STRUCT_SIZE ws)
              (syntheticItems soList))) ∧
    (∀ S : Phdr,
      r.coreReader.getSegmentByAddress ws r.dynamicAddressFromExecutable = some S →
      Reducer.findDtDebug ws r.coreReader.file (r.coreReader.file.length + 1)
        (S.p_offset + (r.dynamicAddressFromExecutable + wordMod ws - S.p_vaddr) % wordMod ws)
        ((r.dynamicAddressFromExecutable + wordMod ws - S.p_vaddr) % wordMod ws) = none →
      Reducer.copyDynamicSectionInformation ws fuel r (some soList) = some r) ∧
    (∀ (S : Phdr) (current found : Nat),
      r.coreReader.getSegmentByAddress ws r.dynamicAddressFromExecutable = some S →
      Reducer.findDtDebug ws r.coreReader.file (r.coreReader.file.length + 1)
        (S.p_offset + (r.dynamicAddressFromExecutable + wordMod ws - S.p_vaddr) % wordMod ws)
        ((r.dynamicAddressFromExecutable + wordMod ws - S.p_vaddr) % wordMod ws)
          = some (current, found) →
      (current - S.p_offset) + sizeofSWord ws + sizeofADDRESS ws < S.p_filesz →
      S.p_filesz < wordMod ws →
      w.offset + S.p_filesz + R_DEBUG_STRUCT_SIZE ws + recordsSize ws (syntheticItems soList)
        < wordMod ws →
      ∃ w2 : RawElfWriter,
        Reducer.copyDynamicSectionInformation ws fuel r (some soList)
          = some { r with coreWriter := some w2 } ∧
        w2.programHeaders[w.currentProgramHeader]? = some { S with p_offset := w.offset } ∧
        bufferWord ws w2.buffer (w.offset + (current - S.p_offset) + sizeofSWord ws)
          = r.heapAddress % wordMod ws ∧
        (∀ i, i < S.p_filesz →
          (i < (current - S.p_offset) + sizeofSWord ws ∨
            (current - S.p_offset) + sizeofSWord ws + sizeofADDRESS ws ≤ i) →
          w2.buffer (w.offset + i) = r.coreReader.file.getD (S.p_offset + i) 0) ∧
        (readWord ws r.coreReader.file (current + sizeofSWord ws) = 0 ∨ soList = [] →
          w2.programHeaders[w.currentProgramHeader + 1]? = some slot ∧
          w2.offset = w.offset + S.p_filesz) ∧
        (readWord ws r.coreReader.file (current + sizeofSWord ws) ≠ 0 → soList ≠ [] →
          w2.programHeaders[w.currentProgramHeader + 1]?
            = some (linkMapHeader slot r.heapAddress (w.offset + S.p_filesz)
                (R_DEBUG_STRUCT_SIZE ws + recordsSize ws (syntheticItems soList))) ∧
          bufferWord ws w2.buffer (w.offset + S.p_filesz + sizeofADDRESS ws)
            = r.heapAddress + R_DEBUG_STRUCT_SIZE ws ∧
          walkLinkMap ws w2.buffer
              (linkMapHeader slot r.heapAddress (w.offset + S.p_filesz)
                (R_DEBUG_STRUCT_SIZE ws + recordsSize ws (syntheticItems soList)))
              (soList.length + 1) (r.heapAddress + R_DEBUG_STRUCT_SIZE ws)
            = some (recordBases ws (r.heapAddress + R_DEBUG_STRUCT_SIZE ws)
                (syntheticItems soList)))) := by
  refine ⟨?_, ?_, ?_⟩
  · intro hmiss hne hheap hint hfit
    exact copyDynamicSectionInformation_synthesis ws fuel r w slot soList hw hset hmiss hne hheap
      (by omega) hint hfree hlen hslot hfresh hfit hva
  · intro S hseg hfind
    unfold Reducer.copyDynamicSectionInformation
    simp only [hseg, hfind]
  · intro S current found hseg hfind hinside hfilesz hfit
    have hrun : Reducer.copyDynamicSectionInformation ws fuel r (some soList)
        = Reducer.createLinkMapInOutputFile ws
            { r with coreWriter := some (w.copySegment ws (some S)
                (r.coreReader.getDataByOffset S.p_offset)
                (some (encodeLE (sizeofADDRESS ws) r.heapAddress))
                ((found + sizeofSWord ws) % wordMod ws) (sizeofADDRESS ws)).2 }
            (readWord ws r.coreReader.file (current + sizeofSWord ws)) (some soList) := by
      unfold Reducer.copyDynamicSectionInformation
      simp only [hseg, hfind, hw]
    generalize hw1 : (w.copySegment ws (some S) (r.coreReader.getDataByOffset S.p_offset)
      (some (encodeLE (sizeofADDRESS ws) r.heapAddress))
      ((found + sizeofSWord ws) % wordMod ws) (sizeofADDRESS ws)).2 = w1 at hrun
    obtain ⟨c1, c2, c3, ⟨c4, c5, c6⟩, c7, c8⟩ := copySegment_dynamic ws r w S current found
      (by omega) hfind hinside hfilesz (by omega) w1 hw1
    have hk : w.currentProgramHeader < w.programHeaders.length := by omega
    have hslot1 : w1.programHeaders[w1.currentProgramHeader]? = some slot := by
      rw [c1, c3, List.getElem?_set_ne (by omega), hslot]
    by_cases hskip : readWord ws r.coreReader.file (current + sizeofSWord ws) = 0 ∨ soList = []
    · rw [createLinkMapInOutputFile_skip ws _ _ soList hskip] at hrun
      refine ⟨w1, hrun, by rw [c1, List.getElem?_set_self hk], c7, c8,
        fun _ => ⟨by rw [← c3]; exact hslot1, c2⟩, ?_⟩
      intro h1 h2
      rcases hskip with h | h
      · exact absurd h h1
      · exact absurd h h2
    · have hd : readWord ws r.coreReader.file (current + sizeofSWord ws) ≠ 0 :=
        fun h => hskip (Or.inl h)
      have hne : soList ≠ [] := fun h => hskip (Or.inr h)
      rw [createLinkMapInOutputFile_eq ws { r with coreWriter := some w1 } w1 _ soList rfl
        (by rw [c4]; exact hset) hd hne] at hrun
      have hfit1 : w1.offset + R_DEBUG_STRUCT_SIZE ws + recordsSize ws (syntheticItems soList)
          < wordMod ws := by rw [c2]; exact hfit
      obtain ⟨b1, _, _, _, b5, b6⟩ := buildLinkMapSegment_spec ws w1 r.heapAddress
        (List.replicate (R_DEBUG_STRUCT_SIZE ws) 0) (syntheticItems soList) slot hslot1
        (by rw [c6]; exact hfresh.2) hfit1 hva
      obtain ⟨seg, k1, _, _, _, k5⟩ := buildLinkMapSegment_walk ws w1 r.heapAddress
        (List.replicate (R_DEBUG_STRUCT_SIZE ws) 0) (syntheticItems soList) slot 0 hslot1
        ⟨by rw [c5]; exact hfresh.1, by rw [c6]; exact hfresh.2⟩ hfit1 hva
        (syntheticItems_chainShaped soList hne) (List.cons_ne_nil _ _)
      have hlen1 : w1.currentProgramHeader < w1.programHeaders.length := by
        rw [c1, c3, List.length_set]; omega
      have hseg1 : seg = linkMapHeader slot r.heapAddress (w.offset + S.p_filesz)
          (R_DEBUG_STRUCT_SIZE ws + recordsSize ws (syntheticItems soList)) := by
        rw [b1, List.getElem?_set_self hlen1, c2] at k1
        exact (Option.some.inj k1).symm
      have hA : 0 < sizeofADDRESS ws := by cases ws <;> simp [sizeofADDRESS]
      refine ⟨_, hrun, ?_, ?_, ?_, ?_, ?_⟩
      · show (buildLinkMapSegment ws w1 r.heapAddress _ _).programHeaders[_]? = _
        rw [b1, c3, List.getElem?_set_ne (by omega), c1, List.getElem?_set_self hk]
      · show bufferWord ws (buildLinkMapSegment ws w1 r.heapAddress _ _).buffer _ = _
        rw [bufferWord_congr ws _ w1.buffer _ (fun j _ hj2 => b5 j (by rw [c2]; omega))]
        exact c7
      · intro i hi hout
        show (buildLinkMapSegment ws w1 r.heapAddress _ _).buffer _ = _
        rw [b5 _ (by rw [c2]; omega)]
        exact c8 i hi hout
      · intro h
        exact absurd h hskip
      · intro _ _
        refine ⟨?_, ?_, ?_⟩
        · show (buildLinkMapSegment ws w1 r.heapAddress _ _).programHeaders[_]? = _
          rw [b1, c3, List.getElem?_set_self (by rw [c3] at hlen1; exact hlen1), c2]
        · show bufferWord ws (buildLinkMapSegment ws w1 r.heapAddress _ _).buffer _ = _
          rw [← c2]; exact b6
        · show walkLinkMap ws (buildLinkMapSegment ws w1 r.heapAddress _ _).buffer _ _ _ = _
          rw [← hseg1]
          have e : (syntheticItems soList).length + 0 = soList.length + 1 := by
            simp [syntheticItems, sharedObjectItems_length]
          rw [← e]
          exact k5

set_option maxRecDepth 16384 in
/-- Witness of C26.  The static example core holds no segment at `0x08049000`:
reduced for the dynamic example executable with the maps file of `libc.so` and
`libm.so`, it gets the synthetic dynamic segment of 24 bytes and the link-map
segment.  The dynamic example core holds the segment: with the same maps file
the slot holds the header of the original 96-byte segment, the `d_un` field of
its `DT_DEBUG` entry holds `heapVA = 4`, and the link-map segment follows. -/
theorem C26_maps_file_and_dynamic_segment_witness :
    (∃ w2 : RawElfWriter,
      Reducer.copyDynamicSectionInformation .w32 16 missingDynamicReducer
          (some exampleSharedObjects)
        = some { missingDynamicReducer with coreWriter := some w2 } ∧
      (w2.programHeaders[2]?).map (fun ph => (ph.p_type, ph.p_vaddr, ph.p_filesz, ph.p_flags))
        = some (PT_LOAD, 134516736, 24, PF_R) ∧
      (w2.programHeaders[3]?).map (fun ph => (ph.p_type, ph.p_vaddr, ph.p_filesz, ph.p_flags))
        = some (PT_LOAD, 4, 97, PF_R ||| PF_W)) ∧
    (∃ w2 : RawElfWriter,
      Reducer.copyDynamicSectionInformation .w32 16 (exampleDynamicReducer 134516780)
          (some exampleSharedObjects)
        = some { exampleDynamicReducer 134516780 with coreWriter := some w2 } ∧
      (w2.programHeaders[2]?).map (fun ph => (ph.p_type, ph.p_vaddr, ph.p_filesz, ph.p_flags))
        = some (PT_LOAD, 134516736, 96, PF_R ||| PF_W) ∧
      (w2.programHeaders[3]?).map (fun ph => (ph.p_type, ph.p_vaddr, ph.p_filesz, ph.p_flags))
        = some (PT_LOAD, 4, 97, PF_R ||| PF_W) ∧
      bufferWord .w32 w2.buffer ((exampleLinkMapWriter 134516780).offset + (500 - 492) + 4)
        = 4) := by
  constructor
  · obtain ⟨w2, h1, h2, h3, _⟩ := (C26_maps_file_and_dynamic_segment .w32 16
      missingDynamicReducer (missingDynamicReducer.coreWriter.getD RawElfWriter.new) zeroPhdr
      exampleSharedObjects rfl (by decide) (by decide) (by decide) (by decide) (by decide)
      (by decide)).1 (by decide) (List.cons_ne_nil _ _) (by decide) (by decide) (by decide)
    refine ⟨w2, h1, ?_, ?_⟩
    · have e : (missingDynamicReducer.coreWriter.getD RawElfWriter.new).currentProgramHeader = 2 := by
        decide
      rw [e] at h2
      rw [h2]
      rfl
    · have e : (missingDynamicReducer.coreWriter.getD RawElfWriter.new).currentProgramHeader + 1
          = 3 := by decide
      rw [e] at h3
      rw [h3]
      rfl
  · obtain ⟨w2, h1, h2, h3, _, _, h6⟩ := (C26_maps_file_and_dynamic_segment .w32 16
      (exampleDynamicReducer 134516780) (exampleLinkMapWriter 134516780) zeroPhdr
      exampleSharedObjects rfl (by decide) (by decide) (by decide) (by decide) (by decide)
      (by decide)).2.2 { exampleLoad 134516736 96 with p_offset := 492 } 500 8 (by decide)
      (by decide) (by decide) (by decide) (by decide)
    obtain ⟨h7, _, _⟩ := h6 (by decide) (List.cons_ne_nil _ _)
    refine ⟨w2, h1, ?_, ?_, ?_⟩
    · have e : (exampleLinkMapWriter 134516780).currentProgramHeader = 2 := by decide
      rw [e] at h2
      rw [h2]
      rfl
    · have e : (exampleLinkMapWriter 134516780).currentProgramHeader + 1 = 3 := by decide
      rw [e] at h7
      rw [h7]
      rfl
    · exact h3.trans (by decide)

/-! ## The maps file and an executable without `.dynamic` -/

theorem getNotesLoop_dynamicSize (ws : WordSize) (lay : NoteLayout) (file : List Byte)
    (endPos : Nat) (fuel : Nat) : ∀ (current : Nat) (r : Reducer),
    (Reducer.getNotesLoop ws lay file endPos fuel current r).dynamicSectionSizeFromExecutable
      = r.dynamicSectionSizeFromExecutable := by
  induction fuel with
  | zero =>
    intro current r
    rfl
  | succ fuel ih =>
    intro current r
    unfold Reducer.getNotesLoop
    by_cases hc : current < endPos
    · simp only [hc, if_true]
      by_cases h1 : readU32 file (current + 8) = NT_PRSTATUS
      · simp only [h1, if_true]
        exact ih _ _
      · simp only [h1, if_false]
        by_cases h2 : readU32 file (current + 8) = NT_PRPSINFO
        · simp only [h2, if_true]
          exact ih _ _
        · simp only [h2, if_false]
          by_cases h3 : readU32 file (current + 8) = NT_AUXV
          · simp only [h3, if_true]
            rcases Reducer.auxvScan ws file (file.length + 1)
                (current + sizeofNhdr + align_power ws (readU32 file current) 2) with _ | v
            · exact ih _ _
            · exact ih _ _
          · simp only [h3, if_false]
            exact ih _ _
    · simp [hc]

theorem initalize_no_dynamic_size (ws : WordSize) (lay : NoteLayout) (c : ElfCoreReader)
    (b : BinaryFacts) (output : Option String) (heap : Nat) (r : Reducer)
    (h : Reducer.initalize ws lay (some c) (some b) output heap = some (true, some r))
    (hb : b.dynamicSection = none) : r.dynamicSectionSizeFromExecutable = 0 := by
  unfold Reducer.initalize at h
  simp only at h
  rcases hn : Reducer.getNotes ws lay (Reducer.new c output heap) with ⟨ok, r0⟩
  rw [hn] at h
  cases ok with
  | false => simp at h
  | true =>
    simp only at h
    rcases hp : b.ptPhdr with _ | phdr
    · rw [hp] at h
      simp at h
    · rw [hp, hb] at h
      simp only [Option.some.injEq, Prod.mk.injEq, true_and] at h
      subst h
      unfold Reducer.getNotes at hn
      rcases hseg : (Reducer.new c output heap).coreReader.getSegmentByType PT_NOTE with _ | ns
      · rw [hseg] at hn
        simp at hn
      · rw [hseg] at hn
        simp only at hn
        split_ifs at hn
        · simp at hn
        simp only [Prod.mk.injEq, true_and] at hn
        rw [← hn, getNotesLoop_dynamicSize]
        rfl

theorem getStacks_fold_synthetic (ws : WordSize) (sps : List Nat) : ∀ r : Reducer,
    syntheticDynHeader (sps.foldl (Reducer.getStacksStep ws) r) = syntheticDynHeader r ∧
    (sps.foldl (Reducer.getStacksStep ws) r).heapAddress = r.heapAddress := by
  induction sps with
  | nil =>
    intro r
    exact ⟨rfl, rfl⟩
  | cons sp rest ih =>
    intro r
    rw [List.foldl_cons]
    obtain ⟨h1, h2⟩ := ih (Reducer.getStacksStep ws r sp)
    rw [h1, h2]
    unfold Reducer.getStacksStep
    rcases r.coreReader.getSegmentByAddress ws sp with _ | seg <;> exact ⟨rfl, rfl⟩

/-- The dynamic address and size and the heap address with which
`copyDynamicSectionInformation` is entered in a run. -/
theorem beforeDynamic_synthetic (ws : WordSize) (env : Env) (ifaceHeap : Nat) (r : Reducer)
    (stacksOnly : Bool) :
    syntheticDynHeader (((r.checkHeapAddress ifaceHeap).getStacks ws).copyInitalSegmentsToOutput
        ws env stacksOnly) = syntheticDynHeader r ∧
    (((r.checkHeapAddress ifaceHeap).getStacks ws).copyInitalSegmentsToOutput ws env
        stacksOnly).dynamicSectionSizeFromExecutable = r.dynamicSectionSizeFromExecutable ∧
    (((r.checkHeapAddress ifaceHeap).getStacks ws).copyInitalSegmentsToOutput ws env
        stacksOnly).heapAddress = (r.checkHeapAddress ifaceHeap).heapAddress := by
  have h1 : syntheticDynHeader (r.checkHeapAddress ifaceHeap) = syntheticDynHeader r := by
    unfold Reducer.checkHeapAddress
    split_ifs <;> rfl
  obtain ⟨h2, h3⟩ := getStacks_fold_synthetic ws
    (r.checkHeapAddress ifaceHeap).stackPointerAddresses (r.checkHeapAddress ifaceHeap)
  have h4 : syntheticDynHeader (((r.checkHeapAddress ifaceHeap).getStacks
      ws).copyInitalSegmentsToOutput ws env stacksOnly)
      = syntheticDynHeader ((r.checkHeapAddress ifaceHeap).getStacks ws) ∧
      (((r.checkHeapAddress ifaceHeap).getStacks ws).copyInitalSegmentsToOutput ws env
        stacksOnly).heapAddress = ((r.checkHeapAddress ifaceHeap).getStacks ws).heapAddress := by
    unfold Reducer.copyInitalSegmentsToOutput
    simp only
    split <;> exact ⟨rfl, rfl⟩
  have h5 : syntheticDynHeader (((r.checkHeapAddress ifaceHeap).getStacks
      ws).copyInitalSegmentsToOutput ws env stacksOnly) = syntheticDynHeader r := by
    rw [h4.1]
    unfold Reducer.getStacks
    rw [h2, h1]
  refine ⟨h5, congrArg Phdr.p_filesz h5, ?_⟩
  rw [h4.2]
  unfold Reducer.getStacks
  exact h3

/-- With a maps file and no segment of the core at the executable's dynamic
address, whatever the sizes: `copyDynamicSectionInformation` returns, the first
free slot holds the synthetic dynamic segment, and the second holds a link-map
segment at `heapVA` when `heapVA` is not zero and the maps file lists a shared
object; otherwise no other slot changes. -/
theorem copyDynamicSectionInformation_maps_missing (ws : WordSize) (fuel : Nat) (r : Reducer)
    (w : RawElfWriter) (soList : List SharedObject) (n : Nat)
    (hw : r.coreWriter = some w) (ht : TableReady n w)
    (hslot : w.currentProgramHeader + 1 < n)
    (hmiss : r.coreReader.getSegmentByAddress ws r.dynamicAddressFromExecutable = none)
    (hint : r.dynamicSectionSizeFromExecutable / sizeofDyn ws < 2147483648) :
    ∃ w2 : RawElfWriter,
      Reducer.copyDynamicSectionInformation ws fuel r (some soList)
        = some { r with coreWriter := some w2 } ∧
      TableReady n w2 ∧
      w2.programHeaders[w.currentProgramHeader]?
        = some { syntheticDynHeader r with p_offset := w.offset } ∧
      (r.heapAddress ≠ 0 → soList ≠ [] →
        ∃ seg, w2.programHeaders[w.currentProgramHeader + 1]? = some seg ∧
          seg.p_type = PT_LOAD ∧ seg.p_vaddr = r.heapAddress ∧ seg.p_flags = PF_R ||| PF_W ∧
          seg.p_align = 1) ∧
      (r.heapAddress = 0 ∨ soList = [] →
        w2.programHeaders = w.programHeaders.set w.currentProgramHeader
          { syntheticDynHeader r with p_offset := w.offset }) := by
  obtain ⟨_, hset, _, hlen, hnum⟩ := ht
  have hgen := generateDynamicSectionInformation_eq ws r w hint
  have hcopy : Reducer.copyDynamicSectionInformation ws fuel r (some soList)
      = Reducer.createLinkMapInOutputFile ws
          { r with coreWriter := some (w.copySegment ws (some (syntheticDynHeader r))
              (some (Reducer.syntheticDynEntries ws r.heapAddress
                (r.dynamicSectionSizeFromExecutable / sizeofDyn ws - 1))) none 0 0).2 }
          r.heapAddress (some soList) := by
    unfold Reducer.copyDynamicSectionInformation
    simp only [hmiss, hw, hgen]
  have ht1 : TableReady n (w.copySegment ws (some (syntheticDynHeader r))
      (some (Reducer.syntheticDynEntries ws r.heapAddress
        (r.dynamicSectionSizeFromExecutable / sizeofDyn ws - 1))) none 0 0).2 :=
    tableReady_applyOp ws n w (.copySegment (some (syntheticDynHeader r))
      (some (Reducer.syntheticDynEntries ws r.heapAddress
        (r.dynamicSectionSizeFromExecutable / sizeofDyn ws - 1))) none 0 0)
      ⟨by assumption, hset, by assumption, hlen, hnum⟩
  have heq := copySegment_eq ws w (syntheticDynHeader r)
    (Reducer.syntheticDynEntries ws r.heapAddress
      (r.dynamicSectionSizeFromExecutable / sizeofDyn ws - 1)) none 0 0 (by omega)
  generalize (w.copySegment ws (some (syntheticDynHeader r))
      (some (Reducer.syntheticDynEntries ws r.heapAddress
        (r.dynamicSectionSizeFromExecutable / sizeofDyn ws - 1))) none 0 0).2 = w1
    at hcopy ht1 heq
  have c1 : w1.programHeaders = w.programHeaders.set w.currentProgramHeader
      { syntheticDynHeader r with p_offset := w.offset } := by rw [heq]
  have c3 : w1.currentProgramHeader = w.currentProgramHeader + 1 := by rw [heq]
  have hk : w.currentProgramHeader < w.programHeaders.length := by omega
  by_cases hskip : r.heapAddress = 0 ∨ soList = []
  · rw [createLinkMapInOutputFile_skip ws _ _ soList hskip] at hcopy
    refine ⟨w1, hcopy, ht1, by rw [c1, List.getElem?_set_self hk], ?_, fun _ => c1⟩
    intro h1 h2
    rcases hskip with h | h
    · exact absurd h h1
    · exact absurd h h2
  · have hd : r.heapAddress ≠ 0 := fun h => hskip (Or.inl h)
    have hne : soList ≠ [] := fun h => hskip (Or.inr h)
    rw [createLinkMapInOutputFile_eq ws { r with coreWriter := some w1 } w1 _ soList rfl
      ht1.2.1 hd hne] at hcopy
    obtain ⟨b1, b2, b3⟩ := buildLinkMapSegment_table ws w1 r.heapAddress
      (List.replicate (R_DEBUG_STRUCT_SIZE ws) 0) (syntheticItems soList)
    have hslot1 : ∃ slot, w1.programHeaders[w1.currentProgramHeader]? = some slot := by
      rw [c1, c3, List.getElem?_set_ne (by omega)]
      exact ⟨_, List.getElem?_eq_getElem (by omega)⟩
    obtain ⟨slot, hs⟩ := hslot1
    obtain ⟨seg, g1, g2, g3, g4, g5, _⟩ := b3 slot hs
    refine ⟨_, hcopy, buildLinkMapSegment_preserves ws (TableReady n)
      (fun v op h => tableReady_applyOp ws n v op h) w1 _ _ _ ht1, ?_, ?_, ?_⟩
    · show (buildLinkMapSegment ws w1 r.heapAddress _ _).programHeaders[_]? = _
      rw [b2 _ (by omega), c1, List.getElem?_set_self hk]
    · intro _ _
      refine ⟨seg, ?_, g2, g3, g4, g5⟩
      show (buildLinkMapSegment ws w1 r.heapAddress _ _).programHeaders[_]? = _
      rw [← c3]
      exact g1
    · intro h
      exact absurd h hskip

/-- A default-mode run with a maps file on a core that holds no segment at the
executable's dynamic address: the run comes back with a file whose table holds
the synthetic dynamic segment, and a link-map segment at `heapVA` when `heapVA`
is not zero and the maps file lists a shared object. -/
theorem run_maps_missing (ws : WordSize) (env : Env) (ifaceHeap fuel : Nat) (r : Reducer)
    (soList : List SharedObject) (name : String)
    (hout : r.output = some name) (hfd : 0 ≤ env.openFd) (hm : env.mallocOk = true)
    (hwr : env.writeOk = true)
    (hmiss : r.coreReader.getSegmentByAddress ws r.dynamicAddressFromExecutable = none)
    (hint : r.dynamicSectionSizeFromExecutable / sizeofDyn ws < 2147483648) :
    ∃ (r2 : Reducer) (out : ElfFile),
      Reducer.run ws env ifaceHeap fuel r false (some soList) = some (r2, some out) ∧
      out.programHeaders.length
        = ((r.checkHeapAddress ifaceHeap).getStacks ws).wantedHeaders.length + 2 ∧
      (∃ ph ∈ out.programHeaders, ph = { syntheticDynHeader r with p_offset := ph.p_offset }) ∧
      ((r.checkHeapAddress ifaceHeap).heapAddress ≠ 0 → soList ≠ [] →
        ∃ ph ∈ out.programHeaders, ph.p_type = PT_LOAD ∧
          ph.p_vaddr = (r.checkHeapAddress ifaceHeap).heapAddress ∧
          ph.p_flags = PF_R ||| PF_W ∧ ph.p_align = 1) ∧
      ((r.checkHeapAddress ifaceHeap).heapAddress = 0 ∨ soList = [] →
        CopiedFrom (((r.checkHeapAddress ifaceHeap).getStacks ws).wantedHeaders
          ++ [syntheticDynHeader r]) out.programHeaders) := by
  obtain ⟨a1, _, c1, _, _⟩ := checkHeapAddress_facts r ifaceHeap
  obtain ⟨a2, _, c2, _⟩ := getStacks_fold_facts ws
    (r.checkHeapAddress ifaceHeap).stackPointerAddresses (r.checkHeapAddress ifaceHeap)
  have ho : ((r.checkHeapAddress ifaceHeap).getStacks ws).output = some name := by
    unfold Reducer.getStacks
    rw [c2, c1, hout]
  have hcr : ((r.checkHeapAddress ifaceHeap).getStacks ws).coreReader = r.coreReader := by
    unfold Reducer.getStacks
    rw [a2, a1]
  obtain ⟨a3, _⟩ := copyInitalSegmentsToOutput_facts ws env
    ((r.checkHeapAddress ifaceHeap).getStacks ws) false name ho hfd hm
  obtain ⟨w3, hw3, hs3, hc3, hk3⟩ := copyInitalSegmentsToOutput_table ws env
    ((r.checkHeapAddress ifaceHeap).getStacks ws) false name ho hfd hm
  obtain ⟨s1, s2, s3⟩ := beforeDynamic_synthetic ws env ifaceHeap r false
  have hn : reservedHeaders ((r.checkHeapAddress ifaceHeap).getStacks ws).wantedHeaders.length
      false = ((r.checkHeapAddress ifaceHeap).getStacks ws).wantedHeaders.length + 2 := rfl
  rw [hn] at hs3
  obtain ⟨w2, hcopy, ht2, g1, g2, g3⟩ := copyDynamicSectionInformation_maps_missing ws fuel
    (((r.checkHeapAddress ifaceHeap).getStacks ws).copyInitalSegmentsToOutput ws env false)
    w3 soList _ hw3 hs3.1 (by omega)
    (by rw [a3, hcr, beforeDynamic_dynamicAddress]; exact hmiss) (by rw [s2]; exact hint)
  rw [s1] at g1 g3
  rw [s3] at g2 g3
  have hwrite := write_tableReady env _ w2 ht2 hwr
  have hk : w3.currentProgramHeader < w3.programHeaders.length := by
    rw [hs3.1.2.2.2.1]; omega
  refine ⟨{ ((r.checkHeapAddress ifaceHeap).getStacks ws).copyInitalSegmentsToOutput ws env false
              with coreWriter := some (w2.write env).2.1 },
    { elfHeader := w2.elfHeader, programHeaders := qsort w2.programHeaders,
      bytes := w2.buffer, size := w2.offset }, ?_, ?_, ?_, ?_, ?_⟩
  · unfold Reducer.run
    simp only [Bool.not_false, if_true, hcopy, hwrite]
  · show (qsort w2.programHeaders).length = _
    rw [(qsort_perm w2.programHeaders).length_eq, ht2.2.2.2.1]
  · refine ⟨_, (qsort_perm w2.programHeaders).mem_iff.mpr (List.getElem?_mem g1), rfl⟩
  · intro h1 h2
    obtain ⟨seg, e1, e2, e3, e4, e5⟩ := g2 h1 h2
    exact ⟨seg, (qsort_perm w2.programHeaders).mem_iff.mpr (List.getElem?_mem e1), e2, e3, e4, e5⟩
  · intro h ph hph
    have hmem := (qsort_perm w2.programHeaders).mem_iff.mp hph
    rw [g3 h] at hmem
    rcases List.mem_or_eq_of_mem_set hmem with hold | hnew
    · rcases hc3 ph hold with hz | ⟨h0, hh, e⟩
      · exact Or.inl hz
      · exact Or.inr ⟨h0, List.mem_append_left _ hh, e⟩
    · exact Or.inr ⟨syntheticDynHeader r, List.mem_append_right _ (List.mem_singleton.mpr rfl),
        by rw [hnew]⟩

/-- C11 (as amended). For an executable without `.dynamic` section and a core
that `initalize` accepts, `dynamicAddressFromExecutable` stays 0 and a
default-mode run, the output file opened and written, looks address 0 up in the
core.  When the lookup finds no segment and no maps file is given, or finds a
segment in which the scan for `DT_DEBUG` meets none before `DT_NULL`, the run
copies no dynamic segment and writes no link-map segment: it stores a file
whose table holds, besides two zeroed slots, only copies of the `PT_NOTE` header
and of the narrowed stack headers, and no `copySegment` call succeeds beyond
those.  When the lookup finds no segment and a maps file is given, the phase is
not skipped: the run comes back with a file whose table holds an empty
`PT_LOAD` header at address 0, the synthetic dynamic segment, and, when `heapVA`
is not zero and the maps file lists a shared object, the header of a link-map
segment at `heapVA`; when `heapVA` is zero or the maps file lists no shared
object, the table holds nothing else besides the zeroed slot and the copies. -/
theorem C11_missing_dynamic_skips_phase (ws : WordSize) (lay : NoteLayout) (core : ElfCoreReader)
    (b : BinaryFacts) (name : String) (heap : Nat) (env : Env) (ifaceHeap fuel : Nat)
    (mapsFile : Option MapsFile) (r : Reducer)
    (hinit : Reducer.initalize ws lay (some core) (some b) (some name) heap = some (true, some r))
    (hb : b.dynamicSection = none)
    (hfd : 0 ≤ env.openFd) (hm : env.mallocOk = true) (hwr : env.writeOk = true) :
    ((∀ S, core.getSegmentByAddress ws 0 = some S →
        Reducer.findDtDebug ws core.file (core.file.length + 1) S.p_offset 0 = none) →
      (core.getSegmentByAddress ws 0 = none → mapsFile = none) →
      ∃ (r2 : Reducer) (out : ElfFile) (w : RawElfWriter),
        Reducer.run ws env ifaceHeap fuel r false mapsFile = some (r2, some out) ∧
        r2.coreWriter = some w ∧
        (∀ ph, ph ∈ out.programHeaders →
          ph = zeroPhdr ∨
            ∃ h, NoteOrStack ws lay core h ∧ ph = { h with p_offset := ph.p_offset }) ∧
        out.programHeaders.length
          = 1 + (locatedStackPointers ws core (corePrstatusStackPointers ws lay core)).length
            + 2 ∧
        w.currentProgramHeader
          ≤ 1 + (locatedStackPointers ws core (corePrstatusStackPointers ws lay core)).length) ∧
    (∀ soList : List SharedObject, mapsFile = some soList →
      core.getSegmentByAddress ws 0 = none →
      ∃ (r2 : Reducer) (out : ElfFile),
        Reducer.run ws env ifaceHeap fuel r false mapsFile = some (r2, some out) ∧
        out.programHeaders.length
          = 1 + (locatedStackPointers ws core (corePrstatusStackPointers ws lay core)).length
            + 2 ∧
        (∃ ph ∈ out.programHeaders,
          ph.p_type = PT_LOAD ∧ ph.p_vaddr = 0 ∧ ph.p_filesz = 0 ∧ ph.p_flags = PF_R) ∧
        ((r.checkHeapAddress ifaceHeap).heapAddress ≠ 0 → soList ≠ [] →
          ∃ ph ∈ out.programHeaders, ph.p_type = PT_LOAD ∧
            ph.p_vaddr = (r.checkHeapAddress ifaceHeap).heapAddress ∧
            ph.p_flags = PF_R ||| PF_W ∧ ph.p_align = 1) ∧
        ((r.checkHeapAddress ifaceHeap).heapAddress = 0 ∨ soList = [] →
          ∀ ph, ph ∈ out.programHeaders →
            ph = zeroPhdr ∨
            (∃ h, NoteOrStack ws lay core h ∧ ph = { h with p_offset := ph.p_offset }) ∨
            (ph.p_type = PT_LOAD ∧ ph.p_vaddr = 0 ∧ ph.p_filesz = 0 ∧ ph.p_flags = PF_R))) := by
  obtain ⟨hc, _, ho, hwl, hsp⟩ := initalize_facts ws lay core (some b) (some name) heap r hinit
  have hdyn := initalize_no_dynamic ws lay core b (some name) heap r hinit hb
  have hsize := initalize_no_dynamic_size ws lay core b (some name) heap r hinit hb
  obtain ⟨a1, _, _, d1, e1⟩ := checkHeapAddress_facts r ifaceHeap
  obtain ⟨_, _, _, d2⟩ := getStacks_fold_facts ws
    (r.checkHeapAddress ifaceHeap).stackPointerAddresses (r.checkHeapAddress ifaceHeap)
  have hlen : ((r.checkHeapAddress ifaceHeap).getStacks ws).wantedHeaders.length
      = 1 + (locatedStackPointers ws core (corePrstatusStackPointers ws lay core)).length := by
    unfold Reducer.getStacks
    rw [d2, d1, a1, e1, hwl, hc, hsp]
  have hsyn : ∀ ph : Phdr, ph = { syntheticDynHeader r with p_offset := ph.p_offset } →
      ph.p_type = PT_LOAD ∧ ph.p_vaddr = 0 ∧ ph.p_filesz = 0 ∧ ph.p_flags = PF_R := by
    intro ph e
    rw [e]
    exact ⟨rfl, hdyn, hsize, rfl⟩
  refine ⟨?_, ?_⟩
  · intro hscan hmaps
    exact run_no_dynamic_section ws lay core b name heap env ifaceHeap fuel mapsFile r hinit hb
      hfd hm hwr hscan hmaps
  · intro soList hmf hmiss
    subst hmf
    obtain ⟨r2, out, h1, h2, ⟨ph, hph, e⟩, h4, h5⟩ := run_maps_missing ws env ifaceHeap fuel r
      soList name ho hfd hm hwr (by rw [hc, hdyn]; exact hmiss)
      (by rw [hsize, Nat.zero_div]; decide)
    refine ⟨r2, out, h1, by rw [h2, hlen], ⟨ph, hph, hsyn ph e⟩, h4, ?_⟩
    intro hskip q hq
    rcases h5 hskip q hq with hz | ⟨h, hh, e2⟩
    · exact Or.inl hz
    · rcases List.mem_append.1 hh with hw | hs
      · exact Or.inr (Or.inl ⟨h, wanted_noteOrStack ws lay core (some b) (some name) heap
          ifaceHeap r hinit h hw, e2⟩)
      · rw [List.mem_singleton.1 hs] at e2
        exact Or.inr (Or.inr (hsyn q e2))

set_option maxRecDepth 16384 in
/-- Witness of C11: the static example core, in which the lookup of address 0
finds the `PT_NOTE` header and the scan of the notes meets no `DT_DEBUG`, without
a maps file; and the core that lists its `PT_NOTE` header last, in which the
lookup of address 0 finds no segment, with the maps file of `libc.so` and
`libm.so`. -/
theorem C11_missing_dynamic_skips_phase_witness :
    (∃ (r2 : Reducer) (out : ElfFile) (w : RawElfWriter),
      Reducer.run .w32 exampleEnv 0 16 (exampleReducer exampleStaticCore exampleStaticBinary)
        false none = some (r2, some out) ∧
      r2.coreWriter = some w ∧
      (∀ ph, ph ∈ out.programHeaders →
        ph = zeroPhdr ∨ ∃ h, NoteOrStack .w32 i386Layout exampleStaticCore h ∧
          ph = { h with p_offset := ph.p_offset }) ∧
      out.programHeaders.length
        = 1 + (locatedStackPointers .w32 exampleStaticCore
                (corePrstatusStackPointers .w32 i386Layout exampleStaticCore)).length + 2 ∧
      w.currentProgramHeader
        ≤ 1 + (locatedStackPointers .w32 exampleStaticCore
                (corePrstatusStackPointers .w32 i386Layout exampleStaticCore)).length) ∧
    (∃ (r2 : Reducer) (out : ElfFile),
      Reducer.run .w32 exampleEnv 0 16 (exampleReducer noteLastCore exampleStaticBinary) false
        (some exampleSharedObjects) = some (r2, some out) ∧
      (∃ ph ∈ out.programHeaders,
        ph.p_type = PT_LOAD ∧ ph.p_vaddr = 0 ∧ ph.p_filesz = 0 ∧ ph.p_flags = PF_R) ∧
      (∃ ph ∈ out.programHeaders, ph.p_type = PT_LOAD ∧ ph.p_vaddr = 4 ∧
        ph.p_flags = PF_R ||| PF_W ∧ ph.p_align = 1)) := by
  constructor
  · exact (C11_missing_dynamic_skips_phase .w32 i386Layout exampleStaticCore exampleStaticBinary
      "core.reduced" 0 exampleEnv 0 16 none (exampleReducer exampleStaticCore exampleStaticBinary)
      rfl rfl (by decide) rfl rfl).1
      (by
        intro S hS
        have e : exampleStaticCore.getSegmentByAddress .w32 0
            = some (exampleStaticCore.programHeaders 0) := by decide
        rw [e] at hS
        cases hS
        decide)
      (fun _ => rfl)
  · obtain ⟨r2, out, h1, _, h3, h4, _⟩ := (C11_missing_dynamic_skips_phase .w32 i386Layout
      noteLastCore exampleStaticBinary "core.reduced" 0 exampleEnv 0 16
      (some exampleSharedObjects) (exampleReducer noteLastCore exampleStaticBinary)
      rfl rfl (by decide) rfl rfl).2 exampleSharedObjects rfl (by decide)
    have e : ((exampleReducer noteLastCore exampleStaticBinary).checkHeapAddress 0).heapAddress
        = 4 := by decide
    rw [e] at h4
    exact ⟨r2, out, h1, h3, h4 (by decide) (List.cons_ne_nil _ _)⟩

/-! ## Section lookup after an earlier lookup -/

/-- C16. Section lookup does not always return the first match.  On the example
executable, whose sections `.interp` (index 1) and `.text` (index 2) both have
type `SHT_PROGBITS`, `getSectionByType(SHT_PROGBITS)` on the reader just
initialised returns `.interp`, the first section of that type.  After
`getSectionByName(".text")` the same call returns `.text`: `getSection` tests
the section left in `current` before it scans, and returns it although it is
not the first section of the table that satisfies the query. -/
theorem C16_cached_section_not_first :
    (firstMatchingSection .w32 exampleBinaryReader.strptr (.byType SHT_PROGBITS)
        (exampleBinaryReader.sections.filterMap id) 1).map (fun p => p.1) = some 1 ∧
    (exampleBinaryReader.getSectionByType .w32 SHT_PROGBITS).1.map (fun s => s.index) = some 1 ∧
    (exampleBinaryReader.getSectionByName .w32 (some (asciiBytes ".text"))).1.map
        (fun s => s.index) = some 2 ∧
    ((exampleBinaryReader.getSectionByName .w32 (some (asciiBytes ".text"))).2.getSectionByType
        .w32 SHT_PROGBITS).1.map (fun s => s.index) = some 2 := by
  decide

/-! ## The repeated lookup -/

theorem getSection_cached (ws : WordSize) (b : ElfBinaryReader) (q : SectionQuery)
    (s : CurrentSectionData) (b2 : ElfBinaryReader) (h : b.getSection ws q = (some s, b2)) :
    b2.current = s ∧ ∃ (k : Nat) (sh : Shdr), s.scn = some k ∧
      s.sectionHeader = some sh ∧ q.callback ws b2.strptr sh = true := by
  unfold ElfBinaryReader.getSection at h
  rcases h1 : b.current.scn with _ | k <;> rcases h2 : b.current.sectionHeader with _ | sh <;>
    simp only [h1, h2] at h
  · obtain ⟨a, e, _, k, sh, c1, c2, c3⟩ := scanSections_hit ws q _ _ _ _ _ h
    exact ⟨a, k, sh, c1, c2, by rw [e]; exact c3⟩
  · obtain ⟨a, e, _, k, sh, c1, c2, c3⟩ := scanSections_hit ws q _ _ _ _ _ h
    exact ⟨a, k, sh, c1, c2, by rw [e]; exact c3⟩
  · obtain ⟨a, e, _, k, sh, c1, c2, c3⟩ := scanSections_hit ws q _ _ _ _ _ h
    exact ⟨a, k, sh, c1, c2, by rw [e]; exact c3⟩
  · by_cases hc : q.callback ws b.strptr sh = true
    · rw [if_pos hc] at h
      simp only [Prod.mk.injEq, Option.some.injEq] at h
      obtain ⟨e1, e2⟩ := h
      subst e2
      subst e1
      exact ⟨rfl, k, sh, h1, h2, hc⟩
    · rw [if_neg hc] at h
      obtain ⟨a, e, _, k2, sh2, c1, c2, c3⟩ := scanSections_hit ws q _ _ _ _ _ h
      exact ⟨a, k2, sh2, c1, c2, by rw [e]; exact c3⟩

/-- C17. Repeated section lookup is stable and served from the cache: when a
lookup by name, type or address (the query `q` of `getSection`, to which the
three methods come down) returns a section `s`, the reader keeps `s` in
`current`, the same lookup made again at once returns `s` and leaves the
reader, its cache included, as it was, and it does so whatever the section
table holds at that time, also when it holds no section at all: the answer is
read from `current`, not found by a scan. -/
theorem C17_repeated_lookup_served_from_cache (ws : WordSize) (b b2 : ElfBinaryReader)
    (q : SectionQuery) (s : CurrentSectionData) (h : b.getSection ws q = (some s, b2)) :
    b2.getSection ws q = (some s, b2) ∧
    b2.current = s ∧
    (∀ table : List (Option Shdr),
      ({ b2 with sections := table }).getSection ws q
        = (some s, { b2 with sections := table })) ∧
    (∀ (r : ElfBinaryReader) (address : Nat),
      r.getSectionByAddress ws address = r.getSection ws (.byAddress address)) ∧
    (∀ (r : ElfBinaryReader) (type : Nat),
      r.getSectionByType ws type = r.getSection ws (.byType type)) ∧
    (∀ (r : ElfBinaryReader) (name : List Byte),
      r.getSectionByName ws (some name) = r.getSection ws (.byName name)) := by
  obtain ⟨hcur, k, sh, c1, c2, c3⟩ := getSection_cached ws b q s b2 h
  refine ⟨getSection_repeat ws b q s b2 h, hcur, ?_, fun _ _ => rfl, fun _ _ => rfl,
    fun _ _ => rfl⟩
  intro table
  unfold ElfBinaryReader.getSection
  simp only
  rw [hcur, c1, c2]
  simp only
  rw [if_pos c3]

/-- Witness of C17: the lookup of `.dynamic` on the example executable by type;
the repeated lookup answers section 3 on a reader whose section table is
empty. -/
theorem C17_repeated_lookup_served_from_cache_witness :
    exampleBinaryReader.getSection .w32 (.byType SHT_DYNAMIC)
      = (some { sectionHeader := some { sh_name := 15, sh_type := SHT_DYNAMIC,
                                        sh_addr := 134516736, sh_size := 24 },
                scn := some 3, index := 3 },
         (exampleBinaryReader.getSectionByType .w32 SHT_DYNAMIC).2) ∧
    ({ (exampleBinaryReader.getSectionByType .w32 SHT_DYNAMIC).2 with
        sections := [] }).getSection .w32 (.byType SHT_DYNAMIC)
      = (some { sectionHeader := some { sh_name := 15, sh_type := SHT_DYNAMIC,
                                        sh_addr := 134516736, sh_size := 24 },
                scn := some 3, index := 3 },
         { (exampleBinaryReader.getSectionByType .w32 SHT_DYNAMIC).2 with sections := [] }) ∧
    ElfBinaryReader.scanSections .w32 (.byType SHT_DYNAMIC)
        { (exampleBinaryReader.getSectionByType .w32 SHT_DYNAMIC).2 with sections := [] } [] 1
      = (none, { (exampleBinaryReader.getSectionByType .w32 SHT_DYNAMIC).2 with
                  sections := [] }) :=
  ⟨rfl,
   (C17_repeated_lookup_served_from_cache .w32 exampleBinaryReader
      (exampleBinaryReader.getSectionByType .w32 SHT_DYNAMIC).2 (.byType SHT_DYNAMIC) _ rfl).2.2.1
      [],
   rfl⟩

/-! ## The overwrite guard of `copySegment` where the sum wraps -/

set_option maxRecDepth 16384 in
/-- C35. The overwrite bound of `copySegment` does not hold where
`overwriteOffset + overwriteSize` wraps round `size_t`.  On the example writer,
which holds a first segment `1 2 3 4` at 116 and has its cursor at 120, the
segment `5 6 7 8` is copied with the overwrite data `170 187`,
`overwriteOffset = 0xFFFFFFFF` and `overwriteSize = 2`: the sum is not below
`p_filesz = 4`, yet the guard, which sees the sum 1, lets the overwrite through;
the call reports success, the byte before the segment, the last one of the
first segment, becomes 170, and the first byte of the segment becomes 187.  The
same call without overwrite data leaves `1 2 3 4 5 6 7 8`. -/
theorem C35_overwrite_guard_wraps :
    (exampleSegmentWriter.offset, exampleSegmentWriter.currentProgramHeader,
      exampleSegmentWriter.numProgramHeaders) = (120, 1, 2) ∧
    ¬ (4294967295 + 2 < (exampleLoad 8192 4).p_filesz) ∧
    (exampleSegmentWriter.copySegment .w32 (some (exampleLoad 8192 4)) (some [5, 6, 7, 8])
        (some [170, 187]) 4294967295 2).1 = some 120 ∧
    (List.range 8).map (fun i =>
      (exampleSegmentWriter.copySegment .w32 (some (exampleLoad 8192 4)) (some [5, 6, 7, 8])
        (some [170, 187]) 4294967295 2).2.buffer (116 + i)) = [1, 2, 3, 170, 187, 6, 7, 8] ∧
    (List.range 8).map (fun i =>
      (exampleSegmentWriter.copySegment .w32 (some (exampleLoad 8192 4)) (some [5, 6, 7, 8])
        none 0 0).2.buffer (116 + i)) = [1, 2, 3, 4, 5, 6, 7, 8] :=
  ⟨by decide, by decide, by decide, by decide, by decide⟩

/-! ## Bytes written outside the capacity -/

set_option maxRecDepth 16384 in
/-- C38. The capacity invariant does not cover the overwrite of `copySegment`.
On a 32-bit writer after `initalize` and `copyElfHeader` with two header slots
(cursor 116, capacity 122), a segment of four bytes is copied with 257 bytes of
overwrite data, `overwriteOffset = 0xFFFFFF00` and `overwriteSize = 257`: the
sum wraps to 1, the guard lets the overwrite through, the call reports success
and leaves `offset = 120 <= currentBufferSize = 122`, and the copy starts at
`writePointer + 0xFFFFFF00`, 140 bytes in front of the buffer: the offsets
`0xFFFFFF74` to `0xFFFFFFFF` from its start, none of them inside the capacity,
are written, and the copy goes on over the start of the buffer up to the first
byte of the segment. -/
theorem C38_overwrite_outside_capacity :
    (((RawElfWriter.new.initalize .w32 exampleEnv (some "core.reduced") 2 6).2.copyElfHeader .w32
        (some zeroEhdr)).offset,
     ((RawElfWriter.new.initalize .w32 exampleEnv (some "core.reduced") 2 6).2.copyElfHeader .w32
        (some zeroEhdr)).currentBufferSize) = (116, 122) ∧
    ((((RawElfWriter.new.initalize .w32 exampleEnv (some "core.reduced") 2 6).2.copyElfHeader .w32
        (some zeroEhdr)).copySegment .w32 (some (exampleLoad 4096 4)) (some [1, 2, 3, 4])
        (some (List.replicate 257 9)) 4294967040 257).1,
     (((RawElfWriter.new.initalize .w32 exampleEnv (some "core.reduced") 2 6).2.copyElfHeader .w32
        (some zeroEhdr)).copySegment .w32 (some (exampleLoad 4096 4)) (some [1, 2, 3, 4])
        (some (List.replicate 257 9)) 4294967040 257).2.offset,
     (((RawElfWriter.new.initalize .w32 exampleEnv (some "core.reduced") 2 6).2.copyElfHeader .w32
        (some zeroEhdr)).copySegment .w32 (some (exampleLoad 4096 4)) (some [1, 2, 3, 4])
        (some (List.replicate 257 9)) 4294967040 257).2.currentBufferSize)
      = (some 116, 120, 122) ∧
    [4294967156, 4294967295, 116, 117].map (fun i =>
      (((RawElfWriter.new.initalize .w32 exampleEnv (some "core.reduced") 2 6).2.copyElfHeader .w32
        (some zeroEhdr)).buffer i,
       (((RawElfWriter.new.initalize .w32 exampleEnv (some "core.reduced") 2 6).2.copyElfHeader
        .w32 (some zeroEhdr)).copySegment .w32 (some (exampleLoad 4096 4)) (some [1, 2, 3, 4])
        (some (List.replicate 257 9)) 4294967040 257).2.buffer i))
      = [(0, 9), (0, 9), (0, 9), (0, 2)] ∧
    ¬ (4294967156 < 122) :=
  ⟨by decide, by decide, by decide, by decide⟩

/-! ## Segment data under the calling discipline -/

theorem Splittable.drop {fopenOk : List Byte → Bool} {dir : List Byte} {long : Bool}
    {P : List Byte} {segs : List (List Byte × List Byte)}
    (h : Splittable fopenOk dir long P segs) (c : Nat) :
    Splittable fopenOk dir long (P.drop c) segs := by
  rcases segs with _ | ⟨f, rest⟩
  · refine ⟨fun hi => h.1 (hi.trans (List.drop_suffix _ _).isInfix), ?_⟩
    intro k hk hs
    exact h.2 k hk (hs.trans (List.drop_suffix _ _))
  · refine ⟨fun hi => h.1 (hi.trans (List.drop_suffix _ _).isInfix), ?_, h.2.2⟩
    intro hi
    apply h.2.1
    apply hi.trans
    refine ⟨P.take c, [], ?_⟩
    rw [List.append_nil, ← List.append_assoc, List.take_append_drop]

end RichCore
